import Mathlib

/-!
# FAT filesystem reader: allocation table decoding, version classification,
# cluster chain resolution, boot sector and directory tree

A shallow embedding of `file_system/file_allocation_table.c`,
`file_system/file_system_tools.c`, `file_system/boot_sector.c`,
`file_system/directory.c`, `storage_device/device_interface.c` and `readfat.c`.

* `uint32_t` values are natural numbers; every operation that can wrap is
  reduced modulo 2^32 (`add32`, `sub32`, `mul32`).
* Unsigned division by zero, and a loop that does not finish within the step
  budget it is given, are outcomes of a run (`Fault`); functions that can hit
  one return `Except Fault _`.
* A C pointer into a buffer (`uint8_t*`, `uint32_t*`) is the map from cell
  index to cell content; a store through the pointer is `store`.
* Whether `char` is signed is left to the compiler by the C standard; the
  functions that convert a `char` take it as the parameter `charSigned`.
* The storage device is the list of the bytes of the image file; `malloc`
  succeeds and the memory it returns holds zeros.
* A wide string is the list of the cells of its array; `wcslen` and `wcscat`
  fail with `outOfBounds` when they would leave the array.
* The block of `MAX_ENTRIES_PER_VFAT_SEQUENCE` raw entries that
  `parseDirectoryEntries` allocates is bounds-checked in the same way: a copy
  into a slot at or above 21 is the fault `outOfBounds`.
-/

namespace FatReader

/-! ## Outcomes of a run -/

/-- Ways in which a run of the C code ends without a value. -/
inductive Fault where
  /-- An unsigned division whose divisor is zero. -/
  | divisionByZero
  /-- The loop is still running after the step budget is used up. -/
  | outOfFuel
  /-- The process was ended by `handleError` (`exit(1)`). -/
  | exited
  /-- A variable is read that no path has assigned. -/
  | uninitialized
  /-- A cell outside the allocated array is read or written. -/
  | outOfBounds
  deriving DecidableEq, Repr

deriving instance DecidableEq for Except

/-! ## 32-bit unsigned arithmetic -/

/-- Sum of two `uint32_t`. -/
def add32 (a b : Nat) : Nat := (a + b) % 4294967296

/-- Difference of two `uint32_t` (wraps below zero). -/
def sub32 (a b : Nat) : Nat := (a % 4294967296 + (4294967296 - b % 4294967296)) % 4294967296

/-- Product of two `uint32_t`. -/
def mul32 (a b : Nat) : Nat := (a * b) % 4294967296

/-- Quotient of two `uint32_t`; the divisor must not be zero. -/
def div32 (a b : Nat) : Except Fault Nat :=
  if b = 0 then .error .divisionByZero else .ok (a / b)

/-- A store `p[i] = v` through a pointer `p`. -/
def store (p : Nat → Nat) (i v : Nat) : Nat → Nat :=
  fun k => if k = i then v else p k

/-! ## Boot sector (`boot_sector.h`) -/

/-- The decoded boot sector, `boot_sect_t`. -/
structure boot_sect_t where
  jumpCode : List Nat := []
  oemName : List Nat := []
  bytesPerSector : Nat := 0
  sectorsPerCluster : Nat := 0
  numReservedSectors : Nat := 0
  numFATs : Nat := 0
  numRootEntries_FAT12 : Nat := 0
  numSectors_FAT12 : Nat := 0
  mediaDescriptorType : Nat := 0
  sectorsPerFAT_FAT12 : Nat := 0
  sectorsPerTrack : Nat := 0
  numHeads : Nat := 0
  numHiddenSectors : Nat := 0
  numSectors_FAT32 : Nat := 0
  sectorsPerFAT_FAT32 : Nat := 0
  mirrorFlags_FAT32 : Nat := 0
  filesystemVersion_FAT32 : Nat := 0
  rootClusterNumber_FAT32 : Nat := 0
  filesystemInformationSectorNumber_FAT32 : Nat := 0
  backupBootSectorNumber_FAT32 : Nat := 0
  reserved1_FAT32 : List Nat := []
  driveNumber_FAT32 : Nat := 0
  reserved2_FAT32 : List Nat := []
  extendedSignature_FAT32 : Nat := 0
  partitionSerialNumber_FAT32 : Nat := 0
  volumeLabel_FAT32 : List Nat := []
  filesystemType_FAT32 : List Nat := []
  restOfBootSector : List Nat := []
  deriving DecidableEq, Repr

/-! ## Version classification (`file_system_tools.c`) -/

/-- The constant `FAT12` of `file_system_tools.h`. -/
@[reducible] def FAT12 : Nat := 12
/-- The constant `FAT16` of `file_system_tools.h`. -/
@[reducible] def FAT16 : Nat := 16
/-- The constant `FAT32` of `file_system_tools.h`. -/
@[reducible] def FAT32 : Nat := 32

/-- Part 1 of `getFatVersion`: the number of clusters in the data area
(the local `numClustersData`). -/
def numClustersData (bootSector : boot_sect_t) : Except Fault Nat := do
  let numSectorsTotal :=
    if bootSector.numSectors_FAT12 = 0 then bootSector.numSectors_FAT32
    else bootSector.numSectors_FAT12
  let sectorsPerFAT :=
    if bootSector.sectorsPerFAT_FAT12 = 0 then bootSector.sectorsPerFAT_FAT32
    else bootSector.sectorsPerFAT_FAT12
  let numSectorsReserved := bootSector.numReservedSectors
  let numSectorsFATs := mul32 bootSector.numFATs sectorsPerFAT
  let numSectorsRoot ←
    div32 (mul32 bootSector.numRootEntries_FAT12 32) bootSector.bytesPerSector
  let numSectorsData :=
    sub32 (sub32 (sub32 numSectorsTotal numSectorsReserved) numSectorsFATs) numSectorsRoot
  div32 numSectorsData bootSector.sectorsPerCluster

/-- Part 2 of `getFatVersion`: the version for a data-area cluster count. -/
def classifyClusterCount (numClustersData : Nat) : Nat :=
  if numClustersData < 4085 then FAT12
  else if numClustersData < 65525 then FAT16
  else FAT32

/-- The function `getFatVersion`. -/
def getFatVersion (bootSector : boot_sect_t) : Except Fault Nat := do
  let n ← numClustersData bootSector
  return classifyClusterCount n

/-- The function `isValidClusterNumber`; the C result 1 is `true`, 0 is `false`. -/
def isValidClusterNumber (clusterNumber : Nat) (bootSector : boot_sect_t) :
    Except Fault Bool := do
  let version ← getFatVersion bootSector
  if version = FAT12 then
    if clusterNumber ≠ 0x000 ∧ clusterNumber ≠ 0x001 ∧
       clusterNumber ≠ 0xff8 ∧ clusterNumber ≠ 0xff9 ∧
       clusterNumber ≠ 0xffa ∧ clusterNumber ≠ 0xffb ∧
       clusterNumber ≠ 0xffc ∧ clusterNumber ≠ 0xffd ∧
       clusterNumber ≠ 0xffe ∧ clusterNumber ≠ 0xfff then
      return true
    else
      return false
  else if version = FAT32 then
    if clusterNumber ≥ bootSector.rootClusterNumber_FAT32 ∧
       clusterNumber ≠ 0x00000ff8 ∧ clusterNumber ≠ 0x00000ff9 ∧
       clusterNumber ≠ 0x00000ffa ∧ clusterNumber ≠ 0x00000ffb ∧
       clusterNumber ≠ 0x00000ffc ∧ clusterNumber ≠ 0x00000ffd ∧
       clusterNumber ≠ 0x00000ffe ∧ clusterNumber ≠ 0x00000fff ∧
       clusterNumber ≠ 0x0000fff8 ∧ clusterNumber ≠ 0x0000fff9 ∧
       clusterNumber ≠ 0x0000fffa ∧ clusterNumber ≠ 0x0000fffb ∧
       clusterNumber ≠ 0x0000fffc ∧ clusterNumber ≠ 0x0000fffd ∧
       clusterNumber ≠ 0x0000fffe ∧ clusterNumber ≠ 0x0000ffff ∧
       clusterNumber ≠ 0x0fffffff then
      return true
    else
      return false
  else
    return false

/-! ## Allocation table decoding (`file_allocation_table.c`) -/

/-- The function `getNumFATEntries`. -/
def getNumFATEntries (bootSector : boot_sect_t) : Except Fault Nat := do
  let version ← getFatVersion bootSector
  if version = FAT12 then
    div32 bootSector.numSectors_FAT12 bootSector.sectorsPerCluster
  else if version = FAT32 then
    div32 bootSector.numSectors_FAT32 bootSector.sectorsPerCluster
  else
    return 0

/-- The combined 24-bit value that the FAT12 loop builds from the three bytes
at `byteNumber`. -/
def combined24BitValue (fileAllocationTableRaw : Nat → Nat) (byteNumber : Nat) : Nat :=
  (fileAllocationTableRaw (add32 byteNumber 2) <<< 16) |||
  (fileAllocationTableRaw (add32 byteNumber 1) <<< 8) |||
  (fileAllocationTableRaw (add32 byteNumber 0) <<< 0)

/-- The `while` loop of `translateFileAllocationTable_FAT12`, one test of the
loop condition per unit of fuel. -/
def translateLoop_FAT12 (numFATEntries : Nat) (fileAllocationTableRaw : Nat → Nat) :
    Nat → Nat → Nat → (Nat → Nat) → Except Fault (Nat → Nat)
  | 0, _, _, _ => .error .outOfFuel
  | fuel + 1, byteNumber, entryNumber, fileAllocationTable =>
    if entryNumber < numFATEntries then
      let combined := combined24BitValue fileAllocationTableRaw byteNumber
      let table1 := store fileAllocationTable entryNumber (combined % 4096)
      let table2 := store table1 (add32 entryNumber 1) (combined / 4096)
      translateLoop_FAT12 numFATEntries fileAllocationTableRaw fuel
        (add32 byteNumber 3) (add32 entryNumber 2) table2
    else
      .ok fileAllocationTable

/-- The function `translateFileAllocationTable_FAT12`: the table the pointer
`fileAllocationTable` addresses after the call. -/
def translateFileAllocationTable_FAT12 (fuel : Nat) (bootSector : boot_sect_t)
    (fileAllocationTable : Nat → Nat) (fileAllocationTableRaw : Nat → Nat) :
    Except Fault (Nat → Nat) := do
  let numFATEntries ← getNumFATEntries bootSector
  translateLoop_FAT12 numFATEntries fileAllocationTableRaw fuel 0 0 fileAllocationTable

/-- The value the FAT32 loop stores for the four bytes at `byteNumber`. -/
def entryValue_FAT32 (fileAllocationTableRaw : Nat → Nat) (byteNumber : Nat) : Nat :=
  ((fileAllocationTableRaw (add32 byteNumber 3) &&& 0b00001111) <<< 24) |||
  ((fileAllocationTableRaw (add32 byteNumber 2) &&& 0b11111111) <<< 16) |||
  ((fileAllocationTableRaw (add32 byteNumber 1) &&& 0b11111111) <<< 8) |||
  ((fileAllocationTableRaw (add32 byteNumber 0) &&& 0b11111111) <<< 0)

/-- The `while` loop of `translateFileAllocationTable_FAT32`, one test of the
loop condition per unit of fuel. -/
def translateLoop_FAT32 (numFATEntries : Nat) (fileAllocationTableRaw : Nat → Nat) :
    Nat → Nat → Nat → (Nat → Nat) → Except Fault (Nat → Nat)
  | 0, _, _, _ => .error .outOfFuel
  | fuel + 1, byteNumber, entryNumber, fileAllocationTable =>
    if entryNumber < numFATEntries then
      let table1 := store fileAllocationTable entryNumber
        (entryValue_FAT32 fileAllocationTableRaw byteNumber)
      translateLoop_FAT32 numFATEntries fileAllocationTableRaw fuel
        (add32 byteNumber 4) (add32 entryNumber 1) table1
    else
      .ok fileAllocationTable

/-- The function `translateFileAllocationTable_FAT32`: the table the pointer
`fileAllocationTable` addresses after the call. -/
def translateFileAllocationTable_FAT32 (fuel : Nat) (bootSector : boot_sect_t)
    (fileAllocationTable : Nat → Nat) (fileAllocationTableRaw : Nat → Nat) :
    Except Fault (Nat → Nat) := do
  let numFATEntries ← getNumFATEntries bootSector
  translateLoop_FAT32 numFATEntries fileAllocationTableRaw fuel 0 0 fileAllocationTable

/-! ## Cluster chains (`file_system_tools.c`)

The allocation table `uint32_t* fileAllocationTable` is the map from cluster
number to link value. -/

/-- The function `hasNext`. -/
def hasNext (clusterNumber : Nat) (bootSector : boot_sect_t)
    (fileAllocationTable : Nat → Nat) : Except Fault Bool := do
  let valid ← isValidClusterNumber clusterNumber bootSector
  if valid = false then
    return false
  else
    let nextCluster := fileAllocationTable clusterNumber
    isValidClusterNumber nextCluster bootSector

/-- The `while (hasNext(...))` loop of `getClusterSequenceLength`, one test of
the loop condition per unit of fuel. -/
def lengthLoop (bootSector : boot_sect_t) (fileAllocationTable : Nat → Nat) :
    Nat → Nat → Nat → Except Fault Nat
  | 0, _, _ => .error .outOfFuel
  | fuel + 1, numClusters, currentCluster => do
    let more ← hasNext currentCluster bootSector fileAllocationTable
    if more = true then
      lengthLoop bootSector fileAllocationTable fuel
        (add32 numClusters 1) (fileAllocationTable currentCluster)
    else
      return numClusters

/-- The function `getClusterSequenceLength`. -/
def getClusterSequenceLength (fuel : Nat) (firstCluster : Nat) (bootSector : boot_sect_t)
    (fileAllocationTable : Nat → Nat) : Except Fault Nat := do
  let valid ← isValidClusterNumber firstCluster bootSector
  if valid = false then
    return 0
  else
    lengthLoop bootSector fileAllocationTable fuel 1 firstCluster

/-- The `while (clusterCount < *numClusters)` loop of `getClusterSequence`, one
test of the loop condition per unit of fuel; the result is the array
`clusterSequence` after the loop. -/
def sequenceLoop (fileAllocationTable : Nat → Nat) (numClusters : Nat) :
    Nat → Nat → Nat → (Nat → Nat) → Except Fault (Nat → Nat)
  | 0, _, _, _ => .error .outOfFuel
  | fuel + 1, clusterCount, clusterNumber, clusterSequence =>
    if clusterCount < numClusters then
      let sequence1 := store clusterSequence clusterCount clusterNumber
      let nextNumber :=
        if clusterCount < sub32 numClusters 1 then fileAllocationTable clusterNumber
        else clusterNumber
      sequenceLoop fileAllocationTable numClusters fuel
        (add32 clusterCount 1) nextNumber sequence1
    else
      .ok clusterSequence

/-- The function `getClusterSequence`: the cells `0 .. numClusters - 1` of the
array it returns, paired with the value it leaves in `*numClusters`.  The
allocation itself is taken to succeed. -/
def getClusterSequence (fuel : Nat) (firstCluster : Nat) (bootSector : boot_sect_t)
    (fileAllocationTable : Nat → Nat) : Except Fault (List Nat × Nat) := do
  let numClusters ← getClusterSequenceLength fuel firstCluster bootSector fileAllocationTable
  let clusterSequence ←
    sequenceLoop fileAllocationTable numClusters fuel 0 firstCluster (fun _ => 0)
  return ((List.range numClusters).map clusterSequence, numClusters)

/-! ## Notions used to state the properties -/

/-- A byte buffer: every cell holds a `uint8_t`. -/
def IsByteBuffer (buffer : Nat → Nat) : Prop := ∀ k, buffer k < 256

/-- A table of `uint32_t` cells. -/
def IsTable32 (table : Nat → Nat) : Prop := ∀ k, table k < 4294967296

/-- The number of valid link values met when following the table from
`cluster`, before the first link value that is not a valid cluster number;
at most `fuel` links are followed. -/
def validLinksWalked (bootSector : boot_sect_t) (fileAllocationTable : Nat → Nat) :
    Nat → Nat → Nat
  | 0, _ => 0
  | fuel + 1, cluster =>
    if isValidClusterNumber (fileAllocationTable cluster) bootSector = .ok true then
      validLinksWalked bootSector fileAllocationTable fuel (fileAllocationTable cluster) + 1
    else 0

/-- Whether `isValidClusterNumber` returns 1 for the cluster number. -/
def validCluster (bootSector : boot_sect_t) (clusterNumber : Nat) : Bool :=
  decide (isValidClusterNumber clusterNumber bootSector = .ok true)

/-- The first `count` clusters met when following the table from `cluster`:
`cluster`, its link, the link of its link, and so on. -/
def walk (fileAllocationTable : Nat → Nat) (cluster count : Nat) : List Nat :=
  (List.range count).map (fun j => fileAllocationTable^[j] cluster)

/-- A run that ends, with a value or by a fault of the code, within some step
budget. -/
def Terminates {α : Type} (run : Nat → Except Fault α) : Prop :=
  ∃ fuel, run fuel ≠ .error .outOfFuel

/-! ## Sample volumes -/

/-- A 1.44 MB floppy: 2880 sectors of 512 bytes, one sector per cluster. -/
def floppy : boot_sect_t :=
  { bytesPerSector := 512, sectorsPerCluster := 1, numReservedSectors := 1, numFATs := 2,
    numRootEntries_FAT12 := 224, numSectors_FAT12 := 2880, sectorsPerFAT_FAT12 := 9 }

/-- A volume of 100000 sectors whose root directory starts at cluster 2. -/
def largeVolume : boot_sect_t :=
  { bytesPerSector := 512, sectorsPerCluster := 1, numReservedSectors := 32, numFATs := 2,
    numSectors_FAT32 := 100000, sectorsPerFAT_FAT32 := 782, rootClusterNumber_FAT32 := 2 }

/-- A volume with one sector per cluster and `count` data clusters. -/
def volumeWithClusters (count : Nat) : boot_sect_t :=
  { bytesPerSector := 512, sectorsPerCluster := 1, numSectors_FAT12 := count }

/-- The buffer holding the bytes of `bytes`, zero beyond them. -/
def bufferOf (bytes : List Nat) : Nat → Nat := fun k => bytes.getD k 0

/-- A table in which cluster 2 is the only cluster of its chain. -/
def singleClusterTable : Nat → Nat := fun c => if c = 2 then 0xfff else 0

/-- A table with the chain 2, 3, 4. -/
def threeClusterTable : Nat → Nat :=
  fun c => if c = 2 then 3 else if c = 3 then 4 else if c = 4 then 0xfff else 0

/-- A corrupted table: cluster 2 links to 3 and cluster 3 links back to 2. -/
def cyclicTable : Nat → Nat := fun c => if c = 2 then 3 else if c = 3 then 2 else 0

/-! ## Geometry (`file_system_tools.c`) -/

/-- The function `handleError`: it prints the message and ends the process. -/
def handleError {α : Type} : Except Fault α := .error .exited

/-- The function `getSectorNumber_FileAllocationTable`. -/
def getSectorNumber_FileAllocationTable (bootSector : boot_sect_t) : Nat :=
  bootSector.numReservedSectors

/-- The function `getSectorNumber_RootDirectory`. -/
def getSectorNumber_RootDirectory (bootSector : boot_sect_t) : Except Fault Nat := do
  let version ← getFatVersion bootSector
  if version = FAT12 then
    return add32 (getSectorNumber_FileAllocationTable bootSector)
      (mul32 bootSector.sectorsPerFAT_FAT12 bootSector.numFATs)
  else if version = FAT32 then
    return add32
      (add32 (getSectorNumber_FileAllocationTable bootSector)
        (mul32 bootSector.sectorsPerFAT_FAT32 bootSector.numFATs))
      (mul32 bootSector.sectorsPerCluster (sub32 bootSector.rootClusterNumber_FAT32 2))
  else
    return 0

/-- The function `getSectorNumber_DataCluster`. -/
def getSectorNumber_DataCluster (bootSector : boot_sect_t) (clusterNumber : Nat) :
    Except Fault Nat := do
  let valid ← isValidClusterNumber clusterNumber bootSector
  if valid = false then
    handleError
  else
    let version ← getFatVersion bootSector
    if version = FAT12 then
      let rootSectors ←
        div32 (mul32 bootSector.numRootEntries_FAT12 32) bootSector.bytesPerSector
      let firstSectorInDataArea :=
        add32
          (add32 (getSectorNumber_FileAllocationTable bootSector)
            (mul32 bootSector.sectorsPerFAT_FAT12 bootSector.numFATs))
          rootSectors
      return add32 firstSectorInDataArea
        (mul32 (sub32 clusterNumber 2) bootSector.sectorsPerCluster)
    else if version = FAT32 then
      let firstSectorInDataArea :=
        add32 (getSectorNumber_FileAllocationTable bootSector)
          (mul32 bootSector.sectorsPerFAT_FAT32 bootSector.numFATs)
      return add32 firstSectorInDataArea
        (mul32 (sub32 clusterNumber 2) bootSector.sectorsPerCluster)
    else
      return 0

/-! ## Boot sector decoding (`boot_sector.c`) -/

/-- The function `translateLittleEndian`. -/
def translateLittleEndian (byteArray : Nat → Nat) (length : Nat) : Nat :=
  if length = 1 then
    byteArray 0
  else if length = 2 then
    (byteArray 1 <<< 8) ||| (byteArray 0 <<< 0)
  else if length = 3 then
    (byteArray 2 <<< 16) ||| (byteArray 1 <<< 8) ||| (byteArray 0 <<< 0)
  else if length = 4 then
    (byteArray 3 <<< 24) ||| (byteArray 2 <<< 16) ||| (byteArray 1 <<< 8) |||
      (byteArray 0 <<< 0)
  else
    0

/-- The field of `length` bytes at `offset` of a raw structure, as the pointer
to its first byte. -/
def fieldAt (raw : Nat → Nat) (offset : Nat) : Nat → Nat := fun k => raw (offset + k)

/-- The `length` bytes at `offset`, as `memcpy` copies them. -/
def bytesAt (raw : Nat → Nat) (offset length : Nat) : List Nat :=
  (List.range length).map (fieldAt raw offset)

/-- The function `parseBootSector`; the fields of `boot_sector_raw_t` lie at the
offsets 0, 3, 11, 13, 14, 16, 17, 19, 21, 22, 24, 26, 28, 32, 36, 40, 42, 44, 48,
50, 52, 64, 65, 66, 67, 71, 82 and 90 of the sector. -/
def parseBootSector (bootSectorRaw : Nat → Nat) : boot_sect_t :=
  { jumpCode := bytesAt bootSectorRaw 0 3
    oemName := bytesAt bootSectorRaw 3 8
    bytesPerSector := translateLittleEndian (fieldAt bootSectorRaw 11) 2
    sectorsPerCluster := translateLittleEndian (fieldAt bootSectorRaw 13) 1
    numReservedSectors := translateLittleEndian (fieldAt bootSectorRaw 14) 2
    numFATs := translateLittleEndian (fieldAt bootSectorRaw 16) 1
    numRootEntries_FAT12 := translateLittleEndian (fieldAt bootSectorRaw 17) 2
    numSectors_FAT12 := translateLittleEndian (fieldAt bootSectorRaw 19) 2
    mediaDescriptorType := translateLittleEndian (fieldAt bootSectorRaw 21) 1
    sectorsPerFAT_FAT12 := translateLittleEndian (fieldAt bootSectorRaw 22) 2
    sectorsPerTrack := translateLittleEndian (fieldAt bootSectorRaw 24) 2
    numHeads := translateLittleEndian (fieldAt bootSectorRaw 26) 2
    numHiddenSectors := translateLittleEndian (fieldAt bootSectorRaw 28) 4
    numSectors_FAT32 := translateLittleEndian (fieldAt bootSectorRaw 32) 4
    sectorsPerFAT_FAT32 := translateLittleEndian (fieldAt bootSectorRaw 36) 4
    mirrorFlags_FAT32 := translateLittleEndian (fieldAt bootSectorRaw 40) 2
    filesystemVersion_FAT32 := translateLittleEndian (fieldAt bootSectorRaw 42) 2
    rootClusterNumber_FAT32 := translateLittleEndian (fieldAt bootSectorRaw 44) 4
    filesystemInformationSectorNumber_FAT32 :=
      translateLittleEndian (fieldAt bootSectorRaw 48) 2
    backupBootSectorNumber_FAT32 := translateLittleEndian (fieldAt bootSectorRaw 50) 2
    reserved1_FAT32 := bytesAt bootSectorRaw 52 12
    driveNumber_FAT32 := translateLittleEndian (fieldAt bootSectorRaw 64) 1
    reserved2_FAT32 := bytesAt bootSectorRaw 65 1
    extendedSignature_FAT32 := translateLittleEndian (fieldAt bootSectorRaw 66) 1
    partitionSerialNumber_FAT32 := translateLittleEndian (fieldAt bootSectorRaw 67) 4
    volumeLabel_FAT32 := bytesAt bootSectorRaw 71 11
    filesystemType_FAT32 := bytesAt bootSectorRaw 82 8
    restOfBootSector := bytesAt bootSectorRaw 90 422 }

/-! ## The driver (`readfat.c`) -/

/-- The functions `main` calls. -/
inductive Call where
  | printHeader
  | handleError
  | openStorageDevice
  | getBootSector
  | getFatVersion
  | printFileSystemInformation
  | getFileAllocationTable
  | getDirectoryTree
  | printDirectoryTreeHeader
  | printDirectory
  | closeStorageDevice
  deriving DecidableEq, Repr

/-- The function `main`, for the boot sector that `getBootSector` returns: the
calls it makes, in order, and how it ends.  `fatVersion` is a `uint8_t`.  The
calls other than `getFatVersion` and `handleError` are taken to return. -/
def main (argc : Nat) (bootSector : boot_sect_t) : List Call × Except Fault Nat :=
  if argc ≠ 2 then
    ([.printHeader, .handleError], handleError)
  else
    match getFatVersion bootSector with
    | .error fault =>
      ([.printHeader, .openStorageDevice, .getBootSector, .getFatVersion], .error fault)
    | .ok version =>
      let fatVersion := version % 256
      if fatVersion = FAT16 then
        ([.printHeader, .openStorageDevice, .getBootSector, .getFatVersion, .handleError],
          handleError)
      else
        ([.printHeader, .openStorageDevice, .getBootSector, .getFatVersion,
          .printFileSystemInformation, .getFileAllocationTable, .getDirectoryTree,
          .printDirectoryTreeHeader, .printDirectory, .closeStorageDevice], .ok 0)

/-- A boot sector of 512 zero bytes. -/
def zeroSector : Nat → Nat := fun _ => 0

/-- A volume of 20000 sectors, classified FAT16. -/
def mediumVolume : boot_sect_t :=
  { bytesPerSector := 512, sectorsPerCluster := 1, numReservedSectors := 1, numFATs := 2,
    numRootEntries_FAT12 := 512, numSectors_FAT12 := 20000, sectorsPerFAT_FAT12 := 80 }

/-! ## Directory entries (`directory.c`)

A raw entry `directory_entry_raw_t` is the list of its 32 bytes: `name` at
offset 0, `extension` at 8, `attributes` at 11, `reserved` at 12, `time` at 22,
`date` at 24, `firstCluster` at 26 and `fileSize` at 28.  Whether `char` is a
signed type is left to the platform by the language; it is the parameter
`charSigned`.  A `wchar_t` is an integer. -/

/-- The decoded entry `file_t`.  `numChildren` is the length of `children`, and
the pointer `parentDirectory` is the position of the node in the tree. -/
inductive file_t where
  | mk (name : List Int) (type : Nat) (size : Nat) (clusters : List Nat) (numClusters : Nat)
      (children : List file_t)
  deriving Repr

/-- The field `name` of a `file_t`: the cells of the allocated string. -/
def file_t.name : file_t → List Int
  | .mk name _ _ _ _ _ => name

/-- The field `type` of a `file_t`. -/
def file_t.type : file_t → Nat
  | .mk _ type _ _ _ _ => type

/-- The field `size` of a `file_t`. -/
def file_t.size : file_t → Nat
  | .mk _ _ size _ _ _ => size

/-- The field `clusters` of a `file_t`. -/
def file_t.clusters : file_t → List Nat
  | .mk _ _ _ clusters _ _ => clusters

/-- The field `numClusters` of a `file_t`. -/
def file_t.numClusters : file_t → Nat
  | .mk _ _ _ _ numClusters _ => numClusters

/-- The field `children` of a `file_t`. -/
def file_t.children : file_t → List file_t
  | .mk _ _ _ _ _ children => children

/-- The value of a `char` that holds the byte `b`. -/
def charValue (charSigned : Bool) (b : Nat) : Int :=
  if charSigned = true ∧ 128 ≤ b then (b : Int) - 256 else (b : Int)

/-- A store `p[i] = v` through a `wchar_t*`. -/
def storeWide (p : Nat → Int) (i : Nat) (v : Int) : Nat → Int :=
  fun k => if k = i then v else p k

/-- The byte at `offset` of a raw entry. -/
def byteAt (entry : List Nat) (offset : Nat) : Nat := entry.getD offset 0

/-- The loops `while (end != -1)` of `extractEntryName`, which move `end` back
over the bytes 0x20 of a field. -/
def trimLoop (field : Nat → Nat) : Nat → Int → Except Fault Int
  | 0, _ => .error .outOfFuel
  | fuel + 1, endIndex =>
    if endIndex ≠ -1 then
      if field endIndex.toNat = 0x20 then
        trimLoop field fuel (endIndex - 1)
      else
        .ok endIndex
    else
      .ok endIndex

/-- The loops `while (rawEntryIndex <= end)` of `extractEntryName`, which copy
a field into the name; the two indices are `uint8_t`. -/
def copyLoop (charSigned : Bool) (field : Nat → Nat) (endIndex : Int) :
    Nat → Nat → Nat → (Nat → Int) → Except Fault ((Nat → Int) × Nat)
  | 0, _, _, _ => .error .outOfFuel
  | fuel + 1, rawEntryIndex, nameIndex, name =>
    if (rawEntryIndex : Int) ≤ endIndex then
      copyLoop charSigned field endIndex fuel ((rawEntryIndex + 1) % 256)
        ((nameIndex + 1) % 256)
        (storeWide name nameIndex (charValue charSigned (field rawEntryIndex)))
    else
      .ok (name, nameIndex)

/-- The function `extractEntryName`: the 13 cells of the string it allocates
for `directoryEntry->name`. -/
def extractEntryName (charSigned : Bool) (fuel : Nat) (directoryEntryRaw : List Nat) :
    Except Fault (List Int) := do
  let name0 : Nat → Int := fun _ => 0
  let end1 ← trimLoop (fun k => byteAt directoryEntryRaw k) fuel 7
  let (name1, nameIndex1) ←
    copyLoop charSigned (fun k => byteAt directoryEntryRaw k) end1 fuel 0 0 name0
  let end2 ← trimLoop (fun k => byteAt directoryEntryRaw (8 + k)) fuel 2
  let (name2, nameIndex2) :=
    if end2 ≥ 0 then (storeWide name1 nameIndex1 46, (nameIndex1 + 1) % 256)
    else (name1, nameIndex1)
  let (name3, nameIndex3) ←
    copyLoop charSigned (fun k => byteAt directoryEntryRaw (8 + k)) end2 fuel 0 nameIndex2 name2
  let name4 := storeWide name3 nameIndex3 0
  return (List.range 13).map name4

/-- The offsets, within a VFAT entry, of the 26 bytes that hold its 13 code
units, in the order in which `extractEntryName_VFAT` copies them. -/
def vfatByteOffsets : List Nat :=
  [1, 2, 3, 4, 5, 6, 7, 8, 9, 10, 14, 15, 16, 17, 18, 19, 20, 21, 22, 23, 24, 25, 28, 29, 30, 31]

/-- The bytes of an array of raw entries, `(char*) vfatRawEntrySequence`. -/
def entryBytes (entries : Nat → List Nat) : Nat → Nat :=
  fun address => byteAt (entries (address / 32)) (address % 32)

/-- A `uint32_t` converted to `int`. -/
def toInt32 (x : Nat) : Int :=
  if x < 2147483648 then (x : Int) else (x : Int) - 4294967296

/-- The first loop of `extractEntryName_VFAT`: the 26 name bytes of each entry,
from entry `vfatSequenceIndex` down to entry 0, go to the temporary array. -/
def vfatCopyLoop (vfatRawEntrySequence : Nat → List Nat) :
    Nat → Int → Int → Int → (Nat → Nat) → Except Fault ((Nat → Nat) × Int)
  | 0, _, _, _, _ => .error .outOfFuel
  | fuel + 1, vfatSequenceIndex, iterationCount, nameLength, name =>
    if vfatSequenceIndex ≥ 0 then
      let name1 := (List.range 26).foldl
        (fun (acc : Nat → Nat) (j : Nat) =>
          store acc ((iterationCount * 26) + (j : Int)).toNat
            (entryBytes vfatRawEntrySequence
              ((vfatSequenceIndex * 32) + (vfatByteOffsets.getD j 0 : Int)).toNat))
        name
      vfatCopyLoop vfatRawEntrySequence fuel (vfatSequenceIndex - 1) (iterationCount + 1)
        (nameLength + 13) name1
    else
      .ok (name, nameLength)

/-- The value of `(uint16_t) c` for a `char c` that holds the byte `b`. -/
def toUInt16 (charSigned : Bool) (b : Nat) : Nat :=
  (charValue charSigned b % 65536).toNat

/-- The wide character that the second loop of `extractEntryName_VFAT` builds
from two bytes of the temporary array. -/
def wideOfBytes (charSigned : Bool) (low high : Nat) : Int :=
  (((toUInt16 charSigned low <<< 0) ||| (toUInt16 charSigned high <<< 8) : Nat) : Int)

/-- The second loop of `extractEntryName_VFAT`. -/
def vfatWidenLoop (charSigned : Bool) (temporary : Nat → Nat) (nameLength : Int) :
    Nat → Int → (Nat → Int) → Except Fault (Nat → Int)
  | 0, _, _ => .error .outOfFuel
  | fuel + 1, nameIndex, name =>
    if nameIndex < nameLength then
      vfatWidenLoop charSigned temporary nameLength fuel (nameIndex + 1)
        (storeWide name nameIndex.toNat
          (wideOfBytes charSigned (temporary ((nameIndex * 2) + 0).toNat)
            (temporary ((nameIndex * 2) + 1).toNat)))
    else
      .ok name

/-- The function `extractEntryName_VFAT`: the `nameLength + 2` cells of the
string it allocates for `directoryEntry->name`. -/
def extractEntryName_VFAT (charSigned : Bool) (fuel : Nat)
    (vfatRawEntrySequence : Nat → List Nat) (vfatSequenceCount : Nat) :
    Except Fault (List Int) := do
  let (temporary, nameLength) ←
    vfatCopyLoop vfatRawEntrySequence fuel (toInt32 (sub32 vfatSequenceCount 2)) 0 0
      (fun _ => 0)
  let name ← vfatWidenLoop charSigned temporary nameLength fuel 0 (fun _ => 0)
  return (List.range (nameLength + 2).toNat).map name

/-- The function `extractEntrytype`. -/
def extractEntrytype (directoryEntryRaw : List Nat) : Nat :=
  if byteAt directoryEntryRaw 11 &&& 0b00010000 = 0 then 0 else 1

/-- The function `extractEntryFirstCluster`: the cluster sequence and its
length.  Under FAT16 the local `firstCluster` is never assigned. -/
def extractEntryFirstCluster (fuel : Nat) (directoryEntryRaw : List Nat)
    (bootSector : boot_sect_t) (fileAllocationTable : Nat → Nat) :
    Except Fault (List Nat × Nat) := do
  let version ← getFatVersion bootSector
  let firstCluster ←
    if version = FAT12 then
      pure ((byteAt directoryEntryRaw 27 <<< 8) ||| (byteAt directoryEntryRaw 26 <<< 0))
    else if version = FAT32 then
      pure (((byteAt directoryEntryRaw 21 &&& 0b00001111) <<< 24) |||
        ((byteAt directoryEntryRaw 20 &&& 0b11111111) <<< 16) |||
        ((byteAt directoryEntryRaw 27 &&& 0b11111111) <<< 8) |||
        ((byteAt directoryEntryRaw 26 &&& 0b11111111) <<< 0))
    else
      .error .uninitialized
  getClusterSequence fuel firstCluster bootSector fileAllocationTable

/-- The function `extractEntrySize`. -/
def extractEntrySize (directoryEntryRaw : List Nat) : Nat :=
  (byteAt directoryEntryRaw 31 <<< 24) ||| (byteAt directoryEntryRaw 30 <<< 16) |||
  (byteAt directoryEntryRaw 29 <<< 8) ||| (byteAt directoryEntryRaw 28 <<< 0)

/-- The function `parseDirectoryEntry`.  The fields `children` and
`numChildren` of the entry are not assigned; they are the empty list here. -/
def parseDirectoryEntry (charSigned : Bool) (fuel : Nat) (directoryEntryRaw : List Nat)
    (fileAllocationTable : Nat → Nat) (bootSector : boot_sect_t) : Except Fault file_t := do
  let name ← extractEntryName charSigned fuel directoryEntryRaw
  let type := extractEntrytype directoryEntryRaw
  let (clusters, numClusters) ←
    extractEntryFirstCluster fuel directoryEntryRaw bootSector fileAllocationTable
  let size := extractEntrySize directoryEntryRaw
  return file_t.mk name type size clusters numClusters []

/-- The function `parseDirectoryEntry_VFAT`. -/
def parseDirectoryEntry_VFAT (charSigned : Bool) (fuel : Nat)
    (vfatRawEntrySequence : Nat → List Nat) (vfatSequenceCount : Nat)
    (fileAllocationTable : Nat → Nat) (bootSector : boot_sect_t) : Except Fault file_t := do
  let name ← extractEntryName_VFAT charSigned fuel vfatRawEntrySequence vfatSequenceCount
  let last := vfatRawEntrySequence (sub32 vfatSequenceCount 1)
  let type := extractEntrytype last
  let (clusters, numClusters) ←
    extractEntryFirstCluster fuel last bootSector fileAllocationTable
  let size := extractEntrySize last
  return file_t.mk name type size clusters numClusters []

/-- The raw entry at index `indexSrc` of a directory buffer: the 32 bytes at
`((uint8_t*) directoryEntriesRaw) + (indexSrc * BYTES_PER_DIRECTORY_ENTRY)`. -/
def recordAt (directoryEntriesRaw : Nat → Nat) (indexSrc : Nat) : List Nat :=
  (List.range 32).map (fun k => directoryEntriesRaw (mul32 indexSrc 32 + k))

/-- The constant `MAX_ENTRIES_PER_VFAT_SEQUENCE` of `directory.h`: the number of
raw entries in the block that `parseDirectoryEntries` allocates for
`vfatRawEntrySequence`. -/
def MAX_ENTRIES_PER_VFAT_SEQUENCE : Nat := 21

/-- The variables of the loop of `parseDirectoryEntries` other than `indexSrc`.
The array `directoryEntries` is the list of its cells `0 .. *numEntries - 1`,
the only ones written.  Of `vfatRawEntrySequence` the cells below
`MAX_ENTRIES_PER_VFAT_SEQUENCE` are the allocated block; `parseStep` writes no
other cell. -/
structure ParseState where
  numEntries : Nat
  directoryEntries : List file_t
  vfatSequenceCount : Nat
  vfatRawEntrySequence : Nat → List Nat

/-- A `memcpy` of a raw entry into cell `index` of an array of raw entries. -/
def storeEntry (entries : Nat → List Nat) (index : Nat) (entry : List Nat) : Nat → List Nat :=
  fun k => if k = index then entry else entries k

/-- The test of `parseDirectoryEntries` for a `.` or `..` directory entry. -/
def isDotEntry (srcEntry : List Nat) : Bool :=
  decide ((byteAt srcEntry 0x0b &&& 0x10) ≠ 0 ∧
    byteAt srcEntry 0x00 = 0x2e ∧ (byteAt srcEntry 0x01 = 0x2e ∨ byteAt srcEntry 0x01 = 0x20) ∧
    byteAt srcEntry 0x02 = 0x20 ∧ byteAt srcEntry 0x03 = 0x20 ∧
    byteAt srcEntry 0x04 = 0x20 ∧ byteAt srcEntry 0x05 = 0x20 ∧
    byteAt srcEntry 0x06 = 0x20 ∧ byteAt srcEntry 0x07 = 0x20 ∧
    byteAt srcEntry 0x08 = 0x20 ∧ byteAt srcEntry 0x09 = 0x20 ∧
    byteAt srcEntry 0x0a = 0x20)

/-- The body of the loop of `parseDirectoryEntries` for the raw entry
`srcEntry`, apart from `indexSrc = indexSrc + 1`: `none` for `break`, otherwise
the variables at the end of the iteration.  The two calls
`memcpy(&(vfatRawEntrySequence[vfatSequenceCount]), srcEntry, ...)` are not
guarded in the source: with `vfatSequenceCount` at or above
`MAX_ENTRIES_PER_VFAT_SEQUENCE` the copy leaves the allocated block, which is
the fault `outOfBounds` here. -/
def parseStep (charSigned : Bool) (fuel : Nat) (fileAllocationTable : Nat → Nat)
    (bootSector : boot_sect_t) (srcEntry : List Nat) (state : ParseState) :
    Except Fault (Option ParseState) :=
  if byteAt srcEntry 0x00 = 0 then
    .ok none
  else if byteAt srcEntry 0x00 = 0x05 ∨ byteAt srcEntry 0x00 = 0xe5 then
    .ok (some state)
  else if (byteAt srcEntry 0x0b &&& 0x08) ≠ 0 ∧ (byteAt srcEntry 0x0b &&& 0x0f) ≠ 0x0f then
    .ok (some state)
  else if isDotEntry srcEntry = true then
    .ok (some state)
  else if (byteAt srcEntry 0x0b &&& 0x0f) = 0x0f then
    if state.vfatSequenceCount < MAX_ENTRIES_PER_VFAT_SEQUENCE then
      .ok (some
        { state with
          vfatRawEntrySequence :=
            storeEntry state.vfatRawEntrySequence state.vfatSequenceCount srcEntry
          vfatSequenceCount := add32 state.vfatSequenceCount 1 })
    else
      .error .outOfBounds
  else if state.vfatSequenceCount > 0 then
    if state.vfatSequenceCount < MAX_ENTRIES_PER_VFAT_SEQUENCE then do
      let sequence := storeEntry state.vfatRawEntrySequence state.vfatSequenceCount srcEntry
      let dstEntry ←
        parseDirectoryEntry_VFAT charSigned fuel sequence (add32 state.vfatSequenceCount 1)
          fileAllocationTable bootSector
      return some
        { numEntries := add32 state.numEntries 1
          directoryEntries := state.directoryEntries ++ [dstEntry]
          vfatSequenceCount := 0
          vfatRawEntrySequence := sequence }
    else
      .error .outOfBounds
  else do
    let dstEntry ← parseDirectoryEntry charSigned fuel srcEntry fileAllocationTable bootSector
    return some
      { state with
        numEntries := add32 state.numEntries 1
        directoryEntries := state.directoryEntries ++ [dstEntry] }

/-- The loop `while (indexSrc < maxDirectoryEntries)` of
`parseDirectoryEntries`, one test of the loop condition per step. -/
def parseLoop (charSigned : Bool) (fuel : Nat) (directoryEntriesRaw : Nat → Nat)
    (maxDirectoryEntries : Nat) (fileAllocationTable : Nat → Nat) (bootSector : boot_sect_t) :
    Nat → Nat → ParseState → Except Fault (List file_t × Nat)
  | 0, _, _ => .error .outOfFuel
  | steps + 1, indexSrc, state =>
    if indexSrc < maxDirectoryEntries then
      match parseStep charSigned fuel fileAllocationTable bootSector
          (recordAt directoryEntriesRaw indexSrc) state with
      | .error fault => .error fault
      | .ok none => .ok (state.directoryEntries, state.numEntries)
      | .ok (some next) =>
        parseLoop charSigned fuel directoryEntriesRaw maxDirectoryEntries fileAllocationTable
          bootSector steps (add32 indexSrc 1) next
    else
      .ok (state.directoryEntries, state.numEntries)

/-- The function `parseDirectoryEntries`: the entries it returns and the value
it leaves in `*numEntries`.  `fuel` bounds the steps of its loop and is the
budget of every loop below it. -/
def parseDirectoryEntries (charSigned : Bool) (fuel : Nat) (directoryEntriesRaw : Nat → Nat)
    (maxDirectoryEntries : Nat) (fileAllocationTable : Nat → Nat) (bootSector : boot_sect_t) :
    Except Fault (List file_t × Nat) :=
  parseLoop charSigned fuel directoryEntriesRaw maxDirectoryEntries fileAllocationTable
    bootSector fuel 0
    { numEntries := 0, directoryEntries := [], vfatSequenceCount := 0,
      vfatRawEntrySequence := fun _ => [] }

/-! ## Storage device (`device_interface.c`)

The device is the list of the bytes of the image file. -/

/-- The number of items `fread` reads: items of `size` bytes, `count` of them
asked for, from position `offset` of the file. -/
def freadItems (storageDevice : List Nat) (offset size count : Nat) : Nat :=
  if size = 0 ∨ count = 0 then 0
  else min count ((storageDevice.length - offset) / size)

/-- The buffer after `bytes` are copied to its cells from `start` on. -/
def copyInto (buffer : Nat → Nat) (start : Nat) (bytes : List Nat) : Nat → Nat :=
  fun address =>
    if start ≤ address ∧ address < start + bytes.length then bytes.getD (address - start) 0
    else buffer address

/-- The loop of `readSectors`, one test of the loop condition per unit of
fuel. -/
def readSectorsLoop (sectorLocations : Nat → Nat)
    (numLocations bytesPerSector sectorsPerLocation : Nat) (storageDevice : List Nat) :
    Nat → Nat → (Nat → Nat) → Except Fault (Nat → Nat)
  | 0, _, _ => .error .outOfFuel
  | fuel + 1, counter, buffer =>
    if counter < numLocations then
      let byteOffset := mul32 bytesPerSector (sectorLocations counter)
      let result := freadItems storageDevice byteOffset bytesPerSector sectorsPerLocation
      if result ≠ sectorsPerLocation then
        handleError
      else
        readSectorsLoop sectorLocations numLocations bytesPerSector sectorsPerLocation
          storageDevice fuel (add32 counter 1)
          (copyInto buffer (mul32 (mul32 bytesPerSector sectorsPerLocation) counter)
            ((storageDevice.drop byteOffset).take (bytesPerSector * sectorsPerLocation)))
    else
      .ok buffer

/-- The function `readSectors`: the buffer after the call. -/
def readSectors (fuel : Nat) (buffer : Nat → Nat) (sectorLocations : Nat → Nat)
    (numLocations bytesPerSector sectorsPerLocation : Nat) (storageDevice : List Nat) :
    Except Fault (Nat → Nat) :=
  readSectorsLoop sectorLocations numLocations bytesPerSector sectorsPerLocation storageDevice
    fuel 0 buffer

/-- The first loop of `readClusters`: the first sector of every cluster. -/
def sectorLocationsLoop (bootSector : boot_sect_t) (clusterNumbers : Nat → Nat)
    (numClusters : Nat) : Nat → Nat → (Nat → Nat) → Except Fault (Nat → Nat)
  | 0, _, _ => .error .outOfFuel
  | fuel + 1, clusterCount, sectorLocations =>
    if clusterCount < numClusters then do
      let sector ← getSectorNumber_DataCluster bootSector (clusterNumbers clusterCount)
      sectorLocationsLoop bootSector clusterNumbers numClusters fuel (add32 clusterCount 1)
        (store sectorLocations clusterCount sector)
    else
      .ok sectorLocations

/-- The function `readClusters`: the buffer after the call. -/
def readClusters (fuel : Nat) (buffer : Nat → Nat) (clusterNumbers : Nat → Nat)
    (numClusters : Nat) (bootSector : boot_sect_t) (storageDevice : List Nat) :
    Except Fault (Nat → Nat) := do
  let sectorLocations ←
    sectorLocationsLoop bootSector clusterNumbers numClusters fuel 0 (fun _ => 0)
  readSectors fuel buffer sectorLocations numClusters bootSector.bytesPerSector
    bootSector.sectorsPerCluster storageDevice

/-! ## Directory tree (`directory.c`)

A buffer that `malloc` returns holds zero bytes until it is written. -/

/-- The function `getDirectoryTreeRecursive`: the node `root` after the call.
The loop over the children is a traversal of the list of children; `depth`
bounds the nesting of the recursive calls. -/
def getDirectoryTreeRecursive (charSigned : Bool) (fuel : Nat) (bootSector : boot_sect_t)
    (fileAllocationTable : Nat → Nat) (storageDevice : List Nat) :
    Nat → file_t → Except Fault file_t
  | 0, _ => .error .outOfFuel
  | depth + 1, root => do
    let children ← root.children.mapM (fun child =>
      if child.type ≠ 0 then do
        let childRaw ←
          readClusters fuel (fun _ => 0) (fun i => child.clusters.getD i 0) child.numClusters
            bootSector storageDevice
        let maxEntries :=
          mul32 (mul32 child.numClusters bootSector.sectorsPerCluster)
            bootSector.bytesPerSector / 32
        let (entries, _) ←
          parseDirectoryEntries charSigned fuel childRaw maxEntries fileAllocationTable
            bootSector
        getDirectoryTreeRecursive charSigned fuel bootSector fileAllocationTable storageDevice
          depth (file_t.mk child.name child.type child.size child.clusters child.numClusters
            entries)
      else
        pure child)
    return file_t.mk root.name root.type root.size root.clusters root.numClusters children

/-- The function `getDirectoryTree`.  Under FAT16 the locals `rootDirectoryRaw`
and `maxRootDirectoryEntries` are never assigned. -/
def getDirectoryTree (charSigned : Bool) (fuel : Nat) (bootSector : boot_sect_t)
    (fileAllocationTable : Nat → Nat) (storageDevice : List Nat) : Except Fault file_t := do
  let version ← getFatVersion bootSector
  let (clusters, numClusters, rootDirectoryRaw, maxRootDirectoryEntries) ←
    if version = FAT12 then do
      let bufferSize := mul32 32 bootSector.numRootEntries_FAT12
      let sectorNumber ← getSectorNumber_RootDirectory bootSector
      let numSectors ← div32 bufferSize bootSector.bytesPerSector
      let raw ←
        readSectors fuel (fun _ => 0) (fun _ => sectorNumber) 1 bootSector.bytesPerSector
          numSectors storageDevice
      pure (([] : List Nat), 0, raw, bootSector.numRootEntries_FAT12)
    else if version = FAT32 then do
      let (clusters, numClusters) ←
        getClusterSequence fuel bootSector.rootClusterNumber_FAT32 bootSector
          fileAllocationTable
      let bufferSize :=
        mul32 (mul32 numClusters bootSector.sectorsPerCluster) bootSector.bytesPerSector
      let raw ←
        readClusters fuel (fun _ => 0) (fun i => clusters.getD i 0) numClusters bootSector
          storageDevice
      pure (clusters, numClusters, raw, bufferSize / 32)
    else
      .error .uninitialized
  let (children, _) ←
    parseDirectoryEntries charSigned fuel rootDirectoryRaw maxRootDirectoryEntries
      fileAllocationTable bootSector
  getDirectoryTreeRecursive charSigned fuel bootSector fileAllocationTable storageDevice fuel
    (file_t.mk [0] 1 0 clusters numClusters children)

/-! ## Notions and samples for directory entries -/

/-- The list without its trailing bytes 0x20. -/
def trimR (bytes : List Nat) : List Nat :=
  (bytes.reverse.dropWhile (fun b => decide (b = 0x20))).reverse

/-- The 8 bytes of the field `name` of a raw entry. -/
def name8 (entry : List Nat) : List Nat := (List.range 8).map (fun k => byteAt entry k)

/-- The 3 bytes of the field `extension` of a raw entry. -/
def ext3 (entry : List Nat) : List Nat := (List.range 3).map (fun k => byteAt entry (8 + k))

/-- The short name of a raw entry as the specification writes it: the trimmed
name, then, when the trimmed extension is not empty, a period and the trimmed
extension. -/
def shortName (entry : List Nat) : List Nat :=
  trimR (name8 entry) ++ (if trimR (ext3 entry) = [] then [] else 0x2e :: trimR (ext3 entry))

/-- A wide string read up to its terminating null. -/
def cString (cells : List Int) : List Int := cells.takeWhile (fun c => decide (c ≠ 0))

/-- The code points of a text. -/
def codes (text : String) : List Nat := text.toList.map Char.toNat

/-- The code points of a text, as wide characters. -/
def wideCodes (text : String) : List Int := text.toList.map (fun c => (c.toNat : Int))

/-- The 13 code units of a VFAT entry, as `extractEntryName_VFAT` builds them
from the byte pairs at `vfatByteOffsets`. -/
def vfatUnits (charSigned : Bool) (entry : List Nat) : List Int :=
  (List.range 13).map (fun k =>
    wideOfBytes charSigned (byteAt entry (vfatByteOffsets.getD (2 * k) 0))
      (byteAt entry (vfatByteOffsets.getD (2 * k + 1) 0)))

/-- The array of raw entries that holds the entries of the list, in order. -/
def slotsOf (entries : List (List Nat)) : Nat → List Nat := fun k => entries.getD k []

/-- A short entry with the given name and extension fields, attribute byte,
first cluster (low word) and size. -/
def shortEntry (name extension : String) (attributes firstCluster size : Nat) : List Nat :=
  codes name ++ codes extension ++ [attributes] ++ List.replicate 14 0 ++
    [firstCluster % 256, firstCluster / 256 % 256] ++
    [size % 256, size / 256 % 256, size / 65536 % 256, size / 16777216 % 256]

/-- A VFAT entry with the given sequence number, checksum and 13 code units. -/
def vfatEntry (sequenceNumber checksum : Nat) (units : List Nat) : List Nat :=
  [sequenceNumber] ++ ((units.take 5).flatMap (fun u => [u % 256, u / 256])) ++
    [0x0f, 0, checksum] ++ (((units.drop 5).take 6).flatMap (fun u => [u % 256, u / 256])) ++
    [0, 0] ++ ((units.drop 11).flatMap (fun u => [u % 256, u / 256]))

/-- The two VFAT entries of the name `verylongname.txt`, as they lie on disk,
and the short entry that ends them. -/
def longNameEntries : List (List Nat) :=
  [vfatEntry 0x42 0x5a (codes "txt" ++ [0] ++ List.replicate 9 0xffff),
   vfatEntry 0x01 0x5a (codes "verylongname."),
   shortEntry "VERYLO~1" "TXT" 0x20 5 100]

/-- A deleted entry. -/
def deletedEntry : List Nat := 0xe5 :: List.replicate 31 0x41

/-- A directory with the live files `README.TXT` and `NOEXT` and an end mark. -/
def twoFileDirectory : List (List Nat) :=
  [shortEntry "README  " "TXT" 0x20 2 13, shortEntry "NOEXT   " "   " 0x20 0 0,
   List.replicate 32 0]

/-- The directory with the files `README.TXT` and `NOEXT`, a deleted entry
between them. -/
def deletedBetweenDirectory : List (List Nat) :=
  [shortEntry "README  " "TXT" 0x20 2 13, deletedEntry, shortEntry "NOEXT   " "   " 0x20 0 0]

/-- The buffer with a raw entry inserted before the entry at index `position`. -/
def insertEntry (buffer : Nat → Nat) (position : Nat) (entry : List Nat) : Nat → Nat :=
  fun address =>
    if address < 32 * position then buffer address
    else if address < 32 * position + 32 then byteAt entry (address - 32 * position)
    else buffer (address - 32)

/-- A FAT12 image of eight sectors of 512 bytes: the boot sector, one FAT of
one sector, a root directory of 16 entries in sector 2 that holds the file
`DATA.BIN`, and the data area. -/
def dataBinImage : List Nat :=
  List.replicate 1024 0 ++ shortEntry "DATA    " "BIN" 0x20 2 13 ++ List.replicate 480 0 ++
    List.replicate 2560 0

/-- The boot sector of `dataBinImage`. -/
def dataBinVolume : boot_sect_t :=
  { bytesPerSector := 512, sectorsPerCluster := 1, numReservedSectors := 1, numFATs := 1,
    numRootEntries_FAT12 := 16, numSectors_FAT12 := 8, sectorsPerFAT_FAT12 := 1 }

/-- The byte offset, in the image, of the root directory of a FAT12 volume:
`bytesPerSector * getSectorNumber_RootDirectory(bootSector)` as `readSectors`
computes it. -/
def rootOffset_FAT12 (bootSector : boot_sect_t) : Nat :=
  mul32 bootSector.bytesPerSector
    (add32 (getSectorNumber_FileAllocationTable bootSector)
      (mul32 bootSector.sectorsPerFAT_FAT12 bootSector.numFATs))

/-- The number of bytes of the root directory of a FAT12 volume that
`getDirectoryTree` reads: whole sectors only. -/
def rootBytesRead_FAT12 (bootSector : boot_sect_t) : Nat :=
  bootSector.bytesPerSector *
    (mul32 32 bootSector.numRootEntries_FAT12 / bootSector.bytesPerSector)

/-- The tree of a volume whose root directory holds the file `DATA.BIN` of 13
bytes in cluster 2 and nothing else. -/
def dataBinTree : file_t :=
  file_t.mk [0] 1 0 [] 0 [file_t.mk (wideCodes "DATA.BIN" ++ List.replicate 5 0) 0 13 [2] 1 []]

/-! ## Absolute path (`file_system_tools.c`)

A `file_t*` into a tree is the node it points to together with the nodes that
its chain of `parentDirectory` pointers visits, nearest first; the chain ends
at the node whose `parentDirectory` is `NULL`.  A wide string is the list of
the cells of its array. -/

/-- The library function `wcslen` on the array `s`: the number of cells before
the first null cell.  An array without a null cell is read past its end. -/
def wcslen (s : List Int) : Except Fault Nat :=
  if 0 ∈ s then .ok (s.takeWhile (fun c => decide (c ≠ 0))).length else .error .outOfBounds

/-- The library function `wcscat(dest, src)`: the string of `src` and a null
cell are written over the cells of `dest` from its first null cell on. -/
def wcscat (dest src : List Int) : Except Fault (List Int) := do
  let destLength ← wcslen dest
  let srcLength ← wcslen src
  if destLength + srcLength + 1 ≤ dest.length then
    return dest.take destLength ++ src.take srcLength ++ [0] ++
      dest.drop (destLength + srcLength + 1)
  else
    .error .outOfBounds

/-- The function `getAbsolutePathNameRecursive` on the chain of `file`: the
empty chain is `file == NULL`.  It returns the cells of `absolutePathName`
after the call. -/
def getAbsolutePathNameRecursive : List file_t → List Int → Except Fault (List Int)
  | [], absolutePathName => .ok absolutePathName
  | file :: parents, absolutePathName =>
    if file.name.headD 0 = 0 then
      .ok absolutePathName
    else do
      let path1 ← getAbsolutePathNameRecursive parents absolutePathName
      let path2 ← wcscat path1 [47, 0]
      wcscat path2 file.name

/-- The loop `while (ancestor != NULL)` of `getAbsolutePathName`, on the chain
of `ancestor`. -/
def pathLengthLoop : List file_t → Nat → Except Fault Nat
  | [], length => .ok length
  | ancestor :: parents, length => do
    let nameLength ← wcslen ancestor.name
    pathLengthLoop parents (add32 (add32 length nameLength) 1)

/-- The function `getAbsolutePathName` for a `file` whose chain of
`parentDirectory` pointers visits `parents`: the cells of the array it
allocates and returns. -/
def getAbsolutePathName (file : file_t) (parents : List file_t) : Except Fault (List Int) := do
  let nameLength ← wcslen file.name
  let length1 ← pathLengthLoop parents (nameLength % 4294967296)
  let length := add32 length1 1
  let absolutePathName : List Int := List.replicate length 0
  getAbsolutePathNameRecursive (file :: parents) absolutePathName

/-- The node that the child indices `path` lead to from `node`, with its chain
of `parentDirectory` pointers, `parents` being the chain of `node` itself:
`getDirectoryTreeRecursive` makes every child point to the directory that
holds it. -/
def locate : file_t → List file_t → List Nat → Option (file_t × List file_t)
  | node, parents, [] => some (node, parents)
  | node, parents, index :: path =>
    match node.children.get? index with
    | none => none
    | some child => locate child (node :: parents) path

/-- The text `/n1/n2 ... /nk` for the names of the nodes `n1, ..., nk`. -/
def pathText (nodes : List file_t) : List Int :=
  nodes.flatMap (fun node => 47 :: cString node.name)

/-- A tree with the directory `DIR` that holds the file `FILE.TXT`. -/
def nestedTree : file_t :=
  file_t.mk [0] 1 0 [] 0
    [file_t.mk (wideCodes "DIR" ++ List.replicate 10 0) 1 0 [2] 1
      [file_t.mk (wideCodes "FILE.TXT" ++ List.replicate 5 0) 0 13 [3] 1 []]]

/-! ## Formulas of the specification -/

/-- The data-region cluster count in the words of the specification:
`((T - R - N*S - ((E*32) div B)) mod 2^32) div C`, the product `E*32` being an
unsigned 32-bit product and the difference being reduced modulo 2^32. -/
def clusterCountFormula (bootSector : boot_sect_t) : Nat :=
  let T : Nat :=
    if bootSector.numSectors_FAT12 ≠ 0 then bootSector.numSectors_FAT12
    else bootSector.numSectors_FAT32
  let S : Nat :=
    if bootSector.sectorsPerFAT_FAT12 ≠ 0 then bootSector.sectorsPerFAT_FAT12
    else bootSector.sectorsPerFAT_FAT32
  let rootSectors : Nat :=
    bootSector.numRootEntries_FAT12 * 32 % 4294967296 / bootSector.bytesPerSector
  (((T : Int) - (bootSector.numReservedSectors : Int) -
      (bootSector.numFATs : Int) * (S : Int) - (rootSectors : Int)) % 4294967296).toNat /
    bootSector.sectorsPerCluster

/-- The first sector of the data area in the words of the specification, for
a version: `reserved + numFATs*sectorsPerFAT_FAT12 + (numRootEntries*32 div
bytesPerSector)` for FAT12 and `reserved + numFATs*sectorsPerFAT_FAT32` for
FAT32; the product `numRootEntries*32` is an unsigned 32-bit product. -/
def firstDataSector (bootSector : boot_sect_t) (version : Nat) : Nat :=
  if version = FAT12 then
    bootSector.numReservedSectors + bootSector.numFATs * bootSector.sectorsPerFAT_FAT12 +
      bootSector.numRootEntries_FAT12 * 32 % 4294967296 / bootSector.bytesPerSector
  else
    bootSector.numReservedSectors + bootSector.numFATs * bootSector.sectorsPerFAT_FAT32

/-- The little-endian value of the first `length` bytes of an array. -/
def littleEndianValue (byteArray : Nat → Nat) (length : Nat) : Nat :=
  ((List.range length).map (fun i => byteArray i * 256 ^ i)).sum

/-- A short entry of a FAT32 volume whose high word of the first cluster is
0x1000 (`reserved[9]` is 0x10) and whose low word is 5. -/
def highWordEntry : List Nat := (shortEntry "BIG     " "BIN" 0x20 5 13).set 21 0x10

/-- A table of a FAT32 volume in which cluster 5 ends its chain. -/
def endAtFiveTable : Nat → Nat := fun c => if c = 5 then 0x0fffffff else 0

/-- The pairs of offsets (low byte, high byte) of the 13 code units of a VFAT
entry, in the words of the specification. -/
def vfatUnitOffsets : List (Nat × Nat) :=
  [(1, 2), (3, 4), (5, 6), (7, 8), (9, 10), (14, 15), (16, 17), (18, 19), (20, 21), (22, 23),
    (24, 25), (28, 29), (30, 31)]

/-- The VFAT entry of the one-letter name U+00E9 (bytes 0xE9 0x00, then a null
unit and ten pad units) and the short entry that ends the sequence. -/
def accentedNameEntries : List (List Nat) :=
  [vfatEntry 0x41 0x5a ([0xe9, 0] ++ List.replicate 11 0xffff),
    shortEntry "E       " "   " 0x20 2 13]

/-! ## Notions for the rules of the scan -/

/-- Whether neither the end rule nor the deleted rule of the scan matches the
record: its first byte is none of 0x00, 0x05 and 0xE5. -/
def isLiveRecord (srcEntry : List Nat) : Bool :=
  decide (byteAt srcEntry 0 ≠ 0 ∧ byteAt srcEntry 0 ≠ 0x05 ∧ byteAt srcEntry 0 ≠ 0xe5)

/-- A record that the scan buffers as one entry of a VFAT sequence: a live
record whose attribute low nibble is 0x0F and that is not a dot entry. -/
def isVfatRecord (srcEntry : List Nat) : Bool :=
  isLiveRecord srcEntry && decide (byteAt srcEntry 0x0b &&& 0x0f = 0x0f) &&
    !isDotEntry srcEntry

/-- A record that the scan decodes as a short entry: a live record whose
volume-label bit is clear and that is not a dot entry. -/
def isShortRecord (srcEntry : List Nat) : Bool :=
  isLiveRecord srcEntry && decide (byteAt srcEntry 0x0b &&& 0x08 = 0) && !isDotEntry srcEntry

/-- The 11 bytes of the name and extension fields of a record. -/
def name11 (entry : List Nat) : List Nat := (List.range 11).map (fun k => byteAt entry k)

/-- The 32 bytes of a record, as the scan reads them. -/
def record32 (entry : List Nat) : List Nat := (List.range 32).map (fun k => byteAt entry k)

/-- The entry that `parseDirectoryEntry_VFAT` builds from a name and the short
record of the sequence: type, cluster chain and size are those of the short
record. -/
def entryWithName (name : List Int) (fuel : Nat) (short : List Nat)
    (fileAllocationTable : Nat → Nat) (bootSector : boot_sect_t) : Except Fault file_t := do
  let (clusters, numClusters) ←
    extractEntryFirstCluster fuel short bootSector fileAllocationTable
  return file_t.mk name (extractEntrytype short) (extractEntrySize short) clusters numClusters []

/-- A record named `.` with the attribute byte 0x1F: the low nibble is 0x0F
and the directory bit is set. -/
def dotNibbleEntry : List Nat := [0x2e] ++ List.replicate 10 0x20 ++ [0x1f] ++ List.replicate 20 0

/-- A volume label. -/
def volumeLabelEntry : List Nat := shortEntry "MYDISK  " "   " 0x08 0 0

/-- The entry `.` of a subdirectory. -/
def dotEntry : List Nat := shortEntry ".       " "   " 0x10 2 0

/-- The entry `..` of a subdirectory. -/
def dotDotEntry : List Nat := shortEntry "..      " "   " 0x10 0 0

/-- A file named `.`: the directory bit is clear. -/
def dotFileEntry : List Nat := shortEntry ".       " "   " 0x20 2 13

/-- A directory whose name starts with a period. -/
def dotGitEntry : List Nat := shortEntry ".GIT    " "   " 0x10 3 0

/-- The variables of the scan when `parseDirectoryEntries` enters its loop. -/
def scanStart : ParseState :=
  { numEntries := 0, directoryEntries := [], vfatSequenceCount := 0,
    vfatRawEntrySequence := fun _ => [] }

/-- The entries of `longNameEntries` with other sequence numbers, other
checksums and another short name. -/
def alteredLongNameEntries : List (List Nat) :=
  [vfatEntry 0x07 0x00 (codes "txt" ++ [0] ++ List.replicate 9 0xffff),
   vfatEntry 0x09 0x33 (codes "verylongname."),
   shortEntry "OTHER   " "BIN" 0x20 5 100]

/-- The file `FILE.TXT` of `nestedTree`. -/
def nestedFile : file_t :=
  file_t.mk (wideCodes "FILE.TXT" ++ List.replicate 5 0) 0 13 [3] 1 []

/-- The directory `DIR` of `nestedTree`. -/
def nestedDirectory : file_t :=
  file_t.mk (wideCodes "DIR" ++ List.replicate 10 0) 1 0 [2] 1 [nestedFile]

/-- A FAT12 volume of more than 65535 sectors: 400000 sectors of 512 bytes in
clusters of 128 sectors, so that the 16-bit total of sectors is 0 and the
32-bit total holds the count. -/
def wideFloppy : boot_sect_t :=
  { bytesPerSector := 512, sectorsPerCluster := 128, numReservedSectors := 1, numFATs := 2,
    numRootEntries_FAT12 := 224, numSectors_FAT12 := 0, sectorsPerFAT_FAT12 := 9,
    numSectors_FAT32 := 400000 }

/-- The total of sectors that the classifier uses: `numSectorsTotal` of
`getFatVersion`. -/
def numSectorsTotal (bootSector : boot_sect_t) : Nat :=
  if bootSector.numSectors_FAT12 = 0 then bootSector.numSectors_FAT32
  else bootSector.numSectors_FAT12

/-- The sizes, in bytes, of the fields of `boot_sector_raw_t`, in the order of
their declaration; every field is an array of `uint8_t` or `char`. -/
def boot_sector_raw_t_sizes : List Nat :=
  [3, 8, 2, 1, 2, 1, 2, 2, 1, 2, 2, 2, 4, 4, 4, 2, 2, 4, 2, 2, 12, 1, 1, 1, 4, 11, 8, 422]

/-- The offsets of the fields of a structure whose fields have the given
sizes, starting at `offset`. -/
def fieldOffsets : List Nat → Nat → List Nat
  | [], _ => []
  | size :: sizes, offset => offset :: fieldOffsets sizes (offset + size)

/-- A boot sector image: the fields of the 1.44 MB floppy and zeros
elsewhere. -/
def floppySector : Nat → Nat :=
  bufferOf ([0xeb, 0x3c, 0x90] ++ codes "MSDOS5.0" ++ [0x00, 0x02, 0x01, 0x01, 0x00, 0x02,
    0xe0, 0x00, 0x40, 0x0b, 0xf0, 0x09, 0x00])

/-- The body of `extractEntryName` on a name buffer with arbitrary contents
around the 13 cells: the memory after the call and the index of the cell that
received the terminating null. -/
def extractEntryNameInto (charSigned : Bool) (fuel : Nat) (directoryEntryRaw : List Nat)
    (name0 : Nat → Int) : Except Fault ((Nat → Int) × Nat) := do
  let end1 ← trimLoop (fun k => byteAt directoryEntryRaw k) fuel 7
  let (name1, nameIndex1) ←
    copyLoop charSigned (fun k => byteAt directoryEntryRaw k) end1 fuel 0 0 name0
  let end2 ← trimLoop (fun k => byteAt directoryEntryRaw (8 + k)) fuel 2
  let (name2, nameIndex2) :=
    if end2 ≥ 0 then (storeWide name1 nameIndex1 46, (nameIndex1 + 1) % 256)
    else (name1, nameIndex1)
  let (name3, nameIndex3) ←
    copyLoop charSigned (fun k => byteAt directoryEntryRaw (8 + k)) end2 fuel 0 nameIndex2 name2
  return (storeWide name3 nameIndex3 0, nameIndex3)

/-- A short entry whose name and extension fields have no byte 0x20. -/
def fullNameEntry : List Nat := shortEntry "ABCDEFGH" "XYZ" 0x20 2 13

/-- The number of cells `getAbsolutePathName` asks `calloc` for, in the words
of the specification: the length of the own name, for each ancestor the length
of its name plus one, plus one. -/
def allocatedPathLength (file : file_t) (parents : List file_t) : Nat :=
  (cString file.name).length +
    (parents.map (fun node => (cString node.name).length + 1)).sum + 1

/-- The nodes of a chain (nearest first) below its nearest node with an empty
name, from the top down: the nodes whose names the recursion writes. -/
def writtenNodes (chain : List file_t) : List file_t :=
  (chain.takeWhile (fun node => decide (cString node.name ≠ []))).reverse

/-! ## Notions for the counts of the scan -/

/-- Record `i` of a directory buffer: the 32 bytes from offset `32 * i`. -/
def recordOf (raw : Nat → Nat) (i : Nat) : List Nat :=
  (List.range 32).map (fun k => raw (32 * i + k))

/-- The records `i, ..., i + d - 1` of a buffer that lie before the first of
them that starts with 0x00. -/
def recordsFrom (raw : Nat → Nat) (i d : Nat) : List (List Nat) :=
  ((List.range' i d).map (recordOf raw)).takeWhile (fun r => decide (byteAt r 0 ≠ 0))

/-- The records of a buffer of `m` records that lie before the first record
starting with 0x00. -/
def recordsBeforeEnd (raw : Nat → Nat) (m : Nat) : List (List Nat) := recordsFrom raw 0 m

/-- A record that is deleted: its first byte is 0x05 or 0xE5. -/
def isDeletedRecord (r : List Nat) : Bool :=
  decide (byteAt r 0 = 0x05 ∨ byteAt r 0 = 0xe5)

/-- A record that is a volume label: the bit 0x08 of its attribute byte is set
and the low nibble of that byte is not 0x0F. -/
def isVolumeLabelRecord (r : List Nat) : Bool :=
  decide (byteAt r 0x0b &&& 0x08 ≠ 0 ∧ byteAt r 0x0b &&& 0x0f ≠ 0x0f)

/-- A record whose attribute low nibble is 0x0F. -/
def hasVfatNibble (r : List Nat) : Bool := decide (byteAt r 0x0b &&& 0x0f = 0x0f)

/-- A record that yields an entry, in the words of the specification: it is
not deleted, not a volume label, not a dot entry and not a VFAT record. -/
def isEmittedRecord (r : List Nat) : Bool :=
  !isDeletedRecord r && !isVolumeLabelRecord r && !isDotEntry r && !hasVfatNibble r

/-- The number of records of a buffer of `m` records, before the first record
starting with 0x00, that yield an entry. -/
def emittedCount (raw : Nat → Nat) (m : Nat) : Nat :=
  (recordsBeforeEnd raw m).countP isEmittedRecord

/-- The slot of `vfatRawEntrySequence` that the iteration of the loop of
`parseDirectoryEntries` for `srcEntry` copies into, by one of its two calls
`memcpy(&(vfatRawEntrySequence[vfatSequenceCount]), srcEntry, ...)`; `none`
when the iteration makes no copy. -/
def copySlot (srcEntry : List Nat) (state : ParseState) : Option Nat :=
  if byteAt srcEntry 0x00 = 0 then
    none
  else if byteAt srcEntry 0x00 = 0x05 ∨ byteAt srcEntry 0x00 = 0xe5 then
    none
  else if (byteAt srcEntry 0x0b &&& 0x08) ≠ 0 ∧ (byteAt srcEntry 0x0b &&& 0x0f) ≠ 0x0f then
    none
  else if isDotEntry srcEntry = true then
    none
  else if (byteAt srcEntry 0x0b &&& 0x0f) = 0x0f then
    some state.vfatSequenceCount
  else if state.vfatSequenceCount > 0 then
    some state.vfatSequenceCount
  else
    none

/-- The variables of the loop of `parseDirectoryEntries` when it tests its
condition for `indexSrc = k`: `none` after a `break`. -/
def scanStates (charSigned : Bool) (fuel : Nat) (directoryEntriesRaw : Nat → Nat)
    (fileAllocationTable : Nat → Nat) (bootSector : boot_sect_t) :
    Nat → Except Fault (Option ParseState)
  | 0 => .ok (some scanStart)
  | k + 1 =>
    match scanStates charSigned fuel directoryEntriesRaw fileAllocationTable bootSector k with
    | .error fault => .error fault
    | .ok none => .ok none
    | .ok (some state) =>
      parseStep charSigned fuel fileAllocationTable bootSector
        (recordAt directoryEntriesRaw k) state

/-- A record that the scan skips: deleted, volume label or dot entry. -/
def isSkippedRecord (r : List Nat) : Bool :=
  isDeletedRecord r || isVolumeLabelRecord r || isDotEntry r

/-- The number of VFAT records (attribute low nibble 0x0F, not deleted) among
the records `0 .. k - 1` of a buffer that follow the last record yielding an
entry. -/
def pendingVfat (raw : Nat → Nat) : Nat → Nat
  | 0 => 0
  | k + 1 =>
    if isEmittedRecord (recordOf raw k) = true then 0
    else if hasVfatNibble (recordOf raw k) = true ∧ isDeletedRecord (recordOf raw k) = false then
      pendingVfat raw k + 1
    else pendingVfat raw k

/-! ## Notions for the assembly of the tree -/

/-- The node as `parseDirectoryEntries` decodes it from its record: the node
without children. -/
def shell (node : file_t) : file_t :=
  file_t.mk node.name node.type node.size node.clusters node.numClusters []

/-- A node that was assembled as the source assembles the children of a
directory: a directory holds, as children, the entries decoded from the
buffer that `readClusters` fills from its chain, at most
`numClusters * sectorsPerCluster * bytesPerSector / 32` records being scanned;
a file has no children. -/
def IsAssembled (charSigned : Bool) (fuel : Nat) (bootSector : boot_sect_t)
    (fileAllocationTable : Nat → Nat) (storageDevice : List Nat) (node : file_t) : Prop :=
  (node.type ≠ 0 →
    ∃ raw entries n,
      readClusters fuel (fun _ => 0) (fun i => node.clusters.getD i 0) node.numClusters
        bootSector storageDevice = .ok raw ∧
      parseDirectoryEntries charSigned fuel raw
        (mul32 (mul32 node.numClusters bootSector.sectorsPerCluster) bootSector.bytesPerSector /
          32) fileAllocationTable bootSector = .ok (entries, n) ∧
      node.children.map shell = entries) ∧
  (node.type = 0 → node.children = [])

/-- A volume with sectors of 32 bytes and clusters of 2 sectors: one reserved
sector, one sector of table, a root directory of 2 records, 3 clusters. -/
def tinyVolume : boot_sect_t :=
  { bytesPerSector := 32, sectorsPerCluster := 2, numReservedSectors := 1, numFATs := 1,
    numRootEntries_FAT12 := 2, numSectors_FAT12 := 10, sectorsPerFAT_FAT12 := 1 }

/-- The image of `tinyVolume`: the root directory holds the directory `DIR`
(cluster 2), and cluster 2 holds the file `FILE.TXT` (cluster 3, 13 bytes). -/
def tinyImage : List Nat :=
  List.replicate 64 0 ++
    shortEntry "DIR     " "   " 0x10 2 0 ++ List.replicate 32 0 ++
    shortEntry "FILE    " "TXT" 0x20 3 13 ++ List.replicate 32 0 ++
    List.replicate 128 0

/-- A directory buffer with a run of 21 VFAT records (records 0 to 20, each
holding the units `abcdefghijklm`), their short record `ABCDEF~1.TXT` (record
21) and zeros after it. -/
def longRunBuffer : Nat → Nat := fun k =>
  if k < 672 then (vfatEntry 0x01 0x5a (codes "abcdefghijklm")).getD (k % 32) 0
  else (shortEntry "ABCDEF~1" "TXT" 0x20 5 100).getD (k - 672) 0

/-! ## Bit manipulation -/

theorem or_eq_add_of_dvd (a b i : Nat) (hb : b < 2 ^ i) (ha : 2 ^ i ∣ a) : a ||| b = a + b := by
  obtain ⟨c, rfl⟩ := ha
  exact (Nat.mul_add_lt_is_or hb c).symm

theorem add32_of_lt (a b : Nat) (h : a + b < 4294967296) : add32 a b = a + b := by
  unfold add32
  exact Nat.mod_eq_of_lt h

theorem combined24BitValue_eq (raw : Nat → Nat) (hraw : IsByteBuffer raw) (b : Nat)
    (hb : b + 2 < 4294967296) :
    combined24BitValue raw b = raw (b + 2) * 65536 + raw (b + 1) * 256 + raw b := by
  have h2 := hraw (b + 2)
  have h1 := hraw (b + 1)
  have h0 := hraw b
  unfold combined24BitValue
  rw [add32_of_lt b 2 hb, add32_of_lt b 1 (by omega), add32_of_lt b 0 (by omega)]
  simp only [Nat.shiftLeft_eq, Nat.add_zero, Nat.pow_zero, Nat.mul_one]
  rw [or_eq_add_of_dvd (raw (b + 2) * 2 ^ 16) (raw (b + 1) * 2 ^ 8) 16 (by omega)
    (Dvd.intro_left _ rfl)]
  rw [or_eq_add_of_dvd _ (raw b) 8 (by omega) ⟨raw (b + 2) * 2 ^ 8 + raw (b + 1), by ring⟩]
  norm_num

theorem entryValue_FAT32_eq (raw : Nat → Nat) (hraw : IsByteBuffer raw) (b : Nat)
    (hb : b + 3 < 4294967296) :
    entryValue_FAT32 raw b =
      (raw (b + 3) * 16777216 + raw (b + 2) * 65536 + raw (b + 1) * 256 + raw b) % 268435456 := by
  have h3 := hraw (b + 3)
  have h2 := hraw (b + 2)
  have h1 := hraw (b + 1)
  have h0 := hraw b
  unfold entryValue_FAT32
  rw [add32_of_lt b 3 hb, add32_of_lt b 2 (by omega), add32_of_lt b 1 (by omega),
    add32_of_lt b 0 (by omega)]
  have e15 : ∀ x : Nat, x &&& 15 = x % 16 := fun x => Nat.and_pow_two_sub_one_eq_mod x 4
  have e255 : ∀ x : Nat, x &&& 255 = x % 256 := fun x => Nat.and_pow_two_sub_one_eq_mod x 8
  simp only [e15, e255, Nat.shiftLeft_eq, Nat.add_zero, Nat.pow_zero, Nat.mul_one]
  rw [Nat.mod_eq_of_lt h2, Nat.mod_eq_of_lt h1, Nat.mod_eq_of_lt h0]
  rw [or_eq_add_of_dvd (raw (b + 3) % 16 * 2 ^ 24) (raw (b + 2) * 2 ^ 16) 24 (by omega)
    (Dvd.intro_left _ rfl)]
  rw [or_eq_add_of_dvd _ (raw (b + 1) * 2 ^ 8) 16 (by omega)
    ⟨raw (b + 3) % 16 * 2 ^ 8 + raw (b + 2), by ring⟩]
  rw [or_eq_add_of_dvd _ (raw b) 8 (by omega)
    ⟨raw (b + 3) % 16 * 2 ^ 16 + raw (b + 2) * 2 ^ 8 + raw (b + 1), by ring⟩]
  norm_num
  omega

/-! ## The decoding loops -/

theorem translateLoop_FAT12_spec (n : Nat) (raw : Nat → Nat) (hraw : IsByteBuffer raw)
    (hspan : 3 * ((n + 1) / 2) ≤ 4294967296) :
    ∀ (fuel p : Nat) (tbl : Nat → Nat), 2 * p ≤ n + 1 → (n + 1) / 2 < fuel + p →
      ∃ out, translateLoop_FAT12 n raw fuel (3 * p) (2 * p) tbl = .ok out ∧
        (∀ i, 2 * p ≤ i → i < n → i % 2 = 0 →
          out i = (raw (3 * (i / 2) + 2) * 65536 + raw (3 * (i / 2) + 1) * 256
                    + raw (3 * (i / 2))) % 4096 ∧
          out (i + 1) = (raw (3 * (i / 2) + 2) * 65536 + raw (3 * (i / 2) + 1) * 256
                    + raw (3 * (i / 2))) / 4096) ∧
        (∀ i, i < 2 * p → out i = tbl i) := by
  intro fuel
  induction fuel with
  | zero =>
    intro p tbl hp hfuel
    omega
  | succ fuel ih =>
    intro p tbl hp hfuel
    unfold translateLoop_FAT12
    by_cases hlt : 2 * p < n
    · rw [if_pos hlt]
      have hb : 3 * p + 2 < 4294967296 := by omega
      rw [combined24BitValue_eq raw hraw (3 * p) hb, add32_of_lt (2 * p) 1 (by omega),
        add32_of_lt (3 * p) 3 (by omega), add32_of_lt (2 * p) 2 (by omega)]
      obtain ⟨out, hout, hnew, hold⟩ := ih (p + 1)
        (store (store tbl (2 * p)
          ((raw (3 * p + 2) * 65536 + raw (3 * p + 1) * 256 + raw (3 * p)) % 4096)) (2 * p + 1)
          ((raw (3 * p + 2) * 65536 + raw (3 * p + 1) * 256 + raw (3 * p)) / 4096))
        (by omega) (by omega)
      refine ⟨out, ?_, ?_, ?_⟩
      · rw [← hout]
        ring_nf
      · intro i hi hin heven
        by_cases hip : i = 2 * p
        · subst hip
          have e : 2 * p / 2 = p := by omega
          rw [e]
          constructor
          · rw [hold (2 * p) (by omega)]
            simp [store]
          · rw [hold (2 * p + 1) (by omega)]
            simp [store]
        · exact hnew i (by omega) hin heven
      · intro i hi
        rw [hold i (by omega)]
        have h1 : i ≠ 2 * p + 1 := by omega
        have h2 : i ≠ 2 * p := by omega
        simp [store, h1, h2]
    · rw [if_neg hlt]
      refine ⟨tbl, rfl, ?_, ?_⟩
      · intro i hi hin
        omega
      · intro i _
        rfl

theorem translateLoop_FAT32_spec (n : Nat) (raw : Nat → Nat) (hraw : IsByteBuffer raw)
    (hspan : 4 * n ≤ 4294967296) :
    ∀ (fuel p : Nat) (tbl : Nat → Nat), p ≤ n → n < fuel + p →
      ∃ out, translateLoop_FAT32 n raw fuel (4 * p) p tbl = .ok out ∧
        (∀ i, p ≤ i → i < n →
          out i = (raw (4 * i + 3) * 16777216 + raw (4 * i + 2) * 65536 + raw (4 * i + 1) * 256
                    + raw (4 * i)) % 268435456) ∧
        (∀ i, i < p → out i = tbl i) := by
  intro fuel
  induction fuel with
  | zero =>
    intro p tbl hp hfuel
    omega
  | succ fuel ih =>
    intro p tbl hp hfuel
    unfold translateLoop_FAT32
    by_cases hlt : p < n
    · rw [if_pos hlt]
      have hb : 4 * p + 3 < 4294967296 := by omega
      rw [entryValue_FAT32_eq raw hraw (4 * p) hb, add32_of_lt p 1 (by omega)]
      by_cases hlast : p + 1 = n
      · -- the last entry: the byte offset may wrap, and the loop is left at once
        cases fuel with
        | zero => omega
        | succ fuel =>
          unfold translateLoop_FAT32
          rw [if_neg (by omega)]
          refine ⟨_, rfl, ?_, ?_⟩
          · intro i hi hin
            have : i = p := by omega
            subst this
            simp [store]
          · intro i hi
            have : i ≠ p := by omega
            simp [store, this]
      · rw [add32_of_lt (4 * p) 4 (by omega)]
        obtain ⟨out, hout, hnew, hold⟩ := ih (p + 1)
          (store tbl p ((raw (4 * p + 3) * 16777216 + raw (4 * p + 2) * 65536
            + raw (4 * p + 1) * 256 + raw (4 * p)) % 268435456))
          (by omega) (by omega)
        refine ⟨out, ?_, ?_, ?_⟩
        · rw [← hout]
          ring_nf
        · intro i hi hin
          by_cases hip : i = p
          · subst hip
            rw [hold i (by omega)]
            simp [store]
          · exact hnew i (by omega) hin
        · intro i hi
          rw [hold i (by omega)]
          have h1 : i ≠ p := by omega
          simp [store, h1]
    · rw [if_neg hlt]
      refine ⟨tbl, rfl, ?_, ?_⟩
      · intro i hi hin
        omega
      · intro i _
        rfl

theorem bufferOf_isByteBuffer (bytes : List Nat) (h : ∀ b ∈ bytes, b < 256) :
    IsByteBuffer (bufferOf bytes) := by
  intro k
  unfold bufferOf
  by_cases hk : k < bytes.length
  · rw [List.getD_eq_getElem bytes 0 hk]
    exact h _ (List.getElem_mem hk)
  · rw [List.getD_eq_default bytes 0 (by omega)]
    omega

/-! ## Allocation table decoding: the properties -/

/-- C1. FAT12 table decode: when the raw table lies within 32-bit byte offsets,
`translateFileAllocationTable_FAT12` returns, and for every even index `i`
below the entry count, with `(b0, b1, b2)` the raw bytes at offset `3 * (i / 2)`,
entry `i` is `(b2 * 65536 + b1 * 256 + b0) mod 4096` and entry `i + 1` is
`(b2 * 65536 + b1 * 256 + b0) div 4096`. -/
theorem translateFileAllocationTable_FAT12_decodes (bootSector : boot_sect_t)
    (raw table0 : Nat → Nat) (n fuel : Nat)
    (hraw : IsByteBuffer raw)
    (hcount : getNumFATEntries bootSector = .ok n)
    (hspan : 3 * ((n + 1) / 2) ≤ 4294967296)
    (hfuel : n < fuel) :
    ∃ table, translateFileAllocationTable_FAT12 fuel bootSector table0 raw = .ok table ∧
      ∀ i, i < n → i % 2 = 0 →
        table i = (raw (3 * (i / 2) + 2) * 65536 + raw (3 * (i / 2) + 1) * 256
                    + raw (3 * (i / 2))) % 4096 ∧
        table (i + 1) = (raw (3 * (i / 2) + 2) * 65536 + raw (3 * (i / 2) + 1) * 256
                    + raw (3 * (i / 2))) / 4096 := by
  obtain ⟨out, hout, hnew, -⟩ :=
    translateLoop_FAT12_spec n raw hraw hspan fuel 0 table0 (by omega) (by omega)
  refine ⟨out, ?_, fun i hi heven => hnew i (by omega) hi heven⟩
  unfold translateFileAllocationTable_FAT12
  rw [hcount]
  exact hout

/-- C1, on the floppy volume: the bytes `[0x03, 0x40, 0x00]` decode to entry 0 = 3
and entry 1 = 4. -/
theorem translateFileAllocationTable_FAT12_decodes_witness :
    ∃ table, translateFileAllocationTable_FAT12 2881 floppy (fun _ => 0)
        (bufferOf [0x03, 0x40, 0x00]) = .ok table ∧ table 0 = 3 ∧ table 1 = 4 := by
  obtain ⟨table, hrun, hdec⟩ :=
    translateFileAllocationTable_FAT12_decodes floppy (bufferOf [0x03, 0x40, 0x00])
      (fun _ => 0) 2880 2881
      (bufferOf_isByteBuffer _ (by decide)) (by decide) (by norm_num) (by norm_num)
  have h := hdec 0 (by norm_num) (by norm_num)
  exact ⟨table, hrun, by simpa [bufferOf] using h.1, by simpa [bufferOf] using h.2⟩

/-- C2. FAT32 table decode: when the raw table lies within 32-bit byte offsets,
`translateFileAllocationTable_FAT32` returns, and for every index `i` below the
entry count entry `i` is the little-endian 32-bit value of the raw bytes
`4 * i .. 4 * i + 3` modulo 2^28, hence below 2^28. -/
theorem translateFileAllocationTable_FAT32_decodes (bootSector : boot_sect_t)
    (raw table0 : Nat → Nat) (n fuel : Nat)
    (hraw : IsByteBuffer raw)
    (hcount : getNumFATEntries bootSector = .ok n)
    (hspan : 4 * n ≤ 4294967296)
    (hfuel : n < fuel) :
    ∃ table, translateFileAllocationTable_FAT32 fuel bootSector table0 raw = .ok table ∧
      ∀ i, i < n →
        table i = (raw (4 * i + 3) * 16777216 + raw (4 * i + 2) * 65536
                    + raw (4 * i + 1) * 256 + raw (4 * i)) % 268435456 ∧
        table i < 268435456 := by
  obtain ⟨out, hout, hnew, -⟩ :=
    translateLoop_FAT32_spec n raw hraw hspan fuel 0 table0 (by omega) (by omega)
  refine ⟨out, ?_, fun i hi => ?_⟩
  · unfold translateFileAllocationTable_FAT32
    rw [hcount]
    exact hout
  · have h := hnew i (by omega) hi
    refine ⟨h, ?_⟩
    rw [h]
    exact Nat.mod_lt _ (by norm_num)

/-- C2, on a FAT32 volume: the bytes `[0xFF, 0xFF, 0xFF, 0x0F]` and
`[0xFF, 0xFF, 0xFF, 0xFF]` both decode to `0x0FFFFFFF`. -/
theorem translateFileAllocationTable_FAT32_decodes_witness :
    ∃ table, translateFileAllocationTable_FAT32 100001 largeVolume (fun _ => 0)
        (bufferOf [0xFF, 0xFF, 0xFF, 0x0F, 0xFF, 0xFF, 0xFF, 0xFF]) = .ok table ∧
      table 0 = 0x0FFFFFFF ∧ table 1 = 0x0FFFFFFF := by
  obtain ⟨table, hrun, hdec⟩ :=
    translateFileAllocationTable_FAT32_decodes largeVolume
      (bufferOf [0xFF, 0xFF, 0xFF, 0x0F, 0xFF, 0xFF, 0xFF, 0xFF]) (fun _ => 0) 100000 100001
      (bufferOf_isByteBuffer _ (by decide)) (by decide) (by norm_num) (by norm_num)
  have h0 := (hdec 0 (by norm_num)).1
  have h1 := (hdec 1 (by norm_num)).1
  exact ⟨table, hrun, by simpa [bufferOf] using h0, by simpa [bufferOf] using h1⟩

/-! ## Version classification and cluster validity: the properties -/

theorem numClustersData_ok (bootSector : boot_sect_t)
    (hB : bootSector.bytesPerSector ≠ 0) (hC : bootSector.sectorsPerCluster ≠ 0) :
    ∃ count, numClustersData bootSector = .ok count := by
  unfold numClustersData div32
  simp [hB, hC, bind, Except.bind]

theorem getFatVersion_of_count (bootSector : boot_sect_t) (count : Nat)
    (h : numClustersData bootSector = .ok count) :
    getFatVersion bootSector = .ok (classifyClusterCount count) := by
  unfold getFatVersion
  rw [h]
  rfl

/-- C3. Version classification thresholds: for a boot sector with non-zero
bytes-per-sector and sectors-per-cluster the data-region cluster count is
computed, and `getFatVersion` returns FAT12 iff it is below 4085, FAT16 iff it
is at least 4085 and below 65525, FAT32 iff it is at least 65525. -/
theorem getFatVersion_thresholds (bootSector : boot_sect_t)
    (hB : bootSector.bytesPerSector ≠ 0) (hC : bootSector.sectorsPerCluster ≠ 0) :
    ∃ count, numClustersData bootSector = .ok count ∧
      (getFatVersion bootSector = .ok FAT12 ↔ count < 4085) ∧
      (getFatVersion bootSector = .ok FAT16 ↔ 4085 ≤ count ∧ count < 65525) ∧
      (getFatVersion bootSector = .ok FAT32 ↔ 65525 ≤ count) := by
  obtain ⟨count, hcount⟩ := numClustersData_ok bootSector hB hC
  refine ⟨count, hcount, ?_⟩
  rw [getFatVersion_of_count bootSector count hcount]
  unfold classifyClusterCount
  by_cases h1 : count < 4085
  · simp [h1]
    omega
  · by_cases h2 : count < 65525
    · simp [h1, h2]
      omega
    · simp [h1, h2]
      omega

/-- C3, at the boundaries: the counts 4084, 4085, 65524 and 65525 classify as
FAT12, FAT16, FAT16 and FAT32. -/
theorem getFatVersion_thresholds_witness :
    (numClustersData (volumeWithClusters 4084) = .ok 4084 ∧
      getFatVersion (volumeWithClusters 4084) = .ok FAT12) ∧
    (numClustersData (volumeWithClusters 4085) = .ok 4085 ∧
      getFatVersion (volumeWithClusters 4085) = .ok FAT16) ∧
    (numClustersData (volumeWithClusters 65524) = .ok 65524 ∧
      getFatVersion (volumeWithClusters 65524) = .ok FAT16) ∧
    (numClustersData (volumeWithClusters 65525) = .ok 65525 ∧
      getFatVersion (volumeWithClusters 65525) = .ok FAT32) := by
  refine ⟨?_, ?_, ?_, ?_⟩
  · obtain ⟨count, hcount, h12, -, -⟩ :=
      getFatVersion_thresholds (volumeWithClusters 4084) (by decide) (by decide)
    have hc : numClustersData (volumeWithClusters 4084) = .ok 4084 := by decide
    have e : count = 4084 := by
      rw [hc] at hcount
      exact (Except.ok.inj hcount).symm
    exact ⟨hc, h12.2 (by omega)⟩
  · obtain ⟨count, hcount, -, h16, -⟩ :=
      getFatVersion_thresholds (volumeWithClusters 4085) (by decide) (by decide)
    have hc : numClustersData (volumeWithClusters 4085) = .ok 4085 := by decide
    have e : count = 4085 := by
      rw [hc] at hcount
      exact (Except.ok.inj hcount).symm
    exact ⟨hc, h16.2 (by omega)⟩
  · obtain ⟨count, hcount, -, h16, -⟩ :=
      getFatVersion_thresholds (volumeWithClusters 65524) (by decide) (by decide)
    have hc : numClustersData (volumeWithClusters 65524) = .ok 65524 := by decide
    have e : count = 65524 := by
      rw [hc] at hcount
      exact (Except.ok.inj hcount).symm
    exact ⟨hc, h16.2 (by omega)⟩
  · obtain ⟨count, hcount, -, -, h32⟩ :=
      getFatVersion_thresholds (volumeWithClusters 65525) (by decide) (by decide)
    have hc : numClustersData (volumeWithClusters 65525) = .ok 65525 := by decide
    have e : count = 65525 := by
      rw [hc] at hcount
      exact (Except.ok.inj hcount).symm
    exact ⟨hc, h32.2 (by omega)⟩

/-- C4. FAT12 cluster validity: on a boot sector classified FAT12,
`isValidClusterNumber` returns a value for every cluster number `n`, and that
value is false exactly when `n` is 0x000, 0x001 or lies in 0xFF8..0xFFF. -/
theorem isValidClusterNumber_FAT12 (bootSector : boot_sect_t) (n : Nat)
    (hversion : getFatVersion bootSector = .ok FAT12) :
    (isValidClusterNumber n bootSector = .ok false ↔
      (n = 0x000 ∨ n = 0x001 ∨ (0xFF8 ≤ n ∧ n ≤ 0xFFF))) ∧
    (isValidClusterNumber n bootSector = .ok true ↔
      ¬ (n = 0x000 ∨ n = 0x001 ∨ (0xFF8 ≤ n ∧ n ≤ 0xFFF))) := by
  unfold isValidClusterNumber
  rw [hversion]
  simp only [bind, Except.bind, pure, Except.pure, if_true]
  split_ifs with h
  · simp
    omega
  · simp
    omega

/-- C4, on the floppy volume: 0xFF8 is invalid, 0xFF7 and 0x1000 are valid. -/
theorem isValidClusterNumber_FAT12_witness :
    isValidClusterNumber 0xFF8 floppy = .ok false ∧
    isValidClusterNumber 0xFF7 floppy = .ok true ∧
    isValidClusterNumber 0x1000 floppy = .ok true :=
  ⟨(isValidClusterNumber_FAT12 floppy 0xFF8 (by decide)).1.2 (by omega),
   (isValidClusterNumber_FAT12 floppy 0xFF7 (by decide)).2.2 (by omega),
   (isValidClusterNumber_FAT12 floppy 0x1000 (by decide)).2.2 (by omega)⟩

/-- C5. FAT32 cluster validity: on a boot sector classified FAT32,
`isValidClusterNumber` returns a value for every cluster number `n`, and that
value is false exactly when `n` is below `rootClusterNumber_FAT32`, or lies in
0x0FF8..0x0FFF, or lies in 0xFFF8..0xFFFF, or is 0x0FFFFFFF. -/
theorem isValidClusterNumber_FAT32 (bootSector : boot_sect_t) (n : Nat)
    (hversion : getFatVersion bootSector = .ok FAT32) :
    (isValidClusterNumber n bootSector = .ok false ↔
      (n < bootSector.rootClusterNumber_FAT32 ∨ (0x0FF8 ≤ n ∧ n ≤ 0x0FFF) ∨
        (0xFFF8 ≤ n ∧ n ≤ 0xFFFF) ∨ n = 0x0FFFFFFF)) ∧
    (isValidClusterNumber n bootSector = .ok true ↔
      ¬ (n < bootSector.rootClusterNumber_FAT32 ∨ (0x0FF8 ≤ n ∧ n ≤ 0x0FFF) ∨
        (0xFFF8 ≤ n ∧ n ≤ 0xFFFF) ∨ n = 0x0FFFFFFF)) := by
  unfold isValidClusterNumber
  rw [hversion]
  have h12 : ¬ (FAT32 = FAT12) := by decide
  simp only [bind, Except.bind, pure, Except.pure, h12, if_false, if_true]
  by_cases h : n ≥ bootSector.rootClusterNumber_FAT32 ∧
       n ≠ 0x00000ff8 ∧ n ≠ 0x00000ff9 ∧ n ≠ 0x00000ffa ∧ n ≠ 0x00000ffb ∧
       n ≠ 0x00000ffc ∧ n ≠ 0x00000ffd ∧ n ≠ 0x00000ffe ∧ n ≠ 0x00000fff ∧
       n ≠ 0x0000fff8 ∧ n ≠ 0x0000fff9 ∧ n ≠ 0x0000fffa ∧ n ≠ 0x0000fffb ∧
       n ≠ 0x0000fffc ∧ n ≠ 0x0000fffd ∧ n ≠ 0x0000fffe ∧ n ≠ 0x0000ffff ∧
       n ≠ 0x0fffffff
  · rw [if_pos h]
    simp
    omega
  · rw [if_neg h]
    simp
    omega

/-- C5, on a FAT32 volume: the decoded entry 0x0FFFFFFF is invalid
(end of chain), and cluster 2 is valid. -/
theorem isValidClusterNumber_FAT32_witness :
    isValidClusterNumber 0x0FFFFFFF largeVolume = .ok false ∧
    isValidClusterNumber 2 largeVolume = .ok true :=
  ⟨(isValidClusterNumber_FAT32 largeVolume 0x0FFFFFFF (by decide)).1.2
      (Or.inr (Or.inr (Or.inr rfl))),
   (isValidClusterNumber_FAT32 largeVolume 2 (by decide)).2.2 (by decide)⟩

/-! ## Cluster validity along a walk -/

theorem getFatVersion_ok_of_isValid (bootSector : boot_sect_t) (c : Nat) (b : Bool)
    (h : isValidClusterNumber c bootSector = .ok b) :
    ∃ version, getFatVersion bootSector = .ok version := by
  cases hv : getFatVersion bootSector with
  | error e =>
    unfold isValidClusterNumber at h
    rw [hv] at h
    cases h
  | ok version => exact ⟨version, rfl⟩

theorem isValid_returns (bootSector : boot_sect_t) (version : Nat)
    (hv : getFatVersion bootSector = .ok version) (c : Nat) :
    ∃ b, isValidClusterNumber c bootSector = .ok b := by
  unfold isValidClusterNumber
  rw [hv]
  simp only [bind, Except.bind, pure, Except.pure]
  split_ifs <;> exact ⟨_, rfl⟩

theorem isValid_eq_validCluster (bootSector : boot_sect_t) (version : Nat)
    (hv : getFatVersion bootSector = .ok version) (c : Nat) :
    isValidClusterNumber c bootSector = .ok (validCluster bootSector c) := by
  obtain ⟨b, hb⟩ := isValid_returns bootSector version hv c
  unfold validCluster
  rw [hb]
  cases b <;> simp

theorem validCluster_iff (bootSector : boot_sect_t) (c : Nat) :
    validCluster bootSector c = true ↔ isValidClusterNumber c bootSector = .ok true := by
  unfold validCluster
  simp

theorem validCluster_eq_false_iff (bootSector : boot_sect_t) (version : Nat)
    (hv : getFatVersion bootSector = .ok version) (c : Nat) :
    validCluster bootSector c = false ↔ isValidClusterNumber c bootSector = .ok false := by
  rw [isValid_eq_validCluster bootSector version hv c]
  constructor
  · intro h
    rw [h]
  · intro h
    exact Except.ok.inj h

theorem not_validCluster_ff8 (bootSector : boot_sect_t) :
    validCluster bootSector 0xff8 = false := by
  unfold validCluster isValidClusterNumber
  cases getFatVersion bootSector with
  | error e => simp [bind, Except.bind]
  | ok version =>
    simp only [bind, Except.bind, pure, Except.pure]
    split_ifs <;> simp_all

theorem hasNext_eq (bootSector : boot_sect_t) (version : Nat)
    (hv : getFatVersion bootSector = .ok version) (fat : Nat → Nat) (c : Nat) :
    hasNext c bootSector fat =
      .ok (validCluster bootSector c && validCluster bootSector (fat c)) := by
  unfold hasNext
  rw [isValid_eq_validCluster bootSector version hv c,
    isValid_eq_validCluster bootSector version hv (fat c)]
  cases validCluster bootSector c <;> simp [bind, Except.bind, pure, Except.pure]

/-- Along a walk whose clusters `0 .. k` are valid and whose next link is not,
no cluster occurs twice. -/
theorem walk_injective (valid : Nat → Bool) (fat : Nat → Nat) (s k : Nat)
    (hall : ∀ j, j ≤ k → valid (fat^[j] s) = true)
    (hend : valid (fat^[k + 1] s) = false) :
    ∀ i j, i < j → j ≤ k → fat^[i] s ≠ fat^[j] s := by
  intro i j hij hjk heq
  have hshift : fat^[(k + 1 - j) + i] s = fat^[(k + 1 - j) + j] s := by
    rw [Function.iterate_add_apply, Function.iterate_add_apply, heq]
  have e1 : (k + 1 - j) + j = k + 1 := by omega
  rw [e1] at hshift
  have hvalid := hall ((k + 1 - j) + i) (by omega)
  rw [hshift, hend] at hvalid
  cases hvalid

/-- A walk as in `walk_injective` through values below `bound`, one of which
is not valid, has fewer than `bound` clusters. -/
theorem walk_length_lt (valid : Nat → Bool) (fat : Nat → Nat) (s k bound bad : Nat)
    (hall : ∀ j, j ≤ k → valid (fat^[j] s) = true)
    (hend : valid (fat^[k + 1] s) = false)
    (hbound : ∀ j, j ≤ k → fat^[j] s < bound)
    (hbad : bad < bound) (hbadv : valid bad = false) :
    k + 1 < bound := by
  have hinj : Set.InjOn (fun j => fat^[j] s) (Finset.range (k + 1) : Set Nat) := by
    intro i hi j hj heq
    simp only [Finset.coe_range, Set.mem_Iio] at hi hj
    by_contra hne
    rcases Nat.lt_or_gt_of_ne hne with h | h
    · exact walk_injective valid fat s k hall hend i j h (by omega) heq
    · exact walk_injective valid fat s k hall hend j i h (by omega) heq.symm
  have hsub : (Finset.range (k + 1)).image (fun j => fat^[j] s) ⊆
      (Finset.range bound).erase bad := by
    intro x hx
    obtain ⟨j, hj, rfl⟩ := Finset.mem_image.mp hx
    have hjk : j ≤ k := by
      have := Finset.mem_range.mp hj
      omega
    refine Finset.mem_erase.mpr ⟨?_, Finset.mem_range.mpr (hbound j hjk)⟩
    intro hxb
    have := hall j hjk
    rw [hxb, hbadv] at this
    cases this
  have hcard := Finset.card_le_card hsub
  rw [Finset.card_image_of_injOn hinj, Finset.card_range,
    Finset.card_erase_of_mem (Finset.mem_range.mpr hbad), Finset.card_range] at hcard
  omega

/-! ## The loops of the chain resolver -/

theorem iterate_add32_one (k num : Nat) (hnum : num < 4294967296) :
    (fun x => add32 x 1)^[k] num = (num + k) % 4294967296 := by
  induction k with
  | zero => simp [Nat.mod_eq_of_lt hnum]
  | succ k ih =>
    rw [Function.iterate_succ_apply', ih]
    unfold add32
    omega

theorem lengthLoop_returns (bootSector : boot_sect_t) (version : Nat)
    (hv : getFatVersion bootSector = .ok version) (fat : Nat → Nat) :
    ∀ (k fuel num c : Nat), validCluster bootSector c = true →
      (∀ j, j < k → validCluster bootSector (fat^[j + 1] c) = true) →
      validCluster bootSector (fat^[k + 1] c) = false → k < fuel →
      lengthLoop bootSector fat fuel num c = .ok ((fun x => add32 x 1)^[k] num) := by
  intro k
  induction k with
  | zero =>
    intro fuel num c hc _ hend hfuel
    obtain ⟨fuel, rfl⟩ : ∃ f, fuel = f + 1 := ⟨fuel - 1, by omega⟩
    unfold lengthLoop
    rw [hasNext_eq bootSector version hv fat c, hc]
    have hend1 : validCluster bootSector (fat c) = false := by simpa using hend
    rw [hend1]
    rfl
  | succ k ih =>
    intro fuel num c hc hlinks hend hfuel
    obtain ⟨fuel, rfl⟩ : ∃ f, fuel = f + 1 := ⟨fuel - 1, by omega⟩
    unfold lengthLoop
    rw [hasNext_eq bootSector version hv fat c, hc]
    have h1 : validCluster bootSector (fat c) = true := by simpa using hlinks 0 (by omega)
    rw [h1]
    simp only [Bool.and_self, bind, Except.bind, if_true]
    rw [ih fuel (add32 num 1) (fat c) h1
      (fun j hj => by
        have := hlinks (j + 1) (by omega)
        rwa [Function.iterate_succ_apply] at this)
      (by rwa [Function.iterate_succ_apply] at hend) (by omega)]
    rw [Function.iterate_succ_apply]

theorem lengthLoop_walk_of_ok (bootSector : boot_sect_t) (version : Nat)
    (hv : getFatVersion bootSector = .ok version) (fat : Nat → Nat) :
    ∀ (fuel num c r : Nat), validCluster bootSector c = true →
      lengthLoop bootSector fat fuel num c = .ok r →
      ∃ k, k < fuel ∧ (∀ j, j < k → validCluster bootSector (fat^[j + 1] c) = true) ∧
        validCluster bootSector (fat^[k + 1] c) = false := by
  intro fuel
  induction fuel with
  | zero =>
    intro num c r _ h
    unfold lengthLoop at h
    cases h
  | succ fuel ih =>
    intro num c r hc h
    unfold lengthLoop at h
    rw [hasNext_eq bootSector version hv fat c, hc] at h
    cases h1 : validCluster bootSector (fat c) with
    | false => exact ⟨0, by omega, fun j hj => by omega, by simpa using h1⟩
    | true =>
      rw [h1] at h
      simp only [Bool.and_self, bind, Except.bind, if_true] at h
      obtain ⟨k, hk, hlinks, hend⟩ := ih (add32 num 1) (fat c) r h1 h
      refine ⟨k + 1, by omega, ?_, ?_⟩
      · intro j hj
        cases j with
        | zero => simpa using h1
        | succ j =>
          rw [Function.iterate_succ_apply]
          exact hlinks j (by omega)
      · rw [Function.iterate_succ_apply]
        exact hend

theorem lengthLoop_diverges (bootSector : boot_sect_t) (version : Nat)
    (hv : getFatVersion bootSector = .ok version) (fat : Nat → Nat) :
    ∀ (fuel num c : Nat), (∀ j, validCluster bootSector (fat^[j] c) = true) →
      lengthLoop bootSector fat fuel num c = .error .outOfFuel := by
  intro fuel
  induction fuel with
  | zero =>
    intro num c _
    rfl
  | succ fuel ih =>
    intro num c hall
    unfold lengthLoop
    rw [hasNext_eq bootSector version hv fat c]
    have h0 : validCluster bootSector c = true := by simpa using hall 0
    have h1 : validCluster bootSector (fat c) = true := by simpa using hall 1
    rw [h0, h1]
    simp only [Bool.and_self, bind, Except.bind, if_true]
    exact ih (add32 num 1) (fat c) (fun j => by
      have := hall (j + 1)
      rwa [Function.iterate_succ_apply] at this)

theorem sub32_one (num : Nat) (h0 : 0 < num) (h : num < 4294967296) :
    sub32 num 1 = num - 1 := by
  unfold sub32
  omega

theorem sequenceLoop_spec (fat : Nat → Nat) (num : Nat) (hnum : num < 4294967296) :
    ∀ (fuel count cur : Nat) (mem : Nat → Nat), count ≤ num → num < fuel + count →
      ∃ out, sequenceLoop fat num fuel count cur mem = .ok out ∧
        (∀ j, count ≤ j → j < num → out j = fat^[j - count] cur) ∧
        (∀ j, j < count → out j = mem j) := by
  intro fuel
  induction fuel with
  | zero =>
    intro count cur mem hc hfuel
    omega
  | succ fuel ih =>
    intro count cur mem hc hfuel
    unfold sequenceLoop
    by_cases hlt : count < num
    · rw [if_pos hlt, add32_of_lt count 1 (by omega), sub32_one num (by omega) hnum]
      obtain ⟨out, hout, hnew, hold⟩ := ih (count + 1)
        (if count < num - 1 then fat cur else cur) (store mem count cur) (by omega) (by omega)
      refine ⟨out, hout, ?_, ?_⟩
      · intro j hj hjn
        by_cases hjc : j = count
        · subst hjc
          rw [hold j (by omega)]
          simp [store]
        · rw [hnew j (by omega) hjn, if_pos (by omega)]
          have e : j - count = (j - (count + 1)) + 1 := by omega
          rw [e, Function.iterate_succ_apply]
      · intro j hj
        rw [hold j (by omega)]
        have : j ≠ count := by omega
        simp [store, this]
    · rw [if_neg hlt]
      exact ⟨mem, rfl, fun j hj hjn => by omega, fun j _ => rfl⟩

theorem sequenceLoop_starved (fat : Nat → Nat) (num : Nat) (hnum : num < 4294967296) :
    ∀ (fuel count cur : Nat) (mem : Nat → Nat), fuel + count ≤ num →
      sequenceLoop fat num fuel count cur mem = .error .outOfFuel := by
  intro fuel
  induction fuel with
  | zero =>
    intro count cur mem _
    rfl
  | succ fuel ih =>
    intro count cur mem hfuel
    unfold sequenceLoop
    rw [if_pos (by omega), add32_of_lt count 1 (by omega)]
    exact ih (count + 1) _ _ (by omega)

/-! ## Chain resolution in terms of the walk through the table -/

theorem first_invalid_link (valid : Nat → Bool) (fat : Nat → Nat) (s k : Nat)
    (hk : valid (fat^[k + 1] s) = false) :
    ∃ k0, k0 ≤ k ∧ (∀ j, j < k0 → valid (fat^[j + 1] s) = true) ∧
      valid (fat^[k0 + 1] s) = false := by
  have hex : ∃ j, valid (fat^[j + 1] s) = false := ⟨k, hk⟩
  refine ⟨Nat.find hex, Nat.find_min' hex hk, ?_, Nat.find_spec hex⟩
  intro j hj
  have := Nat.find_min hex hj
  simpa using this

theorem first_invalid_link_unique (valid : Nat → Bool) (fat : Nat → Nat) (s k k' : Nat)
    (hlinks : ∀ j, j < k → valid (fat^[j + 1] s) = true)
    (hend : valid (fat^[k + 1] s) = false)
    (hlinks' : ∀ j, j < k' → valid (fat^[j + 1] s) = true)
    (hend' : valid (fat^[k' + 1] s) = false) : k = k' := by
  rcases Nat.lt_trichotomy k k' with h | h | h
  · have := hlinks' k h
    rw [hend] at this
    cases this
  · exact h
  · have := hlinks k' h
    rw [hend'] at this
    cases this

theorem walk_all_valid (valid : Nat → Bool) (fat : Nat → Nat) (s k : Nat)
    (hs : valid s = true)
    (hlinks : ∀ j, j < k → valid (fat^[j + 1] s) = true) :
    ∀ j, j ≤ k → valid (fat^[j] s) = true := by
  intro j hj
  cases j with
  | zero => simpa using hs
  | succ j => exact hlinks j (by omega)

theorem walk_lt_of_table32 (fat : Nat → Nat) (s : Nat) (hfat : IsTable32 fat)
    (hs : s < 4294967296) : ∀ j, fat^[j] s < 4294967296 := by
  intro j
  cases j with
  | zero => simpa using hs
  | succ j =>
    rw [Function.iterate_succ_apply']
    exact hfat _

theorem getClusterSequenceLength_invalid (bootSector : boot_sect_t) (fat : Nat → Nat)
    (s fuel : Nat) (hs : isValidClusterNumber s bootSector = .ok false) :
    getClusterSequenceLength fuel s bootSector fat = .ok 0 := by
  unfold getClusterSequenceLength
  rw [hs]
  rfl

theorem getClusterSequenceLength_of_walk (bootSector : boot_sect_t) (fat : Nat → Nat)
    (s k fuel : Nat) (hs : validCluster bootSector s = true)
    (hlinks : ∀ j, j < k → validCluster bootSector (fat^[j + 1] s) = true)
    (hend : validCluster bootSector (fat^[k + 1] s) = false) (hfuel : k < fuel) :
    getClusterSequenceLength fuel s bootSector fat = .ok ((1 + k) % 4294967296) := by
  obtain ⟨version, hv⟩ :=
    getFatVersion_ok_of_isValid bootSector s true ((validCluster_iff bootSector s).mp hs)
  unfold getClusterSequenceLength
  rw [isValid_eq_validCluster bootSector version hv s, hs]
  simp only [bind, Except.bind]
  rw [if_neg (by decide), lengthLoop_returns bootSector version hv fat k fuel 1 s hs hlinks hend
    hfuel, iterate_add32_one k 1 (by norm_num)]

theorem getClusterSequenceLength_walk_of_ok (bootSector : boot_sect_t) (fat : Nat → Nat)
    (s fuel n : Nat) (hs : validCluster bootSector s = true)
    (h : getClusterSequenceLength fuel s bootSector fat = .ok n) :
    ∃ k, k < fuel ∧ (∀ j, j < k → validCluster bootSector (fat^[j + 1] s) = true) ∧
      validCluster bootSector (fat^[k + 1] s) = false ∧ n = (1 + k) % 4294967296 := by
  obtain ⟨version, hv⟩ :=
    getFatVersion_ok_of_isValid bootSector s true ((validCluster_iff bootSector s).mp hs)
  have h' := h
  unfold getClusterSequenceLength at h'
  rw [isValid_eq_validCluster bootSector version hv s, hs] at h'
  simp only [bind, Except.bind] at h'
  rw [if_neg (by decide)] at h'
  obtain ⟨k, hk, hlinks, hend⟩ := lengthLoop_walk_of_ok bootSector version hv fat fuel 1 s n hs h'
  refine ⟨k, hk, hlinks, hend, ?_⟩
  have h2 := getClusterSequenceLength_of_walk bootSector fat s k fuel hs hlinks hend hk
  rw [h] at h2
  exact Except.ok.inj h2

theorem getClusterSequence_of_length (bootSector : boot_sect_t) (fat : Nat → Nat)
    (s fuel n : Nat) (h : getClusterSequenceLength fuel s bootSector fat = .ok n)
    (hn : n < 4294967296) :
    (n < fuel → getClusterSequence fuel s bootSector fat = .ok (walk fat s n, n)) ∧
    (fuel ≤ n → getClusterSequence fuel s bootSector fat = .error .outOfFuel) := by
  constructor
  · intro hfuel
    obtain ⟨out, hout, hnew, -⟩ :=
      sequenceLoop_spec fat n hn fuel 0 s (fun _ => 0) (by omega) (by omega)
    unfold getClusterSequence
    rw [h]
    simp only [bind, Except.bind]
    rw [hout]
    simp only [pure, Except.pure]
    congr 2
    unfold walk
    apply List.map_congr_left
    intro j hj
    have := hnew j (by omega) (List.mem_range.mp hj)
    simpa using this
  · intro hfuel
    unfold getClusterSequence
    rw [h]
    simp only [bind, Except.bind]
    rw [sequenceLoop_starved fat n hn fuel 0 s (fun _ => 0) (by omega)]

theorem getClusterSequenceLength_ok_of_sequence (bootSector : boot_sect_t) (fat : Nat → Nat)
    (s fuel : Nat) (r : List Nat × Nat)
    (h : getClusterSequence fuel s bootSector fat = .ok r) :
    getClusterSequenceLength fuel s bootSector fat = .ok r.2 := by
  unfold getClusterSequence at h
  cases hl : getClusterSequenceLength fuel s bootSector fat with
  | error e =>
    rw [hl] at h
    cases h
  | ok n =>
    rw [hl] at h
    simp only [bind, Except.bind] at h
    cases hq : sequenceLoop fat n fuel 0 s (fun _ => 0) with
    | error e =>
      rw [hq] at h
      cases h
    | ok out =>
      rw [hq] at h
      simp only [pure, Except.pure] at h
      have := Except.ok.inj h
      rw [← this]

theorem walk_length (fat : Nat → Nat) (s n : Nat) : (walk fat s n).length = n := by
  simp [walk]

theorem walk_getElem? (fat : Nat → Nat) (s n j : Nat) (hj : j < n) :
    (walk fat s n)[j]? = some (fat^[j] s) := by
  unfold walk
  rw [List.getElem?_map, List.getElem?_range hj]
  rfl

theorem mem_walk (fat : Nat → Nat) (s n c : Nat) (hc : c ∈ walk fat s n) :
    ∃ j, j < n ∧ c = fat^[j] s := by
  unfold walk at hc
  obtain ⟨j, hj, rfl⟩ := List.mem_map.mp hc
  exact ⟨j, List.mem_range.mp hj, rfl⟩

theorem validLinksWalked_eq (bootSector : boot_sect_t) (fat : Nat → Nat) :
    ∀ (k fuel c : Nat),
      (∀ j, j < k → validCluster bootSector (fat^[j + 1] c) = true) →
      validCluster bootSector (fat^[k + 1] c) = false → k < fuel →
      validLinksWalked bootSector fat fuel c = k := by
  intro k
  induction k with
  | zero =>
    intro fuel c _ hend hfuel
    obtain ⟨fuel, rfl⟩ : ∃ f, fuel = f + 1 := ⟨fuel - 1, by omega⟩
    unfold validLinksWalked
    have h1 : ¬ (isValidClusterNumber (fat c) bootSector = .ok true) := by
      rw [← validCluster_iff]
      have : validCluster bootSector (fat c) = false := by simpa using hend
      rw [this]
      decide
    rw [if_neg h1]
  | succ k ih =>
    intro fuel c hlinks hend hfuel
    obtain ⟨fuel, rfl⟩ : ∃ f, fuel = f + 1 := ⟨fuel - 1, by omega⟩
    unfold validLinksWalked
    have h1 : isValidClusterNumber (fat c) bootSector = .ok true := by
      rw [← validCluster_iff]
      simpa using hlinks 0 (by omega)
    rw [if_pos h1, ih fuel (fat c)
      (fun j hj => by
        have := hlinks (j + 1) (by omega)
        rwa [Function.iterate_succ_apply] at this)
      (by rwa [Function.iterate_succ_apply] at hend) (by omega)]

theorem isTable32_singleClusterTable : IsTable32 singleClusterTable := by
  intro k
  unfold singleClusterTable
  split_ifs <;> norm_num

theorem isTable32_threeClusterTable : IsTable32 threeClusterTable := by
  intro k
  unfold threeClusterTable
  split_ifs <;> norm_num

theorem cycle_all_valid (valid : Nat → Bool) (fat : Nat → Nat) (s i p : Nat) (hp : 0 < p)
    (hcycle : fat^[i + p] s = fat^[i] s)
    (h : ∀ j, j < i + p → valid (fat^[j] s) = true) :
    ∀ j, valid (fat^[j] s) = true := by
  intro j
  induction j using Nat.strong_induction_on with
  | _ j ih =>
    by_cases hj : j < i + p
    · exact h j hj
    · have e : j = (j - p - i) + (i + p) := by omega
      have e2 : j - p = (j - p - i) + i := by omega
      have hback : fat^[j] s = fat^[j - p] s := by
        rw [e2]
        conv_lhs => rw [e]
        rw [Function.iterate_add_apply, hcycle, ← Function.iterate_add_apply]
      rw [hback]
      exact ih (j - p) (by omega)

theorem resolution_diverges_of_all_valid (bootSector : boot_sect_t) (fat : Nat → Nat) (s : Nat)
    (hall : ∀ j, validCluster bootSector (fat^[j] s) = true) (fuel : Nat) :
    getClusterSequenceLength fuel s bootSector fat = .error .outOfFuel ∧
    getClusterSequence fuel s bootSector fat = .error .outOfFuel := by
  have hs : validCluster bootSector s = true := by simpa using hall 0
  obtain ⟨version, hv⟩ :=
    getFatVersion_ok_of_isValid bootSector s true ((validCluster_iff bootSector s).mp hs)
  have hlen : getClusterSequenceLength fuel s bootSector fat = .error .outOfFuel := by
    unfold getClusterSequenceLength
    rw [isValid_eq_validCluster bootSector version hv s, hs]
    simp only [bind, Except.bind]
    rw [if_neg (by decide)]
    exact lengthLoop_diverges bootSector version hv fat fuel 1 s hall
  refine ⟨hlen, ?_⟩
  unfold getClusterSequence
  rw [hlen]
  rfl

theorem cyclicTable_all_valid : ∀ j, validCluster floppy (cyclicTable^[j] 2) = true := by
  apply cycle_all_valid (validCluster floppy) cyclicTable 2 0 2 (by norm_num) (by decide)
  intro j hj
  have : j = 0 ∨ j = 1 := by omega
  rcases this with rfl | rfl <;> decide

/-! ## Cluster chains: the properties -/

/-- C6. Empty chain on invalid start: when `isValidClusterNumber` rejects the
starting cluster, `getClusterSequence` returns the empty chain with
`numClusters = 0`, and it does so whatever the allocation table holds (no
table entry takes part in the result). -/
theorem getClusterSequence_invalid_start (bootSector : boot_sect_t) (fat : Nat → Nat)
    (s fuel : Nat) (hinvalid : isValidClusterNumber s bootSector = .ok false)
    (hfuel : 0 < fuel) :
    getClusterSequence fuel s bootSector fat = .ok ([], 0) ∧
    getClusterSequenceLength fuel s bootSector fat = .ok 0 ∧
    ∀ other : Nat → Nat, getClusterSequence fuel s bootSector other = .ok ([], 0) := by
  have key : ∀ table : Nat → Nat, getClusterSequence fuel s bootSector table = .ok ([], 0) := by
    intro table
    have hlen := getClusterSequenceLength_invalid bootSector table s fuel hinvalid
    exact (getClusterSequence_of_length bootSector table s fuel 0 hlen (by norm_num)).1 hfuel
  exact ⟨key fat, getClusterSequenceLength_invalid bootSector fat s fuel hinvalid, key⟩

/-- C6, on the floppy volume: the chain of the free cluster 0 is empty. -/
theorem getClusterSequence_invalid_start_witness :
    getClusterSequence 1 0 floppy threeClusterTable = .ok ([], 0) ∧
    getClusterSequenceLength 1 0 floppy threeClusterTable = .ok 0 ∧
    ∀ other : Nat → Nat, getClusterSequence 1 0 floppy other = .ok ([], 0) :=
  getClusterSequence_invalid_start floppy threeClusterTable 0 1 (by decide) (by norm_num)

/-- C7. Chain walk shape: when `getClusterSequence` returns for a valid starting
cluster `s`, the chain it returns has `numClusters` elements, starts with `s`,
each further element is the table's link value of the element before it, every
element is a valid cluster number, and the link value of the last element is
not a valid cluster number. -/
theorem getClusterSequence_shape (bootSector : boot_sect_t) (fat : Nat → Nat)
    (s fuel : Nat) (chain : List Nat) (n : Nat)
    (hfat : IsTable32 fat) (hs : s < 4294967296)
    (hvalid : isValidClusterNumber s bootSector = .ok true)
    (hret : getClusterSequence fuel s bootSector fat = .ok (chain, n)) :
    chain.length = n ∧
    chain[0]? = some s ∧
    (∀ j, j + 1 < chain.length → ∃ c, chain[j]? = some c ∧ chain[j + 1]? = some (fat c)) ∧
    (∀ c, c ∈ chain → isValidClusterNumber c bootSector = .ok true) ∧
    (∃ last, chain[chain.length - 1]? = some last ∧
      isValidClusterNumber (fat last) bootSector = .ok false) := by
  have hsv := (validCluster_iff bootSector s).mpr hvalid
  obtain ⟨version, hv⟩ := getFatVersion_ok_of_isValid bootSector s true hvalid
  have hlen := getClusterSequenceLength_ok_of_sequence bootSector fat s fuel (chain, n) hret
  obtain ⟨k, hk, hlinks, hend, hn⟩ :=
    getClusterSequenceLength_walk_of_ok bootSector fat s fuel n hsv hlen
  have hall := walk_all_valid (validCluster bootSector) fat s k hsv hlinks
  have hlt := walk_length_lt (validCluster bootSector) fat s k 4294967296 0xff8 hall hend
    (fun j _ => walk_lt_of_table32 fat s hfat hs j) (by norm_num)
    (not_validCluster_ff8 bootSector)
  have hn' : n = k + 1 := by omega
  have hboth := getClusterSequence_of_length bootSector fat s fuel n hlen (by omega)
  have hchain : chain = walk fat s (k + 1) := by
    by_cases hf : n < fuel
    · have := hboth.1 hf
      rw [hret] at this
      have := Except.ok.inj this
      rw [hn'] at this
      exact (Prod.mk.inj this).1
    · have := hboth.2 (by omega)
      rw [hret] at this
      cases this
  subst hchain
  rw [walk_length]
  refine ⟨hn'.symm, ?_, ?_, ?_, ?_⟩
  · rw [walk_getElem? fat s (k + 1) 0 (by omega)]
    rfl
  · intro j hj
    refine ⟨fat^[j] s, walk_getElem? fat s (k + 1) j (by omega), ?_⟩
    rw [walk_getElem? fat s (k + 1) (j + 1) hj, Function.iterate_succ_apply']
  · intro c hc
    obtain ⟨j, hj, rfl⟩ := mem_walk fat s (k + 1) c hc
    exact (validCluster_iff bootSector _).mp (hall j (by omega))
  · refine ⟨fat^[k] s, walk_getElem? fat s (k + 1) k (by omega), ?_⟩
    rw [← Function.iterate_succ_apply' fat k s]
    exact (validCluster_eq_false_iff bootSector version hv _).mp hend

/-- C7, on the floppy volume: the chain of cluster 2 in a table with the links
2 → 3 → 4 → end is `[2, 3, 4]`. -/
theorem getClusterSequence_shape_witness :
    ([2, 3, 4] : List Nat).length = 3 ∧
    ([2, 3, 4] : List Nat)[0]? = some 2 ∧
    (∀ j, j + 1 < ([2, 3, 4] : List Nat).length →
      ∃ c, ([2, 3, 4] : List Nat)[j]? = some c ∧
        ([2, 3, 4] : List Nat)[j + 1]? = some (threeClusterTable c)) ∧
    (∀ c, c ∈ ([2, 3, 4] : List Nat) → isValidClusterNumber c floppy = .ok true) ∧
    (∃ last, ([2, 3, 4] : List Nat)[([2, 3, 4] : List Nat).length - 1]? = some last ∧
      isValidClusterNumber (threeClusterTable last) floppy = .ok false) :=
  getClusterSequence_shape floppy threeClusterTable 2 10 [2, 3, 4] 3
    isTable32_threeClusterTable (by norm_num) (by decide) (by decide)

/-- C8 (as stated, refuted). On the floppy volume with a table that marks
cluster 2 as the end of its chain, `getClusterSequence` returns the chain `[2]`
of length 1 although no valid link value is met before the first invalid one:
the length is not the number of valid links. -/
theorem getClusterSequence_length_counterexample :
    ∃ chain, getClusterSequence 3 2 floppy singleClusterTable = .ok (chain, 1) ∧
      chain.length = 1 ∧
      validLinksWalked floppy singleClusterTable 3 2 = 0 ∧
      chain.length ≠ validLinksWalked floppy singleClusterTable 3 2 :=
  ⟨[2], by decide, rfl, by decide, by decide⟩

/-- C8 (amended). Chain length: when the walk from a valid starting cluster
reaches a link value that is not a valid cluster number, `getClusterSequence`
returns, and the length of the returned chain is one more than the number of
valid link values met before the first invalid one (the starting cluster is
counted as well). -/
theorem getClusterSequence_length (bootSector : boot_sect_t) (fat : Nat → Nat)
    (s k fuel : Nat) (hfat : IsTable32 fat) (hs : s < 4294967296)
    (hvalid : isValidClusterNumber s bootSector = .ok true)
    (hacyclic : isValidClusterNumber (fat^[k + 1] s) bootSector = .ok false)
    (hfuel : k + 1 < fuel) :
    ∃ chain, getClusterSequence fuel s bootSector fat = .ok (chain, chain.length) ∧
      chain.length = validLinksWalked bootSector fat fuel s + 1 := by
  have hsv := (validCluster_iff bootSector s).mpr hvalid
  obtain ⟨version, hv⟩ := getFatVersion_ok_of_isValid bootSector s true hvalid
  obtain ⟨k0, hk0, hlinks, hend⟩ :=
    first_invalid_link (validCluster bootSector) fat s k
      ((validCluster_eq_false_iff bootSector version hv _).mpr hacyclic)
  have hall := walk_all_valid (validCluster bootSector) fat s k0 hsv hlinks
  have hlt := walk_length_lt (validCluster bootSector) fat s k0 4294967296 0xff8 hall hend
    (fun j _ => walk_lt_of_table32 fat s hfat hs j) (by norm_num)
    (not_validCluster_ff8 bootSector)
  have hlen := getClusterSequenceLength_of_walk bootSector fat s k0 fuel hsv hlinks hend
    (by omega)
  have e : (1 + k0) % 4294967296 = k0 + 1 := by omega
  rw [e] at hlen
  have hseq := (getClusterSequence_of_length bootSector fat s fuel (k0 + 1) hlen (by omega)).1
    (by omega)
  refine ⟨walk fat s (k0 + 1), ?_, ?_⟩
  · rw [walk_length]
    exact hseq
  · rw [walk_length, validLinksWalked_eq bootSector fat k0 fuel s hlinks hend (by omega)]

/-- C8 (amended), on the floppy volume: the chain 2 → 3 → 4 → end has length 3
and two valid links. -/
theorem getClusterSequence_length_witness :
    ∃ chain, getClusterSequence 4 2 floppy threeClusterTable = .ok (chain, chain.length) ∧
      chain.length = validLinksWalked floppy threeClusterTable 4 2 + 1 :=
  getClusterSequence_length floppy threeClusterTable 2 2 4
    isTable32_threeClusterTable (by norm_num) (by decide) (by decide) (by norm_num)

/-- C9. Chain resolution terminates and is repeatable: when the walk from the
starting cluster reaches, after `k` links, a value that is not a valid cluster
number, there are a length `n` and a chain such that
`getClusterSequenceLength` and `getClusterSequence` return them for every step
budget above `k + 1`, and every run of either function that returns, returns
exactly them. -/
theorem chain_resolution_terminates (bootSector : boot_sect_t) (fat : Nat → Nat) (s k : Nat)
    (hreach : isValidClusterNumber (fat^[k] s) bootSector = .ok false) :
    ∃ (n : Nat) (chain : List Nat),
      (∀ fuel, k + 1 < fuel →
        getClusterSequenceLength fuel s bootSector fat = .ok n ∧
        getClusterSequence fuel s bootSector fat = .ok (chain, n)) ∧
      (∀ fuel m, getClusterSequenceLength fuel s bootSector fat = .ok m → m = n) ∧
      (∀ fuel r, getClusterSequence fuel s bootSector fat = .ok r → r = (chain, n)) := by
  obtain ⟨version, hv⟩ := getFatVersion_ok_of_isValid bootSector _ false hreach
  have hreachv := (validCluster_eq_false_iff bootSector version hv _).mpr hreach
  -- the length, for every budget that returns
  have hfinish : ∀ (n : Nat), n < 4294967296 →
      (∀ fuel m, getClusterSequenceLength fuel s bootSector fat = .ok m → m = n) →
      ∀ fuel r, getClusterSequence fuel s bootSector fat = .ok r → r = (walk fat s n, n) := by
    intro n hn huniq fuel r hr
    have hlen := getClusterSequenceLength_ok_of_sequence bootSector fat s fuel r hr
    have hm := huniq fuel r.2 hlen
    rw [hm] at hlen
    have hboth := getClusterSequence_of_length bootSector fat s fuel n hlen hn
    by_cases hf : n < fuel
    · have := hboth.1 hf
      rw [hr] at this
      exact Except.ok.inj this
    · have := hboth.2 (by omega)
      rw [hr] at this
      cases this
  cases hsv : validCluster bootSector s with
  | false =>
    have hinv := (validCluster_eq_false_iff bootSector version hv s).mp hsv
    have huniq : ∀ fuel m, getClusterSequenceLength fuel s bootSector fat = .ok m → m = 0 := by
      intro fuel m hm
      rw [getClusterSequenceLength_invalid bootSector fat s fuel hinv] at hm
      exact (Except.ok.inj hm).symm
    refine ⟨0, walk fat s 0, ?_, huniq, hfinish 0 (by norm_num) huniq⟩
    intro fuel hfuel
    have hlen := getClusterSequenceLength_invalid bootSector fat s fuel hinv
    exact ⟨hlen,
      (getClusterSequence_of_length bootSector fat s fuel 0 hlen (by norm_num)).1 (by omega)⟩
  | true =>
    have hk : k ≠ 0 := by
      intro h0
      subst h0
      rw [Function.iterate_zero_apply, hsv] at hreachv
      cases hreachv
    obtain ⟨k1, rfl⟩ : ∃ k1, k = k1 + 1 := ⟨k - 1, by omega⟩
    obtain ⟨k0, hk0, hlinks, hend⟩ :=
      first_invalid_link (validCluster bootSector) fat s k1 hreachv
    have huniq : ∀ fuel m, getClusterSequenceLength fuel s bootSector fat = .ok m →
        m = (1 + k0) % 4294967296 := by
      intro fuel m hm
      obtain ⟨k', -, hlinks', hend', hm'⟩ :=
        getClusterSequenceLength_walk_of_ok bootSector fat s fuel m hsv hm
      rw [hm', first_invalid_link_unique (validCluster bootSector) fat s k' k0 hlinks' hend'
        hlinks hend]
    have hmod : (1 + k0) % 4294967296 < 4294967296 := Nat.mod_lt _ (by norm_num)
    have hle : (1 + k0) % 4294967296 ≤ 1 + k0 := Nat.mod_le _ _
    refine ⟨(1 + k0) % 4294967296, walk fat s ((1 + k0) % 4294967296), ?_, huniq,
      hfinish _ hmod huniq⟩
    intro fuel hfuel
    have hlen := getClusterSequenceLength_of_walk bootSector fat s k0 fuel hsv hlinks hend
      (by omega)
    exact ⟨hlen, (getClusterSequence_of_length bootSector fat s fuel _ hlen hmod).1 (by omega)⟩

/-- C9, on the floppy volume: in the table with the links 2 → 3 → 4 → end the
walk from cluster 2 reaches the end mark after three links. -/
theorem chain_resolution_terminates_witness :
    ∃ (n : Nat) (chain : List Nat),
      (∀ fuel, 3 + 1 < fuel →
        getClusterSequenceLength fuel 2 floppy threeClusterTable = .ok n ∧
        getClusterSequence fuel 2 floppy threeClusterTable = .ok (chain, n)) ∧
      (∀ fuel m, getClusterSequenceLength fuel 2 floppy threeClusterTable = .ok m → m = n) ∧
      (∀ fuel r, getClusterSequence fuel 2 floppy threeClusterTable = .ok r → r = (chain, n)) :=
  chain_resolution_terminates floppy threeClusterTable 2 3 (by decide)

/-- C10 (as stated, refuted). On the floppy volume with a table in which
cluster 2 links to 3 and 3 links back to 2, neither `getClusterSequenceLength`
nor `getClusterSequence` ends within any step budget: the walk loops forever
and no error is reported. -/
theorem chain_resolution_cycle_counterexample :
    ¬ Terminates (fun fuel => getClusterSequenceLength fuel 2 floppy cyclicTable) ∧
    ¬ Terminates (fun fuel => getClusterSequence fuel 2 floppy cyclicTable) := by
  constructor
  · rintro ⟨fuel, hfuel⟩
    exact hfuel (resolution_diverges_of_all_valid floppy cyclicTable 2 cyclicTable_all_valid fuel).1
  · rintro ⟨fuel, hfuel⟩
    exact hfuel (resolution_diverges_of_all_valid floppy cyclicTable 2 cyclicTable_all_valid fuel).2

/-- C10 (amended). No cycle guard: when the walk from the starting cluster
enters a cycle of valid cluster numbers (after `i` links it is on a cycle of
period `p`), `getClusterSequenceLength` and `getClusterSequence` do not
terminate: whatever the step budget, the loop of `getClusterSequenceLength` is
still running, and no error is reported. -/
theorem chain_resolution_diverges_on_cycle (bootSector : boot_sect_t) (fat : Nat → Nat)
    (s i p : Nat) (hp : 0 < p) (hcycle : fat^[i + p] s = fat^[i] s)
    (hvalid : ∀ j, j < i + p → isValidClusterNumber (fat^[j] s) bootSector = .ok true) :
    (∀ fuel, getClusterSequenceLength fuel s bootSector fat = .error .outOfFuel) ∧
    (∀ fuel, getClusterSequence fuel s bootSector fat = .error .outOfFuel) ∧
    ¬ Terminates (fun fuel => getClusterSequenceLength fuel s bootSector fat) ∧
    ¬ Terminates (fun fuel => getClusterSequence fuel s bootSector fat) := by
  have hall := cycle_all_valid (validCluster bootSector) fat s i p hp hcycle
    (fun j hj => (validCluster_iff bootSector _).mpr (hvalid j hj))
  have hdiv := resolution_diverges_of_all_valid bootSector fat s hall
  refine ⟨fun fuel => (hdiv fuel).1, fun fuel => (hdiv fuel).2, ?_, ?_⟩
  · rintro ⟨fuel, hfuel⟩
    exact hfuel (hdiv fuel).1
  · rintro ⟨fuel, hfuel⟩
    exact hfuel (hdiv fuel).2

/-- C10 (amended), on the floppy volume: the table with 2 → 3 → 2. -/
theorem chain_resolution_diverges_on_cycle_witness :
    (∀ fuel, getClusterSequenceLength fuel 2 floppy cyclicTable = .error .outOfFuel) ∧
    (∀ fuel, getClusterSequence fuel 2 floppy cyclicTable = .error .outOfFuel) ∧
    ¬ Terminates (fun fuel => getClusterSequenceLength fuel 2 floppy cyclicTable) ∧
    ¬ Terminates (fun fuel => getClusterSequence fuel 2 floppy cyclicTable) :=
  chain_resolution_diverges_on_cycle floppy cyclicTable 2 0 2 (by norm_num) (by decide)
    (fun j hj => by
      have : j = 0 ∨ j = 1 := by omega
      rcases this with rfl | rfl <;> decide)

/-! ## Geometry, boot sector and driver: the properties -/

theorem getSectorNumber_DataCluster_invalid (bootSector : boot_sect_t) (n : Nat)
    (h : isValidClusterNumber n bootSector = .ok false) :
    getSectorNumber_DataCluster bootSector n = .error .exited := by
  unfold getSectorNumber_DataCluster
  rw [h]
  rfl

/-- C16. Invalid cluster is an error in the geometry calculator: when
`isValidClusterNumber` rejects `n`, `getSectorNumber_DataCluster` ends in
`handleError` (the process exits; no sector number, and no zero, is returned),
and when `n` is valid it returns a sector number. -/
theorem getSectorNumber_DataCluster_error_iff_invalid (bootSector : boot_sect_t) (n : Nat) :
    (isValidClusterNumber n bootSector = .ok false →
      getSectorNumber_DataCluster bootSector n = .error .exited ∧
      ∀ sector, getSectorNumber_DataCluster bootSector n ≠ .ok sector) ∧
    (isValidClusterNumber n bootSector = .ok true →
      ∃ sector, getSectorNumber_DataCluster bootSector n = .ok sector) := by
  constructor
  · intro h
    have hexit := getSectorNumber_DataCluster_invalid bootSector n h
    refine ⟨hexit, fun sector hs => ?_⟩
    rw [hexit] at hs
    cases hs
  · intro h
    obtain ⟨version, hv⟩ := getFatVersion_ok_of_isValid bootSector n true h
    have hB : bootSector.bytesPerSector ≠ 0 := by
      intro h0
      unfold getFatVersion numClustersData div32 at hv
      simp [h0, bind, Except.bind] at hv
    unfold getSectorNumber_DataCluster
    rw [h, hv]
    simp only [bind, Except.bind, pure, Except.pure, div32, if_neg hB]
    split_ifs <;> first | exact ⟨_, rfl⟩ | contradiction

/-- C17 (the code at an invalid cluster). On the floppy volume the free
cluster number 0 is invalid, and `getSectorNumber_DataCluster` does not return
0 for it: it ends the process through `handleError`. -/
theorem getSectorNumber_DataCluster_invalid_exits :
    isValidClusterNumber 0 floppy = .ok false ∧
    getSectorNumber_DataCluster floppy 0 = .error .exited ∧
    getSectorNumber_DataCluster floppy 0 ≠ .ok 0 := by
  refine ⟨by decide, getSectorNumber_DataCluster_invalid floppy 0 (by decide), ?_⟩
  rw [getSectorNumber_DataCluster_invalid floppy 0 (by decide)]
  intro h
  cases h

theorem translateLittleEndian_two_zero (field : Nat → Nat) (h0 : field 0 = 0)
    (h1 : field 1 = 0) : translateLittleEndian field 2 = 0 := by
  simp [translateLittleEndian, h0, h1]

theorem getFatVersion_zero_divisor (bootSector : boot_sect_t)
    (h : bootSector.bytesPerSector = 0 ∨ bootSector.sectorsPerCluster = 0) :
    getFatVersion bootSector = .error .divisionByZero := by
  unfold getFatVersion numClustersData div32
  by_cases hB : bootSector.bytesPerSector = 0
  · simp [hB, bind, Except.bind]
  · rcases h with h | h
    · exact absurd h hB
    · simp [hB, h, bind, Except.bind]

/-- C18 (as stated, refuted). The sector of 512 zero bytes has zero
bytes-per-sector and sectors-per-cluster fields; `parseBootSector` returns a
record holding these zeros, not an error, and `getFatVersion` divides by zero
on it. -/
theorem parseBootSector_zero_counterexample :
    (parseBootSector zeroSector).bytesPerSector = 0 ∧
    (parseBootSector zeroSector).sectorsPerCluster = 0 ∧
    getFatVersion (parseBootSector zeroSector) = .error .divisionByZero := by
  refine ⟨by decide, by decide, ?_⟩
  exact getFatVersion_zero_divisor _ (Or.inl (by decide))

/-- C18 (amended). No validation of the divisors: for every boot sector whose
bytes-per-sector field (offset 11, 2 bytes) or sectors-per-cluster field
(offset 13, 1 byte) is zero, `parseBootSector` returns a record whose field is
that zero, and `getFatVersion` on this record ends in a division by zero. -/
theorem parseBootSector_zero_divisor (raw : Nat → Nat)
    (hzero : (raw 11 = 0 ∧ raw 12 = 0) ∨ raw 13 = 0) :
    ((parseBootSector raw).bytesPerSector = 0 ∨ (parseBootSector raw).sectorsPerCluster = 0) ∧
    getFatVersion (parseBootSector raw) = .error .divisionByZero := by
  have hfield : (parseBootSector raw).bytesPerSector = 0 ∨
      (parseBootSector raw).sectorsPerCluster = 0 := by
    rcases hzero with ⟨h11, h12⟩ | h13
    · left
      exact translateLittleEndian_two_zero (fieldAt raw 11) h11 h12
    · right
      show translateLittleEndian (fieldAt raw 13) 1 = 0
      simp [translateLittleEndian, fieldAt, h13]
  exact ⟨hfield, getFatVersion_zero_divisor _ hfield⟩

/-- C18 (amended), on a sector with 512 bytes per sector and zero sectors per
cluster. -/
theorem parseBootSector_zero_divisor_witness :
    ((parseBootSector (bufferOf (List.replicate 11 0 ++ [0x00, 0x02, 0x00]))).bytesPerSector = 0 ∨
      (parseBootSector (bufferOf (List.replicate 11 0 ++ [0x00, 0x02, 0x00]))).sectorsPerCluster
        = 0) ∧
    getFatVersion (parseBootSector (bufferOf (List.replicate 11 0 ++ [0x00, 0x02, 0x00])))
      = .error .divisionByZero :=
  parseBootSector_zero_divisor _ (Or.inr (by decide))

/-- C19. FAT16 is rejected by the caller: when `getFatVersion` classifies the
boot sector as FAT16, `main` calls `handleError` right after `getFatVersion`
and the process exits; `getFileAllocationTable`, `getDirectoryTree` and the
other components that follow the check are not called. -/
theorem main_rejects_FAT16 (bootSector : boot_sect_t)
    (h16 : getFatVersion bootSector = .ok FAT16) :
    (main 2 bootSector).2 = .error .exited ∧
    (main 2 bootSector).1 =
      [.printHeader, .openStorageDevice, .getBootSector, .getFatVersion, .handleError] ∧
    Call.getFileAllocationTable ∉ (main 2 bootSector).1 ∧
    Call.getDirectoryTree ∉ (main 2 bootSector).1 ∧
    Call.printFileSystemInformation ∉ (main 2 bootSector).1 ∧
    ∀ argc, (main argc bootSector).2 = .error .exited ∧
      Call.getFileAllocationTable ∉ (main argc bootSector).1 ∧
      Call.getDirectoryTree ∉ (main argc bootSector).1 := by
  have h2 : main 2 bootSector =
      ([.printHeader, .openStorageDevice, .getBootSector, .getFatVersion, .handleError],
        .error .exited) := by
    unfold main
    rw [h16]
    rfl
  refine ⟨by rw [h2], by rw [h2], by rw [h2]; decide, by rw [h2]; decide, by rw [h2]; decide, ?_⟩
  intro argc
  by_cases ha : argc = 2
  · subst ha
    rw [h2]
    exact ⟨rfl, by decide, by decide⟩
  · have hother : main argc bootSector = ([.printHeader, .handleError], .error .exited) := by
      unfold main
      rw [if_pos ha]
      rfl
    rw [hother]
    exact ⟨rfl, by decide, by decide⟩

/-- C19, on a volume of 20000 clusters of one sector. -/
theorem main_rejects_FAT16_witness :
    (main 2 mediumVolume).2 = .error .exited ∧
    (main 2 mediumVolume).1 =
      [.printHeader, .openStorageDevice, .getBootSector, .getFatVersion, .handleError] ∧
    Call.getFileAllocationTable ∉ (main 2 mediumVolume).1 ∧
    Call.getDirectoryTree ∉ (main 2 mediumVolume).1 ∧
    Call.printFileSystemInformation ∉ (main 2 mediumVolume).1 ∧
    ∀ argc, (main argc mediumVolume).2 = .error .exited ∧
      Call.getFileAllocationTable ∉ (main argc mediumVolume).1 ∧
      Call.getDirectoryTree ∉ (main argc mediumVolume).1 :=
  main_rejects_FAT16 mediumVolume (by decide)

theorem sectorsPerCluster_ne_zero_of_version (bootSector : boot_sect_t) (version : Nat)
    (hv : getFatVersion bootSector = .ok version) : bootSector.sectorsPerCluster ≠ 0 := by
  intro h0
  rw [getFatVersion_zero_divisor bootSector (Or.inr h0)] at hv
  cases hv

/-- C20 (as stated, refuted). On the floppy volume `getNumFATEntries` returns
2880, the total of sectors divided by the sectors per cluster, while the
classifier computes 2847 data-region clusters. -/
theorem getNumFATEntries_counterexample :
    getFatVersion floppy = .ok FAT12 ∧
    getNumFATEntries floppy = .ok 2880 ∧
    numClustersData floppy = .ok 2847 ∧
    getNumFATEntries floppy ≠ numClustersData floppy := by
  decide

/-- C20 (amended). Allocation-table entry count: for a boot sector classified
FAT12 whose 16-bit total of sectors is in use (not 0), and for one classified
FAT32 whose 16-bit total is 0, `getNumFATEntries` returns the total of sectors
of the volume, the one the classifier uses, divided by `sectorsPerCluster`: the
number of clusters of the whole volume, not of its data region. -/
theorem getNumFATEntries_eq_total_clusters (bootSector : boot_sect_t) :
    (getFatVersion bootSector = .ok FAT12 → bootSector.numSectors_FAT12 ≠ 0 →
      getNumFATEntries bootSector =
        .ok (numSectorsTotal bootSector / bootSector.sectorsPerCluster)) ∧
    (getFatVersion bootSector = .ok FAT32 → bootSector.numSectors_FAT12 = 0 →
      getNumFATEntries bootSector =
        .ok (numSectorsTotal bootSector / bootSector.sectorsPerCluster)) := by
  constructor
  · intro hv hT
    have hC := sectorsPerCluster_ne_zero_of_version bootSector _ hv
    unfold getNumFATEntries numSectorsTotal
    rw [hv, if_neg hT]
    simp [bind, Except.bind, div32, hC]
  · intro hv hT
    have hC := sectorsPerCluster_ne_zero_of_version bootSector _ hv
    unfold getNumFATEntries numSectorsTotal
    rw [hv, if_pos hT]
    simp [bind, Except.bind, div32, hC]

/-- C20 (amended), on the floppy and on a FAT32 volume. -/
theorem getNumFATEntries_eq_total_clusters_witness :
    numSectorsTotal floppy = 2880 ∧ getNumFATEntries floppy = .ok (2880 / 1) ∧
    numSectorsTotal largeVolume = 100000 ∧ getNumFATEntries largeVolume = .ok (100000 / 1) :=
  ⟨rfl, (getNumFATEntries_eq_total_clusters floppy).1 (by decide) (by decide),
   rfl, (getNumFATEntries_eq_total_clusters largeVolume).2 (by decide) (by decide)⟩

/-! ## Short names -/

theorem trimR_append_singleton (l : List Nat) (x : Nat) :
    trimR (l ++ [x]) = if x = 0x20 then trimR l else l ++ [x] := by
  unfold trimR
  rw [List.reverse_append, List.reverse_singleton, List.singleton_append, List.dropWhile_cons]
  by_cases hx : x = 0x20
  · simp [hx]
  · simp [hx]

theorem trimR_initial (l : List Nat) : trimR l <+: l := by
  unfold trimR
  have h := List.dropWhile_suffix (fun b => decide (b = 0x20)) (l := l.reverse)
  have h2 := List.reverse_prefix.mpr h
  rwa [List.reverse_reverse] at h2

theorem trimR_range_map (field : Nat → Nat) (n : Nat) :
    trimR ((List.range n).map field) =
      (List.range (trimR ((List.range n).map field)).length).map field := by
  have hp := trimR_initial ((List.range n).map field)
  have hlen : (trimR ((List.range n).map field)).length ≤ n := by
    have := hp.length_le
    simpa using this
  have h := List.prefix_iff_eq_take.mp hp
  conv_lhs => rw [h]
  rw [← List.map_take, List.take_range, Nat.min_eq_left hlen]

theorem trimLoop_spec (field : Nat → Nat) :
    ∀ (n fuel : Nat), n < fuel →
      trimLoop field fuel ((n : Int) - 1) =
        .ok (((trimR ((List.range n).map field)).length : Int) - 1) := by
  intro n
  induction n with
  | zero =>
    intro fuel hfuel
    obtain ⟨fuel, rfl⟩ : ∃ f, fuel = f + 1 := ⟨fuel - 1, by omega⟩
    unfold trimLoop
    simp [trimR]
  | succ n ih =>
    intro fuel hfuel
    obtain ⟨fuel, rfl⟩ : ∃ f, fuel = f + 1 := ⟨fuel - 1, by omega⟩
    unfold trimLoop
    have e1 : ((n + 1 : Nat) : Int) - 1 = (n : Int) := by omega
    rw [e1, if_pos (by omega), Int.toNat_ofNat, List.range_succ, List.map_append,
      List.map_singleton, trimR_append_singleton]
    by_cases hx : field n = 0x20
    · rw [if_pos hx, if_pos hx]
      exact ih fuel (by omega)
    · rw [if_neg hx, if_neg hx]
      simp

theorem copyLoop_spec (charSigned : Bool) (field : Nat → Nat) (e : Nat) (he : e < 256) :
    ∀ (fuel rawEntryIndex nameIndex : Nat) (name : Nat → Int),
      rawEntryIndex ≤ e → e < fuel + rawEntryIndex → nameIndex + (e - rawEntryIndex) < 256 →
      ∃ out, copyLoop charSigned field ((e : Int) - 1) fuel rawEntryIndex nameIndex name =
          .ok (out, nameIndex + (e - rawEntryIndex)) ∧
        ∀ k, out k =
          if nameIndex ≤ k ∧ k < nameIndex + (e - rawEntryIndex) then
            charValue charSigned (field (rawEntryIndex + (k - nameIndex)))
          else name k := by
  intro fuel
  induction fuel with
  | zero =>
    intro rawEntryIndex nameIndex name h1 h2 h3
    omega
  | succ fuel ih =>
    intro rawEntryIndex nameIndex name h1 h2 h3
    unfold copyLoop
    by_cases hlt : rawEntryIndex < e
    · rw [if_pos (by omega), Nat.mod_eq_of_lt (by omega : rawEntryIndex + 1 < 256),
        Nat.mod_eq_of_lt (by omega : nameIndex + 1 < 256)]
      obtain ⟨out, hout, hcells⟩ := ih (rawEntryIndex + 1) (nameIndex + 1)
        (storeWide name nameIndex (charValue charSigned (field rawEntryIndex)))
        (by omega) (by omega) (by omega)
      refine ⟨out, ?_, ?_⟩
      · rw [hout]
        congr 2
        omega
      · intro k
        rw [hcells k]
        by_cases hk : k = nameIndex
        · subst hk
          rw [if_neg (by omega), if_pos (by omega)]
          simp [storeWide]
        · by_cases hin : nameIndex + 1 ≤ k ∧ k < nameIndex + 1 + (e - (rawEntryIndex + 1))
          · rw [if_pos hin, if_pos (by omega)]
            congr 2
            omega
          · rw [if_neg hin, if_neg (by omega)]
            simp [storeWide, hk]
    · rw [if_neg (by omega)]
      have e0 : e - rawEntryIndex = 0 := by omega
      refine ⟨name, by rw [e0]; rfl, ?_⟩
      intro k
      rw [if_neg (by omega)]

theorem charValue_period (charSigned : Bool) : charValue charSigned 0x2e = 46 := by
  unfold charValue
  rw [if_neg (by omega)]
  rfl

theorem range_map_split (g : Nat → Int) (a b : Nat) :
    (List.range (a + b)).map g = (List.range a).map g ++ (List.range b).map (fun k => g (a + k)) := by
  rw [List.range_add, List.map_append, List.map_map]
  rfl

theorem range_map_const (g : Nat → Int) (c : Int) (n : Nat) (h : ∀ k, k < n → g k = c) :
    (List.range n).map g = List.replicate n c := by
  apply List.ext_getElem
  · simp
  · intro i h1 h2
    simp only [List.getElem_map, List.getElem_range, List.getElem_replicate]
    exact h i (by simpa using h1)

theorem cells_of_segments (g gA gD gB : Nat → Int) (a d b n : Nat) (hn : a + d + b ≤ n)
    (hA : ∀ k, k < a → g k = gA k)
    (hD : ∀ k, k < d → g (a + k) = gD k)
    (hB : ∀ k, k < b → g (a + d + k) = gB k)
    (hZ : ∀ k, a + d + b ≤ k → g k = 0) :
    (List.range n).map g =
      (List.range a).map gA ++ (List.range d).map gD ++ (List.range b).map gB ++
        List.replicate (n - (a + d + b)) 0 := by
  have en : n = a + (d + (b + (n - (a + d + b)))) := by omega
  conv_lhs => rw [en]
  rw [range_map_split, range_map_split, range_map_split]
  have h1 : (List.range a).map g = (List.range a).map gA :=
    List.map_congr_left (fun k hk => hA k (List.mem_range.mp hk))
  have h2 : (List.range d).map (fun k => g (a + k)) = (List.range d).map gD :=
    List.map_congr_left (fun k hk => hD k (List.mem_range.mp hk))
  have h3 : (List.range b).map (fun k => g (a + (d + k))) = (List.range b).map gB :=
    List.map_congr_left (fun k hk => by
      have := hB k (List.mem_range.mp hk)
      rwa [Nat.add_assoc] at this)
  have h4 : (List.range (n - (a + d + b))).map (fun k => g (a + (d + (b + k)))) =
      List.replicate (n - (a + d + b)) 0 :=
    range_map_const _ 0 _ (fun k _ => hZ _ (by omega))
  rw [h1, h2, h3, h4]
  simp only [List.append_assoc]

theorem extractEntryName_eq (charSigned : Bool) (fuel : Nat) (entry : List Nat)
    (hfuel : 9 ≤ fuel) :
    extractEntryName charSigned fuel entry =
      .ok ((shortName entry).map (charValue charSigned) ++
        List.replicate (13 - (shortName entry).length) 0) ∧
    (shortName entry).length ≤ 12 := by
  have hm1 : (trimR (name8 entry)).length ≤ 8 := by
    have := (trimR_initial (name8 entry)).length_le
    simpa [name8] using this
  have hm2 : (trimR (ext3 entry)).length ≤ 3 := by
    have := (trimR_initial (ext3 entry)).length_le
    simpa [ext3] using this
  have hA : trimR (name8 entry) =
      (List.range (trimR (name8 entry)).length).map (fun k => byteAt entry k) :=
    trimR_range_map (fun k => byteAt entry k) 8
  have hB : trimR (ext3 entry) =
      (List.range (trimR (ext3 entry)).length).map (fun k => byteAt entry (8 + k)) :=
    trimR_range_map (fun k => byteAt entry (8 + k)) 3
  have hend1 := trimLoop_spec (fun k => byteAt entry k) 8 fuel (by omega)
  have hend2 := trimLoop_spec (fun k => byteAt entry (8 + k)) 3 fuel (by omega)
  have e7 : ((8 : Nat) : Int) - 1 = 7 := by norm_num
  have e2 : ((3 : Nat) : Int) - 1 = 2 := by norm_num
  rw [e7] at hend1
  rw [e2] at hend2
  change trimLoop (fun k => byteAt entry k) fuel 7 =
    .ok (((trimR (name8 entry)).length : Int) - 1) at hend1
  change trimLoop (fun k => byteAt entry (8 + k)) fuel 2 =
    .ok (((trimR (ext3 entry)).length : Int) - 1) at hend2
  generalize hm1def : (trimR (name8 entry)).length = m1 at hm1 hA hend1
  generalize hm2def : (trimR (ext3 entry)).length = m2 at hm2 hB hend2
  obtain ⟨name1, hcopy1, hcells1⟩ :=
    copyLoop_spec charSigned (fun k => byteAt entry k) m1 (by omega) fuel 0 0 (fun _ => 0)
      (by omega) (by omega) (by omega)
  have hlen : (shortName entry).length = m1 + (if m2 = 0 then 0 else 1) + m2 := by
    unfold shortName
    by_cases h0 : m2 = 0
    · have : trimR (ext3 entry) = [] := List.length_eq_zero.mp (by rw [hm2def, h0])
      simp [this, hm1def, h0]
    · have : trimR (ext3 entry) ≠ [] := fun h => h0 (by rw [← hm2def, h]; rfl)
      simp [this, hm1def, hm2def, h0]
      omega
  refine ⟨?_, by rw [hlen]; split_ifs <;> omega⟩
  have hname : (shortName entry).map (charValue charSigned) =
      (List.range m1).map (fun k => charValue charSigned (byteAt entry k)) ++
      (List.range (if m2 = 0 then 0 else 1)).map (fun _ => (46 : Int)) ++
      (List.range m2).map (fun k => charValue charSigned (byteAt entry (8 + k))) := by
    unfold shortName
    by_cases h0 : m2 = 0
    · have : trimR (ext3 entry) = [] := List.length_eq_zero.mp (by rw [hm2def, h0])
      rw [if_pos this, if_pos h0, hA, h0]
      simp
    · have : trimR (ext3 entry) ≠ [] := fun h => h0 (by rw [← hm2def, h]; rfl)
      rw [if_neg this, if_neg h0, hA, hB]
      simp [charValue_period, List.range_succ, Function.comp_def]
  rw [hname, hlen]
  unfold extractEntryName
  simp only [bind, Except.bind, pure, Except.pure]
  rw [hend1]
  simp only [hcopy1, hend2]
  by_cases h0 : m2 = 0
  · subst h0
    obtain ⟨name3, hcopy3, hcells3⟩ :=
      copyLoop_spec charSigned (fun k => byteAt entry (8 + k)) 0 (by omega) fuel 0 (0 + (m1 - 0))
        name1 (by omega) (by omega) (by omega)
    have hneg : ¬ (((0 : Nat) : Int) - 1 ≥ 0) := by norm_num
    simp only [hneg, if_false, hcopy3]
    congr 1
    apply cells_of_segments _ _ _ _ m1 0 0 13 (by omega)
    · intro k hk
      simp only [storeWide]
      rw [if_neg (by omega), hcells3 k, if_neg (by omega), hcells1 k, if_pos (by omega)]
      simp
    · intro k hk
      omega
    · intro k hk
      omega
    · intro k hk
      simp only [storeWide]
      by_cases hkm : k = 0 + (m1 - 0) + (0 - 0)
      · rw [if_pos hkm]
      · rw [if_neg hkm, hcells3 k, if_neg (by omega), hcells1 k, if_neg (by omega)]
  · obtain ⟨name3, hcopy3, hcells3⟩ :=
      copyLoop_spec charSigned (fun k => byteAt entry (8 + k)) m2 (by omega) fuel 0
        ((0 + (m1 - 0) + 1) % 256) (storeWide name1 (0 + (m1 - 0)) 46)
        (by omega) (by omega) (by omega)
    have hpos : ((m2 : Nat) : Int) - 1 ≥ 0 := by omega
    simp only [hpos, if_true, hcopy3]
    rw [if_neg h0]
    congr 1
    have emod : (0 + (m1 - 0) + 1) % 256 = m1 + 1 := by omega
    rw [emod] at hcells3 ⊢
    apply cells_of_segments _ _ _ _ m1 1 m2 13 (by omega)
    · intro k hk
      simp only [storeWide, hcells3, hcells1]
      split_ifs <;> first | rfl | (exfalso; omega) | (congr 2; omega)
    · intro k hk
      simp only [storeWide, hcells3, hcells1]
      split_ifs <;> first | rfl | (exfalso; omega)
    · intro k hk
      simp only [storeWide, hcells3, hcells1]
      split_ifs <;> first | rfl | (exfalso; omega) | (congr 2; omega)
    · intro k hk
      simp only [storeWide, hcells3, hcells1]
      split_ifs <;> first | rfl | (exfalso; omega)

theorem store_apply (p : Nat → Nat) (i v k : Nat) :
    store p i v k = if k = i then v else p k := rfl

theorem foldl_store_range (value : Nat → Nat) (base : Nat) :
    ∀ (n : Nat) (acc : Nat → Nat) (a : Nat),
      ((List.range n).foldl (fun (acc : Nat → Nat) (j : Nat) => store acc (base + j) (value j))
        acc) a = if base ≤ a ∧ a < base + n then value (a - base) else acc a := by
  intro n
  induction n with
  | zero =>
    intro acc a
    rw [List.range_zero, List.foldl_nil, if_neg (by omega)]
  | succ n ih =>
    intro acc a
    rw [List.range_succ, List.foldl_append, List.foldl_cons, List.foldl_nil, store_apply]
    by_cases ha : a = base + n
    · subst ha
      rw [if_pos rfl, if_pos (by omega)]
      congr 1
      omega
    · rw [if_neg ha, ih acc a]
      by_cases hin : base ≤ a ∧ a < base + n
      · rw [if_pos hin, if_pos (by omega)]
      · rw [if_neg hin, if_neg (by omega)]

theorem entryBytes_at (entries : Nat → List Nat) (slot k : Nat) (hk : k < 32) :
    entryBytes entries (slot * 32 + k) = byteAt (entries slot) k := by
  unfold entryBytes
  have e1 : (slot * 32 + k) / 32 = slot := by omega
  have e2 : (slot * 32 + k) % 32 = k := by omega
  rw [e1, e2]

theorem vfatByteOffsets_lt (j : Nat) : vfatByteOffsets.getD j 0 < 32 := by
  by_cases hj : j < 26
  · interval_cases j <;> decide
  · rw [List.getD_eq_default _ _ (by simpa [vfatByteOffsets] using hj)]
    omega

theorem vfatCopyLoop_spec (sequence : Nat → List Nat) :
    ∀ (fuel m i : Nat) (nameLength : Int) (name : Nat → Nat), m < fuel →
      ∃ out, vfatCopyLoop sequence fuel ((m : Int) - 1) (i : Int) nameLength name =
          .ok (out, nameLength + 13 * (m : Int)) ∧
        (∀ t j, t < m → j < 26 →
          out (26 * (i + t) + j) = byteAt (sequence (m - 1 - t)) (vfatByteOffsets.getD j 0)) ∧
        (∀ a, a < 26 * i → out a = name a) := by
  intro fuel
  induction fuel with
  | zero =>
    intro m i nameLength name hfuel
    omega
  | succ fuel ih =>
    intro m i nameLength name hfuel
    unfold vfatCopyLoop
    cases m with
    | zero =>
      rw [if_neg (by omega)]
      refine ⟨name, by simp, fun t j ht _ => by omega, fun a _ => rfl⟩
    | succ m =>
      rw [if_pos (by omega)]
      have hfun : (fun (acc : Nat → Nat) (j : Nat) =>
          store acc (((i : Int) * 26) + (j : Int)).toNat
            (entryBytes sequence
              (((((m + 1 : Nat) : Int) - 1) * 32) + (vfatByteOffsets.getD j 0 : Int)).toNat)) =
          (fun (acc : Nat → Nat) (j : Nat) =>
            store acc (26 * i + j) (byteAt (sequence m) (vfatByteOffsets.getD j 0))) := by
        funext acc j
        have e1 : (((i : Int) * 26) + (j : Int)).toNat = 26 * i + j := by omega
        have e2 : (((((m + 1 : Nat) : Int) - 1) * 32) + (vfatByteOffsets.getD j 0 : Int)).toNat =
            m * 32 + vfatByteOffsets.getD j 0 := by omega
        rw [e1, e2, entryBytes_at sequence m _ (vfatByteOffsets_lt j)]
      simp only [hfun]
      have eidx : ((m + 1 : Nat) : Int) - 1 - 1 = (m : Int) - 1 := by omega
      have eiter : (i : Int) + 1 = ((i + 1 : Nat) : Int) := by omega
      rw [eidx, eiter]
      obtain ⟨out, hout, hnew, hold⟩ := ih m (i + 1) (nameLength + 13)
        ((List.range 26).foldl (fun (acc : Nat → Nat) (j : Nat) =>
          store acc (26 * i + j) (byteAt (sequence m) (vfatByteOffsets.getD j 0))) name)
        (by omega)
      refine ⟨out, ?_, ?_, ?_⟩
      · rw [hout]
        congr 2
        omega
      · intro t j ht hj
        cases t with
        | zero =>
          rw [hold _ (by omega), foldl_store_range _ _ 26 name, if_pos (by omega)]
          have e3 : 26 * (i + 0) + j - 26 * i = j := by omega
          rw [e3]
          rfl
        | succ t =>
          have := hnew t j (by omega) hj
          have e4 : 26 * (i + (t + 1)) + j = 26 * (i + 1 + t) + j := by omega
          have e5 : m + 1 - 1 - (t + 1) = m - 1 - t := by omega
          rw [e4, e5]
          exact this
      · intro a ha
        rw [hold a (by omega), foldl_store_range _ _ 26 name, if_neg (by omega)]

theorem vfatWidenLoop_spec (charSigned : Bool) (temporary : Nat → Nat) (length : Nat) :
    ∀ (fuel k0 : Nat) (name : Nat → Int), k0 ≤ length → length < fuel + k0 →
      ∃ out, vfatWidenLoop charSigned temporary (length : Int) fuel (k0 : Int) name = .ok out ∧
        ∀ k, out k =
          if k0 ≤ k ∧ k < length then
            wideOfBytes charSigned (temporary (2 * k)) (temporary (2 * k + 1))
          else name k := by
  intro fuel
  induction fuel with
  | zero =>
    intro k0 name h1 h2
    omega
  | succ fuel ih =>
    intro k0 name h1 h2
    unfold vfatWidenLoop
    by_cases hlt : k0 < length
    · rw [if_pos (by omega)]
      have e0 : ((k0 : Int) * 2 + 0).toNat = 2 * k0 := by omega
      have e1 : ((k0 : Int) * 2 + 1).toNat = 2 * k0 + 1 := by omega
      have e2 : (k0 : Int) + 1 = ((k0 + 1 : Nat) : Int) := by omega
      rw [e0, e1, e2, Int.toNat_ofNat]
      obtain ⟨out, hout, hcells⟩ := ih (k0 + 1)
        (storeWide name k0
          (wideOfBytes charSigned (temporary (2 * k0)) (temporary (2 * k0 + 1))))
        (by omega) (by omega)
      refine ⟨out, hout, ?_⟩
      intro k
      rw [hcells k]
      by_cases hk : k = k0
      · subst hk
        rw [if_neg (by omega), if_pos (by omega)]
        simp [storeWide]
      · by_cases hin : k0 + 1 ≤ k ∧ k < length
        · rw [if_pos hin, if_pos (by omega)]
        · rw [if_neg hin, if_neg (by omega)]
          simp [storeWide, hk]
    · rw [if_neg (by omega)]
      exact ⟨name, rfl, fun k => by rw [if_neg (by omega)]⟩

theorem vfatUnits_length (charSigned : Bool) (entry : List Nat) :
    (vfatUnits charSigned entry).length = 13 := by
  simp [vfatUnits]

theorem vfatUnits_getD (charSigned : Bool) (entry : List Nat) (u : Nat) (hu : u < 13) :
    (vfatUnits charSigned entry).getD u 0 =
      wideOfBytes charSigned (byteAt entry (vfatByteOffsets.getD (2 * u) 0))
        (byteAt entry (vfatByteOffsets.getD (2 * u + 1) 0)) := by
  unfold vfatUnits
  rw [List.getD_eq_getElem _ _ (by simpa using hu)]
  simp

theorem reversed_units_length (charSigned : Bool) (sequence : Nat → List Nat) (n : Nat) :
    ((List.range n).reverse.flatMap (fun j => vfatUnits charSigned (sequence j))).length
      = 13 * n := by
  induction n with
  | zero => simp
  | succ n ih =>
    rw [List.range_succ, List.reverse_append, List.reverse_singleton, List.singleton_append,
      List.flatMap_cons, List.length_append, ih, vfatUnits_length]
    omega

theorem reversed_units_getD (charSigned : Bool) (sequence : Nat → List Nat) :
    ∀ (n k : Nat), k < 13 * n →
      ((List.range n).reverse.flatMap (fun j => vfatUnits charSigned (sequence j))).getD k 0 =
        (vfatUnits charSigned (sequence (n - 1 - k / 13))).getD (k % 13) 0 := by
  intro n
  induction n with
  | zero =>
    intro k hk
    omega
  | succ n ih =>
    intro k hk
    rw [List.range_succ, List.reverse_append, List.reverse_singleton, List.singleton_append,
      List.flatMap_cons]
    by_cases hk13 : k < 13
    · rw [List.getD_append _ _ _ _ (by rw [vfatUnits_length]; exact hk13)]
      have e1 : k / 13 = 0 := by omega
      have e2 : k % 13 = k := by omega
      rw [e1, e2]
      rfl
    · rw [List.getD_append_right _ _ _ _ (by rw [vfatUnits_length]; omega), vfatUnits_length,
        ih (k - 13) (by omega)]
      have e1 : n - 1 - (k - 13) / 13 = n + 1 - 1 - k / 13 := by omega
      have e2 : (k - 13) % 13 = k % 13 := by omega
      rw [e1, e2]

theorem map_range_getD (l : List Int) :
    (List.range l.length).map (fun k => l.getD k 0) = l := by
  apply List.ext_getElem
  · simp
  · intro i h1 h2
    simp only [List.getElem_map, List.getElem_range]
    exact List.getD_eq_getElem _ _ h2

theorem cString_append_null (l rest : List Int) :
    cString (l ++ 0 :: rest) = l.takeWhile (fun c => decide (c ≠ 0)) := by
  unfold cString
  induction l with
  | nil => simp
  | cons x l ih =>
    rw [List.cons_append, List.takeWhile_cons, List.takeWhile_cons, ih]

theorem extractEntryName_VFAT_eq (charSigned : Bool) (fuel : Nat)
    (sequence : Nat → List Nat) (n : Nat)
    (hn : 1 ≤ n) (hint : 26 * n + 2 < 2147483648) (hfuel : 13 * n < fuel) :
    extractEntryName_VFAT charSigned fuel sequence (n + 1) =
      .ok ((List.range n).reverse.flatMap (fun j => vfatUnits charSigned (sequence j)) ++
        [0, 0]) := by
  have hstart : toInt32 (sub32 (n + 1) 2) = (n : Int) - 1 := by
    have e : sub32 (n + 1) 2 = n - 1 := by
      unfold sub32
      omega
    rw [e]
    unfold toInt32
    rw [if_pos (by omega)]
    omega
  obtain ⟨temporary, hcopy, hbytes, -⟩ :=
    vfatCopyLoop_spec sequence fuel n 0 0 (fun _ => 0) (by omega)
  obtain ⟨name, hwiden, hcells⟩ :=
    vfatWidenLoop_spec charSigned temporary (13 * n) fuel 0 (fun _ => 0) (by omega) (by omega)
  have hrun : extractEntryName_VFAT charSigned fuel sequence (n + 1) =
      .ok ((List.range (13 * n + 2)).map name) := by
    unfold extractEntryName_VFAT
    rw [hstart]
    have e0 : ((0 : Nat) : Int) = 0 := rfl
    rw [e0] at hcopy hwiden
    simp only [bind, Except.bind, pure, Except.pure, hcopy]
    have elen : (0 : Int) + 13 * (n : Int) = ((13 * n : Nat) : Int) := by omega
    rw [elen, hwiden]
    have e2 : (((13 * n : Nat) : Int) + 2).toNat = 13 * n + 2 := by omega
    rw [e2]
  have hlen := reversed_units_length charSigned sequence n
  have hlist : (List.range (13 * n + 2)).map name =
      (List.range n).reverse.flatMap (fun j => vfatUnits charSigned (sequence j)) ++ [0, 0] := by
    have hseg := cells_of_segments name
      (fun k =>
        ((List.range n).reverse.flatMap (fun j => vfatUnits charSigned (sequence j))).getD k 0)
      (fun _ => 0) (fun _ => 0) (13 * n) 0 0 (13 * n + 2) (by omega)
      (fun k hk => by
        rw [hcells k, if_pos (by omega)]
        beta_reduce
        rw [reversed_units_getD charSigned sequence n k hk,
          vfatUnits_getD charSigned _ (k % 13) (by omega)]
        have h1 := hbytes (k / 13) (2 * (k % 13)) (by omega) (by omega)
        have h2 := hbytes (k / 13) (2 * (k % 13) + 1) (by omega) (by omega)
        have e1 : 26 * (0 + k / 13) + 2 * (k % 13) = 2 * k := by omega
        have e2 : 26 * (0 + k / 13) + (2 * (k % 13) + 1) = 2 * k + 1 := by omega
        rw [e1] at h1
        rw [e2] at h2
        rw [h1, h2])
      (fun k hk => by omega)
      (fun k hk => by omega)
      (fun k hk => by rw [hcells k, if_neg (by omega)])
    rw [hseg]
    have hE := map_range_getD
      ((List.range n).reverse.flatMap (fun j => vfatUnits charSigned (sequence j)))
    rw [hlen] at hE
    rw [hE]
    have e3 : 13 * n + 2 - (13 * n + 0 + 0) = 2 := by omega
    rw [e3]
    simp [List.replicate]
  rw [hrun, hlist]


/-- C12. VFAT long-name reconstruction order: for `n ≥ 1` VFAT entries in the
cells `0 .. n - 1` of the sequence buffer (in disk order) and the short entry
in cell `n`, `extractEntryName_VFAT` returns, and the name holds the 13 code
units of each VFAT entry, taken from the last entry on disk back to the first,
followed by two nulls; read as a null-terminated string it is this
concatenation cut at its first null unit. -/
theorem extractEntryName_VFAT_order (charSigned : Bool) (fuel : Nat)
    (sequence : Nat → List Nat) (n : Nat)
    (hn : 1 ≤ n) (hint : 26 * n + 2 < 2147483648) (hfuel : 13 * n < fuel) :
    ∃ cells, extractEntryName_VFAT charSigned fuel sequence (n + 1) = .ok cells ∧
      cells =
        (List.range n).reverse.flatMap (fun j => vfatUnits charSigned (sequence j)) ++ [0, 0] ∧
      cString cells =
        ((List.range n).reverse.flatMap (fun j => vfatUnits charSigned (sequence j))).takeWhile
          (fun c => decide (c ≠ 0)) := by
  exact ⟨_, extractEntryName_VFAT_eq charSigned fuel sequence n hn hint hfuel, rfl,
    cString_append_null _ [0]⟩

/-- C12, on the two VFAT entries of `verylongname.txt` and their short entry:
the name is rebuilt from the second entry on disk, then the first. -/
theorem extractEntryName_VFAT_order_witness :
    ∃ cells, extractEntryName_VFAT true 27 (slotsOf longNameEntries) (2 + 1) = .ok cells ∧
      cString cells = wideCodes "verylongname.txt" := by
  obtain ⟨cells, hrun, -, hstring⟩ :=
    extractEntryName_VFAT_order true 27 (slotsOf longNameEntries) 2 (by norm_num) (by norm_num)
      (by norm_num)
  refine ⟨cells, hrun, ?_⟩
  rw [hstring]
  decide

/-! ## The scan of a directory buffer -/

theorem parseLoop_succ (charSigned : Bool) (fuel : Nat) (raw : Nat → Nat) (max : Nat)
    (fat : Nat → Nat) (bootSector : boot_sect_t) (steps indexSrc : Nat) (state : ParseState) :
    parseLoop charSigned fuel raw max fat bootSector (steps + 1) indexSrc state =
      if indexSrc < max then
        match parseStep charSigned fuel fat bootSector (recordAt raw indexSrc) state with
        | .error fault => .error fault
        | .ok none => .ok (state.directoryEntries, state.numEntries)
        | .ok (some next) =>
          parseLoop charSigned fuel raw max fat bootSector steps (add32 indexSrc 1) next
      else
        .ok (state.directoryEntries, state.numEntries) := by
  rw [parseLoop]

theorem byteAt_recordAt (raw : Nat → Nat) (indexSrc k : Nat) (hk : k < 32) :
    byteAt (recordAt raw indexSrc) k = raw (mul32 indexSrc 32 + k) := by
  unfold byteAt recordAt
  rw [List.getD_eq_getElem _ _ (by simpa using hk)]
  simp

theorem mul32_entry (indexSrc : Nat) (h : indexSrc < 134217728) :
    mul32 indexSrc 32 = 32 * indexSrc := by
  unfold mul32
  omega

theorem recordAt_congr (a b : Nat → Nat) (i j : Nat)
    (h : ∀ k, k < 32 → a (mul32 i 32 + k) = b (mul32 j 32 + k)) :
    recordAt a i = recordAt b j := by
  unfold recordAt
  exact List.map_congr_left (fun k hk => h k (List.mem_range.mp hk))

theorem parseStep_end (charSigned : Bool) (fuel : Nat) (fat : Nat → Nat)
    (bootSector : boot_sect_t) (srcEntry : List Nat) (state : ParseState)
    (h : byteAt srcEntry 0 = 0) :
    parseStep charSigned fuel fat bootSector srcEntry state = .ok none := by
  unfold parseStep
  rw [if_pos h]

theorem parseStep_deleted (charSigned : Bool) (fuel : Nat) (fat : Nat → Nat)
    (bootSector : boot_sect_t) (srcEntry : List Nat) (state : ParseState)
    (h : byteAt srcEntry 0 = 0x05 ∨ byteAt srcEntry 0 = 0xe5) :
    parseStep charSigned fuel fat bootSector srcEntry state = .ok (some state) := by
  unfold parseStep
  rw [if_neg (by rcases h with h | h <;> rw [h] <;> decide), if_pos h]

theorem parseLoop_agree (charSigned : Bool) (fuel : Nat) (a b : Nat → Nat) (max p : Nat)
    (fat : Nat → Nat) (bootSector : boot_sect_t)
    (hp : p < max) (hmax : max ≤ 134217728)
    (hagree : ∀ j k, j < p → k < 32 → a (32 * j + k) = b (32 * j + k))
    (hendA : a (32 * p) = 0) (hendB : b (32 * p) = 0) :
    ∀ (steps indexSrc : Nat) (state : ParseState), indexSrc ≤ p →
      parseLoop charSigned fuel a max fat bootSector steps indexSrc state =
        parseLoop charSigned fuel b max fat bootSector steps indexSrc state := by
  intro steps
  induction steps with
  | zero =>
    intro indexSrc state _
    rfl
  | succ steps ih =>
    intro indexSrc state hle
    rw [parseLoop_succ, parseLoop_succ, if_pos (by omega), if_pos (by omega)]
    by_cases hlt : indexSrc < p
    · have hrec : recordAt a indexSrc = recordAt b indexSrc :=
        recordAt_congr a b indexSrc indexSrc (fun k hk => by
          rw [mul32_entry indexSrc (by omega)]
          exact hagree indexSrc k hlt hk)
      rw [hrec]
      cases parseStep charSigned fuel fat bootSector (recordAt b indexSrc) state with
      | error fault => rfl
      | ok next =>
        cases next with
        | none => rfl
        | some next =>
          have e : add32 indexSrc 1 = indexSrc + 1 := add32_of_lt indexSrc 1 (by omega)
          rw [e]
          exact ih (indexSrc + 1) next (by omega)
    · have e : indexSrc = p := by omega
      subst e
      have hA : byteAt (recordAt a indexSrc) 0 = 0 := by
        rw [byteAt_recordAt a indexSrc 0 (by omega), mul32_entry indexSrc (by omega)]
        exact hendA
      have hB : byteAt (recordAt b indexSrc) 0 = 0 := by
        rw [byteAt_recordAt b indexSrc 0 (by omega), mul32_entry indexSrc (by omega)]
        exact hendB
      rw [parseStep_end charSigned fuel fat bootSector _ state hA,
        parseStep_end charSigned fuel fat bootSector _ state hB]

/-- C13. End of directory: two directory buffers of the same entry count that
agree on all entries before an entry whose first byte is 0x00 in both give the
same result of `parseDirectoryEntries` (the same entries and the same entry
count), whatever follows that entry. -/
theorem parseDirectoryEntries_end_of_directory (charSigned : Bool) (fuel : Nat)
    (a b : Nat → Nat) (max p : Nat) (fat : Nat → Nat) (bootSector : boot_sect_t)
    (hp : p < max) (hmax : max ≤ 134217728)
    (hagree : ∀ j k, j < p → k < 32 → a (32 * j + k) = b (32 * j + k))
    (hendA : a (32 * p) = 0) (hendB : b (32 * p) = 0) :
    parseDirectoryEntries charSigned fuel a max fat bootSector =
      parseDirectoryEntries charSigned fuel b max fat bootSector := by
  unfold parseDirectoryEntries
  exact parseLoop_agree charSigned fuel a b max p fat bootSector hp hmax hagree hendA hendB
    fuel 0 _ (by omega)

theorem bufferOf_append_left (l r : List Nat) (a : Nat) (h : a < l.length) :
    bufferOf (l ++ r) a = bufferOf l a := by
  unfold bufferOf
  rw [List.getD_append _ _ _ _ h]

/-- C13, on a directory of two live short entries and an end mark: the two
entries are decoded, whichever entry follows the end mark. -/
theorem parseDirectoryEntries_end_of_directory_witness :
    parseDirectoryEntries true 10
        (bufferOf (twoFileDirectory.flatten ++ shortEntry "JUNK    " "   " 0x20 0 0)) 4
        threeClusterTable floppy =
      parseDirectoryEntries true 10 (bufferOf (twoFileDirectory.flatten ++ deletedEntry)) 4
        threeClusterTable floppy ∧
    (parseDirectoryEntries true 10
        (bufferOf (twoFileDirectory.flatten ++ shortEntry "JUNK    " "   " 0x20 0 0)) 4
        threeClusterTable floppy).map (fun r => (r.1.map (fun e => cString e.name), r.2)) =
      .ok ([wideCodes "README.TXT", wideCodes "NOEXT"], 2) := by
  refine ⟨parseDirectoryEntries_end_of_directory true 10 _ _ 4 2 threeClusterTable floppy
    (by norm_num) (by norm_num) ?_ (by decide) (by decide), by decide⟩
  intro j k hj hk
  have hlen : twoFileDirectory.flatten.length = 96 := by decide
  rw [bufferOf_append_left _ _ _ (by omega), bufferOf_append_left _ _ _ (by omega)]

theorem insertEntry_before (raw : Nat → Nat) (p : Nat) (entry : List Nat) (j : Nat)
    (hj : j < p) (hp : p < 134217728) :
    recordAt (insertEntry raw p entry) j = recordAt raw j :=
  recordAt_congr _ _ j j (fun k hk => by
    rw [mul32_entry j (by omega)]
    unfold insertEntry
    rw [if_pos (by omega)])

theorem insertEntry_at (raw : Nat → Nat) (p : Nat) (entry : List Nat) (hp : p < 134217728) :
    byteAt (recordAt (insertEntry raw p entry) p) 0 = byteAt entry 0 := by
  rw [byteAt_recordAt _ p 0 (by omega), mul32_entry p hp]
  unfold insertEntry
  rw [if_neg (by omega), if_pos (by omega)]
  congr 1
  omega

theorem insertEntry_after (raw : Nat → Nat) (p : Nat) (entry : List Nat) (j : Nat)
    (hj : p ≤ j) (hmax : j + 1 < 134217728) :
    recordAt (insertEntry raw p entry) (j + 1) = recordAt raw j :=
  recordAt_congr _ _ (j + 1) j (fun k hk => by
    rw [mul32_entry j (by omega), mul32_entry (j + 1) (by omega)]
    unfold insertEntry
    rw [if_neg (by omega), if_neg (by omega)]
    congr 1
    omega)

theorem parseLoop_after_insert (charSigned : Bool) (fuel : Nat) (raw : Nat → Nat) (max p : Nat)
    (entry : List Nat) (fat : Nat → Nat) (bootSector : boot_sect_t)
    (hmax : max + 1 ≤ 134217728) :
    ∀ (steps indexSrc : Nat) (state : ParseState), p ≤ indexSrc →
      parseLoop charSigned fuel (insertEntry raw p entry) (max + 1) fat bootSector steps
          (indexSrc + 1) state =
        parseLoop charSigned fuel raw max fat bootSector steps indexSrc state := by
  intro steps
  induction steps with
  | zero =>
    intro indexSrc state _
    rfl
  | succ steps ih =>
    intro indexSrc state hle
    rw [parseLoop_succ, parseLoop_succ]
    by_cases hlt : indexSrc < max
    · rw [if_pos (by omega), if_pos hlt, insertEntry_after raw p entry indexSrc hle (by omega)]
      cases parseStep charSigned fuel fat bootSector (recordAt raw indexSrc) state with
      | error fault => rfl
      | ok next =>
        cases next with
        | none => rfl
        | some next =>
          rw [add32_of_lt indexSrc 1 (by omega), add32_of_lt (indexSrc + 1) 1 (by omega)]
          exact ih (indexSrc + 1) next (by omega)
    · rw [if_neg (by omega), if_neg hlt]

theorem parseLoop_before_insert (charSigned : Bool) (fuel : Nat) (raw : Nat → Nat) (max p : Nat)
    (entry : List Nat) (fat : Nat → Nat) (bootSector : boot_sect_t)
    (hp : p ≤ max) (hmax : max + 1 ≤ 134217728)
    (hdel : byteAt entry 0 = 0x05 ∨ byteAt entry 0 = 0xe5) :
    ∀ (steps indexSrc : Nat) (state : ParseState), indexSrc ≤ p → max < steps + indexSrc →
      parseLoop charSigned fuel (insertEntry raw p entry) (max + 1) fat bootSector (steps + 1)
          indexSrc state =
        parseLoop charSigned fuel raw max fat bootSector steps indexSrc state := by
  intro steps
  induction steps with
  | zero =>
    intro indexSrc state hle hsteps
    omega
  | succ steps ih =>
    intro indexSrc state hle hsteps
    rw [parseLoop_succ, if_pos (by omega)]
    by_cases hlt : indexSrc < p
    · rw [parseLoop_succ, if_pos (by omega), insertEntry_before raw p entry indexSrc hlt (by omega)]
      cases parseStep charSigned fuel fat bootSector (recordAt raw indexSrc) state with
      | error fault => rfl
      | ok next =>
        cases next with
        | none => rfl
        | some next =>
          rw [add32_of_lt indexSrc 1 (by omega)]
          exact ih (indexSrc + 1) next (by omega) (by omega)
    · have e : indexSrc = p := by omega
      subst e
      have hfirst : byteAt (recordAt (insertEntry raw indexSrc entry) indexSrc) 0 = 0x05 ∨
          byteAt (recordAt (insertEntry raw indexSrc entry) indexSrc) 0 = 0xe5 := by
        rw [insertEntry_at raw indexSrc entry (by omega)]
        exact hdel
      rw [parseStep_deleted charSigned fuel fat bootSector _ state hfirst,
        add32_of_lt indexSrc 1 (by omega)]
      exact parseLoop_after_insert charSigned fuel raw max indexSrc entry fat bootSector hmax
        (steps + 1) indexSrc state (by omega)

theorem parseLoop_more_steps (charSigned : Bool) (fuel : Nat) (raw : Nat → Nat) (max : Nat)
    (fat : Nat → Nat) (bootSector : boot_sect_t) (hmax : max < 4294967296) :
    ∀ (steps indexSrc : Nat) (state : ParseState), indexSrc ≤ max → max < steps + indexSrc →
      parseLoop charSigned fuel raw max fat bootSector (steps + 1) indexSrc state =
        parseLoop charSigned fuel raw max fat bootSector steps indexSrc state := by
  intro steps
  induction steps with
  | zero =>
    intro indexSrc state hle hsteps
    omega
  | succ steps ih =>
    intro indexSrc state hle hsteps
    rw [parseLoop_succ, parseLoop_succ]
    by_cases hlt : indexSrc < max
    · rw [if_pos hlt, if_pos hlt]
      cases parseStep charSigned fuel fat bootSector (recordAt raw indexSrc) state with
      | error fault => rfl
      | ok next =>
        cases next with
        | none => rfl
        | some next =>
          rw [add32_of_lt indexSrc 1 (by omega)]
          exact ih (indexSrc + 1) next (by omega) (by omega)
    · rw [if_neg hlt, if_neg hlt]

/-- C14. Deleted entries are transparent: inserting, at any position of a
directory buffer, an entry whose first byte is 0x05 or 0xE5 (whatever its other
bytes) leaves the result of `parseDirectoryEntries`, entries and entry count,
unchanged. -/
theorem parseDirectoryEntries_deleted_transparent (charSigned : Bool) (fuel : Nat)
    (raw : Nat → Nat) (max p : Nat) (entry : List Nat) (fat : Nat → Nat)
    (bootSector : boot_sect_t)
    (hp : p ≤ max) (hmax : max + 1 ≤ 134217728)
    (hdel : byteAt entry 0 = 0x05 ∨ byteAt entry 0 = 0xe5)
    (hfuel : max + 1 < fuel) :
    parseDirectoryEntries charSigned fuel (insertEntry raw p entry) (max + 1) fat bootSector =
      parseDirectoryEntries charSigned fuel raw max fat bootSector := by
  unfold parseDirectoryEntries
  obtain ⟨steps, rfl⟩ : ∃ s, fuel = s + 1 := ⟨fuel - 1, by omega⟩
  rw [parseLoop_before_insert charSigned (steps + 1) raw max p entry fat bootSector hp hmax hdel
    steps 0 _ (by omega) (by omega)]
  exact (parseLoop_more_steps charSigned (steps + 1) raw max fat bootSector (by omega) steps 0 _
    (by omega) (by omega)).symm

/-- C14, on a directory with a deleted entry between two live entries: the two
live entries are decoded, in their order. -/
theorem parseDirectoryEntries_deleted_transparent_witness :
    parseDirectoryEntries true 10
        (insertEntry (bufferOf (shortEntry "README  " "TXT" 0x20 2 13 ++
          shortEntry "NOEXT   " "   " 0x20 0 0)) 1 deletedEntry) (2 + 1)
        threeClusterTable floppy =
      parseDirectoryEntries true 10
        (bufferOf (shortEntry "README  " "TXT" 0x20 2 13 ++
          shortEntry "NOEXT   " "   " 0x20 0 0)) 2 threeClusterTable floppy ∧
    (parseDirectoryEntries true 10 (bufferOf deletedBetweenDirectory.flatten) 3
        threeClusterTable floppy).map (fun r => (r.1.map (fun e => cString e.name), r.2)) =
      .ok ([wideCodes "README.TXT", wideCodes "NOEXT"], 2) :=
  ⟨parseDirectoryEntries_deleted_transparent true 10 _ 2 1 deletedEntry threeClusterTable floppy
    (by norm_num) (by norm_num) (by decide) (by norm_num), by decide⟩

/-! ## Reading the device -/

theorem getD_take_drop (l : List Nat) (offset count k : Nat) (hk : k < count) :
    ((l.drop offset).take count).getD k 0 = l.getD (offset + k) 0 := by
  simp [List.getD_eq_getElem?_getD, List.getElem?_take, hk, List.getElem?_drop]

theorem copyInto_zero (buffer : Nat → Nat) (bytes : List Nat) (k : Nat) (hk : k < bytes.length) :
    copyInto buffer 0 bytes k = bytes.getD k 0 := by
  unfold copyInto
  rw [if_pos (by omega)]
  rfl

theorem freadItems_all (storageDevice : List Nat) (offset size count : Nat) (hsize : size ≠ 0)
    (hfit : offset + size * count ≤ storageDevice.length) :
    freadItems storageDevice offset size count = count := by
  unfold freadItems
  by_cases hc : count = 0
  · simp [hc]
  · rw [if_neg (by simp [hsize, hc])]
    apply Nat.min_eq_left
    rw [Nat.le_div_iff_mul_le (Nat.pos_of_ne_zero hsize)]
    have : count * size = size * count := Nat.mul_comm _ _
    omega

theorem readSectors_single (fuel : Nat) (buffer : Nat → Nat) (sector bytesPerSector count : Nat)
    (storageDevice : List Nat) (hfuel : 2 ≤ fuel) (hsize : bytesPerSector ≠ 0)
    (hfit : mul32 bytesPerSector sector + bytesPerSector * count ≤ storageDevice.length) :
    readSectors fuel buffer (fun _ => sector) 1 bytesPerSector count storageDevice =
      .ok (copyInto buffer 0
        ((storageDevice.drop (mul32 bytesPerSector sector)).take (bytesPerSector * count))) := by
  obtain ⟨fuel, rfl⟩ : ∃ f, fuel = f + 2 := ⟨fuel - 2, by omega⟩
  unfold readSectors
  rw [readSectorsLoop, if_pos (by omega)]
  simp only []
  rw [freadItems_all storageDevice _ bytesPerSector count hsize hfit, if_neg (by simp),
    readSectorsLoop, if_neg (by decide)]
  congr 2

theorem readSectors_single_get (buffer : Nat → Nat) (storageDevice : List Nat)
    (offset count k : Nat) (hk : k < count) (hfit : offset + count ≤ storageDevice.length) :
    copyInto buffer 0 ((storageDevice.drop offset).take count) k =
      storageDevice.getD (offset + k) 0 := by
  rw [copyInto_zero _ _ k (by
    rw [List.length_take, List.length_drop]
    omega), getD_take_drop _ _ _ _ hk]

/-! ## The tree of a volume with one file -/

theorem land_fifteen_ne (a : Nat) (h : a &&& 0x08 = 0) : a &&& 0x0f ≠ 0x0f := by
  intro h15
  have h1 : (a &&& 0x0f) &&& 0x08 = a &&& 0x08 := by
    rw [Nat.land_assoc]
    rfl
  rw [h15, h] at h1
  revert h1
  decide

theorem charValue_ascii (charSigned : Bool) (b : Nat) (hb : b < 128) :
    charValue charSigned b = (b : Int) := by
  unfold charValue
  rw [if_neg (by omega)]

theorem getClusterSequence_single (fuel : Nat) (bootSector : boot_sect_t) (fat : Nat → Nat)
    (s : Nat) (hfuel : 2 ≤ fuel)
    (hs : isValidClusterNumber s bootSector = .ok true)
    (hend : isValidClusterNumber (fat s) bootSector = .ok false) :
    getClusterSequence fuel s bootSector fat = .ok ([s], 1) := by
  obtain ⟨version, hv⟩ := getFatVersion_ok_of_isValid bootSector s true hs
  have hlen := getClusterSequenceLength_of_walk bootSector fat s 0 fuel
    ((validCluster_iff bootSector s).mpr hs) (fun j hj => by omega)
    ((validCluster_eq_false_iff bootSector version hv _).mpr hend) (by omega)
  have h := (getClusterSequence_of_length bootSector fat s fuel 1 hlen (by norm_num)).1 (by omega)
  rw [h]
  rfl

theorem bytesPerSector_ne_zero_of_version (bootSector : boot_sect_t) (version : Nat)
    (hv : getFatVersion bootSector = .ok version) : bootSector.bytesPerSector ≠ 0 := by
  intro h0
  rw [getFatVersion_zero_divisor bootSector (Or.inl h0)] at hv
  cases hv

theorem isValid_two_FAT12 (bootSector : boot_sect_t)
    (hv : getFatVersion bootSector = .ok FAT12) :
    isValidClusterNumber 2 bootSector = .ok true := by
  unfold isValidClusterNumber
  rw [hv]
  rfl

theorem isValid_end_FAT12 (bootSector : boot_sect_t) (n : Nat)
    (hv : getFatVersion bootSector = .ok FAT12) (hn : 0xFF8 ≤ n ∧ n ≤ 0xFFF) :
    isValidClusterNumber n bootSector = .ok false := by
  unfold isValidClusterNumber
  rw [hv]
  simp only [bind, Except.bind, pure, Except.pure, if_true]
  rw [if_neg (by omega)]

theorem byteAt_of_name8 (entry : List Nat) (bytes : List Nat) (h : name8 entry = bytes)
    (k : Nat) (hk : k < 8) : byteAt entry k = bytes.getD k 0 := by
  rw [← h]
  unfold name8
  rw [List.getD_eq_getElem _ _ (by simpa using hk)]
  simp

theorem parseDirectoryEntry_dataBin (charSigned : Bool) (fuel : Nat) (entry : List Nat)
    (fat : Nat → Nat) (bootSector : boot_sect_t)
    (hv : getFatVersion bootSector = .ok FAT12)
    (hname : name8 entry = codes "DATA    ") (hext : ext3 entry = codes "BIN")
    (hfile : byteAt entry 11 &&& 0x10 = 0)
    (hcluster : byteAt entry 26 = 2 ∧ byteAt entry 27 = 0)
    (hsize : byteAt entry 28 = 13 ∧ byteAt entry 29 = 0 ∧ byteAt entry 30 = 0 ∧
      byteAt entry 31 = 0)
    (hfat : 0xFF8 ≤ fat 2 ∧ fat 2 ≤ 0xFFF) (hfuel : 9 ≤ fuel) :
    parseDirectoryEntry charSigned fuel entry fat bootSector =
      .ok (file_t.mk (wideCodes "DATA.BIN" ++ List.replicate 5 0) 0 13 [2] 1 []) := by
  have hshort : shortName entry = codes "DATA.BIN" := by
    unfold shortName
    rw [hname, hext]
    decide
  have hwide : (codes "DATA.BIN").map (charValue charSigned) = wideCodes "DATA.BIN" := by
    cases charSigned <;> decide
  have hrun := (extractEntryName_eq charSigned fuel entry hfuel).1
  rw [hshort, hwide] at hrun
  have hchain : extractEntryFirstCluster fuel entry bootSector fat = .ok ([2], 1) := by
    unfold extractEntryFirstCluster
    rw [hv, hcluster.1, hcluster.2]
    simp only [bind, Except.bind, pure, Except.pure, if_true]
    exact getClusterSequence_single fuel bootSector fat 2 (by omega)
      (isValid_two_FAT12 bootSector hv) (isValid_end_FAT12 bootSector _ hv hfat)
  have htype : extractEntrytype entry = 0 := by
    unfold extractEntrytype
    rw [if_pos hfile]
  have hbytes : extractEntrySize entry = 13 := by
    unfold extractEntrySize
    rw [hsize.1, hsize.2.1, hsize.2.2.1, hsize.2.2.2]
    decide
  unfold parseDirectoryEntry
  rw [hrun, hchain, htype, hbytes]
  rfl

theorem parseStep_dataBin (charSigned : Bool) (fuel : Nat) (entry : List Nat)
    (fat : Nat → Nat) (bootSector : boot_sect_t) (state : ParseState)
    (hstate : state.vfatSequenceCount = 0)
    (hv : getFatVersion bootSector = .ok FAT12)
    (hname : name8 entry = codes "DATA    ") (hext : ext3 entry = codes "BIN")
    (hfile : byteAt entry 11 &&& 0x10 = 0) (hlive : byteAt entry 11 &&& 0x08 = 0)
    (hcluster : byteAt entry 26 = 2 ∧ byteAt entry 27 = 0)
    (hsize : byteAt entry 28 = 13 ∧ byteAt entry 29 = 0 ∧ byteAt entry 30 = 0 ∧
      byteAt entry 31 = 0)
    (hfat : 0xFF8 ≤ fat 2 ∧ fat 2 ≤ 0xFFF) (hfuel : 9 ≤ fuel) :
    parseStep charSigned fuel fat bootSector entry state =
      .ok (some { state with
        numEntries := add32 state.numEntries 1
        directoryEntries := state.directoryEntries ++
          [file_t.mk (wideCodes "DATA.BIN" ++ List.replicate 5 0) 0 13 [2] 1 []] }) := by
  have hb0 : byteAt entry 0 = 0x44 := byteAt_of_name8 entry _ hname 0 (by omega)
  have hdot : isDotEntry entry = false := by
    unfold isDotEntry
    rw [hb0]
    simp
  unfold parseStep
  rw [hb0, if_neg (by decide), if_neg (by decide), if_neg (by rw [hlive]; simp), hdot,
    if_neg (by decide), if_neg (land_fifteen_ne _ hlive), hstate, if_neg (by decide),
    parseDirectoryEntry_dataBin charSigned fuel entry fat bootSector hv hname hext hfile hcluster
      hsize hfat hfuel]
  rfl

/-- C15. End-to-end FAT12 tree: for a FAT12 volume whose root directory region
starts, in the image, with a live short entry of a file (name `"DATA    "`,
extension `"BIN"`, attribute without the directory and volume-label bits, first
cluster 2, size 13) followed by an entry that starts with 0x00, and whose
table marks cluster 2 as the end of its chain, `getDirectoryTree` returns a
root with exactly one child, named `DATA.BIN`, of type 0 and size 13, with the
cluster chain `[2]`. -/
theorem getDirectoryTree_single_file (charSigned : Bool) (fuel : Nat)
    (bootSector : boot_sect_t) (fat : Nat → Nat) (storageDevice : List Nat) (entry : List Nat)
    (hv : getFatVersion bootSector = .ok FAT12)
    (hentries : 2 ≤ bootSector.numRootEntries_FAT12)
    (hfit : rootOffset_FAT12 bootSector + rootBytesRead_FAT12 bootSector ≤ storageDevice.length)
    (hcover : 32 < rootBytesRead_FAT12 bootSector)
    (hentry : ∀ k, k < 32 →
      storageDevice.getD (rootOffset_FAT12 bootSector + k) 0 = byteAt entry k)
    (hname : name8 entry = codes "DATA    ") (hext : ext3 entry = codes "BIN")
    (hfile : byteAt entry 11 &&& 0x10 = 0) (hlive : byteAt entry 11 &&& 0x08 = 0)
    (hcluster : byteAt entry 26 = 2 ∧ byteAt entry 27 = 0)
    (hsize : byteAt entry 28 = 13 ∧ byteAt entry 29 = 0 ∧ byteAt entry 30 = 0 ∧
      byteAt entry 31 = 0)
    (hend : storageDevice.getD (rootOffset_FAT12 bootSector + 32) 0 = 0)
    (hfat : 0xFF8 ≤ fat 2 ∧ fat 2 ≤ 0xFFF) (hfuel : 9 ≤ fuel) :
    ∃ root child, getDirectoryTree charSigned fuel bootSector fat storageDevice = .ok root ∧
      root = dataBinTree ∧ root.children = [child] ∧
      cString child.name = wideCodes "DATA.BIN" ∧ child.type = 0 ∧ child.size = 13 ∧
      child.clusters = [2] ∧ child.numClusters = 1 := by
  have hB := bytesPerSector_ne_zero_of_version bootSector _ hv
  have hsector : getSectorNumber_RootDirectory bootSector =
      .ok (add32 (getSectorNumber_FileAllocationTable bootSector)
        (mul32 bootSector.sectorsPerFAT_FAT12 bootSector.numFATs)) := by
    unfold getSectorNumber_RootDirectory
    rw [hv]
    rfl
  have hread := readSectors_single fuel (fun _ => 0)
    (add32 (getSectorNumber_FileAllocationTable bootSector)
      (mul32 bootSector.sectorsPerFAT_FAT12 bootSector.numFATs))
    bootSector.bytesPerSector
    (mul32 32 bootSector.numRootEntries_FAT12 / bootSector.bytesPerSector) storageDevice
    (by omega) hB hfit
  have hraw : ∀ k, k < rootBytesRead_FAT12 bootSector →
      copyInto (fun _ => 0) 0
        ((storageDevice.drop (rootOffset_FAT12 bootSector)).take
          (rootBytesRead_FAT12 bootSector)) k =
        storageDevice.getD (rootOffset_FAT12 bootSector + k) 0 :=
    fun k hk => readSectors_single_get _ storageDevice _ _ k hk hfit
  generalize hrawdef : copyInto (fun _ => 0) 0
      ((storageDevice.drop (rootOffset_FAT12 bootSector)).take
        (rootBytesRead_FAT12 bootSector)) = raw at hraw
  have hread' : readSectors fuel (fun _ => 0)
      (fun _ => add32 (getSectorNumber_FileAllocationTable bootSector)
        (mul32 bootSector.sectorsPerFAT_FAT12 bootSector.numFATs)) 1
      bootSector.bytesPerSector
      (mul32 32 bootSector.numRootEntries_FAT12 / bootSector.bytesPerSector) storageDevice =
      .ok raw := by
    rw [hread, ← hrawdef]
    rfl
  -- the two entries that the scan meets
  have hrec0 : ∀ k, k < 32 → byteAt (recordAt raw 0) k = byteAt entry k := by
    intro k hk
    rw [byteAt_recordAt raw 0 k hk, mul32_entry 0 (by norm_num), hraw _ (by omega),
      show 32 * 0 + k = k by omega]
    exact hentry k hk
  have hrec1 : byteAt (recordAt raw 1) 0 = 0 := by
    rw [byteAt_recordAt raw 1 0 (by omega), mul32_entry 1 (by norm_num), hraw _ (by omega)]
    exact hend
  have hname0 : name8 (recordAt raw 0) = codes "DATA    " := by
    rw [← hname]
    exact List.map_congr_left (fun k hk => hrec0 k (by
      have := List.mem_range.mp hk
      omega))
  have hext0 : ext3 (recordAt raw 0) = codes "BIN" := by
    rw [← hext]
    exact List.map_congr_left (fun k hk => hrec0 (8 + k) (by
      have := List.mem_range.mp hk
      omega))
  have hparse : parseDirectoryEntries charSigned fuel raw bootSector.numRootEntries_FAT12 fat
      bootSector =
      .ok ([file_t.mk (wideCodes "DATA.BIN" ++ List.replicate 5 0) 0 13 [2] 1 []], 1) := by
    obtain ⟨steps, rfl⟩ : ∃ s, fuel = s + 2 := ⟨fuel - 2, by omega⟩
    unfold parseDirectoryEntries
    rw [parseLoop_succ, if_pos (by omega),
      parseStep_dataBin charSigned (steps + 2) (recordAt raw 0) fat bootSector _ rfl hv hname0
        hext0 (by rw [hrec0 11 (by omega)]; exact hfile)
        (by rw [hrec0 11 (by omega)]; exact hlive)
        (by rw [hrec0 26 (by omega), hrec0 27 (by omega)]; exact hcluster)
        (by rw [hrec0 28 (by omega), hrec0 29 (by omega), hrec0 30 (by omega),
          hrec0 31 (by omega)]; exact hsize)
        hfat hfuel]
    simp only []
    rw [add32_of_lt 0 1 (by norm_num), parseLoop_succ, if_pos (by omega),
      parseStep_end charSigned (steps + 2) fat bootSector _ _ hrec1]
    rfl
  have htree : getDirectoryTree charSigned fuel bootSector fat storageDevice =
      .ok dataBinTree := by
    obtain ⟨depth, hdepth⟩ : ∃ d, fuel = d + 1 := ⟨fuel - 1, by omega⟩
    unfold getDirectoryTree
    rw [hv]
    simp only [bind, Except.bind, pure, Except.pure, if_true, hsector, div32, if_neg hB, hread',
      hparse]
    rw [hdepth, getDirectoryTreeRecursive]
    rfl
  exact ⟨dataBinTree, _, htree, rfl, rfl, by decide, rfl, rfl, rfl, rfl⟩

theorem dataBinImage_length : dataBinImage.length = 4096 := by
  unfold dataBinImage
  rw [List.length_append, List.length_append, List.length_append, List.length_replicate,
    List.length_replicate, List.length_replicate]
  rfl

theorem dataBinImage_getD (k : Nat) (hk : k < 512) :
    dataBinImage.getD (1024 + k) 0 =
      (shortEntry "DATA    " "BIN" 0x20 2 13 ++ List.replicate 480 0).getD k 0 := by
  have hlen : (shortEntry "DATA    " "BIN" 0x20 2 13 ++ List.replicate 480 0).length = 512 := by
    rw [List.length_append, List.length_replicate]
    rfl
  unfold dataBinImage
  rw [List.append_assoc, List.append_assoc,
    List.getD_append_right _ _ _ _ (by rw [List.length_replicate]; omega),
    List.length_replicate, Nat.add_sub_cancel_left, ← List.append_assoc,
    List.getD_append _ _ _ _ (by omega)]

theorem dataBinImage_entry (k : Nat) (hk : k < 32) :
    dataBinImage.getD (rootOffset_FAT12 dataBinVolume + k) 0 =
      byteAt (shortEntry "DATA    " "BIN" 0x20 2 13) k := by
  rw [show rootOffset_FAT12 dataBinVolume = 1024 by decide, dataBinImage_getD _ (by omega),
    List.getD_append _ _ _ _ (by
      rw [show (shortEntry "DATA    " "BIN" 0x20 2 13).length = 32 by rfl]
      exact hk)]
  rfl

theorem dataBinImage_end :
    dataBinImage.getD (rootOffset_FAT12 dataBinVolume + 32) 0 = 0 := by
  rw [show rootOffset_FAT12 dataBinVolume = 1024 by decide, dataBinImage_getD _ (by omega)]
  rfl

theorem getDirectoryTree_single_file_witness :
    ∃ root child, getDirectoryTree true 30 dataBinVolume singleClusterTable dataBinImage =
        .ok root ∧
      root = dataBinTree ∧ root.children = [child] ∧
      cString child.name = wideCodes "DATA.BIN" ∧ child.type = 0 ∧ child.size = 13 ∧
      child.clusters = [2] ∧ child.numClusters = 1 :=
  getDirectoryTree_single_file true 30 dataBinVolume singleClusterTable dataBinImage
    (shortEntry "DATA    " "BIN" 0x20 2 13) (by decide) (by decide)
    (by rw [dataBinImage_length]; decide) (by decide)
    dataBinImage_entry (by decide) (by decide) (by decide) (by decide) (by decide) (by decide)
    dataBinImage_end (by decide) (by decide)

/-! ## Little-endian fields and the formulas of the geometry -/

theorem shift_or_bytes (b0 b1 b2 b3 : Nat) (h0 : b0 < 256) (h1 : b1 < 256) (h2 : b2 < 256) :
    (b3 <<< 24) ||| (b2 <<< 16) ||| (b1 <<< 8) ||| (b0 <<< 0) =
      b3 * 16777216 + b2 * 65536 + b1 * 256 + b0 := by
  simp only [Nat.shiftLeft_eq, Nat.pow_zero, Nat.mul_one]
  rw [or_eq_add_of_dvd (b3 * 2 ^ 24) (b2 * 2 ^ 16) 24 (by omega) (Dvd.intro_left _ rfl)]
  rw [or_eq_add_of_dvd _ (b1 * 2 ^ 8) 16 (by omega) ⟨b3 * 2 ^ 8 + b2, by ring⟩]
  rw [or_eq_add_of_dvd _ b0 8 (by omega) ⟨b3 * 2 ^ 16 + b2 * 2 ^ 8 + b1, by ring⟩]
  norm_num

theorem shift_or_bytes_three (b0 b1 b2 : Nat) (h0 : b0 < 256) (h1 : b1 < 256) :
    (b2 <<< 16) ||| (b1 <<< 8) ||| (b0 <<< 0) = b2 * 65536 + b1 * 256 + b0 := by
  simp only [Nat.shiftLeft_eq, Nat.pow_zero, Nat.mul_one]
  rw [or_eq_add_of_dvd (b2 * 2 ^ 16) (b1 * 2 ^ 8) 16 (by omega) (Dvd.intro_left _ rfl)]
  rw [or_eq_add_of_dvd _ b0 8 (by omega) ⟨b2 * 2 ^ 8 + b1, by ring⟩]
  norm_num

theorem shift_or_bytes_two (b0 b1 : Nat) (h0 : b0 < 256) :
    (b1 <<< 8) ||| (b0 <<< 0) = b1 * 256 + b0 := by
  simp only [Nat.shiftLeft_eq, Nat.pow_zero, Nat.mul_one]
  rw [or_eq_add_of_dvd (b1 * 2 ^ 8) b0 8 (by omega) (Dvd.intro_left _ rfl)]
  norm_num

/-- C22. Little-endian reader: on an array of bytes, `translateLittleEndian`
returns, for a length `L` from 1 to 4, the sum over `i < L` of
`byteArray[i] * 256^i`, a value below `256^L`; for the length 0 and for every
length from 5 on it returns 0. -/
theorem translateLittleEndian_value (byteArray : Nat → Nat) (length : Nat)
    (hbytes : IsByteBuffer byteArray) :
    (1 ≤ length ∧ length ≤ 4 →
      translateLittleEndian byteArray length = littleEndianValue byteArray length ∧
      translateLittleEndian byteArray length < 256 ^ length) ∧
    (length = 0 ∨ 5 ≤ length → translateLittleEndian byteArray length = 0) := by
  have h0 := hbytes 0
  have h1 := hbytes 1
  have h2 := hbytes 2
  have h3 := hbytes 3
  constructor
  · rintro ⟨hlo, hhi⟩
    have e4 := shift_or_bytes (byteArray 0) (byteArray 1) (byteArray 2) (byteArray 3) h0 h1 h2
    have e3 := shift_or_bytes_three (byteArray 0) (byteArray 1) (byteArray 2) h0 h1
    have e2 := shift_or_bytes_two (byteArray 0) (byteArray 1) h0
    unfold translateLittleEndian littleEndianValue
    interval_cases length
    · rw [if_pos rfl]
      simp only [List.range_succ, List.range_zero, List.nil_append, List.map_cons, List.map_nil,
        List.sum_cons, List.sum_nil]
      omega
    · rw [if_neg (by decide), if_pos rfl, e2]
      simp only [List.range_succ, List.range_zero, List.nil_append, List.map_cons, List.map_nil,
        List.cons_append, List.sum_cons, List.sum_nil]
      omega
    · rw [if_neg (by decide), if_neg (by decide), if_pos rfl, e3]
      simp only [List.range_succ, List.range_zero, List.nil_append, List.map_cons, List.map_nil,
        List.cons_append, List.sum_cons, List.sum_nil]
      omega
    · rw [if_neg (by decide), if_neg (by decide), if_neg (by decide), if_pos rfl, e4]
      simp only [List.range_succ, List.range_zero, List.nil_append, List.map_cons, List.map_nil,
        List.cons_append, List.sum_cons, List.sum_nil]
      omega
  · intro h
    unfold translateLittleEndian
    rw [if_neg (by omega), if_neg (by omega), if_neg (by omega), if_neg (by omega)]

/-- C22, on the bytes 0x78 0x56 0x34 0x12: the four lengths give 0x78, 0x5678,
0x345678 and 0x12345678, and the length 5 gives 0. -/
theorem translateLittleEndian_value_witness :
    translateLittleEndian (bufferOf [0x78, 0x56, 0x34, 0x12, 0x9a]) 1 = 0x78 ∧
    translateLittleEndian (bufferOf [0x78, 0x56, 0x34, 0x12, 0x9a]) 2 = 0x5678 ∧
    translateLittleEndian (bufferOf [0x78, 0x56, 0x34, 0x12, 0x9a]) 3 = 0x345678 ∧
    translateLittleEndian (bufferOf [0x78, 0x56, 0x34, 0x12, 0x9a]) 4 = 0x12345678 ∧
    translateLittleEndian (bufferOf [0x78, 0x56, 0x34, 0x12, 0x9a]) 5 = 0 := by
  have hbytes : IsByteBuffer (bufferOf [0x78, 0x56, 0x34, 0x12, 0x9a]) :=
    bufferOf_isByteBuffer _ (by decide)
  refine ⟨?_, ?_, ?_, ?_, ?_⟩
  · exact ((translateLittleEndian_value _ 1 hbytes).1 (by decide)).1.trans (by decide)
  · exact ((translateLittleEndian_value _ 2 hbytes).1 (by decide)).1.trans (by decide)
  · exact ((translateLittleEndian_value _ 3 hbytes).1 (by decide)).1.trans (by decide)
  · exact ((translateLittleEndian_value _ 4 hbytes).1 (by decide)).1.trans (by decide)
  · exact (translateLittleEndian_value _ 5 hbytes).2 (by decide)

theorem sub32_eq_emod (a b : Nat) :
    ((sub32 a b : Nat) : Int) = ((a : Int) - (b : Int)) % 4294967296 := by
  unfold sub32
  omega

theorem numClustersData_eq_formula (bootSector : boot_sect_t)
    (hB : bootSector.bytesPerSector ≠ 0) (hC : bootSector.sectorsPerCluster ≠ 0) :
    numClustersData bootSector = .ok (clusterCountFormula bootSector) := by
  unfold numClustersData div32
  simp only [bind, Except.bind, pure, Except.pure, if_neg hB, if_neg hC]
  unfold clusterCountFormula
  congr 2
  simp only [ne_eq, ite_not]
  generalize (if bootSector.numSectors_FAT12 = 0 then bootSector.numSectors_FAT32
    else bootSector.numSectors_FAT12) = T
  generalize (if bootSector.sectorsPerFAT_FAT12 = 0 then bootSector.sectorsPerFAT_FAT32
    else bootSector.sectorsPerFAT_FAT12) = S
  unfold mul32
  generalize bootSector.numRootEntries_FAT12 * 32 % 4294967296 / bootSector.bytesPerSector = X
  have hprod : ((bootSector.numFATs * S : Nat) : Int) = (bootSector.numFATs : Int) * (S : Int) :=
    Nat.cast_mul _ _
  rw [← hprod]
  generalize bootSector.numFATs * S = F
  unfold sub32
  omega

/-- C23. Classifier cluster-count formula: for a boot sector with non-zero
bytes-per-sector `B` and sectors-per-cluster `C`, the cluster count that
`getFatVersion` classifies is `((T - R - N*S - ((E*32) div B)) mod 2^32) div C`
with `T` and `S` taken from the FAT12 field when that is non-zero and from the
FAT32 field otherwise, the quotient by `B` rounded down, and the arithmetic
done in unsigned 32 bits; the product `E*32` does not wrap when `E` is below
2^27, as every 16-bit root-entry count is. -/
theorem getFatVersion_cluster_count (bootSector : boot_sect_t)
    (hB : bootSector.bytesPerSector ≠ 0) (hC : bootSector.sectorsPerCluster ≠ 0) :
    numClustersData bootSector = .ok (clusterCountFormula bootSector) ∧
    getFatVersion bootSector = .ok (classifyClusterCount (clusterCountFormula bootSector)) ∧
    (bootSector.numRootEntries_FAT12 < 134217728 →
      clusterCountFormula bootSector =
        ((((if bootSector.numSectors_FAT12 ≠ 0 then bootSector.numSectors_FAT12
              else bootSector.numSectors_FAT32 : Nat) : Int) -
            (bootSector.numReservedSectors : Int) -
            (bootSector.numFATs : Int) *
              ((if bootSector.sectorsPerFAT_FAT12 ≠ 0 then bootSector.sectorsPerFAT_FAT12
                else bootSector.sectorsPerFAT_FAT32 : Nat) : Int) -
            ((bootSector.numRootEntries_FAT12 * 32 / bootSector.bytesPerSector : Nat) : Int)) %
          4294967296).toNat / bootSector.sectorsPerCluster) := by
  have hcount := numClustersData_eq_formula bootSector hB hC
  refine ⟨hcount, getFatVersion_of_count bootSector _ hcount, ?_⟩
  intro hE
  unfold clusterCountFormula
  rw [Nat.mod_eq_of_lt (by omega : bootSector.numRootEntries_FAT12 * 32 < 4294967296)]

/-- C23, on the 1.44 MB floppy: 2880 - 1 - 2*9 - (224*32 div 512) = 2847
clusters, which is FAT12. -/
theorem getFatVersion_cluster_count_witness :
    numClustersData floppy = .ok 2847 ∧ getFatVersion floppy = .ok FAT12 :=
  ⟨(getFatVersion_cluster_count floppy (by decide) (by decide)).1.trans (by decide),
   (getFatVersion_cluster_count floppy (by decide) (by decide)).2.1.trans (by decide)⟩

theorem data_sector_wrap (first first' n C : Nat)
    (hfirst : first' % 4294967296 = first % 4294967296) :
    add32 first' (mul32 (sub32 n 2) C) =
      ((((first : Int) + ((n : Int) - 2) * (C : Int)) % 4294967296).toNat) := by
  have h1 : ((sub32 n 2 : Nat) : Int) ≡ (n : Int) - 2 [ZMOD 4294967296] := by
    rw [sub32_eq_emod]
    exact Int.mod_modEq _ _
  have h2 : ((mul32 (sub32 n 2) C : Nat) : Int) ≡ ((n : Int) - 2) * (C : Int)
      [ZMOD 4294967296] := by
    unfold mul32
    push_cast
    exact (Int.mod_modEq _ _).trans (h1.mul_right _)
  have h3 : (first' : Int) ≡ (first : Int) [ZMOD 4294967296] := by
    unfold Int.ModEq
    omega
  have h4 : ((add32 first' (mul32 (sub32 n 2) C) : Nat) : Int) ≡
      (first : Int) + ((n : Int) - 2) * (C : Int) [ZMOD 4294967296] := by
    unfold add32
    push_cast
    exact (Int.mod_modEq _ _).trans (h3.add h2)
  have hlt : add32 first' (mul32 (sub32 n 2) C) < 4294967296 := by
    unfold add32
    omega
  unfold Int.ModEq at h4
  rw [← h4, Int.emod_eq_of_lt (by omega) (by omega), Int.toNat_ofNat]

/-- C30. Data-cluster sector formula: for a cluster number `n` that is valid
for the active version, which then is FAT12 or FAT32,
`getSectorNumber_DataCluster` returns
`firstDataSector + (n - 2) * sectorsPerCluster` reduced modulo 2^32, where the
first data sector is `reserved + numFATs*sectorsPerFAT_FAT12 +
(numRootEntries*32 div bytesPerSector)` for FAT12 and
`reserved + numFATs*sectorsPerFAT_FAT32` for FAT32; the product
`numRootEntries*32` is an unsigned 32-bit product, which does not wrap for a
root-entry count below 2^27. -/
theorem getSectorNumber_DataCluster_formula (bootSector : boot_sect_t) (n : Nat)
    (hvalid : isValidClusterNumber n bootSector = .ok true) :
    ∃ version, getFatVersion bootSector = .ok version ∧ (version = FAT12 ∨ version = FAT32) ∧
      getSectorNumber_DataCluster bootSector n =
        .ok ((((firstDataSector bootSector version : Int) +
          ((n : Int) - 2) * (bootSector.sectorsPerCluster : Int)) % 4294967296).toNat) ∧
      (bootSector.numRootEntries_FAT12 < 134217728 →
        firstDataSector bootSector FAT12 =
          bootSector.numReservedSectors + bootSector.numFATs * bootSector.sectorsPerFAT_FAT12 +
            bootSector.numRootEntries_FAT12 * 32 / bootSector.bytesPerSector) := by
  obtain ⟨version, hv⟩ := getFatVersion_ok_of_isValid bootSector n true hvalid
  have hB := bytesPerSector_ne_zero_of_version bootSector version hv
  have hversion : version = FAT12 ∨ version = FAT32 := by
    by_contra hne
    have h12 : ¬ version = FAT12 := fun h => hne (Or.inl h)
    have h32 : ¬ version = FAT32 := fun h => hne (Or.inr h)
    unfold isValidClusterNumber at hvalid
    rw [hv] at hvalid
    simp only [bind, Except.bind, pure, Except.pure, if_neg h12, if_neg h32] at hvalid
    cases hvalid
  refine ⟨version, hv, hversion, ?_, ?_⟩
  · unfold getSectorNumber_DataCluster
    rw [hvalid, hv]
    simp only [bind, Except.bind, pure, Except.pure, div32, if_neg hB]
    rcases hversion with h12 | h32
    · subst h12
      simp only [if_true, Bool.true_eq_false, if_false]
      congr 1
      apply data_sector_wrap
      unfold firstDataSector getSectorNumber_FileAllocationTable add32 mul32
      rw [if_pos rfl, Nat.mul_comm bootSector.sectorsPerFAT_FAT12 bootSector.numFATs]
      generalize bootSector.numFATs * bootSector.sectorsPerFAT_FAT12 = F
      generalize bootSector.numRootEntries_FAT12 * 32 % 4294967296 / bootSector.bytesPerSector
        = X
      omega
    · subst h32
      have hne : ¬ (FAT32 = FAT12) := by decide
      simp only [if_neg hne, if_true, Bool.true_eq_false, if_false]
      congr 1
      apply data_sector_wrap
      unfold firstDataSector getSectorNumber_FileAllocationTable add32 mul32
      rw [if_neg hne, Nat.mul_comm bootSector.sectorsPerFAT_FAT32 bootSector.numFATs]
      generalize bootSector.numFATs * bootSector.sectorsPerFAT_FAT32 = F
      omega
  · intro hE
    unfold firstDataSector
    rw [if_pos rfl, Nat.mod_eq_of_lt (by omega : bootSector.numRootEntries_FAT12 * 32 < 4294967296)]

/-- C30, on the floppy and on the FAT32 volume: cluster 2 of the floppy is at
sector 1 + 2*9 + 14 = 33 and its cluster 5 at sector 36; cluster 5 of the
FAT32 volume is at sector 32 + 2*782 + 3 = 1599. -/
theorem getSectorNumber_DataCluster_formula_witness :
    getSectorNumber_DataCluster floppy 2 = .ok 33 ∧
    getSectorNumber_DataCluster floppy 5 = .ok 36 ∧
    getSectorNumber_DataCluster largeVolume 5 = .ok 1599 := by
  obtain ⟨v1, hv1, -, h1, -⟩ := getSectorNumber_DataCluster_formula floppy 2 (by decide)
  obtain ⟨v2, hv2, -, h2, -⟩ := getSectorNumber_DataCluster_formula floppy 5 (by decide)
  obtain ⟨v3, hv3, -, h3, -⟩ := getSectorNumber_DataCluster_formula largeVolume 5 (by decide)
  have e1 : v1 = FAT12 := Except.ok.inj (hv1.symm.trans (by decide))
  have e2 : v2 = FAT12 := Except.ok.inj (hv2.symm.trans (by decide))
  have e3 : v3 = FAT32 := Except.ok.inj (hv3.symm.trans (by decide))
  subst e1 e2 e3
  exact ⟨h1.trans (by decide), h2.trans (by decide), h3.trans (by decide)⟩

/-! ## The first cluster of an entry -/

theorem byteAt_lt (entry : List Nat) (hbytes : ∀ b ∈ entry, b < 256) (k : Nat) :
    byteAt entry k < 256 := by
  unfold byteAt
  by_cases hk : k < entry.length
  · rw [List.getD_eq_getElem entry 0 hk]
    exact hbytes _ (List.getElem_mem hk)
  · rw [List.getD_eq_default _ _ (by omega)]
    omega

theorem firstCluster_FAT32_bits (b20 b21 b26 b27 : Nat) (h20 : b20 < 256) (h26 : b26 < 256)
    (h27 : b27 < 256) :
    ((b21 &&& 0b00001111) <<< 24) ||| ((b20 &&& 0b11111111) <<< 16) |||
        ((b27 &&& 0b11111111) <<< 8) ||| ((b26 &&& 0b11111111) <<< 0) =
      b26 + 256 * b27 + 65536 * ((b20 + 256 * b21) % 4096) := by
  have e15 : ∀ x : Nat, x &&& 15 = x % 16 := fun x => Nat.and_pow_two_sub_one_eq_mod x 4
  have e255 : ∀ x : Nat, x &&& 255 = x % 256 := fun x => Nat.and_pow_two_sub_one_eq_mod x 8
  rw [e15, e255, e255, e255, Nat.mod_eq_of_lt h20, Nat.mod_eq_of_lt h26, Nat.mod_eq_of_lt h27,
    shift_or_bytes b26 b27 b20 (b21 % 16) h26 h27 h20]
  omega

/-- C24 (as stated, refuted). On a FAT32 volume, for the short entry whose low
word of the first cluster is 5 and whose high word is 0x1000,
`extractEntryFirstCluster` resolves the chain of cluster 5, not the chain of
cluster 5 + 65536 * 0x1000: the top four bits of the high word are dropped. -/
theorem extractEntryFirstCluster_high_word_counterexample :
    getFatVersion largeVolume = .ok FAT32 ∧
    byteAt highWordEntry 26 + 256 * byteAt highWordEntry 27 = 5 ∧
    byteAt highWordEntry 20 + 256 * byteAt highWordEntry 21 = 0x1000 ∧
    extractEntryFirstCluster 5 highWordEntry largeVolume endAtFiveTable = .ok ([5], 1) ∧
    getClusterSequence 5 (5 + 65536 * 0x1000) largeVolume endAtFiveTable =
      .ok ([268435461], 1) := by
  decide

/-- C24 (amended). First cluster of an entry: under FAT12
`extractEntryFirstCluster` resolves the chain of the little-endian 16-bit value
at offset 26 of the entry; under FAT32 it resolves the chain of that value plus
65536 times the low 12 bits of the little-endian 16-bit word at offset 20
(the top four bits of `reserved[9]` are masked off, so the cluster number has
28 bits). -/
theorem extractEntryFirstCluster_value (fuel : Nat) (entry : List Nat)
    (bootSector : boot_sect_t) (fat : Nat → Nat) (hbytes : ∀ b ∈ entry, b < 256) :
    (getFatVersion bootSector = .ok FAT12 →
      extractEntryFirstCluster fuel entry bootSector fat =
        getClusterSequence fuel (byteAt entry 26 + 256 * byteAt entry 27) bootSector fat) ∧
    (getFatVersion bootSector = .ok FAT32 →
      extractEntryFirstCluster fuel entry bootSector fat =
        getClusterSequence fuel
          (byteAt entry 26 + 256 * byteAt entry 27 +
            65536 * ((byteAt entry 20 + 256 * byteAt entry 21) % 4096))
          bootSector fat) := by
  have h20 := byteAt_lt entry hbytes 20
  have h26 := byteAt_lt entry hbytes 26
  have h27 := byteAt_lt entry hbytes 27
  constructor
  · intro hv
    unfold extractEntryFirstCluster
    rw [hv]
    simp only [bind, Except.bind, pure, Except.pure, if_true]
    rw [shift_or_bytes_two (byteAt entry 26) (byteAt entry 27) h26]
    congr 1
    omega
  · intro hv
    have hne : ¬ (FAT32 = FAT12) := by decide
    unfold extractEntryFirstCluster
    rw [hv]
    simp only [bind, Except.bind, pure, Except.pure, if_neg hne, if_true]
    rw [firstCluster_FAT32_bits (byteAt entry 20) (byteAt entry 21) (byteAt entry 26)
      (byteAt entry 27) h20 h26 h27]

/-- C24 (amended), on the FAT32 entry with the high word 0x1000 and on a FAT12
entry: the chains start at cluster 5 and at cluster 2. -/
theorem extractEntryFirstCluster_value_witness :
    extractEntryFirstCluster 5 highWordEntry largeVolume endAtFiveTable = .ok ([5], 1) ∧
    extractEntryFirstCluster 5 (shortEntry "README  " "TXT" 0x20 2 13) floppy
      threeClusterTable = .ok ([2, 3, 4], 3) :=
  ⟨((extractEntryFirstCluster_value 5 highWordEntry largeVolume endAtFiveTable
      (by decide)).2 (by decide)).trans (by decide),
   ((extractEntryFirstCluster_value 5 (shortEntry "README  " "TXT" 0x20 2 13) floppy
      threeClusterTable (by decide)).1 (by decide)).trans (by decide)⟩

/-! ## The code units of a long name -/

theorem le_or_left (a : Nat) : ∀ b, a ≤ a ||| b := by
  induction a using Nat.strong_induction_on with
  | _ a ih =>
    intro b
    by_cases ha : a = 0
    · omega
    · have h := ih (a / 2) (by omega) (b / 2)
      have hd : (a ||| b) / 2 = a / 2 ||| b / 2 := Nat.or_div_two
      have hm : a % 2 ≤ (a ||| b) % 2 := by
        have hbit := Nat.testBit_or a b 0
        rw [Nat.testBit_zero, Nat.testBit_zero, Nat.testBit_zero] at hbit
        by_cases h1 : a % 2 = 1
        · have h2 : (a ||| b) % 2 = 1 :=
            of_decide_eq_true (hbit.trans (by rw [h1]; rfl))
          omega
        · omega
      omega

theorem le_or_right (a b : Nat) : b ≤ a ||| b := by
  rw [Nat.lor_comm]
  exact le_or_left b a

theorem toUInt16_plain (charSigned : Bool) (b : Nat) (hb : b < 256)
    (h : charSigned = false ∨ b < 128) : toUInt16 charSigned b = b := by
  unfold toUInt16 charValue
  rw [if_neg (by
    rintro ⟨hs, hge⟩
    rcases h with h | h
    · rw [h] at hs
      cases hs
    · omega)]
  omega

theorem toUInt16_extended (b : Nat) (hb : b < 256) (h : 128 ≤ b) :
    toUInt16 true b = b + 65280 := by
  unfold toUInt16 charValue
  rw [if_pos ⟨rfl, h⟩]
  omega

theorem wideOfBytes_eq_iff (charSigned : Bool) (lo hi : Nat) (hlo : lo < 256) (hhi : hi < 256) :
    wideOfBytes charSigned lo hi = ((lo + 256 * hi : Nat) : Int) ↔
      (charSigned = false ∨ (lo < 128 ∧ hi < 128)) := by
  unfold wideOfBytes
  rw [Nat.cast_inj]
  constructor
  · intro h
    by_contra hne
    have hsigned : charSigned = true := by
      cases charSigned
      · exact absurd (Or.inl rfl) hne
      · rfl
    subst hsigned
    by_cases hh : 128 ≤ hi
    · have e := toUInt16_extended hi hhi hh
      have hle := le_or_right (toUInt16 true lo <<< 0) (toUInt16 true hi <<< 8)
      rw [h, e, Nat.shiftLeft_eq] at hle
      omega
    · have hl : 128 ≤ lo := by
        by_contra hl
        exact hne (Or.inr ⟨by omega, by omega⟩)
      have e := toUInt16_extended lo hlo hl
      have hle := le_or_left (toUInt16 true lo <<< 0) (toUInt16 true hi <<< 8)
      rw [h, e, Nat.shiftLeft_eq] at hle
      omega
  · intro h
    have e1 : toUInt16 charSigned lo = lo :=
      toUInt16_plain charSigned lo hlo (h.imp id (fun p => p.1))
    have e2 : toUInt16 charSigned hi = hi :=
      toUInt16_plain charSigned hi hhi (h.imp id (fun p => p.2))
    rw [e1, e2, Nat.lor_comm, shift_or_bytes_two lo hi hlo]
    omega

/-- C26 (the code on a byte from 0x80 on). Where `char` is a signed type, the
VFAT entry whose first code unit is stored as the bytes 0xE9 0x00 yields the
code unit 0xFFE9 and each pad unit 0xFFFF yields 0xFFFFFF: the bytes pass
through a `char` and are sign-extended by the conversion to `uint16_t`.  Where
`char` is unsigned the units are 0xE9 and 0xFFFF.  The bytes are taken from the
pairs of offsets of the specification, and for bytes `lo` and `hi` the unit
built is `lo + 256*hi` exactly when `char` is unsigned or both bytes are below
0x80. -/
theorem extractEntryName_VFAT_sign_extension :
    extractEntryName_VFAT true 14 (slotsOf accentedNameEntries) 2 =
      .ok ([0xffe9, 0] ++ List.replicate 11 0xffffff ++ [0, 0]) ∧
    extractEntryName_VFAT false 14 (slotsOf accentedNameEntries) 2 =
      .ok ([0xe9, 0] ++ List.replicate 11 0xffff ++ [0, 0]) ∧
    vfatByteOffsets = vfatUnitOffsets.flatMap (fun pair => [pair.1, pair.2]) ∧
    (∀ (charSigned : Bool) (entry : List Nat) (k : Nat), k < 13 →
      (vfatUnits charSigned entry).getD k 0 =
        wideOfBytes charSigned (byteAt entry (vfatUnitOffsets.getD k (0, 0)).1)
          (byteAt entry (vfatUnitOffsets.getD k (0, 0)).2)) ∧
    (∀ (charSigned : Bool) (lo hi : Nat), lo < 256 → hi < 256 →
      (wideOfBytes charSigned lo hi = ((lo + 256 * hi : Nat) : Int) ↔
        (charSigned = false ∨ (lo < 128 ∧ hi < 128)))) := by
  refine ⟨by decide, by decide, by decide, ?_, wideOfBytes_eq_iff⟩
  intro charSigned entry k hk
  rw [vfatUnits_getD charSigned entry k hk]
  interval_cases k <;> rfl

/-! ## The rules of the scan -/

theorem isLiveRecord_iff (srcEntry : List Nat) :
    isLiveRecord srcEntry = true ↔
      byteAt srcEntry 0 ≠ 0 ∧ byteAt srcEntry 0 ≠ 0x05 ∧ byteAt srcEntry 0 ≠ 0xe5 := by
  unfold isLiveRecord
  exact decide_eq_true_iff

theorem parseStep_volume_label (charSigned : Bool) (fuel : Nat) (fat : Nat → Nat)
    (bootSector : boot_sect_t) (srcEntry : List Nat) (state : ParseState)
    (hlive : isLiveRecord srcEntry = true)
    (hlabel : byteAt srcEntry 0x0b &&& 0x08 ≠ 0 ∧ byteAt srcEntry 0x0b &&& 0x0f ≠ 0x0f) :
    parseStep charSigned fuel fat bootSector srcEntry state = .ok (some state) := by
  obtain ⟨h0, h5, he5⟩ := (isLiveRecord_iff srcEntry).mp hlive
  unfold parseStep
  rw [if_neg h0, if_neg (by rintro (h | h) <;> contradiction), if_pos hlabel]

theorem parseStep_dot (charSigned : Bool) (fuel : Nat) (fat : Nat → Nat)
    (bootSector : boot_sect_t) (srcEntry : List Nat) (state : ParseState)
    (hlive : isLiveRecord srcEntry = true)
    (hlabel : ¬ (byteAt srcEntry 0x0b &&& 0x08 ≠ 0 ∧ byteAt srcEntry 0x0b &&& 0x0f ≠ 0x0f))
    (hdot : isDotEntry srcEntry = true) :
    parseStep charSigned fuel fat bootSector srcEntry state = .ok (some state) := by
  obtain ⟨h0, h5, he5⟩ := (isLiveRecord_iff srcEntry).mp hlive
  unfold parseStep
  rw [if_neg h0, if_neg (by rintro (h | h) <;> contradiction), if_neg hlabel, if_pos hdot]

theorem parseStep_not_dot (charSigned : Bool) (fuel : Nat) (fat : Nat → Nat)
    (bootSector : boot_sect_t) (srcEntry : List Nat) (state : ParseState)
    (hlive : isLiveRecord srcEntry = true)
    (hlabel : ¬ (byteAt srcEntry 0x0b &&& 0x08 ≠ 0 ∧ byteAt srcEntry 0x0b &&& 0x0f ≠ 0x0f))
    (hdot : isDotEntry srcEntry = false) :
    parseStep charSigned fuel fat bootSector srcEntry state =
      if (byteAt srcEntry 0x0b &&& 0x0f) = 0x0f then
        if state.vfatSequenceCount < MAX_ENTRIES_PER_VFAT_SEQUENCE then
          .ok (some
            { state with
              vfatRawEntrySequence :=
                storeEntry state.vfatRawEntrySequence state.vfatSequenceCount srcEntry
              vfatSequenceCount := add32 state.vfatSequenceCount 1 })
        else
          .error .outOfBounds
      else if state.vfatSequenceCount > 0 then
        if state.vfatSequenceCount < MAX_ENTRIES_PER_VFAT_SEQUENCE then
          (parseDirectoryEntry_VFAT charSigned fuel
            (storeEntry state.vfatRawEntrySequence state.vfatSequenceCount srcEntry)
            (add32 state.vfatSequenceCount 1) fat bootSector).map (fun dstEntry =>
              some
                { numEntries := add32 state.numEntries 1
                  directoryEntries := state.directoryEntries ++ [dstEntry]
                  vfatSequenceCount := 0
                  vfatRawEntrySequence :=
                    storeEntry state.vfatRawEntrySequence state.vfatSequenceCount srcEntry })
        else
          .error .outOfBounds
      else
        (parseDirectoryEntry charSigned fuel srcEntry fat bootSector).map (fun dstEntry =>
          some
            { state with
              numEntries := add32 state.numEntries 1
              directoryEntries := state.directoryEntries ++ [dstEntry] }) := by
  obtain ⟨h0, h5, he5⟩ := (isLiveRecord_iff srcEntry).mp hlive
  unfold parseStep
  rw [if_neg h0, if_neg (by rintro (h | h) <;> contradiction), if_neg hlabel,
    if_neg (by rw [hdot]; decide)]
  rfl

theorem parseStep_vfat (charSigned : Bool) (fuel : Nat) (fat : Nat → Nat)
    (bootSector : boot_sect_t) (srcEntry : List Nat) (state : ParseState)
    (hvfat : isVfatRecord srcEntry = true)
    (hslot : state.vfatSequenceCount < MAX_ENTRIES_PER_VFAT_SEQUENCE) :
    parseStep charSigned fuel fat bootSector srcEntry state =
      .ok (some
        { state with
          vfatRawEntrySequence :=
            storeEntry state.vfatRawEntrySequence state.vfatSequenceCount srcEntry
          vfatSequenceCount := add32 state.vfatSequenceCount 1 }) := by
  unfold isVfatRecord at hvfat
  simp only [Bool.and_eq_true, decide_eq_true_eq, Bool.not_eq_true'] at hvfat
  obtain ⟨⟨hlive, hnibble⟩, hdot⟩ := hvfat
  rw [parseStep_not_dot charSigned fuel fat bootSector srcEntry state hlive
    (fun h => h.2 hnibble) hdot, if_pos hnibble, if_pos hslot]

theorem parseStep_vfat_overrun (charSigned : Bool) (fuel : Nat) (fat : Nat → Nat)
    (bootSector : boot_sect_t) (srcEntry : List Nat) (state : ParseState)
    (hvfat : isVfatRecord srcEntry = true)
    (hslot : MAX_ENTRIES_PER_VFAT_SEQUENCE ≤ state.vfatSequenceCount) :
    parseStep charSigned fuel fat bootSector srcEntry state = .error .outOfBounds := by
  unfold isVfatRecord at hvfat
  simp only [Bool.and_eq_true, decide_eq_true_eq, Bool.not_eq_true'] at hvfat
  obtain ⟨⟨hlive, hnibble⟩, hdot⟩ := hvfat
  rw [parseStep_not_dot charSigned fuel fat bootSector srcEntry state hlive
    (fun h => h.2 hnibble) hdot, if_pos hnibble, if_neg (Nat.not_lt.mpr hslot)]

theorem parseStep_short (charSigned : Bool) (fuel : Nat) (fat : Nat → Nat)
    (bootSector : boot_sect_t) (srcEntry : List Nat) (state : ParseState)
    (hshort : isShortRecord srcEntry = true) :
    parseStep charSigned fuel fat bootSector srcEntry state =
      if state.vfatSequenceCount > 0 then
        if state.vfatSequenceCount < MAX_ENTRIES_PER_VFAT_SEQUENCE then
          (parseDirectoryEntry_VFAT charSigned fuel
            (storeEntry state.vfatRawEntrySequence state.vfatSequenceCount srcEntry)
            (add32 state.vfatSequenceCount 1) fat bootSector).map (fun dstEntry =>
              some
                { numEntries := add32 state.numEntries 1
                  directoryEntries := state.directoryEntries ++ [dstEntry]
                  vfatSequenceCount := 0
                  vfatRawEntrySequence :=
                    storeEntry state.vfatRawEntrySequence state.vfatSequenceCount srcEntry })
        else
          .error .outOfBounds
      else
        (parseDirectoryEntry charSigned fuel srcEntry fat bootSector).map (fun dstEntry =>
          some
            { state with
              numEntries := add32 state.numEntries 1
              directoryEntries := state.directoryEntries ++ [dstEntry] }) := by
  unfold isShortRecord at hshort
  simp only [Bool.and_eq_true, decide_eq_true_eq, Bool.not_eq_true'] at hshort
  obtain ⟨⟨hlive, hbit⟩, hdot⟩ := hshort
  rw [parseStep_not_dot charSigned fuel fat bootSector srcEntry state hlive
    (fun h => h.1 hbit) hdot, if_neg (land_fifteen_ne _ hbit)]

theorem parseStep_short_overrun (charSigned : Bool) (fuel : Nat) (fat : Nat → Nat)
    (bootSector : boot_sect_t) (srcEntry : List Nat) (state : ParseState)
    (hshort : isShortRecord srcEntry = true)
    (hslot : MAX_ENTRIES_PER_VFAT_SEQUENCE ≤ state.vfatSequenceCount) :
    parseStep charSigned fuel fat bootSector srcEntry state = .error .outOfBounds := by
  have hpos : state.vfatSequenceCount > 0 :=
    Nat.lt_of_lt_of_le (by decide : 0 < MAX_ENTRIES_PER_VFAT_SEQUENCE) hslot
  rw [parseStep_short charSigned fuel fat bootSector srcEntry state hshort, if_pos hpos,
    if_neg (Nat.not_lt.mpr hslot)]

theorem byteAt_record32 (entry : List Nat) (k : Nat) (hk : k < 32) :
    byteAt (record32 entry) k = byteAt entry k := by
  unfold record32 byteAt
  rw [List.getD_eq_getElem _ _ (by simpa using hk)]
  simp only [List.getElem_map, List.getElem_range]

theorem insertEntry_record (raw : Nat → Nat) (p : Nat) (entry : List Nat)
    (hp : p < 134217728) : recordAt (insertEntry raw p entry) p = record32 entry := by
  unfold recordAt record32
  apply List.map_congr_left
  intro k hk
  have hk32 := List.mem_range.mp hk
  rw [mul32_entry p hp]
  unfold insertEntry
  rw [if_neg (by omega), if_pos (by omega)]
  congr 1
  omega

theorem isDotEntry_record32 (entry : List Nat) : isDotEntry (record32 entry) = isDotEntry entry := by
  unfold isDotEntry
  simp only [byteAt_record32 entry _ (by norm_num : (0x0b : Nat) < 32),
    byteAt_record32 entry _ (by norm_num : (0x00 : Nat) < 32),
    byteAt_record32 entry _ (by norm_num : (0x01 : Nat) < 32),
    byteAt_record32 entry _ (by norm_num : (0x02 : Nat) < 32),
    byteAt_record32 entry _ (by norm_num : (0x03 : Nat) < 32),
    byteAt_record32 entry _ (by norm_num : (0x04 : Nat) < 32),
    byteAt_record32 entry _ (by norm_num : (0x05 : Nat) < 32),
    byteAt_record32 entry _ (by norm_num : (0x06 : Nat) < 32),
    byteAt_record32 entry _ (by norm_num : (0x07 : Nat) < 32),
    byteAt_record32 entry _ (by norm_num : (0x08 : Nat) < 32),
    byteAt_record32 entry _ (by norm_num : (0x09 : Nat) < 32),
    byteAt_record32 entry _ (by norm_num : (0x0a : Nat) < 32)]

theorem isLiveRecord_record32 (entry : List Nat) :
    isLiveRecord (record32 entry) = isLiveRecord entry := by
  unfold isLiveRecord
  rw [byteAt_record32 entry 0 (by norm_num)]

theorem parseLoop_before_insert_skipped (charSigned : Bool) (fuel : Nat) (raw : Nat → Nat)
    (max p : Nat) (entry : List Nat) (fat : Nat → Nat) (bootSector : boot_sect_t)
    (hp : p ≤ max) (hmax : max + 1 ≤ 134217728)
    (hskip : ∀ state,
      parseStep charSigned fuel fat bootSector (record32 entry) state = .ok (some state)) :
    ∀ (steps indexSrc : Nat) (state : ParseState), indexSrc ≤ p → max < steps + indexSrc →
      parseLoop charSigned fuel (insertEntry raw p entry) (max + 1) fat bootSector (steps + 1)
          indexSrc state =
        parseLoop charSigned fuel raw max fat bootSector steps indexSrc state := by
  intro steps
  induction steps with
  | zero =>
    intro indexSrc state hle hsteps
    omega
  | succ steps ih =>
    intro indexSrc state hle hsteps
    rw [parseLoop_succ, if_pos (by omega)]
    by_cases hlt : indexSrc < p
    · rw [parseLoop_succ, if_pos (by omega), insertEntry_before raw p entry indexSrc hlt (by omega)]
      cases parseStep charSigned fuel fat bootSector (recordAt raw indexSrc) state with
      | error fault => rfl
      | ok next =>
        cases next with
        | none => rfl
        | some next =>
          rw [add32_of_lt indexSrc 1 (by omega)]
          exact ih (indexSrc + 1) next (by omega) (by omega)
    · have e : indexSrc = p := by omega
      subst e
      rw [insertEntry_record raw indexSrc entry (by omega), hskip state,
        add32_of_lt indexSrc 1 (by omega)]
      exact parseLoop_after_insert charSigned fuel raw max indexSrc entry fat bootSector hmax
        (steps + 1) indexSrc state (by omega)

theorem parseDirectoryEntries_insert_skipped (charSigned : Bool) (fuel : Nat)
    (raw : Nat → Nat) (max p : Nat) (entry : List Nat) (fat : Nat → Nat)
    (bootSector : boot_sect_t)
    (hp : p ≤ max) (hmax : max + 1 ≤ 134217728)
    (hskip : ∀ state,
      parseStep charSigned fuel fat bootSector (record32 entry) state = .ok (some state))
    (hfuel : max + 1 < fuel) :
    parseDirectoryEntries charSigned fuel (insertEntry raw p entry) (max + 1) fat bootSector =
      parseDirectoryEntries charSigned fuel raw max fat bootSector := by
  unfold parseDirectoryEntries
  obtain ⟨steps, rfl⟩ : ∃ s, fuel = s + 1 := ⟨fuel - 1, by omega⟩
  rw [parseLoop_before_insert_skipped charSigned (steps + 1) raw max p entry fat bootSector hp
    hmax hskip steps 0 _ (by omega) (by omega)]
  exact (parseLoop_more_steps charSigned (steps + 1) raw max fat bootSector (by omega) steps 0 _
    (by omega) (by omega)).symm

theorem add32_one_ne (n : Nat) : add32 n 1 ≠ n := by
  unfold add32
  omega

theorem isDotEntry_iff (entry : List Nat) :
    isDotEntry entry = true ↔
      byteAt entry 0x0b &&& 0x10 ≠ 0 ∧
        (name11 entry = codes ".          " ∨ name11 entry = codes "..         ") := by
  have e1 : codes ".          " = [0x2e, 0x20, 0x20, 0x20, 0x20, 0x20, 0x20, 0x20, 0x20, 0x20, 0x20] := by
    decide
  have e2 : codes "..         " = [0x2e, 0x2e, 0x20, 0x20, 0x20, 0x20, 0x20, 0x20, 0x20, 0x20, 0x20] := by
    decide
  have e3 : name11 entry = [byteAt entry 0, byteAt entry 1, byteAt entry 2, byteAt entry 3,
      byteAt entry 4, byteAt entry 5, byteAt entry 6, byteAt entry 7, byteAt entry 8,
      byteAt entry 9, byteAt entry 10] := rfl
  unfold isDotEntry
  rw [e1, e2, e3, decide_eq_true_iff]
  simp only [List.cons.injEq, and_true]
  tauto

/-- C27 (as stated, refuted). The record named `.` with the attribute byte 0x1F
is live and its attribute low nibble is 0x0F, yet the scan does not buffer it
as a VFAT record: the dot rule skips it, the count of buffered records stays 0
and the short entry that follows is decoded under its short name. -/
theorem parseStep_nibble_counterexample :
    isLiveRecord dotNibbleEntry = true ∧
    byteAt dotNibbleEntry 0x0b &&& 0x0f = 0x0f ∧
    (parseStep true 10 threeClusterTable floppy dotNibbleEntry scanStart).map
      (Option.map (fun state => state.vfatSequenceCount)) = .ok (some 0) ∧
    (parseDirectoryEntries true 10
        (bufferOf (dotNibbleEntry ++ shortEntry "README  " "TXT" 0x20 2 13)) 3
        threeClusterTable floppy).map (fun r => (r.1.map (fun e => cString e.name), r.2)) =
      .ok ([wideCodes "README.TXT"], 1) := by
  decide

/-- C27 (amended). Volume-label skip: a live record (first byte none of 0x00,
0x05, 0xE5) whose attribute byte has the bit 0x08 set and a low nibble other
than 0x0F leaves the variables of the scan unchanged, and inserting it at any
position of a directory buffer leaves the result of `parseDirectoryEntries`
unchanged.  A live record whose attribute low nibble is 0x0F is not skipped by
this rule: unless the dot rule skips it (directory bit set and the name `.` or
`..`), it is buffered as a VFAT record in the slot `vfatSequenceCount` when
fewer than `MAX_ENTRIES_PER_VFAT_SEQUENCE` records are pending, and with 21
records pending the copy leaves the sequence buffer. -/
theorem parseDirectoryEntries_volume_label (charSigned : Bool) (fuel : Nat) (fat : Nat → Nat)
    (bootSector : boot_sect_t) (entry : List Nat) (hlive : isLiveRecord entry = true) :
    (byteAt entry 0x0b &&& 0x08 ≠ 0 ∧ byteAt entry 0x0b &&& 0x0f ≠ 0x0f →
      (∀ state, parseStep charSigned fuel fat bootSector entry state = .ok (some state)) ∧
      ∀ (raw : Nat → Nat) (max p : Nat), p ≤ max → max + 1 ≤ 134217728 → max + 1 < fuel →
        parseDirectoryEntries charSigned fuel (insertEntry raw p entry) (max + 1) fat
            bootSector =
          parseDirectoryEntries charSigned fuel raw max fat bootSector) ∧
    (byteAt entry 0x0b &&& 0x0f = 0x0f → ∀ state,
      parseStep charSigned fuel fat bootSector entry state =
        if isDotEntry entry = true then
          .ok (some state)
        else if state.vfatSequenceCount < MAX_ENTRIES_PER_VFAT_SEQUENCE then
          .ok (some
            { state with
              vfatRawEntrySequence :=
                storeEntry state.vfatRawEntrySequence state.vfatSequenceCount entry
              vfatSequenceCount := add32 state.vfatSequenceCount 1 })
        else
          .error .outOfBounds) := by
  constructor
  · intro hlabel
    refine ⟨fun state =>
      parseStep_volume_label charSigned fuel fat bootSector entry state hlive hlabel, ?_⟩
    intro raw max p hp hmax hfuel
    refine parseDirectoryEntries_insert_skipped charSigned fuel raw max p entry fat bootSector hp
      hmax (fun state => ?_) hfuel
    refine parseStep_volume_label charSigned fuel fat bootSector _ state ?_ ?_
    · rw [isLiveRecord_record32]
      exact hlive
    · rw [byteAt_record32 entry _ (by norm_num)]
      exact hlabel
  · intro hnibble state
    have hlabel : ¬ (byteAt entry 0x0b &&& 0x08 ≠ 0 ∧ byteAt entry 0x0b &&& 0x0f ≠ 0x0f) :=
      fun h => h.2 hnibble
    cases hdot : isDotEntry entry with
    | true =>
      rw [if_pos rfl]
      exact parseStep_dot charSigned fuel fat bootSector entry state hlive hlabel hdot
    | false =>
      rw [if_neg (by decide),
        parseStep_not_dot charSigned fuel fat bootSector entry state hlive hlabel hdot,
        if_pos hnibble]

/-- C27 (amended), on a volume label between two files: the two files are
decoded, in their order. -/
theorem parseDirectoryEntries_volume_label_witness :
    parseDirectoryEntries true 10
        (insertEntry (bufferOf (shortEntry "README  " "TXT" 0x20 2 13 ++
          shortEntry "NOEXT   " "   " 0x20 0 0)) 1 volumeLabelEntry) (2 + 1)
        threeClusterTable floppy =
      parseDirectoryEntries true 10
        (bufferOf (shortEntry "README  " "TXT" 0x20 2 13 ++
          shortEntry "NOEXT   " "   " 0x20 0 0)) 2 threeClusterTable floppy ∧
    (parseDirectoryEntries true 10
        (bufferOf (shortEntry "README  " "TXT" 0x20 2 13 ++ volumeLabelEntry ++
          shortEntry "NOEXT   " "   " 0x20 0 0)) 3
        threeClusterTable floppy).map (fun r => (r.1.map (fun e => cString e.name), r.2)) =
      .ok ([wideCodes "README.TXT", wideCodes "NOEXT"], 2) :=
  ⟨((parseDirectoryEntries_volume_label true 10 threeClusterTable floppy volumeLabelEntry
      (by decide)).1 (by decide)).2 _ 2 1 (by norm_num) (by norm_num) (by norm_num),
    by decide⟩

/-- C28. Dot-entry skip: for a live record that the volume-label rule does not
match, the scan skips the record (its variables are unchanged) if and only if
the attribute byte has the directory bit 0x10 set and the 11 name bytes are `.`
or `..` followed by bytes 0x20; inserting such a record at any position of a
directory buffer leaves the result of `parseDirectoryEntries` unchanged, and
every other record goes on to the VFAT rule and the decoding of an entry: it
is buffered or decoded when the sequence buffer has a free slot (fewer than
`MAX_ENTRIES_PER_VFAT_SEQUENCE` records pending) or no record is pending, and
otherwise its copy leaves the sequence buffer. -/
theorem parseStep_dot_entry (charSigned : Bool) (fuel : Nat) (fat : Nat → Nat)
    (bootSector : boot_sect_t) (entry : List Nat) (state : ParseState)
    (hlive : isLiveRecord entry = true)
    (hlabel : ¬ (byteAt entry 0x0b &&& 0x08 ≠ 0 ∧ byteAt entry 0x0b &&& 0x0f ≠ 0x0f)) :
    (parseStep charSigned fuel fat bootSector entry state = .ok (some state) ↔
      byteAt entry 0x0b &&& 0x10 ≠ 0 ∧
        (name11 entry = codes ".          " ∨ name11 entry = codes "..         ")) ∧
    (isDotEntry entry = true →
      ∀ (raw : Nat → Nat) (max p : Nat), p ≤ max → max + 1 ≤ 134217728 → max + 1 < fuel →
        parseDirectoryEntries charSigned fuel (insertEntry raw p entry) (max + 1) fat
            bootSector =
          parseDirectoryEntries charSigned fuel raw max fat bootSector) ∧
    (isDotEntry entry = false →
      parseStep charSigned fuel fat bootSector entry state =
        if (byteAt entry 0x0b &&& 0x0f) = 0x0f then
          if state.vfatSequenceCount < MAX_ENTRIES_PER_VFAT_SEQUENCE then
            .ok (some
              { state with
                vfatRawEntrySequence :=
                  storeEntry state.vfatRawEntrySequence state.vfatSequenceCount entry
                vfatSequenceCount := add32 state.vfatSequenceCount 1 })
          else
            .error .outOfBounds
        else if state.vfatSequenceCount > 0 then
          if state.vfatSequenceCount < MAX_ENTRIES_PER_VFAT_SEQUENCE then
            (parseDirectoryEntry_VFAT charSigned fuel
              (storeEntry state.vfatRawEntrySequence state.vfatSequenceCount entry)
              (add32 state.vfatSequenceCount 1) fat bootSector).map (fun dstEntry =>
                some
                  { numEntries := add32 state.numEntries 1
                    directoryEntries := state.directoryEntries ++ [dstEntry]
                    vfatSequenceCount := 0
                    vfatRawEntrySequence :=
                      storeEntry state.vfatRawEntrySequence state.vfatSequenceCount entry })
          else
            .error .outOfBounds
        else
          (parseDirectoryEntry charSigned fuel entry fat bootSector).map (fun dstEntry =>
            some
              { state with
                numEntries := add32 state.numEntries 1
                directoryEntries := state.directoryEntries ++ [dstEntry] })) := by
  refine ⟨?_, ?_, fun hdot =>
    parseStep_not_dot charSigned fuel fat bootSector entry state hlive hlabel hdot⟩
  · rw [← isDotEntry_iff]
    constructor
    · intro hskip
      by_contra hdot
      have hdot' : isDotEntry entry = false := by
        cases h : isDotEntry entry
        · rfl
        · exact absurd h hdot
      rw [parseStep_not_dot charSigned fuel fat bootSector entry state hlive hlabel hdot'] at hskip
      split_ifs at hskip with h1 h2 h3 h4
      · have h := congrArg (fun s => s.vfatSequenceCount) (Option.some.inj (Except.ok.inj hskip))
        exact add32_one_ne _ h
      · cases hparse : parseDirectoryEntry_VFAT charSigned fuel
            (storeEntry state.vfatRawEntrySequence state.vfatSequenceCount entry)
            (add32 state.vfatSequenceCount 1) fat bootSector with
        | error fault =>
          rw [hparse] at hskip
          cases hskip
        | ok dstEntry =>
          rw [hparse] at hskip
          have h := congrArg (fun s => s.numEntries) (Option.some.inj (Except.ok.inj hskip))
          exact add32_one_ne _ h
      · cases hparse : parseDirectoryEntry charSigned fuel entry fat bootSector with
        | error fault =>
          rw [hparse] at hskip
          cases hskip
        | ok dstEntry =>
          rw [hparse] at hskip
          have h := congrArg (fun s => s.numEntries) (Option.some.inj (Except.ok.inj hskip))
          exact add32_one_ne _ h
    · intro hdot
      exact parseStep_dot charSigned fuel fat bootSector entry state hlive hlabel hdot
  · intro hdot raw max p hp hmax hfuel
    refine parseDirectoryEntries_insert_skipped charSigned fuel raw max p entry fat bootSector hp
      hmax (fun state => ?_) hfuel
    refine parseStep_dot charSigned fuel fat bootSector _ state ?_ ?_ ?_
    · rw [isLiveRecord_record32]
      exact hlive
    · rw [byteAt_record32 entry _ (by norm_num)]
      exact hlabel
    · rw [isDotEntry_record32]
      exact hdot

/-- C28, on the entries `.` and `..` of a subdirectory, a file named `.` and a
directory named `.GIT`: the scan skips the first two and decodes the others. -/
theorem parseStep_dot_entry_witness :
    parseStep true 10 threeClusterTable floppy dotEntry scanStart = .ok (some scanStart) ∧
    (parseDirectoryEntries true 10
        (bufferOf (dotEntry ++ dotDotEntry ++ dotFileEntry ++ dotGitEntry)) 5
        threeClusterTable floppy).map
        (fun r => (r.1.map (fun e => (cString e.name, e.type)), r.2)) =
      .ok ([(wideCodes ".", 0), (wideCodes ".GIT", 1)], 2) :=
  ⟨(parseStep_dot_entry true 10 threeClusterTable floppy dotEntry _ (by decide)
      (by decide)).1.mpr (by decide), by decide⟩

/-! ## A VFAT sequence and its short entry -/

theorem parseLoop_vfat_buffer (charSigned : Bool) (fuel : Nat) (raw : Nat → Nat) (max : Nat)
    (fat : Nat → Nat) (bootSector : boot_sect_t) (hmax : max ≤ 134217728) :
    ∀ (N steps p : Nat) (state : ParseState),
      p + N ≤ max → state.vfatSequenceCount + N ≤ 21 →
      (∀ j, j < N → isVfatRecord (recordAt raw (p + j)) = true) →
      parseLoop charSigned fuel raw max fat bootSector (steps + N) p state =
        parseLoop charSigned fuel raw max fat bootSector steps (p + N)
          { state with
            vfatSequenceCount := state.vfatSequenceCount + N
            vfatRawEntrySequence := fun k =>
              if state.vfatSequenceCount ≤ k ∧ k < state.vfatSequenceCount + N then
                recordAt raw (p + (k - state.vfatSequenceCount))
              else state.vfatRawEntrySequence k } := by
  intro N
  induction N with
  | zero =>
    intro steps p state _ _ _
    congr 1
    cases state with
    | mk numEntries directoryEntries count sequence =>
      simp only [Nat.add_zero, ParseState.mk.injEq, true_and]
      funext k
      rw [if_neg (by omega)]
  | succ N ih =>
    intro steps p state hp hcount hrun
    have e : steps + (N + 1) = (steps + N) + 1 := by omega
    rw [e, parseLoop_succ, if_pos (by omega),
      parseStep_vfat charSigned fuel fat bootSector _ state (by simpa using hrun 0 (by omega))
        (by unfold MAX_ENTRIES_PER_VFAT_SEQUENCE; omega)]
    simp only []
    rw [add32_of_lt p 1 (by omega), ih steps (p + 1) _ (by omega)
      (by
        simp only []
        rw [add32_of_lt _ 1 (by omega)]
        omega)
      (fun j hj => by
        have := hrun (j + 1) (by omega)
        rw [show p + 1 + j = p + (j + 1) by omega]
        exact this)]
    have e2 : p + 1 + N = p + (N + 1) := by omega
    rw [e2]
    congr 1
    simp only [ParseState.mk.injEq, true_and]
    rw [add32_of_lt _ 1 (by omega)]
    refine ⟨by omega, ?_⟩
    funext k
    unfold storeEntry
    by_cases hk : k = state.vfatSequenceCount
    · subst hk
      rw [if_neg (by omega), if_pos rfl, if_pos (by omega)]
      congr 1
      omega
    · by_cases hin : state.vfatSequenceCount + 1 ≤ k ∧ k < state.vfatSequenceCount + 1 + N
      · rw [if_pos hin, if_pos (by omega)]
        congr 1
        omega
      · rw [if_neg hin, if_neg hk, if_neg (by omega)]

theorem sub32_succ_one (n : Nat) (h : n < 4294967295) : sub32 (n + 1) 1 = n := by
  unfold sub32
  omega

theorem parseDirectoryEntry_VFAT_eq (charSigned : Bool) (fuel : Nat)
    (sequence : Nat → List Nat) (N : Nat) (fat : Nat → Nat) (bootSector : boot_sect_t)
    (hN : 1 ≤ N) (hint : 26 * N + 2 < 2147483648) (hfuel : 13 * N < fuel) :
    parseDirectoryEntry_VFAT charSigned fuel sequence (N + 1) fat bootSector =
      entryWithName
        ((List.range N).reverse.flatMap (fun j => vfatUnits charSigned (sequence j)) ++ [0, 0])
        fuel (sequence N) fat bootSector := by
  unfold parseDirectoryEntry_VFAT entryWithName
  rw [extractEntryName_VFAT_eq charSigned fuel sequence N hN hint hfuel,
    sub32_succ_one N (by omega)]
  rfl

theorem parseLoop_vfat_run (charSigned : Bool) (fuel : Nat) (raw : Nat → Nat) (max : Nat)
    (fat : Nat → Nat) (bootSector : boot_sect_t) (hmax : max ≤ 134217728)
    (N steps p : Nat) (state : ParseState)
    (hN : 1 ≤ N) (hcap : N ≤ 20) (hp : p + N < max) (hcount : state.vfatSequenceCount = 0)
    (hrun : ∀ j, j < N → isVfatRecord (recordAt raw (p + j)) = true)
    (hshort : isShortRecord (recordAt raw (p + N)) = true)
    (hint : 26 * N + 2 < 2147483648) (hfuel : 13 * N < fuel) :
    ∃ sequence,
      parseLoop charSigned fuel raw max fat bootSector (steps + (N + 1)) p state =
        match entryWithName
            ((List.range N).reverse.flatMap
              (fun j => vfatUnits charSigned (recordAt raw (p + j))) ++ [0, 0])
            fuel (recordAt raw (p + N)) fat bootSector with
        | .error fault => .error fault
        | .ok dstEntry =>
          parseLoop charSigned fuel raw max fat bootSector steps (p + N + 1)
            { numEntries := add32 state.numEntries 1
              directoryEntries := state.directoryEntries ++ [dstEntry]
              vfatSequenceCount := 0
              vfatRawEntrySequence := sequence } := by
  have e : steps + (N + 1) = (steps + 1) + N := by omega
  rw [e, parseLoop_vfat_buffer charSigned fuel raw max fat bootSector hmax N (steps + 1) p state
    (by omega) (by omega) hrun, parseLoop_succ, if_pos hp,
    parseStep_short charSigned fuel fat bootSector _ _ hshort]
  simp only [hcount, Nat.zero_add, Nat.zero_le, true_and, Nat.sub_zero]
  rw [if_pos (by omega), if_pos (by unfold MAX_ENTRIES_PER_VFAT_SEQUENCE; omega),
    add32_of_lt N 1 (by omega),
    parseDirectoryEntry_VFAT_eq charSigned fuel _ N fat bootSector hN hint hfuel]
  have hlast : storeEntry (fun k => if k < N then recordAt raw (p + k)
      else state.vfatRawEntrySequence k) N (recordAt raw (p + N)) N = recordAt raw (p + N) := by
    unfold storeEntry
    rw [if_pos rfl]
  have hunits : (List.range N).reverse.flatMap (fun j => vfatUnits charSigned
      (storeEntry (fun k => if k < N then recordAt raw (p + k)
        else state.vfatRawEntrySequence k) N (recordAt raw (p + N)) j)) =
      (List.range N).reverse.flatMap (fun j => vfatUnits charSigned (recordAt raw (p + j))) := by
    apply List.flatMap_congr
    intro j hj
    have hjN : j < N := List.mem_range.mp (List.mem_reverse.mp hj)
    unfold storeEntry
    beta_reduce
    rw [if_neg (by omega), if_pos hjN]
  rw [hlast, hunits]
  refine ⟨storeEntry (fun k => if k < N then recordAt raw (p + k)
      else state.vfatRawEntrySequence k) N (recordAt raw (p + N)), ?_⟩
  cases entryWithName
      ((List.range N).reverse.flatMap
        (fun j => vfatUnits charSigned (recordAt raw (p + j))) ++ [0, 0])
      fuel (recordAt raw (p + N)) fat bootSector with
  | error fault => rfl
  | ok dstEntry =>
    simp only [Except.map]
    rw [add32_of_lt (p + N) 1 (by omega)]

theorem parseDirectoryEntries_single_run (charSigned : Bool) (fuel : Nat) (raw : Nat → Nat)
    (max N : Nat) (fat : Nat → Nat) (bootSector : boot_sect_t)
    (hN : 1 ≤ N) (hcap : N ≤ 20) (hlen : N + 1 ≤ max) (hmax : max ≤ 134217728)
    (hrun : ∀ j, j < N → isVfatRecord (recordAt raw j) = true)
    (hshort : isShortRecord (recordAt raw N) = true)
    (hend : N + 1 < max → raw (32 * (N + 1)) = 0)
    (hint : 26 * N + 2 < 2147483648) (hfuel : 13 * N < fuel) (hsteps : N + 2 ≤ fuel) :
    parseDirectoryEntries charSigned fuel raw max fat bootSector =
      (entryWithName
        ((List.range N).reverse.flatMap (fun j => vfatUnits charSigned (recordAt raw j)) ++
          [0, 0])
        fuel (recordAt raw N) fat bootSector).map (fun dstEntry => ([dstEntry], 1)) := by
  obtain ⟨steps, hsteps'⟩ : ∃ s, fuel = (s + 1) + (N + 1) := ⟨fuel - N - 2, by omega⟩
  obtain ⟨sequence, hloop⟩ := parseLoop_vfat_run charSigned fuel raw max fat bootSector hmax N
    (steps + 1) 0 scanStart hN hcap (by omega) rfl (fun j hj => by simpa using hrun j hj)
    (by simpa using hshort) hint hfuel
  simp only [Nat.zero_add] at hloop
  have hstart : parseDirectoryEntries charSigned fuel raw max fat bootSector =
      parseLoop charSigned fuel raw max fat bootSector fuel 0 scanStart := rfl
  rw [hstart, show parseLoop charSigned fuel raw max fat bootSector fuel 0 scanStart =
      parseLoop charSigned fuel raw max fat bootSector (steps + 1 + (N + 1)) 0 scanStart from
    congrArg (fun s => parseLoop charSigned fuel raw max fat bootSector s 0 scanStart) hsteps',
    hloop]
  cases entryWithName
      ((List.range N).reverse.flatMap (fun j => vfatUnits charSigned (recordAt raw j)) ++ [0, 0])
      fuel (recordAt raw N) fat bootSector with
  | error fault => rfl
  | ok dstEntry =>
    simp only [Except.map]
    rw [parseLoop_succ]
    by_cases hlt : N + 1 < max
    · have hrec : byteAt (recordAt raw (N + 1)) 0 = 0 := by
        rw [byteAt_recordAt raw (N + 1) 0 (by omega), mul32_entry (N + 1) (by omega)]
        exact hend hlt
      rw [if_pos hlt, parseStep_end charSigned fuel fat bootSector _ _ hrec]
      rfl
    · rw [if_neg hlt]
      rfl

theorem vfatByteOffsets_ne (j : Nat) (hj : j < 26) :
    vfatByteOffsets.getD j 0 ≠ 0 ∧ vfatByteOffsets.getD j 0 ≠ 13 := by
  interval_cases j <;> decide

theorem vfatUnits_congr (charSigned : Bool) (entry entry' : List Nat)
    (h : ∀ k, k < 32 → k ≠ 0 → k ≠ 13 → byteAt entry k = byteAt entry' k) :
    vfatUnits charSigned entry = vfatUnits charSigned entry' := by
  unfold vfatUnits
  apply List.map_congr_left
  intro k hk
  have hk13 : k < 13 := List.mem_range.mp hk
  rw [h _ (vfatByteOffsets_lt (2 * k)) (vfatByteOffsets_ne (2 * k) (by omega)).1
      (vfatByteOffsets_ne (2 * k) (by omega)).2,
    h _ (vfatByteOffsets_lt (2 * k + 1)) (vfatByteOffsets_ne (2 * k + 1) (by omega)).1
      (vfatByteOffsets_ne (2 * k + 1) (by omega)).2]

theorem entryWithName_congr (name : List Int) (fuel : Nat) (short short' : List Nat)
    (fat : Nat → Nat) (bootSector : boot_sect_t)
    (h : ∀ k, 11 ≤ k → k < 32 → byteAt short k = byteAt short' k) :
    entryWithName name fuel short fat bootSector =
      entryWithName name fuel short' fat bootSector := by
  unfold entryWithName extractEntryFirstCluster extractEntrytype extractEntrySize
  rw [h 11 (by norm_num) (by norm_num), h 20 (by norm_num) (by norm_num),
    h 21 (by norm_num) (by norm_num), h 26 (by norm_num) (by norm_num),
    h 27 (by norm_num) (by norm_num), h 28 (by norm_num) (by norm_num),
    h 29 (by norm_num) (by norm_num), h 30 (by norm_num) (by norm_num),
    h 31 (by norm_num) (by norm_num)]

/-- A VFAT-named entry takes its attributes from the short record that
ends the sequence: when the scan reaches, with no VFAT record pending, a run of
`N` VFAT records (`1 ≤ N ≤ 20`, the sequence buffer holding 21 records)
followed by a short record, it goes on after the short record with exactly one
more entry; the name of this entry is the one `extractEntryName_VFAT` rebuilds
from the records of the run, and its type (1 exactly when bit 4 of the
attribute byte is set), its cluster chain and its size (the 4-byte
little-endian field at offset 28) are read from the short record, which yields
no entry of its own.  For a directory that holds the run and then ends,
`parseDirectoryEntries` returns this entry alone. -/
theorem parseDirectoryEntries_vfat_run (charSigned : Bool) (fuel : Nat) (raw : Nat → Nat)
    (max N p : Nat) (fat : Nat → Nat) (bootSector : boot_sect_t) (clusters : List Nat)
    (numClusters : Nat)
    (hraw : IsByteBuffer raw)
    (hN : 1 ≤ N) (hcap : N ≤ 20) (hp : p + N < max) (hmax : max ≤ 134217728)
    (hrun : ∀ j, j < N → isVfatRecord (recordAt raw (p + j)) = true)
    (hshort : isShortRecord (recordAt raw (p + N)) = true)
    (hchain : extractEntryFirstCluster fuel (recordAt raw (p + N)) bootSector fat =
      .ok (clusters, numClusters))
    (hfuel : 13 * N < fuel) :
    ∃ name,
      extractEntryName_VFAT charSigned fuel (fun j => recordAt raw (p + j)) (N + 1) = .ok name ∧
      (∀ (steps : Nat) (state : ParseState), state.vfatSequenceCount = 0 →
        ∃ sequence,
          parseLoop charSigned fuel raw max fat bootSector (steps + (N + 1)) p state =
            parseLoop charSigned fuel raw max fat bootSector steps (p + N + 1)
              { numEntries := add32 state.numEntries 1
                directoryEntries := state.directoryEntries ++
                  [file_t.mk name (extractEntrytype (recordAt raw (p + N)))
                    (extractEntrySize (recordAt raw (p + N))) clusters numClusters []]
                vfatSequenceCount := 0
                vfatRawEntrySequence := sequence }) ∧
      (p = 0 → (N + 1 < max → raw (32 * (N + 1)) = 0) →
        parseDirectoryEntries charSigned fuel raw max fat bootSector =
          .ok ([file_t.mk name (extractEntrytype (recordAt raw (p + N)))
            (extractEntrySize (recordAt raw (p + N))) clusters numClusters []], 1)) ∧
      extractEntrytype (recordAt raw (p + N)) =
        (if raw (32 * (p + N) + 11) &&& 0x10 = 0 then 0 else 1) ∧
      extractEntrySize (recordAt raw (p + N)) =
        raw (32 * (p + N) + 28) + 256 * raw (32 * (p + N) + 29) +
          65536 * raw (32 * (p + N) + 30) + 16777216 * raw (32 * (p + N) + 31) := by
  have hbyte : ∀ k, k < 32 → byteAt (recordAt raw (p + N)) k = raw (32 * (p + N) + k) := by
    intro k hk
    rw [byteAt_recordAt raw (p + N) k hk, mul32_entry (p + N) (by omega)]
  have hentry : entryWithName
      ((List.range N).reverse.flatMap (fun j => vfatUnits charSigned (recordAt raw (p + j))) ++
        [0, 0])
      fuel (recordAt raw (p + N)) fat bootSector =
      .ok (file_t.mk
        ((List.range N).reverse.flatMap (fun j => vfatUnits charSigned (recordAt raw (p + j))) ++
          [0, 0])
        (extractEntrytype (recordAt raw (p + N))) (extractEntrySize (recordAt raw (p + N)))
        clusters numClusters []) := by
    unfold entryWithName
    rw [hchain]
    rfl
  refine ⟨_, extractEntryName_VFAT_eq charSigned fuel (fun j => recordAt raw (p + j)) N hN
    (by omega) hfuel, ?_, ?_, ?_, ?_⟩
  · intro steps state hcount
    obtain ⟨sequence, hloop⟩ := parseLoop_vfat_run charSigned fuel raw max fat bootSector hmax N
      steps p state hN hcap hp hcount hrun hshort (by omega) hfuel
    rw [hentry] at hloop
    exact ⟨sequence, hloop⟩
  · intro hzero hend
    subst hzero
    simp only [Nat.zero_add] at hrun hshort hentry ⊢
    rw [parseDirectoryEntries_single_run charSigned fuel raw max N fat bootSector hN hcap
      (by omega) hmax hrun hshort hend (by omega) hfuel (by omega), hentry]
    rfl
  · unfold extractEntrytype
    rw [hbyte 11 (by norm_num)]
  · unfold extractEntrySize
    rw [hbyte 28 (by norm_num), hbyte 29 (by norm_num), hbyte 30 (by norm_num),
      hbyte 31 (by norm_num),
      shift_or_bytes _ _ _ _ (hraw (32 * (p + N) + 28)) (hraw (32 * (p + N) + 29))
        (hraw (32 * (p + N) + 30))]
    omega

/-- The directory that holds the two VFAT records of `verylongname.txt` and
their short record `VERYLO~1.TXT` gives one entry, a file of 100 bytes in
cluster 5, named `verylongname.txt`. -/
theorem parseDirectoryEntries_vfat_run_witness :
    (∃ name,
      extractEntryName_VFAT true 40
        (fun j => recordAt (bufferOf longNameEntries.flatten) (0 + j)) (2 + 1) = .ok name ∧
      parseDirectoryEntries true 40 (bufferOf longNameEntries.flatten) 4 threeClusterTable
          floppy =
        .ok ([file_t.mk name
          (extractEntrytype (recordAt (bufferOf longNameEntries.flatten) (0 + 2)))
          (extractEntrySize (recordAt (bufferOf longNameEntries.flatten) (0 + 2))) [5] 1 []],
          1)) ∧
    (parseDirectoryEntries true 40 (bufferOf longNameEntries.flatten) 4 threeClusterTable
        floppy).map
        (fun r => (r.1.map (fun e => (cString e.name, [e.type, e.size], e.clusters)), r.2)) =
      .ok ([(wideCodes "verylongname.txt", [0, 100], [5])], 1) := by
  obtain ⟨name, hname, -, hparse, -, -⟩ :=
    parseDirectoryEntries_vfat_run true 40 (bufferOf longNameEntries.flatten) 4 2 0
      threeClusterTable floppy [5] 1 (bufferOf_isByteBuffer _ (by decide)) (by norm_num)
      (by norm_num) (by norm_num) (by norm_num) (by decide) (by decide) (by decide)
      (by norm_num)
  exact ⟨⟨name, hname, hparse rfl (by decide)⟩, by decide⟩

theorem parseDirectoryEntries_long_run (charSigned : Bool) (fuel : Nat) (raw : Nat → Nat)
    (max N : Nat) (fat : Nat → Nat) (bootSector : boot_sect_t)
    (hN : 21 ≤ N) (hlen : N < max) (hmax : max ≤ 134217728)
    (hrun : ∀ j, j < N → isVfatRecord (recordAt raw j) = true)
    (hshort : isShortRecord (recordAt raw N) = true) (hfuel : 22 ≤ fuel) :
    parseDirectoryEntries charSigned fuel raw max fat bootSector = .error .outOfBounds := by
  obtain ⟨steps, hsteps⟩ : ∃ s, fuel = (s + 1) + 21 := ⟨fuel - 22, by omega⟩
  have hstart : parseDirectoryEntries charSigned fuel raw max fat bootSector =
      parseLoop charSigned fuel raw max fat bootSector fuel 0 scanStart := rfl
  rw [hstart, show parseLoop charSigned fuel raw max fat bootSector fuel 0 scanStart =
      parseLoop charSigned fuel raw max fat bootSector (steps + 1 + 21) 0 scanStart from
    congrArg (fun s => parseLoop charSigned fuel raw max fat bootSector s 0 scanStart) hsteps,
    parseLoop_vfat_buffer charSigned fuel raw max fat bootSector hmax 21 (steps + 1) 0 scanStart
      (by omega) (Nat.le_refl 21) (fun j hj => by simpa using hrun j (by omega)),
    parseLoop_succ, if_pos (by omega)]
  have hstep : ∀ state : ParseState, MAX_ENTRIES_PER_VFAT_SEQUENCE ≤ state.vfatSequenceCount →
      parseStep charSigned fuel fat bootSector (recordAt raw (0 + 21)) state =
        .error .outOfBounds := by
    intro state hslot
    rw [Nat.zero_add]
    by_cases hN21 : N = 21
    · exact parseStep_short_overrun charSigned fuel fat bootSector _ state
        (by rw [← hN21]; exact hshort) hslot
    · exact parseStep_vfat_overrun charSigned fuel fat bootSector _ state
        (hrun 21 (by omega)) hslot
  generalize hstate : ({ scanStart with
      vfatSequenceCount := scanStart.vfatSequenceCount + 21
      vfatRawEntrySequence := fun k =>
        if scanStart.vfatSequenceCount ≤ k ∧ k < scanStart.vfatSequenceCount + 21 then
          recordAt raw (0 + (k - scanStart.vfatSequenceCount))
        else scanStart.vfatRawEntrySequence k } : ParseState) = state
  have hslot : MAX_ENTRIES_PER_VFAT_SEQUENCE ≤ state.vfatSequenceCount := by
    rw [← hstate]
    exact Nat.le_refl 21
  rw [hstep state hslot]

theorem longRunBuffer_run : ∀ j, j < 21 → isVfatRecord (recordAt longRunBuffer j) = true := by
  intro j hj
  interval_cases j <;> decide

/-- C25 (the code on a run of 21 VFAT records). A run of `N` VFAT records and
its short record give one entry, with the attributes of the short record, when
`1 ≤ N ≤ 20`.  The sequence buffer has `MAX_ENTRIES_PER_VFAT_SEQUENCE` = 21
slots and the two copies into it are not guarded: for a directory that starts
with a run of `N ≥ 21` VFAT records and its short record, a copy leaves the
buffer (the copy of the short record into slot 21 when `N = 21`, the copy of
the 22nd VFAT record otherwise) and no entry is returned.  The buffer
`longRunBuffer` holds such a run of 21 records. -/
theorem parseDirectoryEntries_vfat_run_overrun :
    (∀ (charSigned : Bool) (fuel : Nat) (raw : Nat → Nat) (max N p : Nat) (fat : Nat → Nat)
      (bootSector : boot_sect_t) (clusters : List Nat) (numClusters : Nat),
      IsByteBuffer raw → 1 ≤ N → N ≤ 20 → p + N < max → max ≤ 134217728 →
      (∀ j, j < N → isVfatRecord (recordAt raw (p + j)) = true) →
      isShortRecord (recordAt raw (p + N)) = true →
      extractEntryFirstCluster fuel (recordAt raw (p + N)) bootSector fat =
        .ok (clusters, numClusters) →
      13 * N < fuel →
      ∃ name,
        extractEntryName_VFAT charSigned fuel (fun j => recordAt raw (p + j)) (N + 1) =
          .ok name ∧
        (∀ (steps : Nat) (state : ParseState), state.vfatSequenceCount = 0 →
          ∃ sequence,
            parseLoop charSigned fuel raw max fat bootSector (steps + (N + 1)) p state =
              parseLoop charSigned fuel raw max fat bootSector steps (p + N + 1)
                { numEntries := add32 state.numEntries 1
                  directoryEntries := state.directoryEntries ++
                    [file_t.mk name (extractEntrytype (recordAt raw (p + N)))
                      (extractEntrySize (recordAt raw (p + N))) clusters numClusters []]
                  vfatSequenceCount := 0
                  vfatRawEntrySequence := sequence }) ∧
        (p = 0 → (N + 1 < max → raw (32 * (N + 1)) = 0) →
          parseDirectoryEntries charSigned fuel raw max fat bootSector =
            .ok ([file_t.mk name (extractEntrytype (recordAt raw (p + N)))
              (extractEntrySize (recordAt raw (p + N))) clusters numClusters []], 1)) ∧
        extractEntrytype (recordAt raw (p + N)) =
          (if raw (32 * (p + N) + 11) &&& 0x10 = 0 then 0 else 1) ∧
        extractEntrySize (recordAt raw (p + N)) =
          raw (32 * (p + N) + 28) + 256 * raw (32 * (p + N) + 29) +
            65536 * raw (32 * (p + N) + 30) + 16777216 * raw (32 * (p + N) + 31)) ∧
    (∀ (charSigned : Bool) (fuel : Nat) (raw : Nat → Nat) (max N : Nat) (fat : Nat → Nat)
      (bootSector : boot_sect_t),
      21 ≤ N → N < max → max ≤ 134217728 →
      (∀ j, j < N → isVfatRecord (recordAt raw j) = true) →
      isShortRecord (recordAt raw N) = true → 22 ≤ fuel →
      parseDirectoryEntries charSigned fuel raw max fat bootSector = .error .outOfBounds) ∧
    (∀ j, j < 21 → isVfatRecord (recordAt longRunBuffer j) = true) ∧
    isShortRecord (recordAt longRunBuffer 21) = true ∧
    extractEntryFirstCluster 300 (recordAt longRunBuffer 21) floppy threeClusterTable =
      .ok ([5], 1) ∧
    parseDirectoryEntries true 300 longRunBuffer 23 threeClusterTable floppy =
      .error .outOfBounds :=
  ⟨fun charSigned fuel raw max N p fat bootSector clusters numClusters hraw hN hcap hp hmax hrun
      hshort hchain hfuel =>
    parseDirectoryEntries_vfat_run charSigned fuel raw max N p fat bootSector clusters
      numClusters hraw hN hcap hp hmax hrun hshort hchain hfuel,
   fun charSigned fuel raw max N fat bootSector hN hlen hmax hrun hshort hfuel =>
    parseDirectoryEntries_long_run charSigned fuel raw max N fat bootSector hN hlen hmax hrun
      hshort hfuel,
   longRunBuffer_run, by decide, by decide,
   parseDirectoryEntries_long_run true 300 longRunBuffer 23 21 threeClusterTable floppy
     (by decide) (by decide) (by decide) longRunBuffer_run (by decide) (by decide)⟩

/-- C29. The long name ignores checksums, sequence numbers and the short name:
for two directory buffers that start with `N` VFAT records (`1 ≤ N ≤ 20`)
followed by a short record and the end of the directory, and that differ only
in the bytes at offset 0 (sequence number) and offset 13 (checksum) of the VFAT
records and in the 11 name bytes of the short record, `parseDirectoryEntries`
returns the same result; and for any two contents of the sequence buffer whose
`N` VFAT records differ only at the offsets 0 and 13, whatever the short
records, `extractEntryName_VFAT` rebuilds the same name. -/
theorem parseDirectoryEntries_ignores_checksum (charSigned : Bool) (fuel : Nat)
    (a b : Nat → Nat) (max N : Nat) (fat : Nat → Nat) (bootSector : boot_sect_t)
    (hN : 1 ≤ N) (hcap : N ≤ 20) (hlen : N + 1 ≤ max) (hmax : max ≤ 134217728)
    (hrunA : ∀ j, j < N → isVfatRecord (recordAt a j) = true)
    (hrunB : ∀ j, j < N → isVfatRecord (recordAt b j) = true)
    (hshortA : isShortRecord (recordAt a N) = true)
    (hshortB : isShortRecord (recordAt b N) = true)
    (hendA : N + 1 < max → a (32 * (N + 1)) = 0)
    (hendB : N + 1 < max → b (32 * (N + 1)) = 0)
    (hagree : ∀ j k, j < N → k < 32 → k ≠ 0 → k ≠ 13 → a (32 * j + k) = b (32 * j + k))
    (hagreeShort : ∀ k, 11 ≤ k → k < 32 → a (32 * N + k) = b (32 * N + k))
    (hfuel : 13 * N < fuel) :
    (∀ (sequence sequence' : Nat → List Nat),
      (∀ j k, j < N → k < 32 → k ≠ 0 → k ≠ 13 →
        byteAt (sequence j) k = byteAt (sequence' j) k) →
      ∃ name,
        extractEntryName_VFAT charSigned fuel sequence (N + 1) = .ok name ∧
        extractEntryName_VFAT charSigned fuel sequence' (N + 1) = .ok name) ∧
    parseDirectoryEntries charSigned fuel a max fat bootSector =
      parseDirectoryEntries charSigned fuel b max fat bootSector := by
  have hunits : (List.range N).reverse.flatMap (fun j => vfatUnits charSigned (recordAt a j)) =
      (List.range N).reverse.flatMap (fun j => vfatUnits charSigned (recordAt b j)) := by
    apply List.flatMap_congr
    intro j hj
    have hjN : j < N := List.mem_range.mp (List.mem_reverse.mp hj)
    apply vfatUnits_congr
    intro k hk h0 h13
    rw [byteAt_recordAt a j k hk, byteAt_recordAt b j k hk, mul32_entry j (by omega)]
    exact hagree j k hjN hk h0 h13
  have hshort : entryWithName
      ((List.range N).reverse.flatMap (fun j => vfatUnits charSigned (recordAt a j)) ++ [0, 0])
      fuel (recordAt a N) fat bootSector =
      entryWithName
        ((List.range N).reverse.flatMap (fun j => vfatUnits charSigned (recordAt b j)) ++ [0, 0])
        fuel (recordAt b N) fat bootSector := by
    rw [hunits]
    apply entryWithName_congr
    intro k h11 hk
    rw [byteAt_recordAt a N k hk, byteAt_recordAt b N k hk, mul32_entry N (by omega)]
    exact hagreeShort k h11 hk
  constructor
  · intro sequence sequence' hsame
    refine ⟨_, extractEntryName_VFAT_eq charSigned fuel sequence N hN (by omega) hfuel, ?_⟩
    rw [extractEntryName_VFAT_eq charSigned fuel sequence' N hN (by omega) hfuel]
    congr 2
    apply List.flatMap_congr
    intro j hj
    have hjN : j < N := List.mem_range.mp (List.mem_reverse.mp hj)
    exact vfatUnits_congr charSigned _ _ (fun k hk h0 h13 => (hsame j k hjN hk h0 h13).symm)
  · rw [parseDirectoryEntries_single_run charSigned fuel a max N fat bootSector hN hcap hlen
        hmax hrunA hshortA hendA (by omega) hfuel (by omega),
      parseDirectoryEntries_single_run charSigned fuel b max N fat bootSector hN hcap hlen
        hmax hrunB hshortB hendB (by omega) hfuel (by omega), hshort]

theorem flatten_getD_agree (k j : Nat) (hj : j < 2) (hk : k < 32) (h0 : k ≠ 0) (h13 : k ≠ 13) :
    bufferOf longNameEntries.flatten (32 * j + k) =
      bufferOf alteredLongNameEntries.flatten (32 * j + k) := by
  interval_cases j <;> interval_cases k <;> first | rfl | contradiction

theorem flatten_getD_agree_short (k : Nat) (h11 : 11 ≤ k) (hk : k < 32) :
    bufferOf longNameEntries.flatten (32 * 2 + k) =
      bufferOf alteredLongNameEntries.flatten (32 * 2 + k) := by
  interval_cases k <;> rfl

/-- C29, on the directory of `verylongname.txt` and on the same directory with
other sequence numbers, other checksums and the short name `OTHER.BIN`: both
give one entry named `verylongname.txt`. -/
theorem parseDirectoryEntries_ignores_checksum_witness :
    parseDirectoryEntries true 40 (bufferOf longNameEntries.flatten) 4 threeClusterTable floppy =
      parseDirectoryEntries true 40 (bufferOf alteredLongNameEntries.flatten) 4
        threeClusterTable floppy ∧
    (parseDirectoryEntries true 40 (bufferOf alteredLongNameEntries.flatten) 4
        threeClusterTable floppy).map
        (fun r => (r.1.map (fun e => (cString e.name, [e.type, e.size], e.clusters)), r.2)) =
      .ok ([(wideCodes "verylongname.txt", [0, 100], [5])], 1) :=
  ⟨(parseDirectoryEntries_ignores_checksum true 40 (bufferOf longNameEntries.flatten)
      (bufferOf alteredLongNameEntries.flatten) 4 2 threeClusterTable floppy (by norm_num)
      (by norm_num) (by norm_num) (by norm_num) (by decide) (by decide) (by decide) (by decide)
      (by decide) (by decide) (fun j k hj hk h0 h13 => flatten_getD_agree k j hj hk h0 h13)
      flatten_getD_agree_short (by norm_num)).2,
    by decide⟩

/-! ## Absolute path -/

theorem cString_ne_zero (s : List Int) : ∀ c ∈ cString s, c ≠ 0 := by
  intro c hc
  unfold cString at hc
  have h := List.mem_takeWhile_imp hc
  simpa using h

theorem cString_eq_nil_iff (s : List Int) : cString s = [] ↔ s.headD 0 = 0 := by
  unfold cString
  cases s with
  | nil => simp
  | cons c rest =>
    rw [List.takeWhile_cons]
    by_cases hc : c = 0
    · simp [hc]
    · simp [hc]

theorem cString_of_no_null (t : List Int) (ht : ∀ c ∈ t, c ≠ 0) (rest : List Int) :
    cString (t ++ 0 :: rest) = t := by
  rw [cString_append_null]
  apply List.takeWhile_eq_self_iff.mpr
  intro c hc
  simpa using ht c hc

theorem take_cString (s : List Int) : s.take (cString s).length = cString s := by
  unfold cString
  exact (List.prefix_iff_eq_take.mp (List.takeWhile_prefix _)).symm

theorem wcslen_ok (s : List Int) (h : 0 ∈ s) : wcslen s = .ok (cString s).length := by
  unfold wcslen
  rw [if_pos h]
  rfl

theorem wcscat_zeros (t src : List Int) (m : Nat) (ht : ∀ c ∈ t, c ≠ 0) (hsrc : 0 ∈ src)
    (hm : (cString src).length + 1 ≤ m) :
    wcscat (t ++ List.replicate m 0) src =
      .ok (t ++ cString src ++ List.replicate (m - (cString src).length) 0) := by
  obtain ⟨m', rfl⟩ : ∃ m', m = m' + 1 := ⟨m - 1, by omega⟩
  have hdest : cString (t ++ List.replicate (m' + 1) 0) = t := by
    rw [List.replicate_succ]
    exact cString_of_no_null t ht _
  have hmem : (0 : Int) ∈ t ++ List.replicate (m' + 1) 0 := by
    rw [List.replicate_succ]
    simp
  unfold wcscat
  rw [wcslen_ok _ hmem, wcslen_ok src hsrc, hdest]
  simp only [bind, Except.bind, pure, Except.pure]
  rw [if_pos (by
    rw [List.length_append, List.length_replicate]
    omega)]
  congr 1
  rw [take_cString, List.take_left' rfl,
    show t.length + (cString src).length + 1 = t.length + ((cString src).length + 1) by omega,
    List.drop_append, List.drop_replicate,
    show m' + 1 - (cString src).length = (m' + 1 - ((cString src).length + 1)) + 1 by omega,
    List.replicate_succ]
  simp

theorem pathText_no_null (nodes : List file_t) : ∀ c ∈ pathText nodes, c ≠ 0 := by
  intro c hc
  unfold pathText at hc
  rw [List.mem_flatMap] at hc
  obtain ⟨node, -, hmem⟩ := hc
  rcases List.mem_cons.mp hmem with h | h
  · rw [h]
    decide
  · exact cString_ne_zero _ c h

theorem pathText_append (nodes : List file_t) (node : file_t) :
    pathText (nodes ++ [node]) = pathText nodes ++ 47 :: cString node.name := by
  unfold pathText
  rw [List.flatMap_append]
  simp

theorem pathText_length (nodes : List file_t) :
    (pathText nodes).length = (nodes.map (fun node => (cString node.name).length + 1)).sum := by
  induction nodes with
  | nil => rfl
  | cons node rest ih =>
    have e : pathText (node :: rest) = (47 :: cString node.name) ++ pathText rest := by
      unfold pathText
      rw [List.flatMap_cons]
    rw [e, List.length_append, ih, List.map_cons, List.sum_cons, List.length_cons]

theorem getAbsolutePathNameRecursive_eq (root : file_t) (hroot : root.name.headD 0 = 0)
    (L : Nat) :
    ∀ nodes : List file_t, (∀ node ∈ nodes, cString node.name ≠ [] ∧ (0 : Int) ∈ node.name) →
      (pathText nodes).length + 1 ≤ L →
      getAbsolutePathNameRecursive ((root :: nodes).reverse) (List.replicate L 0) =
        .ok (pathText nodes ++ List.replicate (L - (pathText nodes).length) 0) := by
  intro nodes
  induction nodes using List.reverseRecOn with
  | nil =>
    intro _ _
    rw [List.reverse_singleton, getAbsolutePathNameRecursive, if_pos hroot]
    rfl
  | append_singleton init node ih =>
    intro hnames hlen
    have hnode := hnames node (by simp)
    rw [pathText_append, List.length_append, List.length_cons] at hlen
    have hrec := ih (fun n hn => hnames n (by simp [hn])) (by omega)
    have hchain : (root :: (init ++ [node])).reverse = node :: (root :: init).reverse := by
      simp
    have hhead : ¬ node.name.headD 0 = 0 := fun h => hnode.1 ((cString_eq_nil_iff _).mpr h)
    rw [hchain, getAbsolutePathNameRecursive, if_neg hhead, hrec]
    simp only [bind, Except.bind]
    have hslash : cString [47, 0] = [47] := by decide
    rw [wcscat_zeros (pathText init) [47, 0] _ (pathText_no_null init) (by decide)
      (by rw [hslash, List.length_singleton]; omega), hslash]
    simp only [List.length_singleton]
    have hno : ∀ c ∈ pathText init ++ [47], c ≠ 0 := by
      intro c hc
      rcases List.mem_append.mp hc with h | h
      · exact pathText_no_null init c h
      · rw [List.mem_singleton.mp h]
        decide
    rw [wcscat_zeros (pathText init ++ [47]) node.name _ hno hnode.2 (by omega),
      pathText_append]
    congr 1
    rw [List.length_append, List.length_cons]
    have e : L - (pathText init).length - 1 - (cString node.name).length =
        L - ((pathText init).length + ((cString node.name).length + 1)) := by omega
    rw [e]
    simp

theorem pathLengthLoop_eq :
    ∀ (parents : List file_t) (length : Nat), length < 4294967296 →
      (∀ node ∈ parents, (0 : Int) ∈ node.name) →
      pathLengthLoop parents length =
        .ok ((length + (parents.map (fun node => (cString node.name).length + 1)).sum) %
          4294967296) := by
  intro parents
  induction parents with
  | nil =>
    intro length hlength _
    rw [pathLengthLoop, List.map_nil, List.sum_nil, Nat.add_zero, Nat.mod_eq_of_lt hlength]
  | cons node rest ih =>
    intro length hlength hnull
    rw [pathLengthLoop, wcslen_ok _ (hnull node (by simp))]
    simp only [bind, Except.bind]
    rw [ih _ (by unfold add32; omega) (fun n hn => hnull n (by simp [hn])), List.map_cons,
      List.sum_cons]
    congr 1
    unfold add32
    omega

theorem getAbsolutePathName_eq (root : file_t) (nodes : List file_t) (file : file_t)
    (parents : List file_t) (hchain : file :: parents = (root :: nodes).reverse)
    (hroot : cString root.name = []) (hrootNull : (0 : Int) ∈ root.name)
    (hnames : ∀ node ∈ nodes, cString node.name ≠ [] ∧ (0 : Int) ∈ node.name)
    (hlen : (pathText nodes).length + 1 < 4294967296) :
    getAbsolutePathName file parents = .ok (pathText nodes ++ [0]) := by
  have hnull : ∀ node ∈ file :: parents, (0 : Int) ∈ node.name := by
    intro node hnode
    rw [hchain, List.mem_reverse] at hnode
    rcases List.mem_cons.mp hnode with h | h
    · rw [h]
      exact hrootNull
    · exact (hnames node h).2
  have hsum : (cString file.name).length + 1 +
      (parents.map (fun node => (cString node.name).length + 1)).sum =
      1 + (pathText nodes).length := by
    have h1 := congrArg (fun l => (l.map (fun node : file_t =>
      (cString node.name).length + 1)).sum) hchain
    simp only [List.map_cons, List.sum_cons, List.map_reverse, List.sum_reverse] at h1
    rw [h1, hroot, pathText_length]
    rfl
  unfold getAbsolutePathName
  rw [wcslen_ok _ (hnull file (by simp))]
  simp only [bind, Except.bind]
  rw [pathLengthLoop_eq parents _ (Nat.mod_lt _ (by norm_num))
    (fun node hnode => hnull node (by simp [hnode]))]
  simp only []
  have hlength : add32 (((cString file.name).length % 4294967296 +
      (parents.map (fun node => (cString node.name).length + 1)).sum) % 4294967296) 1 =
      (pathText nodes).length + 1 := by
    unfold add32
    omega
  rw [hlength, hchain,
    getAbsolutePathNameRecursive_eq root ((cString_eq_nil_iff _).mp hroot) _ nodes hnames
      (by omega)]
  congr 2
  rw [Nat.add_sub_cancel_left]
  rfl

theorem locate_chain :
    ∀ (path : List Nat) (node : file_t) (above : List file_t) (file : file_t)
      (parents : List file_t), locate node above path = some (file, parents) →
      ∃ nodes : List file_t, file :: parents = nodes.reverse ++ node :: above := by
  intro path
  induction path with
  | nil =>
    intro node above file parents h
    rw [locate] at h
    injection h with h
    injection h with h1 h2
    exact ⟨[], by rw [h1, h2]; rfl⟩
  | cons index rest ih =>
    intro node above file parents h
    rw [locate] at h
    cases hchild : node.children.get? index with
    | none =>
      rw [hchild] at h
      cases h
    | some child =>
      rw [hchild] at h
      obtain ⟨nodes, hnodes⟩ := ih child (node :: above) file parents h
      exact ⟨child :: nodes, by rw [hnodes]; simp⟩

/-- C21. Absolute path: for the node that a path of child indices reaches in a
tree whose root has the empty name, when the names of the node and of its
ancestors below the root are not empty, `getAbsolutePathName` returns the
string `/n1/n2 ... /nk` of these names from the top down, each preceded by one
`/`, followed by its null; for the root itself it returns the empty string.
The names are null-terminated and the length fits 32 bits. -/
theorem getAbsolutePathName_path (root : file_t) (path : List Nat) (file : file_t)
    (parents : List file_t)
    (hloc : locate root [] path = some (file, parents))
    (hroot : cString root.name = [])
    (hnames : ∀ node ∈ (file :: parents).dropLast, cString node.name ≠ [])
    (hnull : ∀ node ∈ file :: parents, (0 : Int) ∈ node.name)
    (hlen : (pathText (file :: parents).dropLast.reverse).length + 1 < 4294967296) :
    getAbsolutePathName file parents =
      .ok (pathText (file :: parents).dropLast.reverse ++ [0]) ∧
    (path = [] → getAbsolutePathName file parents = .ok [0]) := by
  obtain ⟨nodes, hnodes⟩ := locate_chain path root [] file parents hloc
  have hchain : file :: parents = (root :: nodes).reverse := by
    rw [hnodes, List.reverse_cons]
  have hdrop : (file :: parents).dropLast.reverse = nodes := by
    rw [hnodes, List.dropLast_concat, List.reverse_reverse]
  have hmain : getAbsolutePathName file parents =
      .ok (pathText (file :: parents).dropLast.reverse ++ [0]) := by
    rw [hdrop] at hlen ⊢
    refine getAbsolutePathName_eq root nodes file parents hchain hroot ?_ ?_ hlen
    · exact hnull root (by rw [hchain]; simp)
    · intro node hnode
      refine ⟨hnames node ?_, hnull node ?_⟩
      · rw [hnodes, List.dropLast_concat]
        exact List.mem_reverse.mpr hnode
      · rw [hchain]
        simp [hnode]
  refine ⟨hmain, fun hpath => ?_⟩
  subst hpath
  rw [locate] at hloc
  injection hloc with hloc
  injection hloc with h1 h2
  rw [hmain, ← h1, ← h2]
  rfl

/-- C21, on the tree with `DIR` and `DIR/FILE.TXT`: the file has the path
`/DIR/FILE.TXT`, the directory `/DIR` and the root the empty path. -/
theorem getAbsolutePathName_path_witness :
    locate nestedTree [] [0, 0] = some (nestedFile, [nestedDirectory, nestedTree]) ∧
    getAbsolutePathName nestedFile [nestedDirectory, nestedTree] =
      .ok (wideCodes "/DIR/FILE.TXT" ++ [0]) ∧
    getAbsolutePathName nestedDirectory [nestedTree] = .ok (wideCodes "/DIR" ++ [0]) ∧
    getAbsolutePathName nestedTree [] = .ok [0] := by
  refine ⟨rfl, ?_, ?_, ?_⟩
  · refine (getAbsolutePathName_path nestedTree [0, 0] nestedFile [nestedDirectory, nestedTree]
      rfl (by decide) ?_ ?_ (by decide)).1.trans (by decide)
    · intro node hnode
      simp only [List.dropLast, List.mem_cons, List.mem_singleton, List.not_mem_nil,
        or_false] at hnode
      rcases hnode with h | h <;> rw [h] <;> decide
    · intro node hnode
      simp only [List.mem_cons, List.mem_singleton, List.not_mem_nil, or_false] at hnode
      rcases hnode with h | h | h <;> rw [h] <;> decide
  · refine (getAbsolutePathName_path nestedTree [0] nestedDirectory [nestedTree]
      rfl (by decide) ?_ ?_ (by decide)).1.trans (by decide)
    · intro node hnode
      simp only [List.dropLast, List.mem_cons, List.mem_singleton, List.not_mem_nil,
        or_false] at hnode
      rw [hnode]
      decide
    · intro node hnode
      simp only [List.mem_cons, List.mem_singleton, List.not_mem_nil, or_false] at hnode
      rcases hnode with h | h <;> rw [h] <;> decide
  · refine (getAbsolutePathName_path nestedTree [] nestedTree [] rfl (by decide) ?_ ?_
      (by decide)).2 rfl
    · intro node hnode
      simp [List.dropLast] at hnode
    · intro node hnode
      simp only [List.mem_cons, List.mem_singleton, List.not_mem_nil, or_false] at hnode
      rw [hnode]
      decide

/-! ## Sectors of the root directory and of the table; boot sector layout -/

theorem mul32_comm (a b : Nat) : mul32 a b = mul32 b a := by
  unfold mul32
  rw [Nat.mul_comm]

/-- C31. Root-directory and FAT sector: `getSectorNumber_FileAllocationTable`
returns the reserved-sector count; `getSectorNumber_RootDirectory` returns,
in unsigned 32-bit arithmetic, `reserved + numFATs*sectorsPerFAT_FAT12` under
FAT12 and `reserved + numFATs*sectorsPerFAT_FAT32 +
sectorsPerCluster*(rootClusterNumber_FAT32 - 2)` under FAT32, which is what
`getSectorNumber_DataCluster` returns for the root cluster when that is a valid
cluster number. -/
theorem getSectorNumber_RootDirectory_formula (bootSector : boot_sect_t) :
    getSectorNumber_FileAllocationTable bootSector = bootSector.numReservedSectors ∧
    (getFatVersion bootSector = .ok FAT12 →
      getSectorNumber_RootDirectory bootSector =
        .ok ((bootSector.numReservedSectors +
          bootSector.numFATs * bootSector.sectorsPerFAT_FAT12) % 4294967296)) ∧
    (getFatVersion bootSector = .ok FAT32 →
      getSectorNumber_RootDirectory bootSector =
        .ok (((((bootSector.numReservedSectors +
            bootSector.numFATs * bootSector.sectorsPerFAT_FAT32 : Nat) : Int) +
          (bootSector.sectorsPerCluster : Int) *
            ((bootSector.rootClusterNumber_FAT32 : Int) - 2)) % 4294967296).toNat) ∧
      (isValidClusterNumber bootSector.rootClusterNumber_FAT32 bootSector = .ok true →
        getSectorNumber_DataCluster bootSector bootSector.rootClusterNumber_FAT32 =
          getSectorNumber_RootDirectory bootSector)) := by
  have hne : ¬ (FAT32 = FAT12) := by decide
  refine ⟨rfl, ?_, ?_⟩
  · intro hv
    unfold getSectorNumber_RootDirectory
    rw [hv]
    simp only [bind, Except.bind, pure, Except.pure, if_true]
    congr 1
    unfold add32 mul32 getSectorNumber_FileAllocationTable
    rw [Nat.mul_comm bootSector.sectorsPerFAT_FAT12 bootSector.numFATs]
    omega
  · intro hv
    have hroot : getSectorNumber_RootDirectory bootSector =
        .ok (add32 (add32 (getSectorNumber_FileAllocationTable bootSector)
          (mul32 bootSector.sectorsPerFAT_FAT32 bootSector.numFATs))
          (mul32 (sub32 bootSector.rootClusterNumber_FAT32 2) bootSector.sectorsPerCluster)) := by
      unfold getSectorNumber_RootDirectory
      rw [hv]
      simp only [bind, Except.bind, pure, Except.pure, if_neg hne, if_true]
      rw [mul32_comm bootSector.sectorsPerCluster]
    constructor
    · rw [hroot]
      congr 1
      rw [data_sector_wrap (bootSector.numReservedSectors +
        bootSector.numFATs * bootSector.sectorsPerFAT_FAT32) _ _ _ (by
          unfold add32 mul32 getSectorNumber_FileAllocationTable
          rw [Nat.mul_comm bootSector.sectorsPerFAT_FAT32 bootSector.numFATs]
          omega)]
      rw [Int.mul_comm ((bootSector.rootClusterNumber_FAT32 : Int) - 2)]
    · intro hvalid
      rw [hroot]
      unfold getSectorNumber_DataCluster
      rw [hvalid, hv]
      simp only [bind, Except.bind, pure, Except.pure, if_neg hne, if_true,
        Bool.true_eq_false, if_false]

/-- C31, on the floppy and on the FAT32 volume: the root directory of the
floppy starts at sector 1 + 2*9 = 19, the one of the FAT32 volume at sector
32 + 2*782 + 1*(2 - 2) = 1596, the first sector of its cluster 2. -/
theorem getSectorNumber_RootDirectory_formula_witness :
    getSectorNumber_FileAllocationTable floppy = 1 ∧
    getSectorNumber_RootDirectory floppy = .ok 19 ∧
    getSectorNumber_RootDirectory largeVolume = .ok 1596 ∧
    getSectorNumber_DataCluster largeVolume 2 = getSectorNumber_RootDirectory largeVolume :=
  ⟨(getSectorNumber_RootDirectory_formula floppy).1,
   ((getSectorNumber_RootDirectory_formula floppy).2.1 (by decide)).trans (by decide),
   (((getSectorNumber_RootDirectory_formula largeVolume).2.2 (by decide)).1).trans (by decide),
   ((getSectorNumber_RootDirectory_formula largeVolume).2.2 (by decide)).2 (by decide)⟩

theorem translateLittleEndian_one (raw : Nat → Nat) (offset : Nat) :
    translateLittleEndian (fieldAt raw offset) 1 = raw offset := by
  unfold translateLittleEndian fieldAt
  rw [if_pos rfl]
  rfl

theorem translateLittleEndian_two (raw : Nat → Nat) (hraw : IsByteBuffer raw) (offset : Nat) :
    translateLittleEndian (fieldAt raw offset) 2 = raw offset + 256 * raw (offset + 1) := by
  unfold translateLittleEndian fieldAt
  rw [if_neg (by decide), if_pos rfl, shift_or_bytes_two _ _ (hraw _)]
  simp only [Nat.add_zero]
  omega

theorem translateLittleEndian_four (raw : Nat → Nat) (hraw : IsByteBuffer raw) (offset : Nat) :
    translateLittleEndian (fieldAt raw offset) 4 =
      raw offset + 256 * raw (offset + 1) + 65536 * raw (offset + 2) +
        16777216 * raw (offset + 3) := by
  unfold translateLittleEndian fieldAt
  rw [if_neg (by decide), if_neg (by decide), if_neg (by decide), if_pos rfl,
    shift_or_bytes _ _ _ _ (hraw _) (hraw _) (hraw _)]
  simp only [Nat.add_zero]
  omega

/-- C32. Boot-sector field layout: on a sector of bytes, `parseBootSector`
decodes `bytesPerSector` as the little-endian 16-bit value at offset 11,
`sectorsPerCluster` as the byte at 13, `numReservedSectors` as the 16-bit value
at 14, `numFATs` as the byte at 16, `numRootEntries_FAT12`, `numSectors_FAT12`
and `sectorsPerFAT_FAT12` as the 16-bit values at 17, 19 and 22,
`numSectors_FAT32`, `sectorsPerFAT_FAT32` and `rootClusterNumber_FAT32` as the
32-bit values at 32, 36 and 44; it copies the OEM name (8 bytes at 3), the
volume label (11 bytes at 71) and the filesystem type (8 bytes at 82); the
fields of `boot_sector_raw_t` lie at the offsets that `parseBootSector` reads
and cover 512 bytes. -/
theorem parseBootSector_layout (raw : Nat → Nat) (hraw : IsByteBuffer raw) :
    (parseBootSector raw).bytesPerSector = raw 11 + 256 * raw 12 ∧
    (parseBootSector raw).sectorsPerCluster = raw 13 ∧
    (parseBootSector raw).numReservedSectors = raw 14 + 256 * raw 15 ∧
    (parseBootSector raw).numFATs = raw 16 ∧
    (parseBootSector raw).numRootEntries_FAT12 = raw 17 + 256 * raw 18 ∧
    (parseBootSector raw).numSectors_FAT12 = raw 19 + 256 * raw 20 ∧
    (parseBootSector raw).sectorsPerFAT_FAT12 = raw 22 + 256 * raw 23 ∧
    (parseBootSector raw).numSectors_FAT32 =
      raw 32 + 256 * raw 33 + 65536 * raw 34 + 16777216 * raw 35 ∧
    (parseBootSector raw).sectorsPerFAT_FAT32 =
      raw 36 + 256 * raw 37 + 65536 * raw 38 + 16777216 * raw 39 ∧
    (parseBootSector raw).rootClusterNumber_FAT32 =
      raw 44 + 256 * raw 45 + 65536 * raw 46 + 16777216 * raw 47 ∧
    (parseBootSector raw).oemName = (List.range 8).map (fun k => raw (3 + k)) ∧
    (parseBootSector raw).volumeLabel_FAT32 = (List.range 11).map (fun k => raw (71 + k)) ∧
    (parseBootSector raw).filesystemType_FAT32 = (List.range 8).map (fun k => raw (82 + k)) ∧
    boot_sector_raw_t_sizes.sum = 512 ∧
    fieldOffsets boot_sector_raw_t_sizes 0 =
      [0, 3, 11, 13, 14, 16, 17, 19, 21, 22, 24, 26, 28, 32, 36, 40, 42, 44, 48, 50, 52, 64, 65,
        66, 67, 71, 82, 90] :=
  ⟨translateLittleEndian_two raw hraw 11, translateLittleEndian_one raw 13,
    translateLittleEndian_two raw hraw 14, translateLittleEndian_one raw 16,
    translateLittleEndian_two raw hraw 17, translateLittleEndian_two raw hraw 19,
    translateLittleEndian_two raw hraw 22, translateLittleEndian_four raw hraw 32,
    translateLittleEndian_four raw hraw 36, translateLittleEndian_four raw hraw 44,
    rfl, rfl, rfl, by decide, by decide⟩

/-- C32, on the boot sector of a 1.44 MB floppy: 512 bytes per sector, one
sector per cluster, one reserved sector, two tables of nine sectors, 224 root
entries, 2880 sectors, and the OEM name `MSDOS5.0`. -/
theorem parseBootSector_layout_witness :
    (parseBootSector floppySector).bytesPerSector = 512 ∧
    (parseBootSector floppySector).sectorsPerCluster = 1 ∧
    (parseBootSector floppySector).numReservedSectors = 1 ∧
    (parseBootSector floppySector).numFATs = 2 ∧
    (parseBootSector floppySector).numRootEntries_FAT12 = 224 ∧
    (parseBootSector floppySector).numSectors_FAT12 = 2880 ∧
    (parseBootSector floppySector).sectorsPerFAT_FAT12 = 9 ∧
    (parseBootSector floppySector).oemName = codes "MSDOS5.0" := by
  have h := parseBootSector_layout floppySector (bufferOf_isByteBuffer _ (by decide))
  exact ⟨h.1.trans (by decide), h.2.1.trans (by decide), h.2.2.1.trans (by decide),
    h.2.2.2.1.trans (by decide), h.2.2.2.2.1.trans (by decide),
    h.2.2.2.2.2.1.trans (by decide), h.2.2.2.2.2.2.1.trans (by decide),
    h.2.2.2.2.2.2.2.2.2.2.1.trans (by decide)⟩

/-- C40 (the code on a FAT12 volume of more than 65535 sectors). For the volume
of 400000 sectors in clusters of 128 sectors, whose 16-bit total of sectors is
0, the classifier takes the 32-bit total, counts 3124 data clusters and
answers FAT12, while `getNumFATEntries` divides the 16-bit total and returns 0
entries.  In general `getNumFATEntries` divides `numSectors_FAT12` under FAT12
and `numSectors_FAT32` under FAT32, which is the total of the classifier under
FAT12 only when `numSectors_FAT12` is not 0. -/
theorem getNumFATEntries_total_sectors_mismatch :
    getFatVersion wideFloppy = .ok FAT12 ∧
    numSectorsTotal wideFloppy = 400000 ∧
    numClustersData wideFloppy = .ok 3124 ∧
    getNumFATEntries wideFloppy = .ok 0 ∧
    (∀ bootSector : boot_sect_t, getFatVersion bootSector = .ok FAT12 →
      getNumFATEntries bootSector =
        .ok (bootSector.numSectors_FAT12 / bootSector.sectorsPerCluster)) ∧
    (∀ bootSector : boot_sect_t, getFatVersion bootSector = .ok FAT32 →
      getNumFATEntries bootSector =
        .ok (bootSector.numSectors_FAT32 / bootSector.sectorsPerCluster)) ∧
    (∀ bootSector : boot_sect_t, getFatVersion bootSector = .ok FAT12 →
      bootSector.numSectors_FAT12 ≠ 0 →
      getNumFATEntries bootSector =
        .ok (numSectorsTotal bootSector / bootSector.sectorsPerCluster)) := by
  have h12 : ∀ bootSector : boot_sect_t, getFatVersion bootSector = .ok FAT12 →
      getNumFATEntries bootSector =
        .ok (bootSector.numSectors_FAT12 / bootSector.sectorsPerCluster) := by
    intro bootSector hv
    have hC := sectorsPerCluster_ne_zero_of_version bootSector _ hv
    unfold getNumFATEntries div32
    rw [hv]
    simp only [bind, Except.bind, if_true, if_neg hC]
  refine ⟨by decide, by decide, by decide, by decide, h12, ?_, ?_⟩
  · intro bootSector hv
    have hC := sectorsPerCluster_ne_zero_of_version bootSector _ hv
    have hne : ¬ (FAT32 = FAT12) := by decide
    unfold getNumFATEntries div32
    rw [hv]
    simp only [bind, Except.bind, if_neg hne, if_true, if_neg hC]
  · intro bootSector hv hT
    rw [h12 bootSector hv]
    unfold numSectorsTotal
    rw [if_neg hT]

/-! ## The cells that the FAT12 decoder writes -/

theorem translateLoop_FAT12_frame (n : Nat) (raw : Nat → Nat)
    (hspan : 3 * ((n + 1) / 2) ≤ 4294967296) :
    ∀ (fuel p : Nat) (tbl out : Nat → Nat), 2 * p ≤ n + 1 →
      translateLoop_FAT12 n raw fuel (3 * p) (2 * p) tbl = .ok out →
      ∀ i, n + n % 2 ≤ i → out i = tbl i := by
  intro fuel
  induction fuel with
  | zero =>
    intro p tbl out _ hrun
    unfold translateLoop_FAT12 at hrun
    cases hrun
  | succ fuel ih =>
    intro p tbl out hp hrun i hi
    unfold translateLoop_FAT12 at hrun
    by_cases hlt : 2 * p < n
    · rw [if_pos hlt] at hrun
      simp only [] at hrun
      rw [add32_of_lt (2 * p) 1 (by omega), add32_of_lt (3 * p) 3 (by omega),
        add32_of_lt (2 * p) 2 (by omega)] at hrun
      have e3 : 3 * p + 3 = 3 * (p + 1) := by ring
      have e2 : 2 * p + 2 = 2 * (p + 1) := by ring
      rw [e3, e2] at hrun
      rw [ih (p + 1) _ out (by omega) hrun i hi, store_apply, store_apply,
        if_neg (by omega), if_neg (by omega)]
    · rw [if_neg hlt] at hrun
      rw [← Except.ok.inj hrun]

theorem translateFileAllocationTable_FAT12_cells (bootSector : boot_sect_t)
    (raw table0 : Nat → Nat) (n fuel : Nat)
    (hraw : IsByteBuffer raw)
    (hcount : getNumFATEntries bootSector = .ok n)
    (hspan : 3 * ((n + 1) / 2) ≤ 4294967296)
    (hfuel : n < fuel) :
    ∃ table, translateFileAllocationTable_FAT12 fuel bootSector table0 raw = .ok table ∧
      (∀ i, n + n % 2 ≤ i → table i = table0 i) ∧
      (n % 2 = 1 →
        table n = (raw (3 * (n / 2) + 2) * 65536 + raw (3 * (n / 2) + 1) * 256
                    + raw (3 * (n / 2))) / 4096) := by
  obtain ⟨out, hout, hnew, -⟩ :=
    translateLoop_FAT12_spec n raw hraw hspan fuel 0 table0 (by omega) (by omega)
  have hrun : translateFileAllocationTable_FAT12 fuel bootSector table0 raw = .ok out := by
    unfold translateFileAllocationTable_FAT12
    rw [hcount]
    exact hout
  refine ⟨out, hrun, ?_, ?_⟩
  · exact translateLoop_FAT12_frame n raw hspan fuel 0 table0 out (by omega) hout
  · intro hodd
    have h := (hnew (n - 1) (by omega) (by omega) (by omega)).2
    have e1 : n - 1 + 1 = n := by omega
    have e2 : (n - 1) / 2 = n / 2 := by omega
    rw [e1, e2] at h
    exact h

/-- C36 (the code on an odd entry count). For an entry count `n` that
`getNumFATEntries` returns, `translateFileAllocationTable_FAT12` leaves every
cell from index `n + n mod 2` on as it was, but for an odd `n` its last
iteration stores the high 12 bits of the last byte triple in cell `n`, one
cell past the table of `n` entries.  On the volume of 3 clusters, whose table
has the cells 0, 1 and 2, the bytes 03 40 00 05 60 00 make it store 6 in
cell 3; cell 4 keeps its content. -/
theorem translateFileAllocationTable_FAT12_overrun :
    (∀ (bootSector : boot_sect_t) (raw table0 : Nat → Nat) (n fuel : Nat),
      IsByteBuffer raw → getNumFATEntries bootSector = .ok n →
      3 * ((n + 1) / 2) ≤ 4294967296 → n < fuel →
      ∃ table, translateFileAllocationTable_FAT12 fuel bootSector table0 raw = .ok table ∧
        (∀ i, n + n % 2 ≤ i → table i = table0 i) ∧
        (n % 2 = 1 →
          table n = (raw (3 * (n / 2) + 2) * 65536 + raw (3 * (n / 2) + 1) * 256
                      + raw (3 * (n / 2))) / 4096)) ∧
    getNumFATEntries (volumeWithClusters 3) = .ok 3 ∧
    ∃ table, translateFileAllocationTable_FAT12 4 (volumeWithClusters 3) (fun _ => 7)
        (bufferOf [0x03, 0x40, 0x00, 0x05, 0x60, 0x00]) = .ok table ∧
      table 3 = 6 ∧ table 4 = 7 := by
  refine ⟨translateFileAllocationTable_FAT12_cells, by decide, ?_⟩
  obtain ⟨table, hrun, hframe, hlast⟩ :=
    translateFileAllocationTable_FAT12_cells (volumeWithClusters 3)
      (bufferOf [0x03, 0x40, 0x00, 0x05, 0x60, 0x00]) (fun _ => 7) 3 4
      (bufferOf_isByteBuffer _ (by decide)) (by decide) (by norm_num) (by norm_num)
  exact ⟨table, hrun, (hlast (by norm_num)).trans (by decide), hframe 4 (by norm_num)⟩

/-! ## Chains without repetition -/

theorem getClusterSequence_walk (bootSector : boot_sect_t) (fat : Nat → Nat)
    (s fuel : Nat) (chain : List Nat) (n : Nat)
    (hfat : IsTable32 fat) (hs : s < 4294967296)
    (hvalid : isValidClusterNumber s bootSector = .ok true)
    (hret : getClusterSequence fuel s bootSector fat = .ok (chain, n)) :
    ∃ k, k + 1 < fuel ∧ n = k + 1 ∧ chain = walk fat s (k + 1) ∧
      (∀ j, j ≤ k → validCluster bootSector (fat^[j] s) = true) ∧
      validCluster bootSector (fat^[k + 1] s) = false := by
  have hsv := (validCluster_iff bootSector s).mpr hvalid
  have hlen := getClusterSequenceLength_ok_of_sequence bootSector fat s fuel (chain, n) hret
  obtain ⟨k, hk, hlinks, hend, hn⟩ :=
    getClusterSequenceLength_walk_of_ok bootSector fat s fuel n hsv hlen
  have hall := walk_all_valid (validCluster bootSector) fat s k hsv hlinks
  have hlt := walk_length_lt (validCluster bootSector) fat s k 4294967296 0xff8 hall hend
    (fun j _ => walk_lt_of_table32 fat s hfat hs j) (by norm_num)
    (not_validCluster_ff8 bootSector)
  have hn' : n = k + 1 := by omega
  have hboth := getClusterSequence_of_length bootSector fat s fuel n hlen (by omega)
  by_cases hf : n < fuel
  · have h := hboth.1 hf
    rw [hret] at h
    have h2 := Except.ok.inj h
    rw [hn'] at h2
    exact ⟨k, by omega, hn', (Prod.mk.inj h2).1, hall, hend⟩
  · have h := hboth.2 (by omega)
    rw [hret] at h
    cases h

theorem walk_nodup (valid : Nat → Bool) (fat : Nat → Nat) (s k : Nat)
    (hall : ∀ j, j ≤ k → valid (fat^[j] s) = true)
    (hend : valid (fat^[k + 1] s) = false) : (walk fat s (k + 1)).Nodup := by
  unfold walk
  refine List.Nodup.map_on ?_ (List.nodup_range (k + 1))
  intro i hi j hj heq
  have hi' := List.mem_range.mp hi
  have hj' := List.mem_range.mp hj
  by_contra hne
  rcases Nat.lt_or_gt_of_ne hne with h | h
  · exact walk_injective valid fat s k hall hend i j h (by omega) heq
  · exact walk_injective valid fat s k hall hend j i h (by omega) heq.symm

theorem walk_tail (fat : Nat → Nat) (s k : Nat) :
    (walk fat s (k + 1)).tail = walk fat (fat s) k := by
  unfold walk
  rw [List.range_succ_eq_map, List.map_cons, List.tail_cons, List.map_map]
  apply List.map_congr_left
  intro j _
  exact Function.iterate_succ_apply fat j s

/-- C37. Chains have no repeated cluster: when `getClusterSequence` returns
for a valid starting cluster and a table of 32-bit cells, the cluster numbers
of the chain are pairwise distinct, and when the chain has a second element
`getClusterSequence` returns, for that element, the chain without its first
element and a length smaller by one. -/
theorem getClusterSequence_nodup (bootSector : boot_sect_t) (fat : Nat → Nat)
    (s fuel : Nat) (chain : List Nat) (n : Nat)
    (hfat : IsTable32 fat) (hs : s < 4294967296)
    (hvalid : isValidClusterNumber s bootSector = .ok true)
    (hret : getClusterSequence fuel s bootSector fat = .ok (chain, n)) :
    chain.Nodup ∧
    ∀ second, chain[1]? = some second →
      getClusterSequence fuel second bootSector fat = .ok (chain.tail, n - 1) := by
  obtain ⟨k, hk, hn, hchain, hall, hend⟩ :=
    getClusterSequence_walk bootSector fat s fuel chain n hfat hs hvalid hret
  subst hchain
  refine ⟨walk_nodup (validCluster bootSector) fat s k hall hend, ?_⟩
  intro second hsecond
  have hk1 : 1 ≤ k := by
    by_contra hk0
    have hlen := walk_length fat s (k + 1)
    have : (walk fat s (k + 1))[1]? = none := by
      rw [List.getElem?_eq_none_iff, hlen]
      omega
    rw [this] at hsecond
    cases hsecond
  rw [walk_getElem? fat s (k + 1) 1 (by omega)] at hsecond
  have hsec : second = fat s := (Option.some.inj hsecond).symm
  subst hsec
  have hvalid2 : validCluster bootSector (fat s) = true := hall 1 hk1
  have hlinks2 : ∀ j, j < k - 1 → validCluster bootSector (fat^[j + 1] (fat s)) = true := by
    intro j hj
    rw [← Function.iterate_succ_apply]
    exact hall (j + 1 + 1) (by omega)
  have hend2 : validCluster bootSector (fat^[k - 1 + 1] (fat s)) = false := by
    rw [← Function.iterate_succ_apply, show (k - 1 + 1).succ = k + 1 by omega]
    exact hend
  have hlen2 := getClusterSequenceLength_of_walk bootSector fat (fat s) (k - 1) fuel hvalid2
    hlinks2 hend2 (by omega)
  have e : (1 + (k - 1)) % 4294967296 = k := by
    have hlt := walk_length_lt (validCluster bootSector) fat s k 4294967296 0xff8 hall hend
      (fun j _ => walk_lt_of_table32 fat s hfat hs j) (by norm_num)
      (not_validCluster_ff8 bootSector)
    omega
  rw [e] at hlen2
  have hrun := (getClusterSequence_of_length bootSector fat (fat s) fuel k hlen2
    (by omega)).1 (by omega)
  rw [hrun, walk_tail, hn]
  rfl

/-- C37, on the floppy volume and the table with the links 2 → 3 → 4 → end:
the chain `[2, 3, 4]` has no repetition and the chain of cluster 3 is
`[3, 4]`. -/
theorem getClusterSequence_nodup_witness :
    getClusterSequence 5 2 floppy threeClusterTable = .ok ([2, 3, 4], 3) ∧
    ([2, 3, 4] : List Nat).Nodup ∧
    getClusterSequence 5 3 floppy threeClusterTable = .ok ([3, 4], 2) :=
  ⟨by decide,
   (getClusterSequence_nodup floppy threeClusterTable 2 5 [2, 3, 4] 3
      isTable32_threeClusterTable (by norm_num) (by decide) (by decide)).1,
   (getClusterSequence_nodup floppy threeClusterTable 2 5 [2, 3, 4] 3
      isTable32_threeClusterTable (by norm_num) (by decide) (by decide)).2 3 rfl⟩

/-! ## The buffer of a short name -/

theorem extractEntryName_of_into (charSigned : Bool) (fuel : Nat) (entry : List Nat) :
    extractEntryName charSigned fuel entry =
      (extractEntryNameInto charSigned fuel entry (fun _ => 0)).map
        (fun result => (List.range 13).map result.1) := by
  unfold extractEntryName extractEntryNameInto
  simp only [bind, Except.bind, pure, Except.pure, Except.map]
  cases trimLoop (fun k => byteAt entry k) fuel 7 with
  | error e => rfl
  | ok end1 =>
    dsimp only
    cases copyLoop charSigned (fun k => byteAt entry k) end1 fuel 0 0 (fun _ => 0) with
    | error e => rfl
    | ok r1 =>
      dsimp only
      cases trimLoop (fun k => byteAt entry (8 + k)) fuel 2 with
      | error e => rfl
      | ok end2 =>
        dsimp only
        cases copyLoop charSigned (fun k => byteAt entry (8 + k)) end2 fuel 0
          (if end2 ≥ 0 then (storeWide r1.1 r1.2 46, (r1.2 + 1) % 256) else (r1.1, r1.2)).2
          (if end2 ≥ 0 then (storeWide r1.1 r1.2 46, (r1.2 + 1) % 256) else (r1.1, r1.2)).1 with
        | error e => rfl
        | ok r3 => rfl

theorem extractEntryNameInto_frame (charSigned : Bool) (fuel : Nat) (entry : List Nat)
    (name0 : Nat → Int) (hfuel : 9 ≤ fuel) :
    ∃ out, extractEntryNameInto charSigned fuel entry name0 =
        .ok (out, (shortName entry).length) ∧
      (shortName entry).length ≤ 12 ∧
      out (shortName entry).length = 0 ∧
      (∀ k, (shortName entry).length < k → out k = name0 k) := by
  have hm1 : (trimR (name8 entry)).length ≤ 8 := by
    have := (trimR_initial (name8 entry)).length_le
    simpa [name8] using this
  have hm2 : (trimR (ext3 entry)).length ≤ 3 := by
    have := (trimR_initial (ext3 entry)).length_le
    simpa [ext3] using this
  have hend1 := trimLoop_spec (fun k => byteAt entry k) 8 fuel (by omega)
  have hend2 := trimLoop_spec (fun k => byteAt entry (8 + k)) 3 fuel (by omega)
  have e7 : ((8 : Nat) : Int) - 1 = 7 := by norm_num
  have e2 : ((3 : Nat) : Int) - 1 = 2 := by norm_num
  rw [e7] at hend1
  rw [e2] at hend2
  change trimLoop (fun k => byteAt entry k) fuel 7 =
    .ok (((trimR (name8 entry)).length : Int) - 1) at hend1
  change trimLoop (fun k => byteAt entry (8 + k)) fuel 2 =
    .ok (((trimR (ext3 entry)).length : Int) - 1) at hend2
  generalize hm1def : (trimR (name8 entry)).length = m1 at hm1 hend1
  generalize hm2def : (trimR (ext3 entry)).length = m2 at hm2 hend2
  obtain ⟨name1, hcopy1, hcells1⟩ :=
    copyLoop_spec charSigned (fun k => byteAt entry k) m1 (by omega) fuel 0 0 name0
      (by omega) (by omega) (by omega)
  have hlen : (shortName entry).length = m1 + (if m2 = 0 then 0 else 1) + m2 := by
    unfold shortName
    by_cases h0 : m2 = 0
    · have : trimR (ext3 entry) = [] := List.length_eq_zero.mp (by rw [hm2def, h0])
      simp [this, hm1def, h0]
    · have : trimR (ext3 entry) ≠ [] := fun h => h0 (by rw [← hm2def, h]; rfl)
      simp [this, hm1def, hm2def, h0]
      omega
  by_cases h0 : m2 = 0
  · subst h0
    have hlen0 : (shortName entry).length = m1 := by
      rw [hlen, if_pos rfl]
      omega
    rw [hlen0]
    unfold extractEntryNameInto
    simp only [bind, Except.bind, pure, Except.pure]
    rw [hend1]
    simp only [hcopy1, hend2]
    obtain ⟨name3, hcopy3, hcells3⟩ :=
      copyLoop_spec charSigned (fun k => byteAt entry (8 + k)) 0 (by omega) fuel 0 (0 + (m1 - 0))
        name1 (by omega) (by omega) (by omega)
    have hneg : ¬ (((0 : Nat) : Int) - 1 ≥ 0) := by norm_num
    simp only [hneg, if_false, hcopy3]
    have ei : 0 + (m1 - 0) + (0 - 0) = m1 := by omega
    rw [ei] at hcells3 ⊢
    refine ⟨storeWide name3 m1 0, rfl, by omega, ?_, ?_⟩
    · simp [storeWide]
    · intro k hk
      simp only [storeWide]
      rw [if_neg (by omega), hcells3 k, if_neg (by omega), hcells1 k, if_neg (by omega)]
  · have hlen1 : (shortName entry).length = m1 + 1 + m2 := by
      rw [hlen, if_neg h0]
    rw [hlen1]
    unfold extractEntryNameInto
    simp only [bind, Except.bind, pure, Except.pure]
    rw [hend1]
    simp only [hcopy1, hend2]
    obtain ⟨name3, hcopy3, hcells3⟩ :=
      copyLoop_spec charSigned (fun k => byteAt entry (8 + k)) m2 (by omega) fuel 0
        ((0 + (m1 - 0) + 1) % 256) (storeWide name1 (0 + (m1 - 0)) 46)
        (by omega) (by omega) (by omega)
    have hpos : ((m2 : Nat) : Int) - 1 ≥ 0 := by omega
    simp only [hpos, if_true, hcopy3]
    have emod : (0 + (m1 - 0) + 1) % 256 + (m2 - 0) = m1 + 1 + m2 := by omega
    have emod2 : (0 + (m1 - 0) + 1) % 256 = m1 + 1 := by omega
    rw [emod]
    rw [emod2] at hcells3
    refine ⟨storeWide name3 (m1 + 1 + m2) 0, rfl, by omega, ?_, ?_⟩
    · simp [storeWide]
    · intro k hk
      simp only [storeWide, hcells3, hcells1]
      split_ifs <;> first | rfl | (exfalso; omega)

/-- C35. Short-name buffer bound: whatever the memory around the name holds,
`extractEntryName` returns, the terminating null lands in the cell whose index
is the length of the short name and that index is at most 12, and every cell
past that index (so every cell from 13 on, outside the 13 cells allocated)
keeps the value it had before the call. -/
theorem extractEntryName_within_buffer (charSigned : Bool) (fuel : Nat) (entry : List Nat)
    (name0 : Nat → Int) (hfuel : 9 ≤ fuel) :
    ∃ out nameIndex, extractEntryNameInto charSigned fuel entry name0 = .ok (out, nameIndex) ∧
      nameIndex = (shortName entry).length ∧ nameIndex ≤ 12 ∧ out nameIndex = 0 ∧
      (∀ k, nameIndex < k → out k = name0 k) ∧
      (∀ k, 13 ≤ k → out k = name0 k) ∧
      extractEntryName charSigned fuel entry =
        (extractEntryNameInto charSigned fuel entry (fun _ => 0)).map
          (fun result => (List.range 13).map result.1) := by
  obtain ⟨out, hout, hle, hnull, hframe⟩ :=
    extractEntryNameInto_frame charSigned fuel entry name0 hfuel
  exact ⟨out, _, hout, rfl, hle, hnull, hframe, fun k hk => hframe k (by omega),
    extractEntryName_of_into charSigned fuel entry⟩

/-- C35, on an entry whose two fields are full: the name `ABCDEFGH.XYZ` has 12
characters, the null lands in cell 12 and the cells from 13 on keep their
value. -/
theorem extractEntryName_within_buffer_witness :
    (9 ≤ 9) ∧ (shortName fullNameEntry).length = 12 ∧
    ∃ out nameIndex, extractEntryNameInto true 9 fullNameEntry (fun _ => 7) = .ok (out, nameIndex) ∧
      nameIndex = (shortName fullNameEntry).length ∧ nameIndex ≤ 12 ∧ out nameIndex = 0 ∧
      (∀ k, nameIndex < k → out k = (fun _ => (7 : Int)) k) ∧
      (∀ k, 13 ≤ k → out k = (fun _ => (7 : Int)) k) ∧
      extractEntryName true 9 fullNameEntry =
        (extractEntryNameInto true 9 fullNameEntry (fun _ => 0)).map
          (fun result => (List.range 13).map result.1) :=
  ⟨by decide, by decide,
   extractEntryName_within_buffer true 9 fullNameEntry (fun _ => 7) (by decide)⟩

/-! ## The buffer of an absolute path -/

theorem chain_split :
    ∀ chain : List file_t, (∃ node ∈ chain, cString node.name = []) →
      ∃ stop above,
        chain = chain.takeWhile (fun node => decide (cString node.name ≠ [])) ++ stop :: above ∧
        cString stop.name = [] := by
  intro chain
  induction chain with
  | nil =>
    rintro ⟨node, hnode, -⟩
    cases hnode
  | cons head rest ih =>
    intro hex
    by_cases hhead : cString head.name = []
    · refine ⟨head, rest, ?_, hhead⟩
      rw [List.takeWhile_cons_of_neg (by simp [hhead])]
      rfl
    · obtain ⟨node, hnode, hempty⟩ := hex
      have hrest : ∃ node ∈ rest, cString node.name = [] := by
        rcases List.mem_cons.mp hnode with h | h
        · rw [h] at hempty
          exact absurd hempty hhead
        · exact ⟨node, h, hempty⟩
      obtain ⟨stop, above, hsplit, hstop⟩ := ih hrest
      refine ⟨stop, above, ?_, hstop⟩
      rw [List.takeWhile_cons_of_pos (by simp [hhead]), List.cons_append, ← hsplit]

theorem getAbsolutePathNameRecursive_stop (stop : file_t) (above : List file_t)
    (hstop : cString stop.name = []) (L : Nat) :
    ∀ below : List file_t, (∀ node ∈ below, cString node.name ≠ [] ∧ (0 : Int) ∈ node.name) →
      (pathText below.reverse).length + 1 ≤ L →
      getAbsolutePathNameRecursive (below ++ stop :: above) (List.replicate L 0) =
        .ok (pathText below.reverse ++ List.replicate (L - (pathText below.reverse).length) 0) := by
  intro below
  induction below with
  | nil =>
    intro _ _
    rw [List.nil_append, getAbsolutePathNameRecursive, if_pos ((cString_eq_nil_iff _).mp hstop)]
    rfl
  | cons node rest ih =>
    intro hnames hlen
    have hnode := hnames node (by simp)
    rw [List.reverse_cons, pathText_append, List.length_append, List.length_cons] at hlen
    have hrec := ih (fun n hn => hnames n (by simp [hn])) (by omega)
    have hhead : ¬ node.name.headD 0 = 0 := fun h => hnode.1 ((cString_eq_nil_iff _).mpr h)
    rw [List.cons_append, getAbsolutePathNameRecursive, if_neg hhead, hrec]
    simp only [bind, Except.bind]
    have hslash : cString [47, 0] = [47] := by decide
    rw [wcscat_zeros (pathText rest.reverse) [47, 0] _ (pathText_no_null _) (by decide)
      (by rw [hslash, List.length_singleton]; omega), hslash]
    simp only [List.length_singleton]
    have hno : ∀ c ∈ pathText rest.reverse ++ [47], c ≠ 0 := by
      intro c hc
      rcases List.mem_append.mp hc with h | h
      · exact pathText_no_null _ c h
      · rw [List.mem_singleton.mp h]
        decide
    rw [wcscat_zeros (pathText rest.reverse ++ [47]) node.name _ hno hnode.2 (by omega),
      List.reverse_cons, pathText_append]
    congr 1
    rw [List.length_append, List.length_cons]
    have e : L - (pathText rest.reverse).length - 1 - (cString node.name).length =
        L - ((pathText rest.reverse).length + ((cString node.name).length + 1)) := by omega
    rw [e]
    simp

theorem getAbsolutePathName_fits (file : file_t) (parents : List file_t)
    (hstop : ∃ node ∈ file :: parents, cString node.name = [])
    (hnull : ∀ node ∈ file :: parents, (0 : Int) ∈ node.name)
    (hlen : allocatedPathLength file parents < 4294967296) :
    ∃ z, getAbsolutePathName file parents =
        .ok (pathText (writtenNodes (file :: parents)) ++ List.replicate z 0) ∧
      (pathText (writtenNodes (file :: parents))).length + z = allocatedPathLength file parents ∧
      1 ≤ z ∧
      ((∀ node ∈ (file :: parents).dropLast, cString node.name ≠ []) → z = 1) := by
  obtain ⟨stop, above, hsplit, hempty⟩ := chain_split (file :: parents) hstop
  generalize hbelow :
    (file :: parents).takeWhile (fun node => decide (cString node.name ≠ [])) = below at hsplit
  have hwritten : writtenNodes (file :: parents) = below.reverse := by
    unfold writtenNodes
    rw [hbelow]
  have hnames : ∀ node ∈ below, cString node.name ≠ [] ∧ (0 : Int) ∈ node.name := by
    intro node hnode
    refine ⟨?_, hnull node (by rw [hsplit]; simp [hnode])⟩
    rw [← hbelow] at hnode
    have := List.mem_takeWhile_imp hnode
    simpa using this
  have hsum : allocatedPathLength file parents =
      (pathText below.reverse).length + 1 +
        (above.map (fun node => (cString node.name).length + 1)).sum := by
    have h1 := congrArg (fun l => (l.map (fun node : file_t =>
      (cString node.name).length + 1)).sum) hsplit
    simp only [List.map_cons, List.sum_cons, List.map_append, List.sum_append] at h1
    rw [hempty] at h1
    rw [pathText_length, List.map_reverse, List.sum_reverse]
    unfold allocatedPathLength
    simp only [List.length_nil] at h1
    omega
  rw [hwritten]
  refine ⟨1 + (above.map (fun node => (cString node.name).length + 1)).sum, ?_, by omega,
    by omega, ?_⟩
  · unfold getAbsolutePathName
    rw [wcslen_ok _ (hnull file (by simp))]
    simp only [bind, Except.bind]
    rw [pathLengthLoop_eq parents _ (Nat.mod_lt _ (by norm_num))
      (fun node hnode => hnull node (by simp [hnode]))]
    simp only []
    have hlength : add32 (((cString file.name).length % 4294967296 +
        (parents.map (fun node => (cString node.name).length + 1)).sum) % 4294967296) 1 =
        allocatedPathLength file parents := by
      unfold allocatedPathLength at hlen ⊢
      unfold add32
      omega
    rw [hlength, hsplit, getAbsolutePathNameRecursive_stop stop above hempty _ below hnames
      (by omega)]
    have e : allocatedPathLength file parents - (pathText below.reverse).length =
        1 + (above.map (fun node => (cString node.name).length + 1)).sum := by omega
    rw [e]
  · intro hall
    cases above with
    | nil => rfl
    | cons a rest =>
      exfalso
      refine hall stop ?_ hempty
      rw [hsplit, List.dropLast_append_cons]
      simp

/-- C39. Absolute-path buffer suffices: for the node that a path of child
indices reaches in a tree whose root has the empty name (names
null-terminated, the allocated length below 2^32), `getAbsolutePathName`
returns without a write outside its array: the array holds the characters
written (the names below the nearest node with an empty name, each after one
`/`, none of them null) followed by `z ≥ 1` null cells, its length is the
allocated length (own name length + for each ancestor its name length + 1,
+ 1), so the characters written plus the terminating null are at most the
allocated length, with equality when no node below the root has an empty
name. -/
theorem getAbsolutePathName_buffer_suffices (root : file_t) (path : List Nat) (file : file_t)
    (parents : List file_t)
    (hloc : locate root [] path = some (file, parents))
    (hroot : cString root.name = [])
    (hnull : ∀ node ∈ file :: parents, (0 : Int) ∈ node.name)
    (hlen : allocatedPathLength file parents < 4294967296) :
    ∃ written z, getAbsolutePathName file parents = .ok (written ++ List.replicate z 0) ∧
      written = pathText (writtenNodes (file :: parents)) ∧
      (∀ c ∈ written, c ≠ 0) ∧
      written.length + z = allocatedPathLength file parents ∧
      written.length + 1 ≤ allocatedPathLength file parents ∧
      ((∀ node ∈ (file :: parents).dropLast, cString node.name ≠ []) →
        written.length + 1 = allocatedPathLength file parents) := by
  obtain ⟨nodes, hnodes⟩ := locate_chain path root [] file parents hloc
  have hstop : ∃ node ∈ file :: parents, cString node.name = [] :=
    ⟨root, by rw [hnodes]; simp, hroot⟩
  obtain ⟨z, hret, hsum, hz, heq⟩ := getAbsolutePathName_fits file parents hstop hnull hlen
  refine ⟨_, z, hret, rfl, pathText_no_null _, hsum, by omega, fun hall => ?_⟩
  have := heq hall
  omega

/-- C39, on the tree with `DIR` and `DIR/FILE.TXT`: for the file 14 cells are
allocated, and the 13 characters of `/DIR/FILE.TXT` and the null fill them. -/
theorem getAbsolutePathName_buffer_suffices_witness :
    locate nestedTree [] [0, 0] = some (nestedFile, [nestedDirectory, nestedTree]) ∧
    allocatedPathLength nestedFile [nestedDirectory, nestedTree] = 14 ∧
    ∃ written z, getAbsolutePathName nestedFile [nestedDirectory, nestedTree] =
        .ok (written ++ List.replicate z 0) ∧
      written = pathText (writtenNodes (nestedFile :: [nestedDirectory, nestedTree])) ∧
      (∀ c ∈ written, c ≠ 0) ∧
      written.length + z = allocatedPathLength nestedFile [nestedDirectory, nestedTree] ∧
      written.length + 1 ≤ allocatedPathLength nestedFile [nestedDirectory, nestedTree] ∧
      ((∀ node ∈ (nestedFile :: [nestedDirectory, nestedTree]).dropLast,
          cString node.name ≠ []) →
        written.length + 1 = allocatedPathLength nestedFile [nestedDirectory, nestedTree]) :=
  ⟨rfl, by decide,
   getAbsolutePathName_buffer_suffices nestedTree [0, 0] nestedFile [nestedDirectory, nestedTree]
     rfl (by decide)
     (by
       intro node hnode
       simp only [List.mem_cons, List.mem_singleton, List.not_mem_nil, or_false] at hnode
       rcases hnode with h | h | h <;> rw [h] <;> decide)
     (by decide)⟩

/-! ## The number of entries of a scan -/

theorem recordAt_eq_recordOf (raw : Nat → Nat) (i : Nat) (h : i < 134217728) :
    recordAt raw i = recordOf raw i := by
  unfold recordAt recordOf
  rw [mul32_entry i h]

theorem recordsFrom_succ (raw : Nat → Nat) (i d : Nat) :
    recordsFrom raw i (d + 1) =
      if byteAt (recordOf raw i) 0 ≠ 0 then recordOf raw i :: recordsFrom raw (i + 1) d
      else [] := by
  unfold recordsFrom
  rw [List.range'_succ, List.map_cons, List.takeWhile_cons]
  by_cases h : byteAt (recordOf raw i) 0 ≠ 0
  · rw [if_pos h]
    simp [h]
  · rw [if_neg h]
    simp [h]

theorem recordsFrom_length_le (raw : Nat → Nat) (i d : Nat) :
    (recordsFrom raw i d).length ≤ d := by
  unfold recordsFrom
  have h := (List.takeWhile_prefix (fun r => decide (byteAt r 0 ≠ 0))
    (l := (List.range' i d).map (recordOf raw))).length_le
  simpa using h

theorem mem_recordsFrom (raw : Nat → Nat) (r : List Nat) :
    ∀ (d i : Nat), r ∈ recordsFrom raw i d → byteAt r 0 ≠ 0 := by
  intro d i h
  unfold recordsFrom at h
  have := List.mem_takeWhile_imp h
  simpa using this

theorem parseStep_none (charSigned : Bool) (fuel : Nat) (fat : Nat → Nat)
    (bootSector : boot_sect_t) (r : List Nat) (state : ParseState)
    (h : parseStep charSigned fuel fat bootSector r state = .ok none) : byteAt r 0 = 0 := by
  by_contra h0
  unfold parseStep at h
  rw [if_neg h0] at h
  split_ifs at h
  · cases h
  · cases h
  · cases h
  · cases h
  · simp only [bind, Except.bind, pure, Except.pure] at h
    cases hentry : parseDirectoryEntry_VFAT charSigned fuel
      (storeEntry state.vfatRawEntrySequence state.vfatSequenceCount r)
      (add32 state.vfatSequenceCount 1) fat bootSector with
    | error e =>
      rw [hentry] at h
      cases h
    | ok entry =>
      rw [hentry] at h
      cases h
  · simp only [bind, Except.bind, pure, Except.pure] at h
    cases hentry : parseDirectoryEntry charSigned fuel r fat bootSector with
    | error e =>
      rw [hentry] at h
      cases h
    | ok entry =>
      rw [hentry] at h
      cases h

theorem parseStep_effect (charSigned : Bool) (fuel : Nat) (fat : Nat → Nat)
    (bootSector : boot_sect_t) (r : List Nat) (state next : ParseState)
    (h : parseStep charSigned fuel fat bootSector r state = .ok (some next)) :
    byteAt r 0 ≠ 0 ∧
    (isEmittedRecord r = true →
      next.numEntries = add32 state.numEntries 1 ∧
      next.directoryEntries.length = state.directoryEntries.length + 1 ∧
      next.vfatSequenceCount = 0) ∧
    (isEmittedRecord r = false →
      next.numEntries = state.numEntries ∧ next.directoryEntries = state.directoryEntries ∧
      next.vfatSequenceCount ≤ state.vfatSequenceCount +
        (if hasVfatNibble r = true ∧ isDeletedRecord r = false then 1 else 0)) := by
  unfold parseStep at h
  by_cases h0 : byteAt r 0 = 0
  · rw [if_pos h0] at h
    cases h
  rw [if_neg h0] at h
  refine ⟨h0, ?_⟩
  by_cases hdel : byteAt r 0 = 0x05 ∨ byteAt r 0 = 0xe5
  · rw [if_pos hdel] at h
    obtain rfl : state = next := Option.some.inj (Except.ok.inj h)
    have hem : isEmittedRecord r = false := by
      simp [isEmittedRecord, isDeletedRecord, hdel]
    exact ⟨fun ht => (by rw [hem] at ht; cases ht), fun _ => ⟨rfl, rfl, Nat.le_add_right _ _⟩⟩
  rw [if_neg hdel] at h
  by_cases hlabel : (byteAt r 0x0b &&& 0x08) ≠ 0 ∧ (byteAt r 0x0b &&& 0x0f) ≠ 0x0f
  · rw [if_pos hlabel] at h
    obtain rfl : state = next := Option.some.inj (Except.ok.inj h)
    have hem : isEmittedRecord r = false := by
      simp [isEmittedRecord, isVolumeLabelRecord, hlabel]
    exact ⟨fun ht => (by rw [hem] at ht; cases ht), fun _ => ⟨rfl, rfl, Nat.le_add_right _ _⟩⟩
  rw [if_neg hlabel] at h
  by_cases hdot : isDotEntry r = true
  · rw [if_pos hdot] at h
    obtain rfl : state = next := Option.some.inj (Except.ok.inj h)
    have hem : isEmittedRecord r = false := by
      simp [isEmittedRecord, hdot]
    exact ⟨fun ht => (by rw [hem] at ht; cases ht), fun _ => ⟨rfl, rfl, Nat.le_add_right _ _⟩⟩
  rw [if_neg hdot] at h
  by_cases hnibble : (byteAt r 0x0b &&& 0x0f) = 0x0f
  · rw [if_pos hnibble] at h
    have hslot : state.vfatSequenceCount < MAX_ENTRIES_PER_VFAT_SEQUENCE := by
      by_contra hslot
      rw [if_neg hslot] at h
      cases h
    rw [if_pos hslot] at h
    have hnext := Option.some.inj (Except.ok.inj h)
    have hem : isEmittedRecord r = false := by
      simp [isEmittedRecord, hasVfatNibble, hnibble]
    refine ⟨fun ht => (by rw [hem] at ht; cases ht), fun _ => ?_⟩
    rw [← hnext]
    refine ⟨rfl, rfl, ?_⟩
    have hcond : hasVfatNibble r = true ∧ isDeletedRecord r = false := by
      simp [hasVfatNibble, isDeletedRecord, hnibble, hdel]
    rw [if_pos hcond]
    exact Nat.mod_le _ _
  rw [if_neg hnibble] at h
  have hem : isEmittedRecord r = true := by
    have hdot' : isDotEntry r = false := by
      cases hd : isDotEntry r
      · rfl
      · exact absurd hd hdot
    unfold isEmittedRecord isDeletedRecord isVolumeLabelRecord hasVfatNibble
    rw [hdot', decide_eq_false hdel, decide_eq_false hlabel, decide_eq_false hnibble]
    rfl
  refine ⟨fun _ => ?_, fun hf => by rw [hem] at hf; cases hf⟩
  by_cases hcount : state.vfatSequenceCount > 0
  · rw [if_pos hcount] at h
    have hslot : state.vfatSequenceCount < MAX_ENTRIES_PER_VFAT_SEQUENCE := by
      by_contra hslot
      rw [if_neg hslot] at h
      cases h
    rw [if_pos hslot] at h
    simp only [bind, Except.bind, pure, Except.pure] at h
    cases hentry : parseDirectoryEntry_VFAT charSigned fuel
      (storeEntry state.vfatRawEntrySequence state.vfatSequenceCount r)
      (add32 state.vfatSequenceCount 1) fat bootSector with
    | error e =>
      rw [hentry] at h
      cases h
    | ok entry =>
      rw [hentry] at h
      have hnext := Option.some.inj (Except.ok.inj h)
      rw [← hnext]
      exact ⟨rfl, by simp, rfl⟩
  · rw [if_neg hcount] at h
    simp only [bind, Except.bind, pure, Except.pure] at h
    cases hentry : parseDirectoryEntry charSigned fuel r fat bootSector with
    | error e =>
      rw [hentry] at h
      cases h
    | ok entry =>
      rw [hentry] at h
      have hnext := Option.some.inj (Except.ok.inj h)
      rw [← hnext]
      exact ⟨rfl, by simp, by simpa using hcount⟩

theorem parseLoop_count (charSigned : Bool) (fuel : Nat) (raw : Nat → Nat) (m : Nat)
    (fat : Nat → Nat) (bootSector : boot_sect_t) (hm : m ≤ 134217728) :
    ∀ (steps i : Nat) (state : ParseState) (entries : List file_t) (n : Nat),
      i ≤ m → state.numEntries + (m - i) < 4294967296 →
      parseLoop charSigned fuel raw m fat bootSector steps i state = .ok (entries, n) →
      n = state.numEntries + (recordsFrom raw i (m - i)).countP isEmittedRecord ∧
      entries.length =
        state.directoryEntries.length + (recordsFrom raw i (m - i)).countP isEmittedRecord := by
  intro steps
  induction steps with
  | zero =>
    intro i state entries n _ _ h
    rw [parseLoop] at h
    cases h
  | succ steps ih =>
    intro i state entries n hi hnum h
    rw [parseLoop_succ] at h
    by_cases hlt : i < m
    · rw [if_pos hlt, recordAt_eq_recordOf raw i (by omega)] at h
      have hd : m - i = (m - (i + 1)) + 1 := by omega
      rw [hd, recordsFrom_succ]
      cases hstep : parseStep charSigned fuel fat bootSector (recordOf raw i) state with
      | error e =>
        rw [hstep] at h
        cases h
      | ok o =>
        rw [hstep] at h
        cases o with
        | none =>
          have h0 := parseStep_none charSigned fuel fat bootSector _ state hstep
          rw [if_neg (by simp [h0])]
          have hres := Prod.mk.inj (Except.ok.inj h)
          rw [← hres.1, ← hres.2]
          simp
        | some next =>
          obtain ⟨h0, hemit, hskip⟩ :=
            parseStep_effect charSigned fuel fat bootSector _ state next hstep
          rw [if_pos h0, List.countP_cons]
          simp only [] at h
          rw [add32_of_lt i 1 (by omega)] at h
          cases hem : isEmittedRecord (recordOf raw i) with
          | true =>
            obtain ⟨hn, hlen, -⟩ := hemit hem
            have hn' : next.numEntries = state.numEntries + 1 := by
              rw [hn]
              exact add32_of_lt _ _ (by omega)
            obtain ⟨r1, r2⟩ := ih (i + 1) next entries n (by omega) (by omega) h
            rw [r1, r2, hn', hlen]
            simp only [if_true]
            omega
          | false =>
            obtain ⟨hn, hentries, -⟩ := hskip hem
            obtain ⟨r1, r2⟩ := ih (i + 1) next entries n (by omega) (by omega) h
            rw [r1, r2, hn, hentries]
            simp
    · rw [if_neg hlt] at h
      have hd : m - i = 0 := by omega
      have hres := Prod.mk.inj (Except.ok.inj h)
      rw [hd, ← hres.1, ← hres.2]
      simp [recordsFrom]

theorem parseStep_returns (charSigned : Bool) (fuel : Nat) (fat : Nat → Nat)
    (bootSector : boot_sect_t) (r : List Nat) (state : ParseState)
    (h0 : byteAt r 0 ≠ 0) (hfuel : 9 ≤ fuel)
    (hslot : state.vfatSequenceCount < MAX_ENTRIES_PER_VFAT_SEQUENCE)
    (hcount : 13 * state.vfatSequenceCount < fuel)
    (hdecode : isEmittedRecord r = true →
      ∃ res, extractEntryFirstCluster fuel r bootSector fat = .ok res) :
    ∃ next, parseStep charSigned fuel fat bootSector r state = .ok (some next) := by
  have hint : 26 * state.vfatSequenceCount + 2 < 2147483648 := by
    unfold MAX_ENTRIES_PER_VFAT_SEQUENCE at hslot
    omega
  unfold parseStep
  rw [if_neg h0]
  by_cases hdel : byteAt r 0 = 0x05 ∨ byteAt r 0 = 0xe5
  · rw [if_pos hdel]
    exact ⟨_, rfl⟩
  rw [if_neg hdel]
  by_cases hlabel : (byteAt r 0x0b &&& 0x08) ≠ 0 ∧ (byteAt r 0x0b &&& 0x0f) ≠ 0x0f
  · rw [if_pos hlabel]
    exact ⟨_, rfl⟩
  rw [if_neg hlabel]
  by_cases hdot : isDotEntry r = true
  · rw [if_pos hdot]
    exact ⟨_, rfl⟩
  rw [if_neg hdot]
  by_cases hnibble : (byteAt r 0x0b &&& 0x0f) = 0x0f
  · rw [if_pos hnibble, if_pos hslot]
    exact ⟨_, rfl⟩
  rw [if_neg hnibble]
  have hem : isEmittedRecord r = true := by
    have hdot' : isDotEntry r = false := by
      cases hd : isDotEntry r
      · rfl
      · exact absurd hd hdot
    unfold isEmittedRecord isDeletedRecord isVolumeLabelRecord hasVfatNibble
    rw [hdot', decide_eq_false hdel, decide_eq_false hlabel, decide_eq_false hnibble]
    rfl
  obtain ⟨res, hres⟩ := hdecode hem
  by_cases hpos : state.vfatSequenceCount > 0
  · rw [if_pos hpos, if_pos hslot]
    simp only [bind, Except.bind, pure, Except.pure]
    rw [add32_of_lt _ 1 (by omega),
      parseDirectoryEntry_VFAT_eq charSigned fuel _ state.vfatSequenceCount fat bootSector
        (by omega) hint hcount]
    have hlast : storeEntry state.vfatRawEntrySequence state.vfatSequenceCount r
        state.vfatSequenceCount = r := by
      simp [storeEntry]
    unfold entryWithName
    rw [hlast, hres]
    exact ⟨_, rfl⟩
  · rw [if_neg hpos]
    simp only [bind, Except.bind, pure, Except.pure]
    unfold parseDirectoryEntry
    rw [(extractEntryName_eq charSigned fuel r hfuel).1, hres]
    exact ⟨_, rfl⟩

theorem pendingVfat_succ_of_step (charSigned : Bool) (fuel : Nat) (fat : Nat → Nat)
    (bootSector : boot_sect_t) (raw : Nat → Nat) (i : Nat) (state next : ParseState)
    (hcount : state.vfatSequenceCount ≤ pendingVfat raw i)
    (hstep : parseStep charSigned fuel fat bootSector (recordOf raw i) state = .ok (some next)) :
    next.vfatSequenceCount ≤ pendingVfat raw (i + 1) := by
  obtain ⟨-, hemit, hskip⟩ :=
    parseStep_effect charSigned fuel fat bootSector _ state next hstep
  rw [pendingVfat]
  cases hem : isEmittedRecord (recordOf raw i) with
  | true =>
    rw [if_pos rfl, (hemit hem).2.2]
  | false =>
    rw [if_neg (by decide)]
    have := (hskip hem).2.2
    split_ifs at this ⊢ <;> omega

theorem parseLoop_returns (charSigned : Bool) (fuel : Nat) (raw : Nat → Nat) (m : Nat)
    (fat : Nat → Nat) (bootSector : boot_sect_t) (hm : m ≤ 134217728) (hfuel : 13 * m < fuel)
    (hpending : ∀ j, j ≤ m → (∀ i, i < j → byteAt (recordOf raw i) 0 ≠ 0) →
      pendingVfat raw j ≤ 20)
    (hdecode : ∀ i, i < m → (∀ j, j ≤ i → byteAt (recordOf raw j) 0 ≠ 0) →
      isEmittedRecord (recordOf raw i) = true →
      ∃ res, extractEntryFirstCluster fuel (recordOf raw i) bootSector fat = .ok res) :
    ∀ (d i steps : Nat) (state : ParseState), i + d = m → d < steps →
      state.vfatSequenceCount ≤ i → state.vfatSequenceCount ≤ pendingVfat raw i →
      (∀ j, j < i → byteAt (recordOf raw j) 0 ≠ 0) →
      ∃ res, parseLoop charSigned fuel raw m fat bootSector steps i state = .ok res := by
  intro d
  induction d with
  | zero =>
    intro i steps state hi hsteps _ _ _
    obtain ⟨steps, rfl⟩ : ∃ s, steps = s + 1 := ⟨steps - 1, by omega⟩
    rw [parseLoop_succ, if_neg (by omega)]
    exact ⟨_, rfl⟩
  | succ d ih =>
    intro i steps state hi hsteps hcount hpend hbefore
    obtain ⟨steps, rfl⟩ : ∃ s, steps = s + 1 := ⟨steps - 1, by omega⟩
    rw [parseLoop_succ, if_pos (by omega), recordAt_eq_recordOf raw i (by omega)]
    by_cases h0 : byteAt (recordOf raw i) 0 = 0
    · rw [parseStep_end charSigned fuel fat bootSector _ state h0]
      exact ⟨_, rfl⟩
    · have hbefore' : ∀ j, j ≤ i → byteAt (recordOf raw j) 0 ≠ 0 := by
        intro j hj
        rcases Nat.lt_or_eq_of_le hj with h | h
        · exact hbefore j h
        · rw [h]
          exact h0
      have hbound := hpending i (by omega) hbefore
      obtain ⟨next, hnext⟩ := parseStep_returns charSigned fuel fat bootSector
        (recordOf raw i) state h0 (by omega)
        (by unfold MAX_ENTRIES_PER_VFAT_SEQUENCE; omega) (by omega)
        (hdecode i (by omega) hbefore')
      rw [hnext]
      simp only []
      rw [add32_of_lt i 1 (by omega)]
      obtain ⟨-, hemit, hskip⟩ :=
        parseStep_effect charSigned fuel fat bootSector _ state next hnext
      have hcount' : next.vfatSequenceCount ≤ i + 1 := by
        cases hem : isEmittedRecord (recordOf raw i) with
        | true =>
          rw [(hemit hem).2.2]
          omega
        | false =>
          have := (hskip hem).2.2
          split_ifs at this <;> omega
      exact ih (i + 1) steps next (by omega) (by omega) hcount'
        (pendingVfat_succ_of_step charSigned fuel fat bootSector raw i state next hpend hnext)
        (fun j hj => hbefore' j (by omega))

theorem exists_ok_of_toBool {α : Type} (x : Except Fault α) (h : x.toBool = true) :
    ∃ res, x = .ok res := by
  cases x with
  | error e => cases h
  | ok res => exact ⟨res, rfl⟩

theorem emittedCount_le (raw : Nat → Nat) (m : Nat) : emittedCount raw m ≤ m := by
  unfold emittedCount recordsBeforeEnd
  exact (List.countP_le_length _).trans (recordsFrom_length_le raw 0 m)

/-- C34. Emitted-entry count: for a directory buffer of `m` records, whenever
`parseDirectoryEntries` returns, the count it returns and the number of
entries it returns are the number of records, before the first record
starting with 0x00, that are not deleted, not volume labels, not dot entries
and not VFAT records; it does return when at no point of the scan more than 20
VFAT records are pending (the capacity of the sequence buffer, beyond which a
copy leaves the buffer), the chain of every record that yields an entry
resolves and the budget covers the records; the number is at most `m`, and it
is zero when all the records before the end have the attribute low nibble
0x0F. -/
theorem parseDirectoryEntries_emitted_count (charSigned : Bool) (fuel : Nat) (raw : Nat → Nat)
    (m : Nat) (fat : Nat → Nat) (bootSector : boot_sect_t) (hm : m ≤ 134217728) :
    (∀ entries n, parseDirectoryEntries charSigned fuel raw m fat bootSector = .ok (entries, n) →
      n = emittedCount raw m ∧ entries.length = emittedCount raw m) ∧
    (13 * m < fuel →
      (∀ j, j ≤ m → (∀ i, i < j → byteAt (recordOf raw i) 0 ≠ 0) → pendingVfat raw j ≤ 20) →
      (∀ i, i < m → (∀ j, j ≤ i → byteAt (recordOf raw j) 0 ≠ 0) →
        isEmittedRecord (recordOf raw i) = true →
        ∃ res, extractEntryFirstCluster fuel (recordOf raw i) bootSector fat = .ok res) →
      ∃ entries, parseDirectoryEntries charSigned fuel raw m fat bootSector =
          .ok (entries, emittedCount raw m) ∧ entries.length = emittedCount raw m) ∧
    emittedCount raw m ≤ m ∧
    ((∀ r ∈ recordsBeforeEnd raw m, hasVfatNibble r = true) → emittedCount raw m = 0) := by
  have hcond : ∀ entries n,
      parseDirectoryEntries charSigned fuel raw m fat bootSector = .ok (entries, n) →
      n = emittedCount raw m ∧ entries.length = emittedCount raw m := by
    intro entries n h
    have := parseLoop_count charSigned fuel raw m fat bootSector hm fuel 0 scanStart entries n
      (by omega) (by simp only [scanStart]; omega) h
    simpa [scanStart, emittedCount, recordsBeforeEnd] using this
  refine ⟨hcond, ?_, emittedCount_le raw m, ?_⟩
  · intro hfuel hpending hdecode
    obtain ⟨⟨entries, n⟩, hres⟩ := parseLoop_returns charSigned fuel raw m fat bootSector hm
      hfuel hpending hdecode m 0 fuel scanStart (by omega) (by omega) (Nat.zero_le _)
      (Nat.zero_le _) (fun j hj => absurd hj (Nat.not_lt_zero j))
    have hres' : parseDirectoryEntries charSigned fuel raw m fat bootSector =
        .ok (entries, n) := hres
    obtain ⟨hn, hlen⟩ := hcond entries n hres'
    exact ⟨entries, by rw [hres', hn], hlen⟩
  · intro hall
    unfold emittedCount
    rw [List.countP_eq_zero]
    intro r hr
    have := hall r hr
    simp [isEmittedRecord, this]

/-- C34, on the buffer with the two VFAT records of `verylongname.txt`, their
short record and the end of the directory: one entry for three records, and
at most 2 VFAT records are pending. -/
theorem parseDirectoryEntries_emitted_count_witness :
    (4 ≤ 134217728) ∧ emittedCount (bufferOf longNameEntries.flatten) 4 = 1 ∧
    (parseDirectoryEntries true 60 (bufferOf longNameEntries.flatten) 4 threeClusterTable
      floppy).map (fun r => (r.1.length, r.2)) = .ok (1, 1) ∧
    (∀ entries n, parseDirectoryEntries true 60 (bufferOf longNameEntries.flatten) 4
        threeClusterTable floppy = .ok (entries, n) →
      n = emittedCount (bufferOf longNameEntries.flatten) 4 ∧
      entries.length = emittedCount (bufferOf longNameEntries.flatten) 4) ∧
    ∃ entries, parseDirectoryEntries true 60 (bufferOf longNameEntries.flatten) 4
        threeClusterTable floppy =
          .ok (entries, emittedCount (bufferOf longNameEntries.flatten) 4) ∧
      entries.length = emittedCount (bufferOf longNameEntries.flatten) 4 :=
  ⟨by decide, by decide, by decide,
   (parseDirectoryEntries_emitted_count true 60 (bufferOf longNameEntries.flatten) 4
      threeClusterTable floppy (by decide)).1,
   (parseDirectoryEntries_emitted_count true 60 (bufferOf longNameEntries.flatten) 4
      threeClusterTable floppy (by decide)).2.1 (by decide)
      (by
        intro j hj _
        interval_cases j <;> decide)
      (by
        intro i hi _ _
        apply exists_ok_of_toBool
        interval_cases i <;> decide)⟩

/-! ## The slots of the VFAT sequence buffer -/

theorem scanStates_succ_some (charSigned : Bool) (fuel : Nat) (raw : Nat → Nat)
    (fat : Nat → Nat) (bootSector : boot_sect_t) (k : Nat) (next : ParseState)
    (h : scanStates charSigned fuel raw fat bootSector (k + 1) = .ok (some next)) :
    ∃ state, scanStates charSigned fuel raw fat bootSector k = .ok (some state) ∧
      parseStep charSigned fuel fat bootSector (recordAt raw k) state = .ok (some next) := by
  rw [scanStates] at h
  cases hk : scanStates charSigned fuel raw fat bootSector k with
  | error e =>
    rw [hk] at h
    cases h
  | ok o =>
    rw [hk] at h
    cases o with
    | none => cases h
    | some state => exact ⟨state, rfl, h⟩

theorem scanStates_parseLoop (charSigned : Bool) (fuel : Nat) (raw : Nat → Nat) (m : Nat)
    (fat : Nat → Nat) (bootSector : boot_sect_t) (hm : m < 4294967296) :
    ∀ (k : Nat) (state : ParseState), k ≤ m →
      scanStates charSigned fuel raw fat bootSector k = .ok (some state) →
      ∀ steps, parseLoop charSigned fuel raw m fat bootSector (steps + k) 0 scanStart =
        parseLoop charSigned fuel raw m fat bootSector steps k state := by
  intro k
  induction k with
  | zero =>
    intro state _ h steps
    rw [scanStates] at h
    rw [← Option.some.inj (Except.ok.inj h)]
    rfl
  | succ k ih =>
    intro next hk h steps
    obtain ⟨state, hstate, hstep⟩ :=
      scanStates_succ_some charSigned fuel raw fat bootSector k next h
    have e : steps + (k + 1) = (steps + 1) + k := by omega
    rw [e, ih state (by omega) hstate (steps + 1), parseLoop_succ, if_pos (by omega), hstep]
    simp only []
    rw [add32_of_lt k 1 (by omega)]

theorem scanStates_invariant (charSigned : Bool) (fuel : Nat) (raw : Nat → Nat)
    (fat : Nat → Nat) (bootSector : boot_sect_t) :
    ∀ (k : Nat) (state : ParseState), k ≤ 134217728 →
      scanStates charSigned fuel raw fat bootSector k = .ok (some state) →
      (∀ j, j < k → byteAt (recordOf raw j) 0 ≠ 0) ∧
      state.vfatSequenceCount ≤ pendingVfat raw k := by
  intro k
  induction k with
  | zero =>
    intro state _ h
    rw [scanStates] at h
    rw [← Option.some.inj (Except.ok.inj h)]
    exact ⟨fun j hj => absurd hj (Nat.not_lt_zero j), Nat.le_refl _⟩
  | succ k ih =>
    intro next hk h
    obtain ⟨state, hstate, hstep⟩ :=
      scanStates_succ_some charSigned fuel raw fat bootSector k next h
    obtain ⟨hbefore, hcount⟩ := ih state (by omega) hstate
    rw [recordAt_eq_recordOf raw k (by omega)] at hstep
    obtain ⟨h0, hemit, hskip⟩ :=
      parseStep_effect charSigned fuel fat bootSector _ state next hstep
    refine ⟨?_, ?_⟩
    · intro j hj
      rcases Nat.lt_or_eq_of_le (Nat.le_of_lt_succ hj) with h | h
      · exact hbefore j h
      · rw [h]
        exact h0
    · rw [pendingVfat]
      cases hem : isEmittedRecord (recordOf raw k) with
      | true =>
        rw [if_pos rfl, (hemit hem).2.2]
      | false =>
        rw [if_neg (by decide)]
        have := (hskip hem).2.2
        split_ifs at this ⊢ <;> omega

theorem copySlot_eq (srcEntry : List Nat) (state : ParseState) (slot : Nat)
    (h : copySlot srcEntry state = some slot) : slot = state.vfatSequenceCount := by
  unfold copySlot at h
  split_ifs at h <;> exact (Option.some.inj h).symm

theorem parseStep_copy (charSigned : Bool) (fuel : Nat) (fat : Nat → Nat)
    (bootSector : boot_sect_t) (r : List Nat) (state next : ParseState)
    (h : parseStep charSigned fuel fat bootSector r state = .ok (some next)) :
    next.vfatRawEntrySequence =
      match copySlot r state with
      | some slot => storeEntry state.vfatRawEntrySequence slot r
      | none => state.vfatRawEntrySequence := by
  unfold parseStep at h
  unfold copySlot
  by_cases h0 : byteAt r 0 = 0
  · rw [if_pos h0] at h
    cases h
  rw [if_neg h0] at h ⊢
  by_cases hdel : byteAt r 0 = 0x05 ∨ byteAt r 0 = 0xe5
  · rw [if_pos hdel] at h ⊢
    rw [← Option.some.inj (Except.ok.inj h)]
  rw [if_neg hdel] at h ⊢
  by_cases hlabel : (byteAt r 0x0b &&& 0x08) ≠ 0 ∧ (byteAt r 0x0b &&& 0x0f) ≠ 0x0f
  · rw [if_pos hlabel] at h ⊢
    rw [← Option.some.inj (Except.ok.inj h)]
  rw [if_neg hlabel] at h ⊢
  by_cases hdot : isDotEntry r = true
  · rw [if_pos hdot] at h ⊢
    rw [← Option.some.inj (Except.ok.inj h)]
  rw [if_neg hdot] at h ⊢
  by_cases hnibble : (byteAt r 0x0b &&& 0x0f) = 0x0f
  · rw [if_pos hnibble] at h
    have hslot : state.vfatSequenceCount < MAX_ENTRIES_PER_VFAT_SEQUENCE := by
      by_contra hslot
      rw [if_neg hslot] at h
      cases h
    rw [if_pos hslot] at h
    rw [if_pos hnibble]
    rw [← Option.some.inj (Except.ok.inj h)]
  rw [if_neg hnibble] at h ⊢
  by_cases hcount : state.vfatSequenceCount > 0
  · rw [if_pos hcount] at h
    have hslot : state.vfatSequenceCount < MAX_ENTRIES_PER_VFAT_SEQUENCE := by
      by_contra hslot
      rw [if_neg hslot] at h
      cases h
    rw [if_pos hslot] at h
    rw [if_pos hcount]
    simp only [bind, Except.bind, pure, Except.pure] at h
    cases hentry : parseDirectoryEntry_VFAT charSigned fuel
      (storeEntry state.vfatRawEntrySequence state.vfatSequenceCount r)
      (add32 state.vfatSequenceCount 1) fat bootSector with
    | error e =>
      rw [hentry] at h
      cases h
    | ok entry =>
      rw [hentry] at h
      rw [← Option.some.inj (Except.ok.inj h)]
  · rw [if_neg hcount] at h ⊢
    simp only [bind, Except.bind, pure, Except.pure] at h
    cases hentry : parseDirectoryEntry charSigned fuel r fat bootSector with
    | error e =>
      rw [hentry] at h
      cases h
    | ok entry =>
      rw [hentry] at h
      rw [← Option.some.inj (Except.ok.inj h)]

theorem parseStep_skipped (charSigned : Bool) (fuel : Nat) (fat : Nat → Nat)
    (bootSector : boot_sect_t) (r : List Nat) (state : ParseState)
    (h0 : byteAt r 0 ≠ 0) (hskip : isSkippedRecord r = true) :
    parseStep charSigned fuel fat bootSector r state = .ok (some state) := by
  unfold parseStep
  rw [if_neg h0]
  by_cases hdel : byteAt r 0 = 0x05 ∨ byteAt r 0 = 0xe5
  · rw [if_pos hdel]
  rw [if_neg hdel]
  by_cases hlabel : (byteAt r 0x0b &&& 0x08) ≠ 0 ∧ (byteAt r 0x0b &&& 0x0f) ≠ 0x0f
  · rw [if_pos hlabel]
  rw [if_neg hlabel]
  have hdot : isDotEntry r = true := by
    unfold isSkippedRecord isDeletedRecord isVolumeLabelRecord at hskip
    rw [decide_eq_false hdel, decide_eq_false hlabel] at hskip
    simpa using hskip
  rw [if_pos hdot]

/-- C38. VFAT sequence buffer bound: in a directory buffer of `m` records in
which, at every point of the scan before the end of the directory, at most 20
VFAT records (attribute low nibble 0x0F, not deleted) have been met since the
last record that yields an entry, the variables `state` with which the loop of
`parseDirectoryEntries` reaches record `k` satisfy: the sequence count is at
most that number of VFAT records, every copy the iteration makes into the
sequence buffer (the copy of a VFAT record and the copy of the short record
that ends a sequence) uses a slot below `MAX_ENTRIES_PER_VFAT_SEQUENCE`, the
buffer after the iteration differs from the buffer before only in that slot,
and a skipped record (deleted, volume label, dot) leaves the variables as they
are. -/
theorem parseDirectoryEntries_vfat_slots (charSigned : Bool) (fuel : Nat) (raw : Nat → Nat)
    (m : Nat) (fat : Nat → Nat) (bootSector : boot_sect_t) (k : Nat) (state : ParseState)
    (hm : m ≤ 134217728)
    (hpending : ∀ j, j ≤ m → (∀ i, i < j → byteAt (recordOf raw i) 0 ≠ 0) →
      pendingVfat raw j ≤ 20)
    (hk : k < m)
    (hstate : scanStates charSigned fuel raw fat bootSector k = .ok (some state)) :
    (∀ steps, parseLoop charSigned fuel raw m fat bootSector (steps + k) 0 scanStart =
      parseLoop charSigned fuel raw m fat bootSector steps k state) ∧
    state.vfatSequenceCount ≤ pendingVfat raw k ∧
    (∀ slot, copySlot (recordAt raw k) state = some slot →
      slot < MAX_ENTRIES_PER_VFAT_SEQUENCE) ∧
    (∀ next, parseStep charSigned fuel fat bootSector (recordAt raw k) state = .ok (some next) →
      next.vfatRawEntrySequence =
        (match copySlot (recordAt raw k) state with
         | some slot => storeEntry state.vfatRawEntrySequence slot (recordAt raw k)
         | none => state.vfatRawEntrySequence) ∧
      (isSkippedRecord (recordAt raw k) = true → next = state)) := by
  obtain ⟨hbefore, hcount⟩ :=
    scanStates_invariant charSigned fuel raw fat bootSector k state (by omega) hstate
  have hbound := hpending k (by omega) hbefore
  refine ⟨scanStates_parseLoop charSigned fuel raw m fat bootSector (by omega) k state
    (by omega) hstate, hcount, ?_, ?_⟩
  · intro slot hslot
    rw [copySlot_eq _ state slot hslot]
    unfold MAX_ENTRIES_PER_VFAT_SEQUENCE
    omega
  · intro next hnext
    refine ⟨parseStep_copy charSigned fuel fat bootSector _ state next hnext, fun hskip => ?_⟩
    have h0 := (parseStep_effect charSigned fuel fat bootSector _ state next hnext).1
    rw [parseStep_skipped charSigned fuel fat bootSector _ state h0 hskip] at hnext
    exact (Option.some.inj (Except.ok.inj hnext)).symm

/-- C38, on the buffer with the two VFAT records of `verylongname.txt`, their
short record and the end of the directory: the loop reaches the short record
with the sequence count 2, and copies it into slot 2. -/
theorem parseDirectoryEntries_vfat_slots_witness :
    (4 ≤ 134217728) ∧ (2 < 4) ∧
    ∃ state, scanStates true 60 (bufferOf longNameEntries.flatten) threeClusterTable floppy 2 =
        .ok (some state) ∧
      state.vfatSequenceCount = 2 ∧
      copySlot (recordAt (bufferOf longNameEntries.flatten) 2) state = some 2 ∧
      (∀ slot, copySlot (recordAt (bufferOf longNameEntries.flatten) 2) state = some slot →
        slot < MAX_ENTRIES_PER_VFAT_SEQUENCE) := by
  have hcount : (scanStates true 60 (bufferOf longNameEntries.flatten) threeClusterTable
      floppy 2).map (Option.map (fun state =>
        (state.vfatSequenceCount,
          copySlot (recordAt (bufferOf longNameEntries.flatten) 2) state))) =
      .ok (some (2, some 2)) := by decide
  refine ⟨by decide, by decide, ?_⟩
  cases hstate : scanStates true 60 (bufferOf longNameEntries.flatten) threeClusterTable
      floppy 2 with
  | error e =>
    rw [hstate] at hcount
    cases hcount
  | ok o =>
    rw [hstate] at hcount
    cases o with
    | none => cases hcount
    | some state =>
      have hpair := Option.some.inj (Except.ok.inj hcount)
      refine ⟨state, rfl, (Prod.mk.inj hpair).1, (Prod.mk.inj hpair).2, ?_⟩
      exact (parseDirectoryEntries_vfat_slots true 60 (bufferOf longNameEntries.flatten) 4
        threeClusterTable floppy 2 state (by decide)
        (by
          intro j hj _
          interval_cases j <;> decide)
        (by decide) hstate).2.2.1

/-! ## The assembly of the tree -/

theorem mapM_ok {α β : Type} (f : α → Except Fault β) :
    ∀ (l : List α) (l' : List β), l.mapM f = .ok l' →
      List.Forall₂ (fun a b => f a = .ok b) l l' := by
  intro l
  induction l with
  | nil =>
    intro l' h
    rw [List.mapM_nil] at h
    cases h
    exact List.Forall₂.nil
  | cons a rest ih =>
    intro l' h
    rw [List.mapM_cons] at h
    simp only [bind, Except.bind, pure, Except.pure] at h
    cases ha : f a with
    | error e =>
      rw [ha] at h
      cases h
    | ok b =>
      rw [ha] at h
      simp only [] at h
      cases hrest : List.mapM f rest with
      | error e =>
        rw [hrest] at h
        cases h
      | ok bs =>
        rw [hrest] at h
        cases h
        exact List.Forall₂.cons ha (ih bs hrest)

theorem forall₂_mem_right {α β : Type} (R : α → β → Prop) :
    ∀ (l : List α) (l' : List β), List.Forall₂ R l l' → ∀ b ∈ l', ∃ a ∈ l, R a b := by
  intro l l' h
  induction h with
  | nil =>
    intro b hb
    cases hb
  | cons hab _ ih =>
    intro b hb
    rcases List.mem_cons.mp hb with h | h
    · rw [h]
      exact ⟨_, List.mem_cons_self _ _, hab⟩
    · obtain ⟨a, ha, hr⟩ := ih b h
      exact ⟨a, List.mem_cons_of_mem _ ha, hr⟩

theorem forall₂_map_eq {α β : Type} (g : β → α) :
    ∀ (l : List α) (l' : List β), List.Forall₂ (fun a b => g b = a) l l' → l'.map g = l := by
  intro l l' h
  induction h with
  | nil => rfl
  | cons hab _ ih => rw [List.map_cons, hab, ih]

theorem shell_eq_self (node : file_t) (h : node.children = []) : shell node = node := by
  cases node with
  | mk name type size clusters numClusters children =>
    simp only [file_t.children] at h
    subst h
    rfl

theorem parseDirectoryEntry_children (charSigned : Bool) (fuel : Nat) (r : List Nat)
    (fat : Nat → Nat) (bootSector : boot_sect_t) (entry : file_t)
    (h : parseDirectoryEntry charSigned fuel r fat bootSector = .ok entry) :
    entry.children = [] := by
  unfold parseDirectoryEntry at h
  simp only [bind, Except.bind, pure, Except.pure] at h
  cases hname : extractEntryName charSigned fuel r with
  | error e =>
    rw [hname] at h
    cases h
  | ok name =>
    rw [hname] at h
    simp only [] at h
    cases hchain : extractEntryFirstCluster fuel r bootSector fat with
    | error e =>
      rw [hchain] at h
      cases h
    | ok chain =>
      rw [hchain] at h
      rw [← Except.ok.inj h]
      rfl

theorem parseDirectoryEntry_VFAT_children (charSigned : Bool) (fuel : Nat)
    (sequence : Nat → List Nat) (count : Nat) (fat : Nat → Nat) (bootSector : boot_sect_t)
    (entry : file_t)
    (h : parseDirectoryEntry_VFAT charSigned fuel sequence count fat bootSector = .ok entry) :
    entry.children = [] := by
  unfold parseDirectoryEntry_VFAT at h
  simp only [bind, Except.bind, pure, Except.pure] at h
  cases hname : extractEntryName_VFAT charSigned fuel sequence count with
  | error e =>
    rw [hname] at h
    cases h
  | ok name =>
    rw [hname] at h
    simp only [] at h
    cases hchain : extractEntryFirstCluster fuel (sequence (sub32 count 1)) bootSector fat with
    | error e =>
      rw [hchain] at h
      cases h
    | ok chain =>
      rw [hchain] at h
      rw [← Except.ok.inj h]
      rfl

theorem parseStep_shells (charSigned : Bool) (fuel : Nat) (fat : Nat → Nat)
    (bootSector : boot_sect_t) (r : List Nat) (state next : ParseState)
    (hstate : ∀ e ∈ state.directoryEntries, e.children = [])
    (h : parseStep charSigned fuel fat bootSector r state = .ok (some next)) :
    ∀ e ∈ next.directoryEntries, e.children = [] := by
  unfold parseStep at h
  by_cases h0 : byteAt r 0 = 0
  · rw [if_pos h0] at h
    cases h
  rw [if_neg h0] at h
  by_cases hdel : byteAt r 0 = 0x05 ∨ byteAt r 0 = 0xe5
  · rw [if_pos hdel] at h
    rw [← Option.some.inj (Except.ok.inj h)]
    exact hstate
  rw [if_neg hdel] at h
  by_cases hlabel : (byteAt r 0x0b &&& 0x08) ≠ 0 ∧ (byteAt r 0x0b &&& 0x0f) ≠ 0x0f
  · rw [if_pos hlabel] at h
    rw [← Option.some.inj (Except.ok.inj h)]
    exact hstate
  rw [if_neg hlabel] at h
  by_cases hdot : isDotEntry r = true
  · rw [if_pos hdot] at h
    rw [← Option.some.inj (Except.ok.inj h)]
    exact hstate
  rw [if_neg hdot] at h
  by_cases hnibble : (byteAt r 0x0b &&& 0x0f) = 0x0f
  · rw [if_pos hnibble] at h
    have hslot : state.vfatSequenceCount < MAX_ENTRIES_PER_VFAT_SEQUENCE := by
      by_contra hslot
      rw [if_neg hslot] at h
      cases h
    rw [if_pos hslot] at h
    rw [← Option.some.inj (Except.ok.inj h)]
    exact hstate
  rw [if_neg hnibble] at h
  by_cases hcount : state.vfatSequenceCount > 0
  · rw [if_pos hcount] at h
    have hslot : state.vfatSequenceCount < MAX_ENTRIES_PER_VFAT_SEQUENCE := by
      by_contra hslot
      rw [if_neg hslot] at h
      cases h
    rw [if_pos hslot] at h
    simp only [bind, Except.bind, pure, Except.pure] at h
    cases hentry : parseDirectoryEntry_VFAT charSigned fuel
      (storeEntry state.vfatRawEntrySequence state.vfatSequenceCount r)
      (add32 state.vfatSequenceCount 1) fat bootSector with
    | error e =>
      rw [hentry] at h
      cases h
    | ok entry =>
      rw [hentry] at h
      rw [← Option.some.inj (Except.ok.inj h)]
      intro e he
      rcases List.mem_append.mp he with h1 | h1
      · exact hstate e h1
      · rw [List.mem_singleton.mp h1]
        exact parseDirectoryEntry_VFAT_children _ _ _ _ _ _ _ hentry
  · rw [if_neg hcount] at h
    simp only [bind, Except.bind, pure, Except.pure] at h
    cases hentry : parseDirectoryEntry charSigned fuel r fat bootSector with
    | error e =>
      rw [hentry] at h
      cases h
    | ok entry =>
      rw [hentry] at h
      rw [← Option.some.inj (Except.ok.inj h)]
      intro e he
      rcases List.mem_append.mp he with h1 | h1
      · exact hstate e h1
      · rw [List.mem_singleton.mp h1]
        exact parseDirectoryEntry_children _ _ _ _ _ _ hentry

theorem parseLoop_shells (charSigned : Bool) (fuel : Nat) (raw : Nat → Nat) (m : Nat)
    (fat : Nat → Nat) (bootSector : boot_sect_t) :
    ∀ (steps i : Nat) (state : ParseState) (entries : List file_t) (n : Nat),
      (∀ e ∈ state.directoryEntries, e.children = []) →
      parseLoop charSigned fuel raw m fat bootSector steps i state = .ok (entries, n) →
      ∀ e ∈ entries, e.children = [] := by
  intro steps
  induction steps with
  | zero =>
    intro i state entries n _ h
    rw [parseLoop] at h
    cases h
  | succ steps ih =>
    intro i state entries n hstate h
    rw [parseLoop_succ] at h
    by_cases hlt : i < m
    · rw [if_pos hlt] at h
      cases hstep : parseStep charSigned fuel fat bootSector (recordAt raw i) state with
      | error e =>
        rw [hstep] at h
        cases h
      | ok o =>
        rw [hstep] at h
        cases o with
        | none =>
          rw [← (Prod.mk.inj (Except.ok.inj h)).1]
          exact hstate
        | some next =>
          exact ih _ next entries n
            (parseStep_shells charSigned fuel fat bootSector _ state next hstate hstep) h
    · rw [if_neg hlt] at h
      rw [← (Prod.mk.inj (Except.ok.inj h)).1]
      exact hstate

theorem parseDirectoryEntries_shells (charSigned : Bool) (fuel : Nat) (raw : Nat → Nat)
    (m : Nat) (fat : Nat → Nat) (bootSector : boot_sect_t) (entries : List file_t) (n : Nat)
    (h : parseDirectoryEntries charSigned fuel raw m fat bootSector = .ok (entries, n)) :
    ∀ e ∈ entries, e.children = [] :=
  parseLoop_shells charSigned fuel raw m fat bootSector fuel 0 scanStart entries n
    (fun e he => by cases he) h

theorem parseDirectoryEntries_zero (charSigned : Bool) (fuel : Nat) (raw : Nat → Nat)
    (fat : Nat → Nat) (bootSector : boot_sect_t) (entries : List file_t) (n : Nat)
    (h : parseDirectoryEntries charSigned fuel raw 0 fat bootSector = .ok (entries, n)) :
    entries = [] := by
  unfold parseDirectoryEntries at h
  cases fuel with
  | zero =>
    rw [parseLoop] at h
    cases h
  | succ fuel =>
    rw [parseLoop_succ, if_neg (Nat.not_lt_zero 0)] at h
    exact (Prod.mk.inj (Except.ok.inj h)).1.symm

theorem bind_ok {α β : Type} (x : Except Fault α) (f : α → Except Fault β) (b : β)
    (h : x >>= f = .ok b) : ∃ a, x = .ok a ∧ f a = .ok b := by
  cases x with
  | error e => cases h
  | ok a => exact ⟨a, rfl, h⟩

theorem forall₂_imp_of_forall {α β : Type} (R S : α → β → Prop) (P : α → Prop)
    (himp : ∀ a b, P a → R a b → S a b) :
    ∀ (l : List α) (l' : List β), List.Forall₂ R l l' → (∀ a ∈ l, P a) →
      List.Forall₂ S l l' := by
  intro l l' h
  induction h with
  | nil =>
    intro _
    exact List.Forall₂.nil
  | cons hab _ ih =>
    intro hP
    exact List.Forall₂.cons (himp _ _ (hP _ (List.mem_cons_self _ _)) hab)
      (ih (fun a ha => hP a (List.mem_cons_of_mem _ ha)))

theorem getDirectoryTreeRecursive_assembles (charSigned : Bool) (fuel : Nat)
    (bootSector : boot_sect_t) (fat : Nat → Nat) (storageDevice : List Nat) :
    ∀ (depth : Nat) (root result : file_t), (∀ c ∈ root.children, c.children = []) →
      getDirectoryTreeRecursive charSigned fuel bootSector fat storageDevice depth root =
        .ok result →
      shell result = shell root ∧ result.children.map shell = root.children ∧
      ∀ (path : List Nat) (above : List file_t) (node : file_t) (parents : List file_t),
        path ≠ [] → locate result above path = some (node, parents) →
        IsAssembled charSigned fuel bootSector fat storageDevice node := by
  intro depth
  induction depth with
  | zero =>
    intro root result _ h
    rw [getDirectoryTreeRecursive] at h
    cases h
  | succ depth ih =>
    intro root result hroot h
    rw [getDirectoryTreeRecursive] at h
    obtain ⟨children, hmap, hresult⟩ := bind_ok _ _ _ h
    have hresult' : file_t.mk root.name root.type root.size root.clusters root.numClusters
        children = result := Except.ok.inj hresult
    have hall := mapM_ok _ _ _ hmap
    have hpairs : List.Forall₂ (fun a b =>
        shell b = a ∧ IsAssembled charSigned fuel bootSector fat storageDevice b ∧
        ∀ (path : List Nat) (above : List file_t) (node : file_t) (parents : List file_t),
          path ≠ [] → locate b above path = some (node, parents) →
          IsAssembled charSigned fuel bootSector fat storageDevice node)
        root.children children := by
      refine forall₂_imp_of_forall _ _ (fun a => a.children = []) ?_ _ _ hall hroot
      intro a b hnone hab
      beta_reduce at hab
      have hshell : shell a = a := shell_eq_self a hnone
      by_cases htype : a.type ≠ 0
      · rw [if_pos htype] at hab
        obtain ⟨childRaw, hread, hab⟩ := bind_ok _ _ _ hab
        dsimp only at hab
        obtain ⟨⟨entries, n⟩, hparse, hab⟩ := bind_ok _ _ _ hab
        dsimp only at hab
        have hshells := parseDirectoryEntries_shells charSigned fuel childRaw _ fat
          bootSector entries n hparse
        obtain ⟨h1, h2, h3⟩ := ih
          (file_t.mk a.name a.type a.size a.clusters a.numClusters entries) b hshells hab
        have hb : shell b = shell a := h1
        have htypeb : b.type = a.type :=
          (congrArg file_t.type hb : (shell b).type = (shell a).type)
        have hclusters : b.clusters = a.clusters :=
          (congrArg file_t.clusters hb : (shell b).clusters = (shell a).clusters)
        have hnum : b.numClusters = a.numClusters :=
          (congrArg file_t.numClusters hb : (shell b).numClusters = (shell a).numClusters)
        refine ⟨hb.trans hshell, ⟨fun _ => ?_, fun hfile => ?_⟩, h3⟩
        · rw [hclusters, hnum]
          exact ⟨childRaw, entries, n, hread, hparse, h2⟩
        · rw [htypeb] at hfile
          exact absurd hfile htype
      · rw [if_neg htype] at hab
        have hba : a = b := Except.ok.inj hab
        subst hba
        refine ⟨hshell, ⟨fun hdir => absurd hdir htype, fun _ => hnone⟩, ?_⟩
        intro path above node parents hpath hloc
        cases path with
        | nil => exact absurd rfl hpath
        | cons index rest =>
          rw [locate, hnone] at hloc
          cases hloc
    rw [← hresult']
    refine ⟨rfl, ?_, ?_⟩
    · apply forall₂_map_eq shell root.children children
      exact forall₂_imp_of_forall _ _ (fun _ => True) (fun a b _ hab => hab.1) _ _ hpairs
        (fun _ _ => trivial)
    · intro path above node parents hpath hloc
      cases path with
      | nil => exact absurd rfl hpath
      | cons index rest =>
        rw [locate] at hloc
        have hkids : (file_t.mk root.name root.type root.size root.clusters root.numClusters
            children).children = children := rfl
        rw [hkids] at hloc
        cases hget : children.get? index with
        | none =>
          rw [hget] at hloc
          cases hloc
        | some b =>
          rw [hget] at hloc
          dsimp only at hloc
          have hmem : b ∈ children := List.get?_mem hget
          obtain ⟨a, -, -, hb, hbelow⟩ := forall₂_mem_right _ _ _ hpairs b hmem
          cases rest with
          | nil =>
            rw [locate] at hloc
            rw [← (Prod.mk.inj (Option.some.inj hloc)).1]
            exact hb
          | cons j rest' =>
            exact hbelow (j :: rest') _ node parents (by simp) hloc

theorem sectorLocationsLoop_spec (bootSector : boot_sect_t) (clusterNumbers : Nat → Nat)
    (numClusters : Nat) (hn : numClusters < 4294967296) :
    ∀ (fuel clusterCount : Nat) (sectorLocations out : Nat → Nat),
      clusterCount ≤ numClusters →
      sectorLocationsLoop bootSector clusterNumbers numClusters fuel clusterCount
        sectorLocations = .ok out →
      (∀ j, clusterCount ≤ j → j < numClusters →
        getSectorNumber_DataCluster bootSector (clusterNumbers j) = .ok (out j)) ∧
      (∀ j, j < clusterCount → out j = sectorLocations j) := by
  intro fuel
  induction fuel with
  | zero =>
    intro clusterCount sectorLocations out _ h
    rw [sectorLocationsLoop] at h
    cases h
  | succ fuel ih =>
    intro clusterCount sectorLocations out hle h
    rw [sectorLocationsLoop] at h
    by_cases hlt : clusterCount < numClusters
    · rw [if_pos hlt] at h
      obtain ⟨sector, hsector, h⟩ := bind_ok _ _ _ h
      rw [add32_of_lt clusterCount 1 (by omega)] at h
      obtain ⟨h1, h2⟩ := ih (clusterCount + 1) _ out (by omega) h
      refine ⟨?_, ?_⟩
      · intro j hj hjn
        rcases Nat.lt_or_eq_of_le hj with hlt' | heq
        · exact h1 j (by omega) hjn
        · rw [← heq, hsector, h2 clusterCount (by omega), store_apply]
          simp
      · intro j hj
        rw [h2 j (by omega), store_apply, if_neg (by omega)]
    · rw [if_neg hlt] at h
      rw [← Except.ok.inj h]
      exact ⟨fun j hj hjn => absurd (by omega) hlt, fun _ _ => rfl⟩

theorem freadItems_length (storageDevice : List Nat) (offset size count : Nat)
    (hsize : size ≠ 0) (hcount : count ≠ 0)
    (h : freadItems storageDevice offset size count = count) :
    ((storageDevice.drop offset).take (size * count)).length = size * count := by
  unfold freadItems at h
  rw [if_neg (by simp [hsize, hcount])] at h
  have hle : count ≤ (storageDevice.length - offset) / size := by
    rw [← h]
    exact Nat.min_le_right _ _
  have hmul := (Nat.le_div_iff_mul_le (Nat.pos_of_ne_zero hsize)).mp hle
  rw [List.length_take, List.length_drop, Nat.mul_comm size count]
  exact Nat.min_eq_left hmul

theorem readSectorsLoop_spec (sectorLocations : Nat → Nat)
    (numLocations bytesPerSector sectorsPerLocation : Nat) (storageDevice : List Nat)
    (hpos : 0 < bytesPerSector * sectorsPerLocation)
    (hsmall : bytesPerSector * sectorsPerLocation * numLocations < 4294967296) :
    ∀ (fuel counter : Nat) (buffer out : Nat → Nat), counter ≤ numLocations →
      readSectorsLoop sectorLocations numLocations bytesPerSector sectorsPerLocation
        storageDevice fuel counter buffer = .ok out →
      (∀ j k, counter ≤ j → j < numLocations → k < bytesPerSector * sectorsPerLocation →
        out (bytesPerSector * sectorsPerLocation * j + k) =
          storageDevice.getD (mul32 bytesPerSector (sectorLocations j) + k) 0) ∧
      (∀ address, address < bytesPerSector * sectorsPerLocation * counter →
        out address = buffer address) := by
  have hsize : bytesPerSector ≠ 0 := by
    intro h
    rw [h, Nat.zero_mul] at hpos
    exact Nat.lt_irrefl 0 hpos
  have hcount : sectorsPerLocation ≠ 0 := by
    intro h
    rw [h, Nat.mul_zero] at hpos
    exact Nat.lt_irrefl 0 hpos
  generalize hB : bytesPerSector * sectorsPerLocation = B at hpos hsmall
  have hn : numLocations < 4294967296 := by
    have : numLocations ≤ B * numLocations := Nat.le_mul_of_pos_left _ hpos
    omega
  intro fuel
  induction fuel with
  | zero =>
    intro counter buffer out _ h
    rw [readSectorsLoop] at h
    cases h
  | succ fuel ih =>
    intro counter buffer out hle h
    rw [readSectorsLoop] at h
    by_cases hlt : counter < numLocations
    · rw [if_pos hlt] at h
      dsimp only at h
      by_cases hread : freadItems storageDevice (mul32 bytesPerSector (sectorLocations counter))
          bytesPerSector sectorsPerLocation ≠ sectorsPerLocation
      · rw [if_pos hread] at h
        cases h
      · rw [if_neg hread, add32_of_lt counter 1 (by omega)] at h
        have hlen := freadItems_length storageDevice _ bytesPerSector sectorsPerLocation hsize
          hcount (not_not.mp hread)
        have hmono : B * counter + B ≤ B * numLocations := by
          have := Nat.mul_le_mul_left B (Nat.succ_le_of_lt hlt)
          rwa [Nat.mul_succ] at this
        have hstart : mul32 (mul32 bytesPerSector sectorsPerLocation) counter = B * counter := by
          unfold mul32
          rw [hB, Nat.mod_eq_of_lt (by omega : B < 4294967296),
            Nat.mod_eq_of_lt (by omega : B * counter < 4294967296)]
        rw [hstart, hB] at h
        rw [hB] at hlen
        obtain ⟨h1, h2⟩ := ih (counter + 1) _ out (by omega) h
        have hsucc : B * (counter + 1) = B * counter + B := Nat.mul_succ B counter
        refine ⟨?_, ?_⟩
        · intro j k hj hjn hk
          rcases Nat.lt_or_eq_of_le hj with hlt' | heq
          · exact h1 j k (by omega) hjn hk
          · rw [← heq, h2 (B * counter + k) (by omega)]
            unfold copyInto
            rw [if_pos (by omega), Nat.add_sub_cancel_left, getD_take_drop _ _ _ _ hk]
        · intro address haddress
          rw [h2 address (by omega)]
          unfold copyInto
          rw [if_neg (by omega)]
    · rw [if_neg hlt] at h
      rw [← Except.ok.inj h]
      exact ⟨fun j k hj hjn _ => absurd (by omega) hlt, fun _ _ => rfl⟩

theorem readClusters_content (fuel : Nat) (buffer : Nat → Nat) (clusterNumbers : Nat → Nat)
    (numClusters : Nat) (bootSector : boot_sect_t) (storageDevice : List Nat)
    (raw : Nat → Nat)
    (hsmall : bootSector.bytesPerSector * bootSector.sectorsPerCluster * numClusters <
      4294967296)
    (h : readClusters fuel buffer clusterNumbers numClusters bootSector storageDevice =
      .ok raw) :
    ∀ j k, j < numClusters → k < bootSector.bytesPerSector * bootSector.sectorsPerCluster →
      ∃ sector, getSectorNumber_DataCluster bootSector (clusterNumbers j) = .ok sector ∧
        raw (bootSector.bytesPerSector * bootSector.sectorsPerCluster * j + k) =
          storageDevice.getD (mul32 bootSector.bytesPerSector sector + k) 0 := by
  intro j k hj hk
  have hpos : 0 < bootSector.bytesPerSector * bootSector.sectorsPerCluster := by omega
  have hn : numClusters < 4294967296 := by
    have : numClusters ≤ bootSector.bytesPerSector * bootSector.sectorsPerCluster * numClusters :=
      Nat.le_mul_of_pos_left _ hpos
    omega
  unfold readClusters at h
  obtain ⟨sectorLocations, hlocations, hread⟩ := bind_ok _ _ _ h
  obtain ⟨hsectors, -⟩ := sectorLocationsLoop_spec bootSector clusterNumbers numClusters hn
    fuel 0 _ sectorLocations (Nat.zero_le _) hlocations
  unfold readSectors at hread
  obtain ⟨hcells, -⟩ := readSectorsLoop_spec sectorLocations numClusters
    bootSector.bytesPerSector bootSector.sectorsPerCluster storageDevice hpos hsmall fuel 0
    buffer raw (Nat.zero_le _) hread
  exact ⟨sectorLocations j, hsectors j (Nat.zero_le _) hj, hcells j k (Nat.zero_le _) hj hk⟩

theorem getDirectoryTree_root (charSigned : Bool) (fuel : Nat) (bootSector : boot_sect_t)
    (fat : Nat → Nat) (storageDevice : List Nat) (tree : file_t)
    (h : getDirectoryTree charSigned fuel bootSector fat storageDevice = .ok tree) :
    ∃ clusters numClusters children, (∀ c ∈ children, c.children = []) ∧
      getDirectoryTreeRecursive charSigned fuel bootSector fat storageDevice fuel
        (file_t.mk [0] 1 0 clusters numClusters children) = .ok tree := by
  unfold getDirectoryTree at h
  obtain ⟨version, -, h⟩ := bind_ok _ _ _ h
  dsimp only at h
  have htail : ∀ (clusters : List Nat) (numClusters : Nat) (raw : Nat → Nat) (maxEntries : Nat),
      (parseDirectoryEntries charSigned fuel raw maxEntries fat bootSector >>= fun result =>
        getDirectoryTreeRecursive charSigned fuel bootSector fat storageDevice fuel
          (file_t.mk [0] 1 0 clusters numClusters result.1)) = .ok tree →
      ∃ clusters numClusters children, (∀ c ∈ children, c.children = []) ∧
        getDirectoryTreeRecursive charSigned fuel bootSector fat storageDevice fuel
          (file_t.mk [0] 1 0 clusters numClusters children) = .ok tree := by
    intro clusters numClusters raw maxEntries htree
    obtain ⟨⟨children, n⟩, hparse, htree⟩ := bind_ok _ _ _ htree
    exact ⟨clusters, numClusters, children,
      parseDirectoryEntries_shells charSigned fuel raw maxEntries fat bootSector children n
        hparse, htree⟩
  split_ifs at h
  · obtain ⟨sectorNumber, -, h⟩ := bind_ok _ _ _ h
    obtain ⟨numSectors, -, h⟩ := bind_ok _ _ _ h
    obtain ⟨raw, -, h⟩ := bind_ok _ _ _ h
    exact htail _ _ _ _ h
  · obtain ⟨⟨clusters, numClusters⟩, -, h⟩ := bind_ok _ _ _ h
    dsimp only at h
    obtain ⟨raw, -, h⟩ := bind_ok _ _ _ h
    exact htail _ _ _ _ h
  · cases h

/-- C33. Tree assembly: in the tree that `getDirectoryTree` returns, every
node other than the root that is a directory has as children (each taken
without its own children) exactly the entries that `parseDirectoryEntries`
decodes, scanning at most `numClusters * sectorsPerCluster * bytesPerSector /
32` records, from the buffer that `readClusters` fills from the chain of the
node; when the size of that buffer fits 32 bits, the buffer holds the
contents of the clusters of the chain one after the other in chain order;
a directory with an empty chain has no children, and a node that is a file
has no children. -/
theorem getDirectoryTree_assembles (charSigned : Bool) (fuel : Nat) (bootSector : boot_sect_t)
    (fat : Nat → Nat) (storageDevice : List Nat) (tree : file_t) (path : List Nat)
    (node : file_t) (parents : List file_t)
    (hret : getDirectoryTree charSigned fuel bootSector fat storageDevice = .ok tree)
    (hpath : path ≠ [])
    (hloc : locate tree [] path = some (node, parents)) :
    (node.type ≠ 0 →
      ∃ raw entries n,
        readClusters fuel (fun _ => 0) (fun i => node.clusters.getD i 0) node.numClusters
          bootSector storageDevice = .ok raw ∧
        (bootSector.bytesPerSector * bootSector.sectorsPerCluster * node.numClusters <
            4294967296 →
          ∀ j k, j < node.numClusters →
            k < bootSector.bytesPerSector * bootSector.sectorsPerCluster →
            ∃ sector,
              getSectorNumber_DataCluster bootSector (node.clusters.getD j 0) = .ok sector ∧
              raw (bootSector.bytesPerSector * bootSector.sectorsPerCluster * j + k) =
                storageDevice.getD (mul32 bootSector.bytesPerSector sector + k) 0) ∧
        parseDirectoryEntries charSigned fuel raw
          (mul32 (mul32 node.numClusters bootSector.sectorsPerCluster)
            bootSector.bytesPerSector / 32) fat bootSector = .ok (entries, n) ∧
        node.children.map shell = entries ∧
        (node.numClusters = 0 → node.children = [])) ∧
    (node.type = 0 → node.children = []) := by
  obtain ⟨clusters, numClusters, children, hshells, hrec⟩ :=
    getDirectoryTree_root charSigned fuel bootSector fat storageDevice tree hret
  obtain ⟨-, -, hnodes⟩ := getDirectoryTreeRecursive_assembles charSigned fuel bootSector fat
    storageDevice fuel (file_t.mk [0] 1 0 clusters numClusters children) tree hshells hrec
  obtain ⟨hdir, hfile⟩ := hnodes path [] node parents hpath hloc
  refine ⟨fun htype => ?_, hfile⟩
  obtain ⟨raw, entries, n, hread, hparse, hkids⟩ := hdir htype
  refine ⟨raw, entries, n, hread, ?_, hparse, hkids, ?_⟩
  · intro hsmall
    exact readClusters_content fuel _ _ node.numClusters bootSector storageDevice raw hsmall
      hread
  · intro hempty
    rw [hempty] at hparse
    have hzero : mul32 (mul32 0 bootSector.sectorsPerCluster) bootSector.bytesPerSector / 32 =
        0 := by
      unfold mul32
      simp
    rw [hzero] at hparse
    have hnil := parseDirectoryEntries_zero charSigned fuel raw fat bootSector entries n hparse
    rw [hnil] at hkids
    exact List.map_eq_nil_iff.mp hkids

set_option maxRecDepth 100000 in
theorem tinyImage_summary :
    (getDirectoryTree true 20 tinyVolume singleClusterTable tinyImage).map
      (fun tree => (locate tree [] [0]).map (fun found =>
        (cString found.1.name, found.1.type,
          found.1.children.map (fun child => cString child.name)))) =
      .ok (some (wideCodes "DIR", 1, [wideCodes "FILE.TXT"])) := by
  decide

/-- C33, on the image of `tinyVolume`: the tree is returned, its node at the
path `[0]` is the directory `DIR` with the one child `FILE.TXT`, decoded from
cluster 2. -/
theorem getDirectoryTree_assembles_witness :
    ∃ tree node parents,
      getDirectoryTree true 20 tinyVolume singleClusterTable tinyImage = .ok tree ∧
      locate tree [] [0] = some (node, parents) ∧
      cString node.name = wideCodes "DIR" ∧ node.type = 1 ∧
      node.children.map (fun child => cString child.name) = [wideCodes "FILE.TXT"] ∧
      ∃ raw entries n,
        readClusters 20 (fun _ => 0) (fun i => node.clusters.getD i 0) node.numClusters
          tinyVolume tinyImage = .ok raw ∧
        parseDirectoryEntries true 20 raw
          (mul32 (mul32 node.numClusters tinyVolume.sectorsPerCluster)
            tinyVolume.bytesPerSector / 32) singleClusterTable tinyVolume = .ok (entries, n) ∧
        node.children.map shell = entries := by
  have hsummary := tinyImage_summary
  cases htree : getDirectoryTree true 20 tinyVolume singleClusterTable tinyImage with
  | error e =>
    rw [htree] at hsummary
    cases hsummary
  | ok tree =>
    rw [htree] at hsummary
    have hfound : (locate tree [] [0]).map (fun found =>
        (cString found.1.name, found.1.type,
          found.1.children.map (fun child => cString child.name))) =
        some (wideCodes "DIR", 1, [wideCodes "FILE.TXT"]) := Except.ok.inj hsummary
    cases hloc : locate tree [] [0] with
    | none =>
      rw [hloc] at hfound
      cases hfound
    | some found =>
      rw [hloc] at hfound
      obtain ⟨node, parents⟩ := found
      have hfields := Option.some.inj hfound
      have hname : cString node.name = wideCodes "DIR" := (Prod.mk.inj hfields).1
      have htype : node.type = 1 := (Prod.mk.inj (Prod.mk.inj hfields).2).1
      have hkids := (Prod.mk.inj (Prod.mk.inj hfields).2).2
      obtain ⟨raw, entries, n, hread, -, hparse, hshell, -⟩ :=
        (getDirectoryTree_assembles true 20 tinyVolume singleClusterTable tinyImage tree [0]
          node parents htree (by simp) hloc).1 (by rw [htype]; decide)
      exact ⟨tree, node, parents, rfl, hloc, hname, htype, hkids, raw, entries, n, hread, hparse,
        hshell⟩

end FatReader
